import Mathlib

/-!
# SGSolve: a shallow embedding of the pencil-sharpening action and the ABS policy iteration

The C++ sources embedded here are
`src/src/cpp/sgaction_pencilsharpening.cpp` (class `SGAction_PencilSharpening`) and
`src/src/cpp/sgsolver_v4.cpp` (class `SGSolver_V4`).

Conventions of the embedding.

* `double` is embedded as `ℚ`: every statement is about the code run in exact arithmetic.
* `vector<T>` is embedded as `List T`; a read `v[i]` is `v.getD i default`, the default being
  the zero of the element type, and a write `v[i] = x` is `v.set i x`.  An out-of-range
  access is undefined in C++; a theorem that covers a run with such an access says so.
* A loop variable initialised with the sentinel `-numeric_limits<double>::max()` and only ever
  compared with `>` against candidates (`minIC`, `bestLevel`, `bestBindLvl`) is embedded as an
  `Option ℚ` whose `none` is the sentinel: the sentinel is the least finite `double`, so it
  compares below every candidate.  Where the value leaves the loop, `none` is read back as
  `-DBL_MAX`.
* `do … while` loops whose number of passes has no syntactic bound take a fuel argument and
  return `none` when the fuel runs out; the theorems give a fuel that suffices.
-/

namespace SGSolve

/-! ## Geometry: `SGPoint` and `SGTuple` -/

/-- The largest finite `double`, `numeric_limits<double>::max()`. -/
def DBL_MAX : ℚ := 2 ^ 1024 - 2 ^ 971

/-- Modelled from the spec: the class `SGPoint` (sgpoint.hpp is not among the sources), an
ordered pair of reals, player 0 in `x` and player 1 in `y`. -/
structure SGPoint where
  x : ℚ
  y : ℚ
deriving DecidableEq

namespace SGPoint

instance : Inhabited SGPoint := ⟨⟨0, 0⟩⟩

/-- Modelled from the spec: `SGPoint::operator[]`, coordinate `i` of the point (player 0 is
`x`, any other index is read as player 1). -/
def coord (p : SGPoint) (i : Nat) : ℚ := if i = 0 then p.x else p.y

/-- Modelled from the spec: `SGPoint(double)`, the point with both coordinates equal. -/
def const (c : ℚ) : SGPoint := ⟨c, c⟩

/-- Modelled from the spec: addition of points. -/
def add (p q : SGPoint) : SGPoint := ⟨p.x + q.x, p.y + q.y⟩

/-- Modelled from the spec: scaling of a point, `c * p`. -/
def smul (c : ℚ) (p : SGPoint) : SGPoint := ⟨c * p.x, c * p.y⟩

/-- Modelled from the spec: the dot product `p * q`. -/
def dot (p q : SGPoint) : ℚ := p.x * q.x + p.y * q.y

/-- Modelled from the spec: the clockwise rotated normal, `normal(p) = (p.y, -p.x)`. -/
def getNormal (p : SGPoint) : SGPoint := ⟨p.y, -p.x⟩

end SGPoint

/-- Modelled from the spec: the class `SGTuple` (sgtuple.hpp is not among the sources), an
ordered sequence of points indexed by state. -/
abbrev SGTuple := List SGPoint

/-- Read `v[i]` of a `vector<T>`. -/
def rd {α : Type} [Inhabited α] (v : List α) (i : Nat) : α := v.getD i default

namespace SGTuple

/-- Modelled from the spec: `SGTuple::expectation(prob, player)`, the expectation of one
player's coordinate under a probability vector over states, `Σ_s prob[s] · points[s][player]`. -/
def expectationCoord (t : SGTuple) (prob : List ℚ) (player : Nat) : ℚ :=
  ((List.range t.length).map (fun s => rd prob s * (rd t s).coord player)).sum

/-- Modelled from the spec: `SGTuple::expectation(prob)`, the componentwise expectation
`Σ_s prob[s] · points[s]`. -/
def expectation (t : SGTuple) (prob : List ℚ) : SGPoint :=
  ⟨expectationCoord t prob 0, expectationCoord t prob 1⟩

end SGTuple

/-! ## Environment -/

/-- Modelled from the spec: the parameter bundle `SGEnv` (sgenv.hpp is not among the sources);
`env.getParam(SG::NAME)` is the field `NAME`.  The iteration caps are compared with `int`
counters that start at 0 and only grow, so they are kept as natural numbers; so is
`STOREITERATIONS`, whose recognised values are 0, 1 and 2. -/
structure SGEnv where
  ERRORTOL : ℚ
  ICTOL : ℚ
  INTERSECTTOL : ℚ
  FLATTOL : ℚ
  PASTTHREATTOL : ℚ
  POLICYITERTOL : ℚ
  UPDATEPIVOTTOL : ℚ
  MAXITERATIONS : Nat
  MAXPOLICYITERATIONS : Nat
  MAXUPDATEPIVOTPASSES : Nat
  STOREITERATIONS : Nat

/-- The default parameter values listed in the specification. -/
def SGEnv.defaults : SGEnv where
  ERRORTOL := 1 / 10 ^ 8
  ICTOL := 1 / 10 ^ 12
  INTERSECTTOL := 1 / 10 ^ 12
  FLATTOL := 1 / 10 ^ 7
  PASTTHREATTOL := 1 / 10 ^ 10
  POLICYITERTOL := 1 / 10 ^ 8
  UPDATEPIVOTTOL := 1 / 10 ^ 10
  MAXITERATIONS := 1000000
  MAXPOLICYITERATIONS := 100
  MAXUPDATEPIVOTPASSES := 1000
  STOREITERATIONS := 1

/-! ## `SGAction_PencilSharpening::intersectRaySegment` -/

/-- The member `SGAction_PencilSharpening::intersectRaySegment(pivot, direction, segment)`
(sgaction_pencilsharpening.cpp, lines 78-132): the segment after the in-place clip. -/
def intersectRaySegment (env : SGEnv) (pivot direction : SGPoint) (segment : SGTuple) :
    SGTuple :=
  let normal := direction.getNormal
  let level := pivot.dot normal
  match segment with
  | [s0, s1] =>
    let l0 := normal.dot s0
    let l1 := normal.dot s1
    if l0 > level + env.ICTOL ∧ l1 > level + env.ICTOL then
      []
    else if l0 < level ∧ l1 < level then
      [s0, s1]
    else if |l0 - l1| > env.INTERSECTTOL then
      let weightOn1 := (level - l0) / (l1 - l0)
      if weightOn1 > 1 then
        [s1, s1]
      else if weightOn1 < 0 then
        [s0, s0]
      else
        let intersection := (SGPoint.smul weightOn1 s1).add (SGPoint.smul (1 - weightOn1) s0)
        if l0 < l1 then [s0, intersection] else [intersection, s1]
    else
      [s0, s1]
  | _ => []

/-! ## The game -/

/-- The data members of `SGGame` (sggame.hpp, lines 42-92). -/
structure SGGame where
  delta : ℚ
  numPlayers : Nat
  numStates : Nat
  numActions : List (List Nat)
  numActions_total : List Nat
  payoffs : List (List SGPoint)
  probabilities : List (List (List ℚ))
  eqActions : List (List Bool)
  unconstrained : List Bool

/-- Modelled from the spec: `indexToVector(index, v, sizes)` (sgutilities.hpp is not among the
sources), the profile of a joint action index, `a = a₀ + a₁·numActions[s][0]` generalised by
nested strides. -/
def indexToVector (index : Nat) : List Nat → List Nat
  | [] => []
  | n :: sizes => index % n :: indexToVector (index / n) sizes

/-- Modelled from the spec: `vectorToIndex(v, sizes)` (sgutilities.hpp is not among the
sources), the joint action index of a profile, `a = a₀ + a₁·numActions[s][0]` generalised by
nested strides. -/
def vectorToIndex : List Nat → List Nat → Nat
  | a :: v, n :: sizes => a + n * vectorToIndex v sizes
  | _, _ => 0

/-- The comparison `candidate > best` against a running best that starts at the sentinel
`-numeric_limits<double>::max()` (`none`). -/
def aboveBest (candidate : ℚ) : Option ℚ → Bool
  | none => true
  | some best => decide (best < candidate)

/-! ## `SGAction_PencilSharpening::calculateMinIC` -/

/-- The joint index `deviationIndex` of sgaction_pencilsharpening.cpp, lines 161-172: the
profile of `action` with the component of `player` replaced by `deviation`. -/
def deviationIndex (game : SGGame) (action state player deviation : Nat) : Nat :=
  let playersActions := indexToVector action (rd game.numActions state)
  let playersDeviations := playersActions.set player deviation
  vectorToIndex playersDeviations (rd game.numActions state)

/-- The value `currentGains` of sgaction_pencilsharpening.cpp, lines 173-178. -/
def currentGains (game : SGGame) (action state player : Nat) (threatTuple : SGTuple)
    (deviation : Nat) : ℚ :=
  (1 - game.delta) / game.delta
      * ((rd (rd game.payoffs state) (deviationIndex game action state player deviation)).coord
            player
          - (rd (rd game.payoffs state) action).coord player)
    + SGTuple.expectationCoord threatTuple
        (rd (rd game.probabilities state) (deviationIndex game action state player deviation))
        player

/-- The static `SGAction_PencilSharpening::calculateMinIC(action, state, player, game,
threatTuple)` (sgaction_pencilsharpening.cpp, lines 151-185). -/
def calculateMinIC (game : SGGame) (action state player : Nat) (threatTuple : SGTuple) : ℚ :=
  let minIC : Option ℚ :=
    (List.range (rd (rd game.numActions state) player)).foldl
      (fun minIC deviation =>
        if aboveBest (currentGains game action state player threatTuple deviation) minIC then
          some (currentGains game action state player threatTuple deviation)
        else minIC)
      none
  minIC.getD (-DBL_MAX)

/-! ## `SGAction_PencilSharpening::calculateBindingContinuations` -/

namespace SGPoint

/-- Modelled from the spec: assignment to one coordinate of a point, `p[i] = v`. -/
def setCoord (p : SGPoint) (i : Nat) (v : ℚ) : SGPoint :=
  if i = 0 then ⟨v, p.y⟩ else ⟨p.x, v⟩

end SGPoint

namespace SGTuple

/-- Modelled from the spec: `SGTuple::strictlyLessThan(tuple, coordinate)` (sgtuple.hpp is not
among the sources), the comparison of two tuples in one player's coordinate: every state of
`t` is strictly below the same state of `u`. -/
def strictlyLessThan (t u : SGTuple) (coordinate : Nat) : Bool :=
  (List.range t.length).all
    (fun s => decide ((rd t s).coord coordinate < (rd u s).coord coordinate))

/-- Modelled from the spec: `SGTuple::operator+(point)`, the tuple with `point` added to every
state. -/
def addPoint (t : SGTuple) (p : SGPoint) : SGTuple := t.map (fun q => q.add p)

/-- One step of the `maxmin` scan: the running maximum and minimum, each with its index; the
two start at their sentinels `-DBL_MAX` and `DBL_MAX` (`none`). -/
def maxminStep (t : SGTuple) (coordinate : Nat) (acc : Option (ℚ × Nat) × Option (ℚ × Nat))
    (k : Nat) : Option (ℚ × Nat) × Option (ℚ × Nat) :=
  let v := (rd t k).coord coordinate
  (match acc.1 with
    | none => some (v, k)
    | some best => if best.1 < v then some (v, k) else some best,
   match acc.2 with
    | none => some (v, k)
    | some best => if v < best.1 then some (v, k) else some best)

/-- Modelled from the spec: `SGTuple::maxmin(coordinate, max, maxIndex, min, minIndex)`
(sgtuple.hpp is not among the sources), the largest and the smallest value of one coordinate
over the tuple, each with the index of the first point attaining it.  On an empty tuple the
values are the sentinels `-DBL_MAX` and `DBL_MAX` and the indices, which the caller leaves
uninitialised, are read as 0. -/
def maxmin (t : SGTuple) (coordinate : Nat) : ℚ × Nat × ℚ × Nat :=
  let r := (List.range t.length).foldl (maxminStep t coordinate) (none, none)
  ((r.1.map Prod.fst).getD (-DBL_MAX), (r.1.map Prod.snd).getD 0,
   (r.2.map Prod.fst).getD DBL_MAX, (r.2.map Prod.snd).getD 0)

end SGTuple

/-- The data members of `SGAction_PencilSharpening` that the member functions of
sgaction_pencilsharpening.cpp read and write (the class declaration,
sgaction_pencilsharpening.hpp, is not among the sources).  `points`, `trimmedPoints` and
`tuples` are vectors with one entry per player. -/
structure SGAction_PencilSharpening where
  state : Nat
  action : Nat
  minIC : SGPoint
  points : List SGTuple
  trimmedPoints : List SGTuple
  tuples : List (List Int)
  corner : Bool

/-- The body of the history walk (sgaction_pencilsharpening.cpp, lines 225-248) at
`tupleIndex`: the candidates pushed for `player`, given `point` and `nextPoint`. -/
def walkBody (env : SGEnv) (minIC : SGPoint) (player : Nat) (tupleIndex : Nat)
    (point nextPoint : SGPoint) (newPoints : SGTuple) (newTuples : List Int) :
    SGTuple × List Int :=
  let gap := point.coord player - nextPoint.coord player
  if |gap| < env.FLATTOL ∧ |point.coord player - minIC.coord player| < env.FLATTOL then
    (newPoints ++ [point, nextPoint],
      newTuples ++ [(tupleIndex : Int), (tupleIndex : Int) - 1])
  else if (point.coord player ≤ minIC.coord player
        ∧ minIC.coord player < nextPoint.coord player)
      ∨ (point.coord player ≥ minIC.coord player
        ∧ minIC.coord player > nextPoint.coord player) then
    let alpha := (minIC.coord player - nextPoint.coord player) / gap
    (newPoints ++ [(SGPoint.smul (1 - alpha) nextPoint).add (SGPoint.smul alpha point)],
      newTuples ++ [(tupleIndex : Int)])
  else
    (newPoints, newTuples)

/-- The history walk for one player (sgaction_pencilsharpening.cpp, lines 218-259), from
`tupleIndex` down to `oldWest + 1`, with the `break` at a tuple below the threat tuple. -/
def historyWalk (env : SGEnv) (prob : List ℚ) (minIC : SGPoint) (extremeTuples : List SGTuple)
    (threatTuple : SGTuple) (oldWest player : Nat) :
    Nat → SGPoint → SGTuple → List Int → SGTuple × List Int
  | 0, _, newPoints, newTuples => (newPoints, newTuples)
  | tupleIndex + 1, nextPoint, newPoints, newTuples =>
    if tupleIndex + 1 > oldWest then
      let point := nextPoint
      let nextPoint := SGTuple.expectation (rd extremeTuples tupleIndex) prob
      let pushed := walkBody env minIC player (tupleIndex + 1) point nextPoint newPoints
        newTuples
      if SGTuple.strictlyLessThan (rd extremeTuples (tupleIndex + 1)) threatTuple player
          && !SGTuple.strictlyLessThan threatTuple
            (SGTuple.addPoint (rd extremeTuples (tupleIndex + 1))
              (SGPoint.const (env.PASTTHREATTOL / 2))) player then
        pushed
      else
        historyWalk env prob minIC extremeTuples threatTuple oldWest player tupleIndex
          nextPoint pushed.1 pushed.2
    else
      (newPoints, newTuples)

/-- The candidates `newPoints[player]`, `newTuples[player]` collected for a player whose
binding set is recomputed (sgaction_pencilsharpening.cpp, lines 214-259). -/
def collectCandidates (env : SGEnv) (game : SGGame) (a : SGAction_PencilSharpening)
    (extremeTuples : List SGTuple) (threatTuple : SGTuple) (oldWest player : Nat) :
    SGTuple × List Int :=
  let prob := rd (rd game.probabilities a.state) a.action
  let nextPoint := SGTuple.expectation (rd extremeTuples (extremeTuples.length - 1)) prob
  historyWalk env prob a.minIC extremeTuples threatTuple oldWest player
    (extremeTuples.length - 1) nextPoint [] []

/-- The member `intersectRaySegment(pivot, direction, player)`
(sgaction_pencilsharpening.cpp, lines 69-76). -/
def SGAction_PencilSharpening.intersectRaySegmentPlayer (env : SGEnv)
    (a : SGAction_PencilSharpening) (pivot direction : SGPoint) (player : Nat) :
    SGAction_PencilSharpening :=
  let a1 := { a with
    points := a.points.set player (intersectRaySegment env pivot direction (rd a.points player)) }
  if (rd a1.points player).length = 0 then
    { a1 with tuples := a1.tuples.set player [] }
  else a1

/-- Whether `player` is one whose binding set is recomputed: its threat was updated and it is
incentive constrained (`game.getConstrained()` returns the vector `unconstrained`). -/
def recomputed (updatedThreatTuple : List Bool) (game : SGGame) (player : Nat) : Bool :=
  rd updatedThreatTuple player && !rd game.unconstrained player

/-- The first loop over the players (sgaction_pencilsharpening.cpp, lines 205-260) as far as
the action is concerned: the points and tuples of a recomputed player are cleared. -/
def clearPlayer (updatedThreatTuple : List Bool) (game : SGGame)
    (a : SGAction_PencilSharpening) (player : Nat) : SGAction_PencilSharpening :=
  if recomputed updatedThreatTuple game player then
    { a with tuples := a.tuples.set player [], points := a.points.set player [] }
  else a

/-- The body of the second loop over the players (sgaction_pencilsharpening.cpp, lines
262-312) for `player`.  The candidates `newPoints[player]`, `newTuples[player]` of the first
loop are computed here, where they are used: the first loop reads only `state`, `action` and
`minIC`, which neither loop writes. -/
def selectPlayer (env : SGEnv) (updatedThreatTuple : List Bool) (game : SGGame)
    (extremeTuples : List SGTuple) (threatTuple pivot : SGTuple) (currentDirection : SGPoint)
    (oldWest : Nat) (a : SGAction_PencilSharpening) (player : Nat) :
    SGAction_PencilSharpening :=
  if recomputed updatedThreatTuple game player then
    let cand := collectCandidates env game a extremeTuples threatTuple oldWest player
    let newPoints := cand.1
    let newTuples := cand.2
    let mm := SGTuple.maxmin newPoints (1 - player)
    let maxOtherPayoff := mm.1
    let maxIndex := mm.2.1
    let minOtherPayoff := mm.2.2.1
    let minIndex := mm.2.2.2
    if maxOtherPayoff ≥ a.minIC.coord (1 - player) then
      let a1 := { a with
        points := a.points.set player (rd a.points player ++ [rd newPoints maxIndex])
        tuples := a.tuples.set player (rd a.tuples player ++ [rd newTuples maxIndex]) }
      let a2 :=
        if minOtherPayoff < a1.minIC.coord (1 - player) then
          { a1 with
            points := a1.points.set player (rd a1.points player ++ [a1.minIC])
            tuples := a1.tuples.set player (rd a1.tuples player ++ [-1])
            corner := true }
        else
          { a1 with
            points := a1.points.set player (rd a1.points player ++ [rd newPoints minIndex])
            tuples := a1.tuples.set player (rd a1.tuples player ++ [rd newTuples minIndex]) }
      let expPivot := SGTuple.expectation pivot (rd (rd game.probabilities a2.state) a2.action)
      a2.intersectRaySegmentPlayer env expPivot currentDirection player
    else a
  else if rd updatedThreatTuple (1 - player) && decide ((rd a.points player).length > 0) then
    if (rd (rd a.points player) 0).coord (1 - player) ≥ a.minIC.coord (1 - player) then
      if (rd (rd a.points player) 1).coord (1 - player) < a.minIC.coord (1 - player) then
        { a with
          points := a.points.set player ((rd a.points player).set 1 a.minIC)
          tuples := a.tuples.set player ((rd a.tuples player).set 1 (-1)) }
      else a
    else
      { a with points := a.points.set player [], tuples := a.tuples.set player [] }
  else a

/-- The member `SGAction_PencilSharpening::calculateBindingContinuations(updatedThreatTuple, game,
extremeTuples, threatTuple, pivot, currentDirection, oldWest)`
(sgaction_pencilsharpening.cpp, lines 187-324): the action on exit. -/
def calculateBindingContinuations (env : SGEnv) (updatedThreatTuple : List Bool)
    (game : SGGame) (extremeTuples : List SGTuple) (threatTuple pivot : SGTuple)
    (currentDirection : SGPoint) (oldWest : Nat) (a : SGAction_PencilSharpening) :
    SGAction_PencilSharpening :=
  let cleared := [0, 1].foldl (clearPlayer updatedThreatTuple game) a
  [0, 1].foldl
    (selectPlayer env updatedThreatTuple game extremeTuples threatTuple pivot currentDirection
      oldWest)
    cleared

/-- The closing assertions of `calculateBindingContinuations`
(sgaction_pencilsharpening.cpp, lines 314-322) for one player. -/
def segmentInvariant (env : SGEnv) (a : SGAction_PencilSharpening) (player : Nat) : Prop :=
  ((rd a.points player).length = 0
    ∨ ((rd a.points player).length = 2
      ∧ (rd (rd a.points player) 0).coord (1 - player)
          ≥ (rd (rd a.points player) 1).coord (1 - player) - env.PASTTHREATTOL))
  ∧ (rd a.tuples player).length = (rd a.points player).length

/-! ## `SGSolver_V4::policyToPayoffs` and `SGSolver_V4::optimizePolicy` -/

/-- The enumeration `SG::Regime` (sgcommon.hpp is not among the sources). -/
inductive Regime where
  | NonBinding
  | Binding
deriving DecidableEq

instance : Inhabited Regime := ⟨Regime.Binding⟩

/-- The data members of `SGAction_V2` that sgsolver_v4.cpp reads (the class declaration,
sgaction_v2.hpp, is not among the sources): the action profile `getAction()`, the binding
payoffs `getPoints()` and the boundary directions `getBndryDirs()`, the two last with one
entry per player. -/
structure SGAction_V2 where
  state : Nat
  action : Nat
  minIC : SGPoint
  points : List SGTuple
  bndryDirs : List SGTuple

instance : Inhabited SGAction_V2 := ⟨⟨0, 0, default, [], []⟩⟩

namespace SGPoint

/-- Modelled from the spec: the distance of two points in the sup-norm, the largest absolute
difference of a coordinate. -/
def distance (p q : SGPoint) : ℚ := max |p.x - q.x| |p.y - q.y|

end SGPoint

namespace SGTuple

/-- Modelled from the spec: `SGTuple::distance(t0, t1)` (sgtuple.hpp is not among the
sources), the element-wise distance of two tuples in the sup-norm. -/
def distance (t0 t1 : SGTuple) : ℚ :=
  (List.range t0.length).foldl (fun d s => max d (SGPoint.distance (rd t0 s) (rd t1 s))) 0

end SGTuple

/-- The non-binding payoff `(1-delta)*payoffs[state][a] + delta*pivot.expectation(
probabilities[state][a])` of the action profile `a` in `state` (sgsolver_v4.cpp, lines
520-522 and 875-878). -/
def bellmanPayoff (game : SGGame) (pivot : SGTuple) (state a : Nat) : SGPoint :=
  (SGPoint.smul (1 - game.delta) (rd (rd game.payoffs state) a)).add
    (SGPoint.smul game.delta (SGTuple.expectation pivot (rd (rd game.probabilities state) a)))

/-- The local variables of `optimizePolicy` (sgsolver_v4.cpp, lines 483-502), with its three
reference parameters `pivot`, `actionTuple`, `regimeTuple`.  An `SGActionIter` is kept as the
position of the action in the list `actions[state]`.  `rounds` counts the passes of the outer
`do … while`; `bellmanPivot` and `bellmanPivotGap` keep the pivot and the local
`bellmanPivotGap` as the last call of `policyToPayoffs` left them. -/
structure PolicyVars where
  pivot : SGTuple
  actionTuple : List Nat
  regimeTuple : List Regime
  newPivot : SGTuple
  newActionTuple : List Nat
  newRegimeTuple : List Regime
  bestAPSNotBinding : List Bool
  bestBindingPayoffs : List SGPoint
  pivotError : ℚ
  numPolicyIters : Nat
  rounds : Nat
  bellmanPivot : SGTuple
  bellmanPivotGap : ℚ

/-- The body of the loop over the states of `policyToPayoffs` (sgsolver_v4.cpp, lines
874-878). -/
def bellmanStep (game : SGGame) (actions : List (List SGAction_V2)) (actionTuple : List Nat)
    (regimeTuple : List Regime) (pivot newPivot : SGTuple) (state : Nat) : SGTuple :=
  if rd regimeTuple state = Regime.NonBinding then
    newPivot.set state
      (bellmanPayoff game pivot state (rd (rd actions state) (rd actionTuple state)).action)
  else newPivot

/-- One sweep of the Bellman iteration of `policyToPayoffs` (sgsolver_v4.cpp, lines 872-879):
`newPivot`, which enters the sweep equal to `pivot`, after the loop over the states. -/
def bellmanSweep (game : SGGame) (actions : List (List SGAction_V2)) (actionTuple : List Nat)
    (regimeTuple : List Regime) (pivot : SGTuple) : SGTuple :=
  (List.range game.numStates).foldl
    (bellmanStep game actions actionTuple regimeTuple pivot) pivot

/-- The `do … while` of `policyToPayoffs` (sgsolver_v4.cpp, lines 870-883).  The first
argument is the number of further passes the cap allows, `MAXUPDATEPIVOTPASSES − 1 −
updatePivotPasses`: the test `++updatePivotPasses < MAXUPDATEPIVOTPASSES` succeeds exactly
when it is positive.  The result is the pivot with the last `bellmanPivotGap`. -/
def bellmanLoop (env : SGEnv) (game : SGGame) (actions : List (List SGAction_V2))
    (actionTuple : List Nat) (regimeTuple : List Regime) : Nat → SGTuple → SGTuple × ℚ
  | 0, pivot =>
    (bellmanSweep game actions actionTuple regimeTuple pivot,
      SGTuple.distance (bellmanSweep game actions actionTuple regimeTuple pivot) pivot)
  | remaining + 1, pivot =>
    if SGTuple.distance (bellmanSweep game actions actionTuple regimeTuple pivot) pivot
        > env.UPDATEPIVOTTOL then
      bellmanLoop env game actions actionTuple regimeTuple remaining
        (bellmanSweep game actions actionTuple regimeTuple pivot)
    else
      (bellmanSweep game actions actionTuple regimeTuple pivot,
        SGTuple.distance (bellmanSweep game actions actionTuple regimeTuple pivot) pivot)

/-- The member `SGSolver_V4::policyToPayoffs(pivot, actionTuple, regimeTuple)` (sgsolver_v4.cpp, lines
861-888): the pivot on return, with the last `bellmanPivotGap`. -/
def policyToPayoffs (env : SGEnv) (game : SGGame) (actions : List (List SGAction_V2))
    (pivot : SGTuple) (actionTuple : List Nat) (regimeTuple : List Regime) : SGTuple × ℚ :=
  bellmanLoop env game actions actionTuple regimeTuple (env.MAXUPDATEPIVOTPASSES - 1) pivot

/-- The scan of the binding payoffs of one action (sgsolver_v4.cpp, lines 529-544): the best
level `bestBindLvl` with `bestBindingPlayer` and `bestBindingPoint`; `none` is the start
state, `bestBindingPlayer = -1` with the sentinel level. -/
def bestBindingScan (numPlayers : Nat) (currDir : SGPoint) (act : SGAction_V2) :
    Option (ℚ × Nat × Nat) :=
  (List.range numPlayers).foldl
    (fun best p =>
      (List.range (rd act.points p).length).foldl
        (fun best k =>
          if aboveBest ((rd (rd act.points p) k).dot currDir) (best.map Prod.fst) then
            some ((rd (rd act.points p) k).dot currDir, p, k)
          else best)
        best)
    none

/-- The flag `APSNotBinding` of one action (sgsolver_v4.cpp, lines 546-554). -/
def apsNotBinding (game : SGGame) (currDir : SGPoint) (act : SGAction_V2) : Bool :=
  match bestBindingScan game.numPlayers currDir act with
  | none => true
  | some (_, p, k) => decide ((rd (rd act.bndryDirs p) k).dot currDir > 1 / 10 ^ 8)

/-- The payoff `bestAPSPayoff` of one action (sgsolver_v4.cpp, lines 525 and 555-557); it is
left default-constructed when `APSNotBinding` is set, and is not read then. -/
def bestAPSPayoff (game : SGGame) (currDir : SGPoint) (state : Nat) (act : SGAction_V2) :
    SGPoint :=
  match bestBindingScan game.numPlayers currDir act with
  | none => default
  | some (_, p, k) =>
    if apsNotBinding game currDir act then default
    else
      (SGPoint.smul (1 - game.delta) (rd (rd game.payoffs state) act.action)).add
        (SGPoint.smul game.delta (rd (rd act.points p) k))

/-- The body of the loop over the actions of a state (sgsolver_v4.cpp, lines 517-587), for
the action at position `ait`; the accumulator is `bestLevel` with the local vectors. -/
def improveAction (game : SGGame) (currDir : SGPoint) (actions : List (List SGAction_V2))
    (state : Nat) (acc : Option ℚ × PolicyVars) (ait : Nat) : Option ℚ × PolicyVars :=
  let act := rd (rd actions state) ait
  let nonBindingPayoff := bellmanPayoff game acc.2.pivot state act.action
  let APSNotBinding := apsNotBinding game currDir act
  let bestAPS := bestAPSPayoff game currDir state act
  if APSNotBinding = true
      ∨ bestAPS.dot currDir > nonBindingPayoff.dot currDir - 1 / 10 ^ 7 then
    if aboveBest (nonBindingPayoff.dot currDir) acc.1 then
      (some (nonBindingPayoff.dot currDir),
        { acc.2 with
          bestAPSNotBinding := acc.2.bestAPSNotBinding.set state APSNotBinding
          bestBindingPayoffs :=
            if APSNotBinding then acc.2.bestBindingPayoffs
            else acc.2.bestBindingPayoffs.set state bestAPS
          newActionTuple := acc.2.newActionTuple.set state ait
          newRegimeTuple := acc.2.newRegimeTuple.set state Regime.NonBinding
          newPivot := acc.2.newPivot.set state nonBindingPayoff })
    else acc
  else if bestAPS.dot currDir < nonBindingPayoff.dot currDir + 1 / 10 ^ 7 then
    if aboveBest (bestAPS.dot currDir) acc.1 then
      (some (bestAPS.dot currDir),
        { acc.2 with
          newActionTuple := acc.2.newActionTuple.set state ait
          newRegimeTuple := acc.2.newRegimeTuple.set state Regime.Binding
          newPivot := acc.2.newPivot.set state bestAPS })
    else acc
  else acc

/-- The body of the loop over the states of the improvement step (sgsolver_v4.cpp, lines
509-591). -/
def improveState (game : SGGame) (currDir : SGPoint) (actions : List (List SGAction_V2))
    (v : PolicyVars) (state : Nat) : PolicyVars :=
  let r := (List.range (rd actions state).length).foldl
    (improveAction game currDir actions state) (none, v)
  { r.2 with
    pivotError := max r.2.pivotError
      |r.1.getD (-DBL_MAX) - (rd v.pivot state).dot currDir| }

/-- The improvement step of one policy round (sgsolver_v4.cpp, lines 506-595). -/
def improvementStep (game : SGGame) (currDir : SGPoint) (actions : List (List SGAction_V2))
    (v : PolicyVars) : PolicyVars :=
  let v1 := (List.range game.numStates).foldl (improveState game currDir actions)
    { v with pivotError := 0 }
  { v1 with
    pivot := v1.newPivot, actionTuple := v1.newActionTuple, regimeTuple := v1.newRegimeTuple }

/-- Whether `state` is subject to the regime check: `!bestAPSNotBinding[state] &&
regimeTuple[state] == SG::NonBinding` (sgsolver_v4.cpp, lines 613-614 and 627-628). -/
def checked (v : PolicyVars) (state : Nat) : Bool :=
  !rd v.bestAPSNotBinding state && decide (rd v.regimeTuple state = Regime.NonBinding)

/-- The gap `pivot[state]*currDir - bestBindingPayoffs[state]*currDir` (sgsolver_v4.cpp,
line 616). -/
def gapOf (currDir : SGPoint) (v : PolicyVars) (state : Nat) : ℚ :=
  (rd v.pivot state).dot currDir - (rd v.bestBindingPayoffs state).dot currDir

/-- The body of the first loop of the regime check (sgsolver_v4.cpp, lines 613-622); the
accumulator is `gaps`, `anyViolation`, `maxGap`. -/
def gapScanStep (currDir : SGPoint) (v : PolicyVars) (acc : List ℚ × Bool × ℚ) (state : Nat) :
    List ℚ × Bool × ℚ :=
  if checked v state then
    if gapOf currDir v state > acc.2.2 then
      (acc.1.set state (gapOf currDir v state), true, gapOf currDir v state)
    else (acc.1.set state (gapOf currDir v state), acc.2.1, acc.2.2)
  else acc

/-- The first loop of the regime check (sgsolver_v4.cpp, lines 609-623): `gaps`,
`anyViolation` and `maxGap`. -/
def gapScan (game : SGGame) (currDir : SGPoint) (v : PolicyVars) : List ℚ × Bool × ℚ :=
  (List.range game.numStates).foldl (gapScanStep currDir v)
    (List.replicate game.numStates 0, false, 0)

/-- The body of the second loop of the regime check (sgsolver_v4.cpp, lines 627-633). -/
def switchStep (game : SGGame) (gaps : List ℚ) (maxGap : ℚ) (v : PolicyVars) (state : Nat) :
    PolicyVars :=
  if checked v state && decide (rd gaps state ≥ game.delta * maxGap) then
    { v with
      pivot := v.pivot.set state (rd v.bestBindingPayoffs state)
      regimeTuple := v.regimeTuple.set state Regime.Binding }
  else v

/-- The second loop of the regime check (sgsolver_v4.cpp, lines 625-634): the states whose
gap is at least `delta*maxGap` are switched to the binding regime. -/
def switchStates (game : SGGame) (gaps : List ℚ) (maxGap : ℚ) (v : PolicyVars) : PolicyVars :=
  (List.range game.numStates).foldl (switchStep game gaps maxGap) v

/-- One pass of the inner loop that fixes the regimes (sgsolver_v4.cpp, lines 600-634): the
variables after the pass, with `anyViolation`. -/
def regimePass (env : SGEnv) (game : SGGame) (currDir : SGPoint)
    (actions : List (List SGAction_V2)) (v : PolicyVars) : PolicyVars × Bool :=
  let b := policyToPayoffs env game actions v.pivot v.actionTuple v.regimeTuple
  let v1 := { v with pivot := b.1, bellmanPivot := b.1, bellmanPivotGap := b.2 }
  let g := gapScan game currDir v1
  (switchStates game g.1 g.2.2 v1, g.2.1)

/-- The inner `do … while (anyViolation)` (sgsolver_v4.cpp, lines 599-635), which has no cap:
`fuel` bounds the number of passes, and the result is `none` when it does not suffice.  The
second component counts the passes made. -/
def regimeFixLoop (env : SGEnv) (game : SGGame) (currDir : SGPoint)
    (actions : List (List SGAction_V2)) : Nat → PolicyVars → Option (PolicyVars × Nat)
  | 0, _ => none
  | fuel + 1, v =>
    if (regimePass env game currDir actions v).2 then
      (regimeFixLoop env game currDir actions fuel (regimePass env game currDir actions v).1).map
        (fun r => (r.1, r.2 + 1))
    else some ((regimePass env game currDir actions v).1, 1)

/-- One round of the policy iteration (sgsolver_v4.cpp, lines 505-635): the improvement step
followed by the loop that fixes the regimes. -/
def policyRound (env : SGEnv) (game : SGGame) (currDir : SGPoint)
    (actions : List (List SGAction_V2)) (fuel : Nat) (v : PolicyVars) : Option PolicyVars :=
  (regimeFixLoop env game currDir actions fuel (improvementStep game currDir actions v)).map
    (fun r => { r.1 with rounds := r.1.rounds + 1 })

/-- The outer `do … while` of `optimizePolicy` (sgsolver_v4.cpp, lines 504-639).  The second
argument is the number of further rounds the cap allows, `MAXPOLICYITERATIONS − 1 −
numPolicyIters`: the test `++numPolicyIters < MAXPOLICYITERATIONS` succeeds exactly when it
is positive. -/
def policyLoop (env : SGEnv) (game : SGGame) (currDir : SGPoint)
    (actions : List (List SGAction_V2)) (fuel : Nat) : Nat → PolicyVars → Option PolicyVars
  | 0, v =>
    (policyRound env game currDir actions fuel v).map
      (fun v1 =>
        if v1.pivotError > env.POLICYITERTOL then
          { v1 with numPolicyIters := v1.numPolicyIters + 1 }
        else v1)
  | remaining + 1, v =>
    (policyRound env game currDir actions fuel v).bind
      (fun v1 =>
        if v1.pivotError > env.POLICYITERTOL then
          policyLoop env game currDir actions fuel remaining
            { v1 with numPolicyIters := v1.numPolicyIters + 1 }
        else some v1)

/-- The local variables of `optimizePolicy` on entry (sgsolver_v4.cpp, lines 492-501). -/
def PolicyVars.init (game : SGGame) (pivot : SGTuple) (actionTuple : List Nat)
    (regimeTuple : List Regime) : PolicyVars where
  pivot := pivot
  actionTuple := actionTuple
  regimeTuple := regimeTuple
  newPivot := List.replicate game.numStates default
  newActionTuple := actionTuple
  newRegimeTuple := regimeTuple
  bestAPSNotBinding := List.replicate game.numStates false
  bestBindingPayoffs := List.replicate game.numStates default
  pivotError := 1
  numPolicyIters := 0
  rounds := 0
  bellmanPivot := pivot
  bellmanPivotGap := 0

/-- The member `SGSolver_V4::optimizePolicy(pivot, actionTuple, regimeTuple, currDir, actions,
feasibleTuple)` (sgsolver_v4.cpp, lines 483-644): the variables on return, the reference
parameters `pivot`, `actionTuple`, `regimeTuple` among them; `none` when `fuel` passes do not
suffice for one of the runs of the inner loop.  The parameter `feasibleTuple` is not read.
The warning of line 642 is printed when `numPolicyIters ≥ MAXPOLICYITERATIONS` on return. -/
def optimizePolicy (env : SGEnv) (game : SGGame) (fuel : Nat) (pivot : SGTuple)
    (actionTuple : List Nat) (regimeTuple : List Regime) (currDir : SGPoint)
    (actions : List (List SGAction_V2)) : Option PolicyVars :=
  policyLoop env game currDir actions fuel (env.MAXPOLICYITERATIONS - 1)
    (PolicyVars.init game pivot actionTuple regimeTuple)

/-- What the loop that fixes the regimes leaves as it is, from `v` to `w`: every local
variable but `pivot` and `regimeTuple` (and the record of the last Bellman iteration), the
sizes of these two, and the states that are already in the binding regime. -/
def RegimeFrame (v w : PolicyVars) : Prop :=
  w.actionTuple = v.actionTuple ∧ w.bestAPSNotBinding = v.bestAPSNotBinding ∧
  w.bestBindingPayoffs = v.bestBindingPayoffs ∧ w.pivotError = v.pivotError ∧
  w.rounds = v.rounds ∧ w.numPolicyIters = v.numPolicyIters ∧ w.newPivot = v.newPivot ∧
  w.newActionTuple = v.newActionTuple ∧ w.newRegimeTuple = v.newRegimeTuple ∧
  w.regimeTuple.length = v.regimeTuple.length ∧ w.pivot.length = v.pivot.length ∧
  ∀ s, rd v.regimeTuple s = Regime.Binding → rd w.regimeTuple s = Regime.Binding

/-- The number of states of the game in the non-binding regime. -/
def numNonBinding (game : SGGame) (v : PolicyVars) : Nat :=
  (List.range game.numStates).countP
    (fun s => decide (rd v.regimeTuple s = Regime.NonBinding))

/-- The variables `res` agree with `w` in everything but the counters `rounds` and
`numPolicyIters`. -/
def SameOutput (w res : PolicyVars) : Prop :=
  res.pivot = w.pivot ∧ res.actionTuple = w.actionTuple ∧ res.regimeTuple = w.regimeTuple ∧
  res.bestAPSNotBinding = w.bestAPSNotBinding ∧
  res.bestBindingPayoffs = w.bestBindingPayoffs ∧ res.pivotError = w.pivotError ∧
  res.bellmanPivot = w.bellmanPivot ∧ res.bellmanPivotGap = w.bellmanPivotGap

/-- The entries of `state` in the five vectors that the improvement step writes:
`newPivot`, `newActionTuple`, `newRegimeTuple`, `bestAPSNotBinding`, `bestBindingPayoffs`. -/
def improvedEntry (w : PolicyVars) (state : Nat) : SGPoint × Nat × Regime × Bool × SGPoint :=
  (rd w.newPivot state, rd w.newActionTuple state, rd w.newRegimeTuple state,
    rd w.bestAPSNotBinding state, rd w.bestBindingPayoffs state)

/-- The five vectors that the improvement step writes have one entry per state. -/
def Sized (game : SGGame) (w : PolicyVars) : Prop :=
  w.newPivot.length = game.numStates ∧ w.newActionTuple.length = game.numStates ∧
  w.newRegimeTuple.length = game.numStates ∧ w.bestAPSNotBinding.length = game.numStates ∧
  w.bestBindingPayoffs.length = game.numStates

/-- The entries `e` of a state belong to one action of the state: the action at the
recorded position; in the non-binding regime the payoff is the non-binding payoff of that
action against `pivot0`, and the flag and the best binding payoff are those of that action;
in the binding regime the payoff is the best binding payoff of that action. -/
def ChoiceOK (game : SGGame) (currDir : SGPoint) (actions : List (List SGAction_V2))
    (pivot0 : SGTuple) (state : Nat) (e : SGPoint × Nat × Regime × Bool × SGPoint) : Prop :=
  e.2.1 < (rd actions state).length ∧
  (e.2.2.1 = Regime.NonBinding →
    e.1 = bellmanPayoff game pivot0 state (rd (rd actions state) e.2.1).action ∧
    e.2.2.2.1 = apsNotBinding game currDir (rd (rd actions state) e.2.1) ∧
    (apsNotBinding game currDir (rd (rd actions state) e.2.1) = false →
      e.2.2.2.2 = bestAPSPayoff game currDir state (rd (rd actions state) e.2.1))) ∧
  (e.2.2.1 = Regime.Binding →
    apsNotBinding game currDir (rd (rd actions state) e.2.1) = false ∧
    e.1 = bestAPSPayoff game currDir state (rd (rd actions state) e.2.1))

/-- The state `s` is settled on one action: the action at `actionTuple[s]` is an action of
the state; in the non-binding regime the flag `bestAPSNotBinding[s]` and, when the flag is
off, the payoff `bestBindingPayoffs[s]` are those of that action; in the binding regime the
pivot is the best binding payoff of that action. -/
def Settled (game : SGGame) (currDir : SGPoint) (actions : List (List SGAction_V2))
    (w : PolicyVars) (s : Nat) : Prop :=
  rd w.actionTuple s < (rd actions s).length ∧
  (rd w.regimeTuple s = Regime.NonBinding →
    rd w.bestAPSNotBinding s
      = apsNotBinding game currDir (rd (rd actions s) (rd w.actionTuple s)) ∧
    (apsNotBinding game currDir (rd (rd actions s) (rd w.actionTuple s)) = false →
      rd w.bestBindingPayoffs s
        = bestAPSPayoff game currDir s (rd (rd actions s) (rd w.actionTuple s)))) ∧
  (rd w.regimeTuple s = Regime.Binding →
    apsNotBinding game currDir (rd (rd actions s) (rd w.actionTuple s)) = false ∧
    rd w.pivot s = bestAPSPayoff game currDir s (rd (rd actions s) (rd w.actionTuple s)))

/-- The variables are in order for the game: the five vectors of the improvement step and
the pivot have one entry per state. -/
def InOrder (game : SGGame) (w : PolicyVars) : Prop :=
  Sized game w ∧ w.pivot.length = game.numStates

/-- The variables `res` are those of a round of the policy iteration started from `v0`: the
loop that fixes the regimes, run after the improvement step on `v0`, ended with variables
that `res` agrees with in everything but the counters. -/
def RoundOf (env : SGEnv) (game : SGGame) (currDir : SGPoint)
    (actions : List (List SGAction_V2)) (fuel : Nat) (v0 res : PolicyVars) : Prop :=
  ∃ w n, regimeFixLoop env game currDir actions fuel (improvementStep game currDir actions v0)
      = some (w, n) ∧ SameOutput w res

/-! ## `SGAction_PencilSharpening::trim` and `updateTrim` -/

/-- The member `SGAction_PencilSharpening::trim(pivot, direction)`
(sgaction_pencilsharpening.cpp, lines 34-39): every entry of `trimmedPoints` below
`points.size()` is clipped in place. -/
def SGAction_PencilSharpening.trim (env : SGEnv) (a : SGAction_PencilSharpening)
    (pivot direction : SGPoint) : SGAction_PencilSharpening :=
  (List.range a.points.length).foldl
    (fun a player =>
      { a with
        trimmedPoints :=
          a.trimmedPoints.set player
            (intersectRaySegment env pivot direction (rd a.trimmedPoints player)) })
    a

/-- The member `SGAction_PencilSharpening::updateTrim()` (sgaction_pencilsharpening.cpp, lines
41-49): the trim is committed to `points`, and the tuples of a player left without points are
cleared. -/
def SGAction_PencilSharpening.updateTrim (a : SGAction_PencilSharpening) :
    SGAction_PencilSharpening :=
  [0, 1].foldl
    (fun a player =>
      if (rd a.points player).length = 0 then { a with tuples := a.tuples.set player [] }
      else a)
    { a with points := a.trimmedPoints }

/-- The calls `trim(pivot, direction)` for each half-plane of a list, in order. -/
def trimAll (env : SGEnv) (a : SGAction_PencilSharpening) (planes : List (SGPoint × SGPoint)) :
    SGAction_PencilSharpening :=
  planes.foldl (fun a h => a.trim env h.1 h.2) a

/-- A segment is kept by the ray of `pivot` and `direction`: it is empty, or it has two points
whose levels either both lie on or below the level of the ray, or differ by at most
`INTERSECTTOL`; in the latter case, when `INTERSECTTOL = 0`, the level is at most `ICTOL` above
the ray. -/
def Kept (env : SGEnv) (pivot direction : SGPoint) (segment : SGTuple) : Prop :=
  segment = [] ∨
  ∃ s0 s1, segment = [s0, s1] ∧
    ((direction.getNormal.dot s0 ≤ pivot.dot direction.getNormal ∧
        direction.getNormal.dot s1 ≤ pivot.dot direction.getNormal) ∨
      (|direction.getNormal.dot s0 - direction.getNormal.dot s1| ≤ env.INTERSECTTOL ∧
        (env.INTERSECTTOL = 0 →
          direction.getNormal.dot s0 ≤ pivot.dot direction.getNormal + env.ICTOL)))

/-! ## `SGSolver_V4::solve`: the number of directions -/

/-- The statement `numDirections += (4-numDirections%4)` (sgsolver_v4.cpp, line 51) on a
requested number of directions. -/
def roundDirections (numDirections : Nat) : Nat :=
  numDirections + (4 - numDirections % 4)

/-- The number of directions that `solve` uses (sgsolver_v4.cpp, lines 48-51): the built-in 200
after the statement of line 51. -/
def numDirections : Nat := roundDirections 200

/-- The clips of one segment against each half-plane of a list, in order. -/
def clipAll (env : SGEnv) (planes : List (SGPoint × SGPoint)) (segment : SGTuple) : SGTuple :=
  planes.foldl (fun s h => intersectRaySegment env h.1 h.2 s) segment

/-! ## Exceptions and other abnormal ends -/

/-- Modelled from the spec: the exception kinds of `SG::EXCEPTION_TYPE` that the solver and its
callers name (sgexception.hpp is not among the sources). -/
inductive SGException where
  | NOFEASIBLETUPLE
  | NO_ADMISSIBLE_DIRECTION
deriving DecidableEq

/-- How a run of a member function ends when it does not return: an exception is thrown; the
run reaches a step that C++ leaves undefined (an iterator that is singular or at `end()` is
dereferenced or incremented); or the fuel of the embedding is used up. -/
inductive Stop where
  | thrown (e : SGException)
  | undefinedBehaviour
  | outOfFuel
deriving DecidableEq

/-! ## `SGSolver_V4::findFeasibleTuple` -/

namespace SGPoint

/-- Modelled from the spec: `SGPoint::operator>=` (sgpoint.hpp is not among the sources), the
comparison `E[feasibleTuple] ≥ minIC` in every coordinate. -/
def ge (p q : SGPoint) : Bool := decide (q.x ≤ p.x) && decide (q.y ≤ p.y)

end SGPoint

/-- The loop over the players of `findFeasibleTuple` (sgsolver_v4.cpp, lines 812-820): the
first player with a binding payoff, `none` for `feasiblePlayer = -1`. -/
def feasiblePlayer (numPlayers : Nat) (act : SGAction_V2) : Option Nat :=
  (List.range numPlayers).find? (fun player => decide ((rd act.points player).length > 0))

/-- The loop over the actions of a state (sgsolver_v4.cpp, lines 808-828), which ends at the
first action with a feasible player: that action with the player, `none` when
`foundFeasiblePlayer` stays false. -/
def feasibleAction (numPlayers : Nat) (acts : List SGAction_V2) : Option (SGAction_V2 × Nat) :=
  acts.findSome? (fun act => (feasiblePlayer numPlayers act).map (fun player => (act, player)))

/-- The variables of `findFeasibleTuple` (sgsolver_v4.cpp, lines 787-798).  An entry of
`actionTuple` is the position of the iterator in `actions[state]`, `none` for an iterator that
was default-constructed and never assigned.  Two further fields record the run:
`bellmanCalls` counts the calls of `policyToPayoffs`, and `failed` lists the checks of line 847
that failed, each with its state, the position of the action and the tuple it was checked
against. -/
structure FeasibleVars where
  feasibleTuple : SGTuple
  actionTuple : List (Option Nat)
  regimeTuple : List Regime
  anyNonBinding : Bool
  bellmanCalls : Nat
  failed : List (Nat × Nat × SGTuple)

/-- The body of the first loop over the states (sgsolver_v4.cpp, lines 801-834). -/
def feasibleState (game : SGGame) (actions : List (List SGAction_V2)) (v : FeasibleVars)
    (state : Nat) : FeasibleVars :=
  match feasibleAction game.numPlayers (rd actions state) with
  | some (act, player) =>
    { v with
      feasibleTuple := v.feasibleTuple.set state
        ((SGPoint.smul (1 - game.delta) (rd (rd game.payoffs state) act.action)).add
          (SGPoint.smul game.delta (rd (rd act.points player) 0))) }
  | none =>
    { v with
      regimeTuple := v.regimeTuple.set state Regime.NonBinding
      actionTuple := v.actionTuple.set state (some 0)
      anyNonBinding := true }

/-- The test of line 847 for the action `act` of `state`: the expected feasible tuple is at
least the minimal incentive compatible payoffs of the action. -/
def icHolds (game : SGGame) (feasibleTuple : SGTuple) (state : Nat) (act : SGAction_V2) :
    Bool :=
  (SGTuple.expectation feasibleTuple (rd (rd game.probabilities state) act.action)).ge act.minIC

/-- The body of the loop that checks the tuple (sgsolver_v4.cpp, lines 847-855); the
accumulator is the variables, `notAllIC`, and how the loop has ended so far.  The test
dereferences `actionTuple[state]` in every state: the behaviour is undefined when that
iterator was never assigned or is at `end()`. -/
def icCheckState (game : SGGame) (actions : List (List SGAction_V2))
    (acc : FeasibleVars × Bool × Option Stop) (state : Nat) :
    FeasibleVars × Bool × Option Stop :=
  match acc.2.2 with
  | some _ => acc
  | none =>
    match rd acc.1.actionTuple state with
    | none => (acc.1, acc.2.1, some Stop.undefinedBehaviour)
    | some pos =>
      if pos < (rd actions state).length then
        if icHolds game acc.1.feasibleTuple state (rd (rd actions state) pos) then acc
        else if pos + 1 = (rd actions state).length then
          ({ acc.1 with failed := acc.1.failed ++ [(state, pos, acc.1.feasibleTuple)] }, true,
            some (Stop.thrown SGException.NOFEASIBLETUPLE))
        else
          ({ acc.1 with
              failed := acc.1.failed ++ [(state, pos, acc.1.feasibleTuple)]
              actionTuple := acc.1.actionTuple.set state (some (pos + 1)) }, true, none)
      else (acc.1, acc.2.1, some Stop.undefinedBehaviour)

/-- Whether `policyToPayoffs` can dereference the iterators it reads, those of the states in
the non-binding regime: each was assigned and is not at `end()`. -/
def derefOK (game : SGGame) (actions : List (List SGAction_V2)) (v : FeasibleVars) : Bool :=
  (List.range game.numStates).all
    (fun state =>
      decide (rd v.regimeTuple state = Regime.Binding) ||
        match rd v.actionTuple state with
        | some pos => decide (pos < (rd actions state).length)
        | none => false)

/-- The loop `while (notAllIC)` (sgsolver_v4.cpp, lines 838-857), which has no cap: `fuel`
bounds the number of passes.  The result is the variables with the way the loop ended, `none`
for a normal end. -/
def feasibleLoop (env : SGEnv) (game : SGGame) (actions : List (List SGAction_V2)) :
    Nat → Bool → FeasibleVars → FeasibleVars × Option Stop
  | _, false, v => (v, none)
  | 0, true, v => (v, some Stop.outOfFuel)
  | fuel + 1, true, v =>
    if derefOK game actions v then
      let b := policyToPayoffs env game actions v.feasibleTuple
        (v.actionTuple.map (fun it => it.getD 0)) v.regimeTuple
      let r := (List.range game.numStates).foldl (icCheckState game actions)
        ({ v with feasibleTuple := b.1, bellmanCalls := v.bellmanCalls + 1 }, false, none)
      match r.2.2 with
      | some stop => (r.1, some stop)
      | none => feasibleLoop env game actions fuel r.2.1 r.1
    else (v, some Stop.undefinedBehaviour)

/-- The run of `findFeasibleTuple` (sgsolver_v4.cpp, lines 787-859): the variables at the end
with the way the run ended, `none` for a normal return. -/
def findFeasibleTupleRun (env : SGEnv) (game : SGGame) (fuel : Nat) (feasibleTuple : SGTuple)
    (actions : List (List SGAction_V2)) : FeasibleVars × Option Stop :=
  let v := (List.range game.numStates).foldl (feasibleState game actions)
    { feasibleTuple := feasibleTuple
      actionTuple := List.replicate game.numStates none
      regimeTuple := List.replicate game.numStates Regime.Binding
      anyNonBinding := false
      bellmanCalls := 0
      failed := [] }
  feasibleLoop env game actions fuel v.anyNonBinding v

/-- The member `SGSolver_V4::findFeasibleTuple(feasibleTuple, actions)` (sgsolver_v4.cpp, lines
787-859): the reference parameter `feasibleTuple` on return, or the way the run ended
otherwise. -/
def findFeasibleTuple (env : SGEnv) (game : SGGame) (fuel : Nat) (feasibleTuple : SGTuple)
    (actions : List (List SGAction_V2)) : Except Stop SGTuple :=
  match (findFeasibleTupleRun env game fuel feasibleTuple actions).2 with
  | none => Except.ok (findFeasibleTupleRun env game fuel feasibleTuple actions).1.feasibleTuple
  | some stop => Except.error stop

/-- What the loop that checks the tuple keeps true: an iterator that was assigned belongs to a
state without a binding payoff, and every action before it is recorded as failed; every
recorded failure is a failed check of an action of the state. -/
def FeasibleInv (game : SGGame) (actions : List (List SGAction_V2)) (v : FeasibleVars) :
    Prop :=
  v.actionTuple.length = game.numStates ∧
  (∀ s pos, rd v.actionTuple s = some pos →
    s < game.numStates ∧ feasibleAction game.numPlayers (rd actions s) = none ∧
      ∀ j < pos, ∃ t, (s, j, t) ∈ v.failed) ∧
  (∀ e ∈ v.failed, e.2.1 < (rd actions e.1).length ∧
    icHolds game e.2.2 e.1 (rd (rd actions e.1) e.2.1) = false)

/-- The exception was thrown for a state without a binding payoff all of whose actions are
recorded as failed. -/
def Exhausted (game : SGGame) (actions : List (List SGAction_V2)) (v : FeasibleVars) : Prop :=
  ∃ s < game.numStates, feasibleAction game.numPlayers (rd actions s) = none ∧
    ∀ j < (rd actions s).length, ∃ t, (s, j, t) ∈ v.failed

/-! ## `SGAction_V2` as `SGSolver_V4` uses it -/

/-- The member functions of `SGAction_V2` that sgsolver_v4.cpp calls and that are defined in
sgaction_v2.cpp, which is not among the sources, taken as parameters.  `A` is the type of an
action object, with whatever private state the class keeps; `view` gives what the accessors
`getAction()`, `getPoints()`, `getBndryDirs()` and `getMinICPayoffs()` return; `construct` is
the constructor `SGAction_V2(env, state, action)`. -/
structure SGActionOps (A : Type) where
  view : A → SGAction_V2
  construct : SGEnv → Nat → Nat → A
  calculateMinIC : SGGame → List Bool → SGTuple → A → A
  resetTrimmedPoints : A → A
  trim : SGPoint → ℚ → A → A
  updateTrim : A → A
  supportable : A → SGPoint → Bool

/-- The lists `actions` as the `const` member functions of the solver read them. -/
def viewAll {A : Type} (ops : SGActionOps A) (actions : List (List A)) :
    List (List SGAction_V2) :=
  actions.map (fun acts => acts.map ops.view)

/-- The action profiles `getAction()` of the actions of a list, in order. -/
def profiles {A : Type} (ops : SGActionOps A) (acts : List A) : List Nat :=
  acts.map (fun a => (ops.view a).action)

/-- The loop `for (ait = l.begin(); ait != l.end(); ++ait) { step(*ait); if (!keep(*ait))
{ l.erase(ait++); continue; } }` over a `std::list` (sgsolver_v4.cpp, lines 139-153 and
438-470), by recursion on the part of the list from `ait` on.  When the action at `ait` is
erased, `ait++` has moved the iterator to the next action and the `++ait` of the loop header
moves it once more: the next action is passed over, and when there is none the iterator is
incremented at `end()`, which is undefined.  The result is the list after the loop, with the
actions on which `keep` was evaluated, in order. -/
def erasePass {A : Type} (step : A → A) (keep : A → Bool) :
    List A → Except Stop (List A × List A)
  | [] => Except.ok ([], [])
  | [a] =>
    if keep (step a) then Except.ok ([step a], [step a])
    else Except.error Stop.undefinedBehaviour
  | a :: b :: rest =>
    if keep (step a) then
      (erasePass step keep (b :: rest)).map (fun r => (step a :: r.1, step a :: r.2))
    else
      (erasePass step keep rest).map (fun r => (b :: r.1, step a :: r.2))

/-! ## `SGSolver_V4::solve` -/

/-- Modelled from the spec: the class `SGStep` (its declaration is not among the sources), with
the arguments of the constructor call of sgsolver_v4.cpp, lines 182-183: the chosen action and
regime per state, the pivot, the hyperplane (direction and levels) and the actions. -/
structure SGStep (A : Type) where
  actionTuple : List Nat
  regimeTuple : List Regime
  pivot : SGTuple
  hyperplane : SGPoint × List ℚ
  actions : List (List A)

/-- Modelled from the spec: the class `SGIteration_V2` (its declaration is not among the
sources), the snapshot `(iterationNumber, actionsSurviving, threatTuple, steps[])`;
`push_back` appends a step. -/
structure SGIteration_V2 (A : Type) where
  iteration : Nat
  actions : List (List A)
  threatTuple : SGTuple
  steps : List (SGStep A)

/-- Modelled from the spec: `SGGame::getPayoffBounds(UB, LB)` (declared in sggame.hpp, line
189; its definition is not among the sources), the tight upper and lower bounds on the
payoffs: the componentwise maximum and minimum of `payoffs` over all states and action
profiles. -/
def SGGame.getPayoffBounds (game : SGGame) : SGPoint × SGPoint :=
  match game.payoffs.flatten with
  | [] => (default, default)
  | p :: ps =>
    ps.foldl
      (fun b q => (⟨max b.1.x q.x, max b.1.y q.y⟩, ⟨min b.2.x q.x, min b.2.y q.y⟩))
      (p, p)

/-- The directions of `solve` (sgsolver_v4.cpp, lines 53 and 67-72).  `cos` and `sin` do not
stay within the rationals: `circle t` stands for the point `(cos 2πt, sin 2πt)` at the
fraction `t` of the full turn, so `directions[dir]` is `circle (dir / numDirections)`. -/
def solveDirections (circle : ℚ → SGPoint) : List SGPoint :=
  (List.range numDirections).map
    (fun (dir : Nat) => circle ((dir : ℚ) / (numDirections : ℚ)))

/-- The initialisation of one action (sgsolver_v4.cpp, lines 92-108): the four trims against
the box of the payoff bounds. -/
def initAction {A : Type} (ops : SGActionOps A) (circle : ℚ → SGPoint) (env : SGEnv)
    (game : SGGame) (threatTuple : SGTuple) (payoffLB payoffUB : SGPoint) (state action : Nat) :
    A :=
  ops.updateTrim
    ((List.range 4).foldl
      (fun a (dir : Nat) =>
        ops.trim (circle ((dir : ℚ) / 4))
          (max ((circle ((dir : ℚ) / 4)).dot payoffLB) ((circle ((dir : ℚ) / 4)).dot payoffUB))
          a)
      (ops.resetTrimmedPoints
        (ops.calculateMinIC game [true, true] threatTuple (ops.construct env state action))))

/-- The initialisation of the lists of actions (sgsolver_v4.cpp, lines 84-115): one action
per state and action profile, pushed back in the order of the profiles. -/
def initActions {A : Type} (ops : SGActionOps A) (circle : ℚ → SGPoint) (env : SGEnv)
    (game : SGGame) (threatTuple : SGTuple) (payoffLB payoffUB : SGPoint) : List (List A) :=
  (List.range game.numStates).map
    (fun state =>
      (List.range (rd game.numActions_total state)).map
        (fun action => initAction ops circle env game threatTuple payoffLB payoffUB state action))

/-- The variables of `solve` that live across the iterations of the main loop
(sgsolver_v4.cpp, lines 53-124), with the solution `soln`, a list of iterations to which
`push_back` appends. -/
structure SolveVars (A : Type) where
  actions : List (List A)
  threatTuple : SGTuple
  pivot : SGTuple
  feasibleTuple : SGTuple
  levels : List (List ℚ)
  pivots : List SGTuple
  errorLevel : ℚ
  numIter : Nat
  iter : SGIteration_V2 A
  soln : List (SGIteration_V2 A)

/-- The variables that the loop over the directions reads and writes (sgsolver_v4.cpp, lines
163-186). -/
structure SweepVars (A : Type) where
  pivot : SGTuple
  actionTuple : List Nat
  regimeTuple : List Regime
  levels : List (List ℚ)
  pivots : List SGTuple
  errorLevel : ℚ
  iter : SGIteration_V2 A

/-- The test of lines 146-147 for an action of `state`: the action is supportable by the
expected feasible tuple. -/
def supportableIn {A : Type} (ops : SGActionOps A) (game : SGGame) (feasibleTuple : SGTuple)
    (state : Nat) (a : A) : Bool :=
  ops.supportable a
    (SGTuple.expectation feasibleTuple (rd (rd game.probabilities state) (ops.view a).action))

/-- The deletion pass over the actions of one state (sgsolver_v4.cpp, lines 139-153). -/
def deletionStep {A : Type} (ops : SGActionOps A) (game : SGGame) (feasibleTuple : SGTuple)
    (actions : List (List A)) (state : Nat) : Except Stop (List (List A)) :=
  (erasePass ops.updateTrim (supportableIn ops game feasibleTuple state) (rd actions state)).map
    (fun r => actions.set state r.1)

/-- The deletion pass of `solve` over all states (sgsolver_v4.cpp, lines 137-154). -/
def deletionPasses {A : Type} (ops : SGActionOps A) (game : SGGame) (feasibleTuple : SGTuple)
    (actions : List (List A)) : Except Stop (List (List A)) :=
  (List.range game.numStates).foldlM (deletionStep ops game feasibleTuple) actions

/-- The body of the loop over the states that records the levels (sgsolver_v4.cpp, lines
176-178); the accumulator is `newLevels`, `pivots` and `errorLevel`. -/
def levelStep (currDir : SGPoint) (pivot : SGTuple) (dir : Nat) (levels : List (List ℚ))
    (acc : List ℚ × List SGTuple × ℚ) (state : Nat) : List ℚ × List SGTuple × ℚ :=
  (acc.1.set state ((rd pivot state).dot currDir),
    acc.2.1.set dir pivot,
    max acc.2.2 |rd (acc.1.set state ((rd pivot state).dot currDir)) state
      - rd (rd levels dir) state|)

/-- The body of the loop over the directions (sgsolver_v4.cpp, lines 165-185). -/
def solveDirection {A : Type} (ops : SGActionOps A) (env : SGEnv) (game : SGGame) (fuel : Nat)
    (directions : List SGPoint) (actions : List (List A)) (v : SweepVars A) (dir : Nat) :
    Except Stop (SweepVars A) :=
  match optimizePolicy env game fuel v.pivot v.actionTuple v.regimeTuple (rd directions dir)
      (viewAll ops actions) with
  | none => Except.error Stop.outOfFuel
  | some r =>
    let acc := (List.range game.numStates).foldl
      (levelStep (rd directions dir) r.pivot dir v.levels)
      (List.replicate game.numStates 0, v.pivots, v.errorLevel)
    Except.ok
      { pivot := r.pivot
        actionTuple := r.actionTuple
        regimeTuple := r.regimeTuple
        levels := v.levels.set dir acc.1
        pivots := acc.2.1
        errorLevel := acc.2.2
        iter :=
          if env.STOREITERATIONS ≠ 0 then
            { v.iter with
              steps := v.iter.steps ++
                [{ actionTuple := r.actionTuple, regimeTuple := r.regimeTuple, pivot := r.pivot,
                   hyperplane := (rd directions dir, acc.1), actions := actions }] }
          else v.iter }

/-- The loop over the directions (sgsolver_v4.cpp, lines 163-186). -/
def solveSweep {A : Type} (ops : SGActionOps A) (env : SGEnv) (game : SGGame) (fuel : Nat)
    (directions : List SGPoint) (actions : List (List A)) (v : SweepVars A) :
    Except Stop (SweepVars A) :=
  (List.range directions.length).foldlM (solveDirection ops env game fuel directions actions) v

/-- The body of the loop that updates the threat tuple (sgsolver_v4.cpp, lines 204-205). -/
def threatStep (levels : List (List ℚ)) (threatTuple : SGTuple) (state : Nat) : SGTuple :=
  threatTuple.set state
    (((rd threatTuple state).setCoord 0 (-(rd (rd levels (numDirections / 2)) state))).setCoord 1
      (-(rd (rd levels (3 * numDirections / 4)) state)))

/-- The update of the threat tuple (sgsolver_v4.cpp, lines 202-206). -/
def threatUpdate (game : SGGame) (levels : List (List ℚ)) (threatTuple : SGTuple) : SGTuple :=
  (List.range game.numStates).foldl (threatStep levels) threatTuple

/-- The expected level `expLevel` of an action profile in one direction (sgsolver_v4.cpp,
lines 221-224). -/
def expLevel (game : SGGame) (levels : List ℚ) (state action : Nat) : ℚ :=
  (List.range game.numStates).foldl
    (fun e sp => e + rd (rd (rd game.probabilities state) action) sp * rd levels sp) 0

/-- The body of the loop that recalculates the actions (sgsolver_v4.cpp, lines 216-228): the
minimal incentive compatible payoffs are recomputed and the action is trimmed in every
direction. -/
def recalcAction {A : Type} (ops : SGActionOps A) (game : SGGame) (threatTuple : SGTuple)
    (directions : List SGPoint) (levels : List (List ℚ)) (state : Nat) (a : A) : A :=
  (List.range directions.length).foldl
    (fun a dir =>
      ops.trim (rd directions dir) (expLevel game (rd levels dir) state (ops.view a).action) a)
    (ops.calculateMinIC game [true, true] threatTuple a)

/-- The loop that recalculates the actions of all states (sgsolver_v4.cpp, lines 210-232). -/
def recalcActions {A : Type} (ops : SGActionOps A) (game : SGGame) (threatTuple : SGTuple)
    (directions : List SGPoint) (levels : List (List ℚ)) (actions : List (List A)) :
    List (List A) :=
  (List.range game.numStates).foldl
    (fun acts state =>
      acts.set state
        ((rd acts state).map (recalcAction ops game threatTuple directions levels state)))
    actions

/-- One pass of the main loop of `solve` (sgsolver_v4.cpp, lines 129-248). -/
def solveIteration {A : Type} (ops : SGActionOps A) (env : SGEnv) (game : SGGame) (fuel : Nat)
    (directions : List SGPoint) (v : SolveVars A) : Except Stop (SolveVars A) :=
  match deletionPasses ops game v.feasibleTuple v.actions with
  | Except.error stop => Except.error stop
  | Except.ok actions =>
    match solveSweep ops env game fuel directions actions
        { pivot := v.pivot
          actionTuple := List.replicate game.numStates 0
          regimeTuple := List.replicate game.numStates Regime.Binding
          levels := v.levels
          pivots := v.pivots
          errorLevel := 0
          iter :=
            if env.STOREITERATIONS ≠ 0 then
              { iteration := v.numIter, actions := actions, threatTuple := v.threatTuple,
                steps := [] }
            else v.iter } with
    | Except.error stop => Except.error stop
    | Except.ok sw =>
      match findFeasibleTuple env game fuel v.feasibleTuple (viewAll ops actions) with
      | Except.error stop => Except.error stop
      | Except.ok feasibleTuple =>
        Except.ok
          { actions :=
              recalcActions ops game (threatUpdate game sw.levels v.threatTuple) directions
                sw.levels actions
            threatTuple := threatUpdate game sw.levels v.threatTuple
            pivot := sw.pivot
            feasibleTuple := feasibleTuple
            levels := sw.levels
            pivots := sw.pivots
            errorLevel := sw.errorLevel
            numIter := v.numIter + 1
            iter := sw.iter
            soln := if env.STOREITERATIONS ≠ 0 then v.soln ++ [sw.iter] else v.soln }

/-- The main loop of `solve` (sgsolver_v4.cpp, lines 126-249).  The first argument is the
number of further passes the cap allows, `MAXITERATIONS − numIter`. -/
def solveLoop {A : Type} (ops : SGActionOps A) (env : SGEnv) (game : SGGame) (fuel : Nat)
    (directions : List SGPoint) : Nat → SolveVars A → Except Stop (SolveVars A)
  | 0, v => Except.ok v
  | remaining + 1, v =>
    if v.errorLevel > env.ERRORTOL then
      match solveIteration ops env game fuel directions v with
      | Except.error stop => Except.error stop
      | Except.ok v1 => solveLoop ops env game fuel directions remaining v1
    else Except.ok v

/-- The variables of `solve` on entry to the main loop (sgsolver_v4.cpp, lines 53-124). -/
def SolveVars.init {A : Type} (ops : SGActionOps A) (circle : ℚ → SGPoint) (env : SGEnv)
    (game : SGGame) : SolveVars A where
  actions :=
    initActions ops circle env game (List.replicate game.numStates game.getPayoffBounds.2)
      game.getPayoffBounds.2 game.getPayoffBounds.1
  threatTuple := List.replicate game.numStates game.getPayoffBounds.2
  pivot := List.replicate game.numStates game.getPayoffBounds.2
  feasibleTuple := List.replicate game.numStates game.getPayoffBounds.2
  levels := List.replicate numDirections (List.replicate game.numStates 0)
  pivots := List.replicate numDirections []
  errorLevel := 1
  numIter := 0
  iter := { iteration := 0, actions := [], threatTuple := [], steps := [] }
  soln := []

/-- The member `SGSolver_V4::solve()` (sgsolver_v4.cpp, lines 41-255): the variables when the
main loop ends, the solution `soln` among them, or the way the run ended otherwise.  `fuel`
bounds the passes of the loops without a cap inside `optimizePolicy` and
`findFeasibleTuple`. -/
def solve {A : Type} (ops : SGActionOps A) (circle : ℚ → SGPoint) (env : SGEnv) (game : SGGame)
    (fuel : Nat) : Except Stop (SolveVars A) :=
  solveLoop ops env game fuel (solveDirections circle) env.MAXITERATIONS
    (SolveVars.init ops circle env game)

/-! ## `SGSolver_V4::sensitivity` -/

namespace SGPoint

/-- Modelled from the spec: subtraction of points. -/
def sub (p q : SGPoint) : SGPoint := ⟨p.x - q.x, p.y - q.y⟩

end SGPoint

/-- The scan of the binding payoffs of one action in the indifference direction
(sgsolver_v4.cpp, lines 690-707): `bestBindLvl` with `bestBindingPlayer` and
`bestBindingPoint`; `none` is the start state, `bestBindingPlayer = -1` with the sentinel
level, below which no level lies. -/
def indiffScan (numPlayers : Nat) (indiffDir normDir : SGPoint) (act : SGAction_V2) :
    Option (ℚ × Nat × Nat) :=
  (List.range numPlayers).foldl
    (fun best p =>
      (List.range (rd act.points p).length).foldl
        (fun best k =>
          match best with
          | none => some ((rd (rd act.points p) k).dot indiffDir, p, k)
          | some b =>
            if (rd (rd act.points p) k).dot indiffDir > b.1
                ∨ ((rd (rd act.points p) k).dot indiffDir > b.1 - 1 / 10 ^ 8
                  ∧ (rd (rd act.points p) k).dot normDir ≥ 0) then
              some ((rd (rd act.points p) k).dot indiffDir, p, k)
            else some b)
        best)
    none

/-- The non-binding candidate of one action (sgsolver_v4.cpp, lines 669-739): `bestLevel`
after the block. -/
def sensitivityNonBinding (game : SGGame) (pivot : SGTuple) (actionTuple : List Nat)
    (regimeTuple : List Regime) (currDir : SGPoint) (state ait : Nat) (act : SGAction_V2)
    (bestLevel : ℚ) : ℚ :=
  let normDir := currDir.getNormal
  let nonBindingPayoff := bellmanPayoff game pivot state act.action
  let denom := normDir.dot (nonBindingPayoff.sub (rd pivot state))
  let numer := ((rd pivot state).sub nonBindingPayoff).dot currDir
  if SGPoint.distance (rd pivot state) nonBindingPayoff > 1 / 10 ^ 6
      ∧ |denom| > 1 / 10 ^ 10 then
    let nonBindingIndiffLvl := numer / denom
    if nonBindingIndiffLvl < bestLevel ∧ nonBindingIndiffLvl > -(1 / 10 ^ 6) then
      let indiffDir := currDir.add (SGPoint.smul nonBindingIndiffLvl normDir)
      let bestAPSNotBinding : Bool :=
        match indiffScan game.numPlayers indiffDir normDir act with
        | none => true
        | some (_, p, k) => decide ((rd (rd act.bndryDirs p) k).dot indiffDir > 1 / 10 ^ 6)
      let bindingHigher : Bool :=
        match indiffScan game.numPlayers indiffDir normDir act with
        | none => false
        | some (bestBindLvl, _, _) =>
          decide (bestBindLvl > nonBindingPayoff.dot indiffDir - 1 / 10 ^ 10)
      if bestAPSNotBinding = true ∨ bindingHigher = true then
        if (ait ≠ rd actionTuple state ∧ denom > 1 / 10 ^ 6)
            ∨ (ait = rd actionTuple state ∧ denom < -(1 / 10 ^ 6)
              ∧ rd regimeTuple state = Regime.Binding) then
          nonBindingIndiffLvl
        else bestLevel
      else bestLevel
    else bestLevel
  else bestLevel

/-- The binding candidate of one binding payoff of an action (sgsolver_v4.cpp, lines
747-775): `bestLevel` after the body of the loop over the points. -/
def sensitivityBinding (game : SGGame) (pivot : SGTuple) (actionTuple : List Nat)
    (regimeTuple : List Regime) (currDir : SGPoint) (state ait : Nat) (act : SGAction_V2)
    (p k : Nat) (bestLevel : ℚ) : ℚ :=
  let normDir := currDir.getNormal
  let nonBindingPayoff := bellmanPayoff game pivot state act.action
  let bindingPayoff :=
    (SGPoint.smul (1 - game.delta) (rd (rd game.payoffs state) act.action)).add
      (SGPoint.smul game.delta (rd (rd act.points p) k))
  let denom := normDir.dot (bindingPayoff.sub (rd pivot state))
  let numer := ((rd pivot state).sub bindingPayoff).dot currDir
  if SGPoint.distance (rd pivot state) bindingPayoff > 1 / 10 ^ 6
      ∧ |denom| > 1 / 10 ^ 10 then
    let bindingIndiffLvl := numer / denom
    if bindingIndiffLvl < bestLevel ∧ bindingIndiffLvl > -(1 / 10 ^ 6) then
      let indiffDir := currDir.add (SGPoint.smul bindingIndiffLvl normDir)
      if nonBindingPayoff.dot indiffDir ≥ bindingPayoff.dot indiffDir - 1 / 10 ^ 6 then
        if (ait ≠ rd actionTuple state ∧ denom > 1 / 10 ^ 6)
            ∨ (ait = rd actionTuple state
              ∧ (rd regimeTuple state = Regime.NonBinding ∧ denom < -(1 / 10 ^ 6)))
            ∨ (rd regimeTuple state = Regime.Binding ∧ denom > 1 / 10 ^ 6) then
          bindingIndiffLvl
        else bestLevel
      else bestLevel
    else bestLevel
  else bestLevel

/-- The body of the loop over the actions of a state (sgsolver_v4.cpp, lines 665-778), for
the action at position `ait`: `bestLevel` after the non-binding candidate and the binding
candidates of the action. -/
def sensitivityAction (game : SGGame) (pivot : SGTuple) (actionTuple : List Nat)
    (regimeTuple : List Regime) (currDir : SGPoint) (actions : List (List SGAction_V2))
    (state : Nat) (bestLevel : ℚ) (ait : Nat) : ℚ :=
  (List.range game.numPlayers).foldl
    (fun best p =>
      (List.range (rd (rd (rd actions state) ait).points p).length).foldl
        (fun best k =>
          sensitivityBinding game pivot actionTuple regimeTuple currDir state ait
            (rd (rd actions state) ait) p k best)
        best)
    (sensitivityNonBinding game pivot actionTuple regimeTuple currDir state ait
      (rd (rd actions state) ait) bestLevel)

/-- The loops of `sensitivity` over the states and their actions (sgsolver_v4.cpp, lines
656-780): `bestLevel` on exit, which starts at `numeric_limits<double>::max()-1.0`. -/
def sensitivityScan (game : SGGame) (pivot : SGTuple) (actionTuple : List Nat)
    (regimeTuple : List Regime) (currDir : SGPoint) (actions : List (List SGAction_V2)) : ℚ :=
  (List.range game.numStates).foldl
    (fun best state =>
      (List.range (rd actions state).length).foldl
        (sensitivityAction game pivot actionTuple regimeTuple currDir actions state) best)
    (DBL_MAX - 1)

/-- The member `SGSolver_V4::sensitivity(pivot, actionTuple, regimeTuple, currDir, actions)`
(sgsolver_v4.cpp, lines 646-784), which returns `std::max(bestLevel, 0.0)` and has no `throw`
statement. -/
def sensitivity (game : SGGame) (pivot : SGTuple) (actionTuple : List Nat)
    (regimeTuple : List Regime) (currDir : SGPoint) (actions : List (List SGAction_V2)) : ℚ :=
  max (sensitivityScan game pivot actionTuple regimeTuple currDir actions) 0

/-- The direction computed from the level that `sensitivity` returns (sgsolver_v4.cpp, lines
340-345), before it is normalised. -/
def nextDirection (currDir : SGPoint) (bestLevel : ℚ) : SGPoint :=
  (SGPoint.smul (1 / (bestLevel + 1)) currDir).add
    (SGPoint.smul (bestLevel / (bestLevel + 1)) currDir.getNormal)

/-! ## `SGSolver_V4::solve_endogenous` -/

/-- The two operations of `SGPoint` in `solve_endogenous` that do not stay within the
rationals, taken as parameters (sgpoint.hpp is not among the sources): the Euclidean norm
`norm()` and the rotation `rotateCCW(PI*1e-3)` by the fixed angle of line 359. -/
structure DirectionOps where
  norm : SGPoint → ℚ
  rotateCCW : SGPoint → SGPoint

/-- The variables that the loop `while (!passEast)` reads and writes (sgsolver_v4.cpp, lines
331-380). -/
structure ArcVars (A : Type) where
  pivot : SGTuple
  actionTuple : List Nat
  regimeTuple : List Regime
  currDir : SGPoint
  passEast : Bool
  newDirections : List SGPoint
  newLevels : List (List ℚ)
  newThreatTuple : SGTuple
  iter : SGIteration_V2 A

/-- The levels `newLevels.back()` of the pivot in the new direction (sgsolver_v4.cpp, lines
348-353). -/
def pivotLevels (game : SGGame) (pivot : SGTuple) (newDir : SGPoint) : List ℚ :=
  (List.range game.numStates).foldl
    (fun lv state => lv.set state ((rd pivot state).dot newDir))
    (List.replicate game.numStates 0)

/-- The assignment `newThreatTuple[state][player] = pivot[state][player]` for every state
(sgsolver_v4.cpp, lines 365-366 and 370-371). -/
def recordThreat (game : SGGame) (pivot : SGTuple) (player : Nat) (newThreatTuple : SGTuple) :
    SGTuple :=
  (List.range game.numStates).foldl
    (fun t state => t.set state ((rd t state).setCoord player ((rd pivot state).coord player)))
    newThreatTuple

/-- The body of the loop `while (!passEast)` (sgsolver_v4.cpp, lines 335-379): the policy is
optimised, `sensitivity` gives the level of the next direction, the direction and its levels
are recorded, and the rotated direction becomes the current one.  The body has no `throw`
statement. -/
def arcStep {A : Type} (ops : SGActionOps A) (dops : DirectionOps) (env : SGEnv)
    (game : SGGame) (fuel : Nat) (actions : List (List A)) (v : ArcVars A) :
    Except Stop (ArcVars A) :=
  match optimizePolicy env game fuel v.pivot v.actionTuple v.regimeTuple v.currDir
      (viewAll ops actions) with
  | none => Except.error Stop.outOfFuel
  | some r =>
    let bestLevel :=
      sensitivity game r.pivot r.actionTuple r.regimeTuple v.currDir (viewAll ops actions)
    let newDir :=
      SGPoint.smul (1 / dops.norm (nextDirection v.currDir bestLevel))
        (nextDirection v.currDir bestLevel)
    let rotated := dops.rotateCCW newDir
    let dueEast : SGPoint := ⟨1, 0⟩
    let dueNorth : SGPoint := ⟨0, 1⟩
    Except.ok
      { pivot := r.pivot
        actionTuple := r.actionTuple
        regimeTuple := r.regimeTuple
        currDir := rotated
        passEast :=
          if v.currDir.dot dueNorth > 0 ∧ rotated.dot dueNorth ≤ 0 then v.passEast
          else if v.currDir.dot dueEast < 0 ∧ rotated.dot dueEast ≥ 0 then v.passEast
          else if v.currDir.dot dueNorth < 0 ∧ rotated.dot dueNorth ≥ 0 then true
          else v.passEast
        newDirections := v.newDirections ++ [newDir]
        newLevels := v.newLevels ++ [pivotLevels game r.pivot newDir]
        newThreatTuple :=
          if v.currDir.dot dueNorth > 0 ∧ rotated.dot dueNorth ≤ 0 then
            recordThreat game r.pivot 0 v.newThreatTuple
          else if v.currDir.dot dueEast < 0 ∧ rotated.dot dueEast ≥ 0 then
            recordThreat game r.pivot 1 v.newThreatTuple
          else v.newThreatTuple
        iter :=
          if env.STOREITERATIONS ≠ 0 then
            { v.iter with
              steps := v.iter.steps ++
                [{ actionTuple := r.actionTuple, regimeTuple := r.regimeTuple, pivot := r.pivot,
                   hyperplane := (newDir, pivotLevels game r.pivot newDir),
                   actions := actions }] }
          else v.iter }

/-- The loop `while (!passEast)` (sgsolver_v4.cpp, lines 333-380), which has no cap: `arcFuel`
bounds the number of directions of one revolution. -/
def arcLoop {A : Type} (ops : SGActionOps A) (dops : DirectionOps) (env : SGEnv)
    (game : SGGame) (fuel : Nat) (actions : List (List A)) :
    Nat → ArcVars A → Except Stop (ArcVars A)
  | 0, _ => Except.error Stop.outOfFuel
  | arcFuel + 1, v =>
    match arcStep ops dops env game fuel actions v with
    | Except.error stop => Except.error stop
    | Except.ok v1 =>
      if v1.passEast then Except.ok v1
      else arcLoop ops dops env game fuel actions arcFuel v1

/-- The distance `tmp` of two vectors of levels (sgsolver_v4.cpp, lines 401-403). -/
def levelDistance (game : SGGame) (lvl0 lvl1 : List ℚ) : ℚ :=
  (List.range game.numStates).foldl (fun tmp state => max tmp |rd lvl0 state - rd lvl1 state|) 0

/-- The error level of a revolution against the previous one (sgsolver_v4.cpp, lines
386-415): for each new direction the distance to the nearest old one, which starts at
`numeric_limits<double>::max()`, and the largest of these. -/
def arcError (game : SGGame) (directions : List SGPoint) (levels : List (List ℚ))
    (newDirections : List SGPoint) (newLevels : List (List ℚ)) : ℚ :=
  (newDirections.zip newLevels).foldl
    (fun errorLevel new =>
      max errorLevel
        ((directions.zip levels).foldl
          (fun minDist old =>
            min minDist (SGPoint.distance old.1 new.1 + levelDistance game old.2 new.2))
          DBL_MAX))
    0

/-- The step of the closing pass of `solve_endogenous` on one action (sgsolver_v4.cpp, lines
442-461): the minimal incentive compatible payoffs are recomputed, the action is trimmed
against every recorded direction, and the trim is committed. -/
def retrimAction {A : Type} (ops : SGActionOps A) (game : SGGame) (threatTuple : SGTuple)
    (directions : List SGPoint) (levels : List (List ℚ)) (state : Nat) (a : A) : A :=
  ops.updateTrim
    ((directions.zip levels).foldl
      (fun a dl => ops.trim dl.1 (expLevel game dl.2 state (ops.view a).action) a)
      (ops.calculateMinIC game [true, true] threatTuple a))

/-- The closing pass over the actions of one state (sgsolver_v4.cpp, lines 438-470), with the
deletion of the actions that are not supportable. -/
def retrimStep {A : Type} (ops : SGActionOps A) (game : SGGame)
    (threatTuple feasibleTuple : SGTuple) (directions : List SGPoint) (levels : List (List ℚ))
    (actions : List (List A)) (state : Nat) : Except Stop (List (List A)) :=
  (erasePass (retrimAction ops game threatTuple directions levels state)
      (supportableIn ops game feasibleTuple state) (rd actions state)).map
    (fun r => actions.set state r.1)

/-- The closing pass of `solve_endogenous` over all states (sgsolver_v4.cpp, lines
436-472). -/
def retrimPasses {A : Type} (ops : SGActionOps A) (game : SGGame)
    (threatTuple feasibleTuple : SGTuple) (directions : List SGPoint) (levels : List (List ℚ))
    (actions : List (List A)) : Except Stop (List (List A)) :=
  (List.range game.numStates).foldlM
    (retrimStep ops game threatTuple feasibleTuple directions levels) actions

/-- The variables of `solve_endogenous` that live across the iterations of the main loop
(sgsolver_v4.cpp, lines 259-311). -/
structure EndoVars (A : Type) where
  actions : List (List A)
  threatTuple : SGTuple
  newThreatTuple : SGTuple
  pivot : SGTuple
  feasibleTuple : SGTuple
  directions : List SGPoint
  levels : List (List ℚ)
  errorLevel : ℚ
  numIter : Nat
  iter : SGIteration_V2 A
  soln : List (SGIteration_V2 A)

/-- One pass of the main loop of `solve_endogenous` (sgsolver_v4.cpp, lines 316-474). -/
def endoIteration {A : Type} (ops : SGActionOps A) (dops : DirectionOps) (env : SGEnv)
    (game : SGGame) (fuel arcFuel : Nat) (v : EndoVars A) : Except Stop (EndoVars A) :=
  match arcLoop ops dops env game fuel v.actions arcFuel
      { pivot := v.pivot
        actionTuple := List.replicate game.numStates 0
        regimeTuple := List.replicate game.numStates Regime.Binding
        currDir := ⟨1, 0⟩
        passEast := false
        newDirections := []
        newLevels := []
        newThreatTuple := v.newThreatTuple
        iter :=
          if env.STOREITERATIONS ≠ 0 then
            { iteration := v.numIter, actions := v.actions, threatTuple := v.threatTuple,
              steps := [] }
          else v.iter } with
  | Except.error stop => Except.error stop
  | Except.ok arc =>
    match findFeasibleTuple env game fuel v.feasibleTuple (viewAll ops v.actions) with
    | Except.error stop => Except.error stop
    | Except.ok feasibleTuple =>
      match retrimPasses ops game arc.newThreatTuple feasibleTuple arc.newDirections
          arc.newLevels v.actions with
      | Except.error stop => Except.error stop
      | Except.ok actions =>
        Except.ok
          { actions := actions
            threatTuple := arc.newThreatTuple
            newThreatTuple := arc.newThreatTuple
            pivot := arc.pivot
            feasibleTuple := feasibleTuple
            directions := arc.newDirections
            levels := arc.newLevels
            errorLevel := arcError game v.directions v.levels arc.newDirections arc.newLevels
            numIter := v.numIter + 1
            iter := arc.iter
            soln := if env.STOREITERATIONS ≠ 0 then v.soln ++ [arc.iter] else v.soln }

/-- The main loop of `solve_endogenous` (sgsolver_v4.cpp, lines 313-475).  The first argument
is the number of further passes the cap allows, `MAXITERATIONS − numIter`. -/
def endoLoop {A : Type} (ops : SGActionOps A) (dops : DirectionOps) (env : SGEnv)
    (game : SGGame) (fuel arcFuel : Nat) : Nat → EndoVars A → Except Stop (EndoVars A)
  | 0, v => Except.ok v
  | remaining + 1, v =>
    if v.errorLevel > env.ERRORTOL then
      match endoIteration ops dops env game fuel arcFuel v with
      | Except.error stop => Except.error stop
      | Except.ok v1 => endoLoop ops dops env game fuel arcFuel remaining v1
    else Except.ok v

/-- The variables of `solve_endogenous` on entry to the main loop (sgsolver_v4.cpp, lines
259-311). -/
def EndoVars.init {A : Type} (ops : SGActionOps A) (circle : ℚ → SGPoint) (env : SGEnv)
    (game : SGGame) : EndoVars A where
  actions :=
    initActions ops circle env game (List.replicate game.numStates game.getPayoffBounds.2)
      game.getPayoffBounds.2 game.getPayoffBounds.1
  threatTuple := List.replicate game.numStates game.getPayoffBounds.2
  newThreatTuple := List.replicate game.numStates game.getPayoffBounds.2
  pivot := List.replicate game.numStates game.getPayoffBounds.2
  feasibleTuple := List.replicate game.numStates game.getPayoffBounds.2
  directions := []
  levels := []
  errorLevel := 1
  numIter := 0
  iter := { iteration := 0, actions := [], threatTuple := [], steps := [] }
  soln := []

/-- The member `SGSolver_V4::solve_endogenous()` (sgsolver_v4.cpp, lines 257-479): the
variables when the main loop ends, or the way the run ended otherwise.  `fuel` bounds the
passes of the loops without a cap inside `optimizePolicy` and `findFeasibleTuple`, `arcFuel`
the directions of one revolution. -/
def solve_endogenous {A : Type} (ops : SGActionOps A) (dops : DirectionOps)
    (circle : ℚ → SGPoint) (env : SGEnv) (game : SGGame) (fuel arcFuel : Nat) :
    Except Stop (EndoVars A) :=
  endoLoop ops dops env game fuel arcFuel env.MAXITERATIONS (EndoVars.init ops circle env game)

/-! ## The surviving actions -/

/-- The lists of actions `y` hold, state by state and in order, action profiles of the lists
`x`: no profile was added and none occurs more often than before. -/
def Shrinks {A : Type} (ops : SGActionOps A) (x y : List (List A)) : Prop :=
  ∀ s, (profiles ops (rd y s)).Sublist (profiles ops (rd x s))

/-- The member functions of `SGAction_V2` keep the action profile that the action was
constructed with. -/
def KeepsProfile {A : Type} (ops : SGActionOps A) : Prop :=
  (∀ env state action, (ops.view (ops.construct env state action)).action = action) ∧
  (∀ game update threat a,
    (ops.view (ops.calculateMinIC game update threat a)).action = (ops.view a).action) ∧
  (∀ a, (ops.view (ops.resetTrimmedPoints a)).action = (ops.view a).action) ∧
  (∀ d l a, (ops.view (ops.trim d l a)).action = (ops.view a).action) ∧
  (∀ a, (ops.view (ops.updateTrim a)).action = (ops.view a).action)

/-- What the main loops keep true of the solution: the snapshots of the actions, from the
first on (`first` and the snapshots before the run of the loop are in `before`), never grow,
and the records hold the iteration numbers in order when `STOREITERATIONS` is not 0; no
record is kept when it is 0. -/
def SolutionInv {A : Type} (ops : SGActionOps A) (env : SGEnv) (first : List (List A))
    (soln : List (SGIteration_V2 A)) (actions : List (List A)) (numIter : Nat) : Prop :=
  List.Pairwise (Shrinks ops) ((first :: soln.map (fun it => it.actions)) ++ [actions]) ∧
  soln.map (fun it => it.iteration) =
    (if env.STOREITERATIONS = 0 then [] else List.range numIter)

/-- What the loop over the directions has recorded for the directions below `k`: the level of
every state is the level of the recorded pivot in that direction. -/
def Recorded (game : SGGame) (directions : List SGPoint) (levels : List (List ℚ))
    (pivots : List SGTuple) (k : Nat) : Prop :=
  ∀ d < k, ∀ s < game.numStates,
    rd (rd levels d) s = (rd (rd pivots d) s).dot (rd directions d)

/-! ## `SGAction_PencilSharpening::calculateMinIC`, the member over the players -/

/-- The member `SGAction_PencilSharpening::calculateMinIC(game, update, threatTuple)`
(sgaction_pencilsharpening.cpp, lines 134-149): `minIC[player]` is recomputed by the static
function for every player of the game whose flag `update[player]` is set. -/
def SGAction_PencilSharpening.calculateMinIC (a : SGAction_PencilSharpening) (game : SGGame)
    (update : List Bool) (threatTuple : SGTuple) : SGAction_PencilSharpening :=
  (List.range game.numPlayers).foldl
    (fun a player =>
      if !rd update player then a
      else
        { a with
          minIC := a.minIC.setCoord player
            (SGSolve.calculateMinIC game a.action a.state player threatTuple) })
    a

/-- The proposal of an action in the improvement step as the specification words it, to be
compared with `improveAction`: the non-binding payoff with the regime `NonBinding` when the
action has no usable binding payoff or its best binding payoff has a level above that of the
non-binding payoff less `1e-7`, and the best binding payoff with the regime `Binding`
otherwise. -/
def specProposal (game : SGGame) (currDir : SGPoint) (pivot : SGTuple) (state : Nat)
    (act : SGAction_V2) : SGPoint × Regime :=
  if apsNotBinding game currDir act = true
      ∨ (bestAPSPayoff game currDir state act).dot currDir
        > (bellmanPayoff game pivot state act.action).dot currDir - 1 / 10 ^ 7 then
    (bellmanPayoff game pivot state act.action, Regime.NonBinding)
  else (bestAPSPayoff game currDir state act, Regime.Binding)

/-- The entries of `state` written by the improvement step are those of the proposal of one
action of the state, and no action of the state has a proposal of a higher level. -/
def BestProposal (game : SGGame) (currDir : SGPoint) (actions : List (List SGAction_V2))
    (pivot0 : SGTuple) (state : Nat) (w : PolicyVars) : Prop :=
  ∃ ait, ait < (rd actions state).length ∧
    rd w.newActionTuple state = ait ∧
    rd w.newPivot state = (specProposal game currDir pivot0 state (rd (rd actions state) ait)).1 ∧
    rd w.newRegimeTuple state
      = (specProposal game currDir pivot0 state (rd (rd actions state) ait)).2 ∧
    ∀ j, j < (rd actions state).length →
      (specProposal game currDir pivot0 state (rd (rd actions state) j)).1.dot currDir
        ≤ (specProposal game currDir pivot0 state (rd (rd actions state) ait)).1.dot currDir

/-- The level of the trim of a new action against the box of the payoff bounds,
`max(currDir*payoffLB, currDir*payoffUB)` (sgsolver_v4.cpp, lines 104 and 296). -/
def trimLevel (currDir payoffLB payoffUB : SGPoint) : ℚ :=
  max (currDir.dot payoffLB) (currDir.dot payoffUB)

/-- The binding candidate of `sensitivity` with the acceptance condition of lines 765-771
grouped as its layout suggests, `ait ≠ chosen ∧ denom > 1e-6` or `ait = chosen` with either
`NonBinding ∧ denom < −1e-6` or `Binding ∧ denom > 1e-6`, to be compared with
`sensitivityBinding`, which has the condition as C++ parses it. -/
def sensitivityBindingGrouped (game : SGGame) (pivot : SGTuple) (actionTuple : List Nat)
    (regimeTuple : List Regime) (currDir : SGPoint) (state ait : Nat) (act : SGAction_V2)
    (p k : Nat) (bestLevel : ℚ) : ℚ :=
  let normDir := currDir.getNormal
  let nonBindingPayoff := bellmanPayoff game pivot state act.action
  let bindingPayoff :=
    (SGPoint.smul (1 - game.delta) (rd (rd game.payoffs state) act.action)).add
      (SGPoint.smul game.delta (rd (rd act.points p) k))
  let denom := normDir.dot (bindingPayoff.sub (rd pivot state))
  let numer := ((rd pivot state).sub bindingPayoff).dot currDir
  if SGPoint.distance (rd pivot state) bindingPayoff > 1 / 10 ^ 6
      ∧ |denom| > 1 / 10 ^ 10 then
    let bindingIndiffLvl := numer / denom
    if bindingIndiffLvl < bestLevel ∧ bindingIndiffLvl > -(1 / 10 ^ 6) then
      let indiffDir := currDir.add (SGPoint.smul bindingIndiffLvl normDir)
      if nonBindingPayoff.dot indiffDir ≥ bindingPayoff.dot indiffDir - 1 / 10 ^ 6 then
        if (ait ≠ rd actionTuple state ∧ denom > 1 / 10 ^ 6)
            ∨ (ait = rd actionTuple state
              ∧ ((rd regimeTuple state = Regime.NonBinding ∧ denom < -(1 / 10 ^ 6))
                ∨ (rd regimeTuple state = Regime.Binding ∧ denom > 1 / 10 ^ 6))) then
          bindingIndiffLvl
        else bestLevel
      else bestLevel
    else bestLevel
  else bestLevel

/-- The sum of the positions of the iterators of `findFeasibleTuple` over the states, an
iterator that was never assigned counting as 0. -/
def handleSum (n : Nat) (its : List (Option Nat)) : Nat :=
  ((List.range n).map (fun s => (rd its s).getD 0)).sum

/-- The iterators `b` are the iterators `a` after some of them were advanced to positions
inside the lists of actions. -/
def Advanced (actions : List (List SGAction_V2)) (a b : List (Option Nat)) : Prop :=
  ∀ s, rd b s = rd a s ∨
    ∃ pos q, rd a s = some pos ∧ rd b s = some q ∧ pos < q ∧ q < (rd actions s).length

/-- What the loop that checks the tuple keeps true of its accumulator, relative to the
variables `v` on entry: regimes and the count of Bellman iterations are as on entry, iterators
were only advanced, one of them was when `notAllIC` is set, and the loop is not out of
fuel. -/
def CheckInv (game : SGGame) (actions : List (List SGAction_V2)) (v : FeasibleVars)
    (acc : FeasibleVars × Bool × Option Stop) : Prop :=
  acc.1.regimeTuple = v.regimeTuple ∧ acc.1.bellmanCalls = v.bellmanCalls ∧
  Advanced actions v.actionTuple acc.1.actionTuple ∧
  (acc.2.2 = none → acc.2.1 = true →
    ∃ s < game.numStates, ∃ pos q,
      rd v.actionTuple s = some pos ∧ rd acc.1.actionTuple s = some q ∧ pos < q) ∧
  acc.2.2 ≠ some Stop.outOfFuel

/-- What holds of the variables of `findFeasibleTuple` at the start of a pass of the loop
`while (notAllIC)`: some state in the non-binding regime has an iterator, every iterator is at
the start or inside its list, and every Bellman iteration so far was followed by the advance
of an iterator. -/
def Ready (game : SGGame) (actions : List (List SGAction_V2)) (v : FeasibleVars) : Prop :=
  (∃ s < game.numStates, ∃ pos,
    rd v.actionTuple s = some pos ∧ rd v.regimeTuple s = Regime.NonBinding) ∧
  (∀ s pos, rd v.actionTuple s = some pos → pos = 0 ∨ pos < (rd actions s).length) ∧
  v.bellmanCalls ≤ handleSum game.numStates v.actionTuple

/-! ## Concrete inputs -/

/-- The game of the counterexample to C5: one state, one action profile. -/
def flatGame : SGGame where
  delta := 1 / 2
  numPlayers := 2
  numStates := 1
  numActions := [[1, 1]]
  numActions_total := [1]
  payoffs := [[⟨0, 0⟩]]
  probabilities := [[[1]]]
  eqActions := [[true]]
  unconstrained := [false, false]

/-- The action of the counterexample to C5: `minIC = (0, 0)` and empty binding sets. -/
def flatAction : SGAction_PencilSharpening where
  state := 0
  action := 0
  minIC := ⟨0, 0⟩
  points := [[], []]
  trimmedPoints := [[], []]
  tuples := [[], []]
  corner := false

/-- The history of the counterexample to C5: two tuples whose player-0 payoff is `-5e-8`, a
flat within `FLATTOL = 1e-7` of `minIC[0] = 0`. -/
def flatHistory : List SGTuple := [[⟨-1 / (2 * 10 ^ 8), 2⟩], [⟨-1 / (2 * 10 ^ 8), 1⟩]]

/-- The repeated prisoner's dilemma of the specification (scenario S3): one state, two actions
per player, payoffs (3,3), (5,0), (0,5), (1,1) and `δ = 0.6`. -/
def prisonersDilemma : SGGame where
  delta := 3 / 5
  numPlayers := 2
  numStates := 1
  numActions := [[2, 2]]
  numActions_total := [4]
  payoffs := [[⟨3, 3⟩, ⟨5, 0⟩, ⟨0, 5⟩, ⟨1, 1⟩]]
  probabilities := [[[1], [1], [1], [1]]]
  eqActions := [[true, true, true, true]]
  unconstrained := [false, false]

/-- The threat tuple `(1, 1)` of the prisoner's dilemma. -/
def pdThreat : SGTuple := [⟨1, 1⟩]

/-- A game with two states and one action profile per state; both states move to state 0,
all payoffs are `(0, 0)` and `δ = 1/2`. -/
def tieGame : SGGame where
  delta := 1 / 2
  numPlayers := 2
  numStates := 2
  numActions := [[1, 1], [1, 1]]
  numActions_total := [1, 1]
  payoffs := [[⟨0, 0⟩], [⟨0, 0⟩]]
  probabilities := [[[1, 0]], [[1, 0]]]
  eqActions := [[true], [true]]
  unconstrained := [false, false]

/-- The actions of `tieGame`: the action of state 0 has the binding payoff `(0, 2)` for
player 0, with a boundary direction orthogonal to every direction; the action of state 1 has
no binding payoff. -/
def tieActions : List (List SGAction_V2) :=
  [[{ state := 0, action := 0, minIC := ⟨0, 0⟩, points := [[⟨0, 2⟩, ⟨0, 2⟩], []],
      bndryDirs := [[⟨0, 0⟩, ⟨0, 0⟩], []] }],
   [{ state := 1, action := 0, minIC := ⟨0, 0⟩, points := [[], []], bndryDirs := [[], []] }]]

/-- A game with one state and one action profile, payoffs `(0, 0)` and `δ = 1/2`. -/
def boundaryGame : SGGame where
  delta := 1 / 2
  numPlayers := 2
  numStates := 1
  numActions := [[1, 1]]
  numActions_total := [1]
  payoffs := [[⟨0, 0⟩]]
  probabilities := [[[1]]]
  eqActions := [[true]]
  unconstrained := [false, false]

/-- The action of `boundaryGame`: its binding payoff for player 0 gives the best binding
payoff `(-1 - 1e-8, 0)`. -/
def boundaryActions : List (List SGAction_V2) :=
  [[{ state := 0, action := 0, minIC := ⟨0, 0⟩,
      points := [[⟨-2 - 2 / 10 ^ 8, 0⟩, ⟨-2 - 2 / 10 ^ 8, 0⟩], []],
      bndryDirs := [[⟨0, 0⟩, ⟨0, 0⟩], []] }]]

/-- The default parameters with both caps of the policy iteration set to one pass. -/
def capEnv : SGEnv :=
  { SGEnv.defaults with MAXPOLICYITERATIONS := 1, MAXUPDATEPIVOTPASSES := 1 }

/-- A game with one state and one action profile, payoffs `(1, 0)` and `δ = 1/2`. -/
def capGame : SGGame where
  delta := 1 / 2
  numPlayers := 2
  numStates := 1
  numActions := [[1, 1]]
  numActions_total := [1]
  payoffs := [[⟨1, 0⟩]]
  probabilities := [[[1]]]
  eqActions := [[true]]
  unconstrained := [false, false]

/-- The action of `capGame`, without binding payoffs. -/
def capActions : List (List SGAction_V2) :=
  [[{ state := 0, action := 0, minIC := ⟨0, 0⟩, points := [[], []], bndryDirs := [[], []] }]]

/-- The action of the counterexample to C19: the trimmed segment of player 0 has the endpoints
`(2e-12, 0)` and `(1e-12, 1)`. -/
def thinAction : SGAction_PencilSharpening where
  state := 0
  action := 0
  minIC := ⟨0, 0⟩
  points := [[], []]
  trimmedPoints := [[⟨2 / 10 ^ 12, 0⟩, ⟨1 / 10 ^ 12, 1⟩], []]
  tuples := [[], []]
  corner := false

/-- The half-planes of the counterexample to C19: the ray from `(0, 0)` in the direction
`(0, 1)`, whose normal is `(1, 0)`, and the ray from `(0, 1/2)` in the direction `(-1, 0)`,
whose normal is `(0, 1)`. -/
def thinPlanes : List (SGPoint × SGPoint) := [(⟨0, 0⟩, ⟨0, 1⟩), (⟨0, 1 / 2⟩, ⟨-1, 0⟩)]

/-- The action of `capGame` without binding payoffs and with `minIC = (5, 5)`, which no payoff
of the game reaches. -/
def strictActions : List (List SGAction_V2) :=
  [[{ state := 0, action := 0, minIC := ⟨5, 5⟩, points := [[], []], bndryDirs := [[], []] }]]

/-- A stand-in for `cos` and `sin` in the concrete runs: a rational point of the unit circle
for every fraction `t` of the full turn, equal to `(cos 2πt, sin 2πt)` at the quarter turns
`t = 0, 1/4, 1/2, 3/4`. -/
def quarterCircle (t : ℚ) : SGPoint :=
  if t < 1 / 4 then
    ⟨(1 - (4 * t) ^ 2) / (1 + (4 * t) ^ 2), 2 * (4 * t) / (1 + (4 * t) ^ 2)⟩
  else if t < 1 / 2 then
    ⟨-(2 * (4 * t - 1)) / (1 + (4 * t - 1) ^ 2), (1 - (4 * t - 1) ^ 2) / (1 + (4 * t - 1) ^ 2)⟩
  else if t < 3 / 4 then
    ⟨-(1 - (4 * t - 2) ^ 2) / (1 + (4 * t - 2) ^ 2), -(2 * (4 * t - 2)) / (1 + (4 * t - 2) ^ 2)⟩
  else
    ⟨2 * (4 * t - 3) / (1 + (4 * t - 3) ^ 2), -(1 - (4 * t - 3) ^ 2) / (1 + (4 * t - 3) ^ 2)⟩

/-- A stand-in for the member functions of `SGAction_V2` in the concrete runs: an action
object is its visible part; a new action has `minIC = (0, 0)` and no binding payoffs; the
recalculation and the trims leave it as it is; it is supportable by a point that is at least
its `minIC`. -/
def idleOps : SGActionOps SGAction_V2 where
  view := fun a => a
  construct := fun _ state action =>
    { state := state, action := action, minIC := ⟨0, 0⟩, points := [[], []],
      bndryDirs := [[], []] }
  calculateMinIC := fun _ _ _ a => a
  resetTrimmedPoints := fun a => a
  trim := fun _ _ a => a
  updateTrim := fun a => a
  supportable := fun a p => p.ge a.minIC

/-- The variables of `solve` on `capGame` with the stand-ins `idleOps`, at its fixed point: the
one action of the game, and the threat tuple, the pivot and the feasible tuple all at the
payoff `(1, 0)`. -/
def UnitState (v : SolveVars SGAction_V2) : Prop :=
  v.actions = capActions ∧ v.threatTuple = [⟨1, 0⟩] ∧ v.pivot = [⟨1, 0⟩] ∧
  v.feasibleTuple = [⟨1, 0⟩] ∧ v.levels.length = numDirections ∧
  v.pivots.length = numDirections

/-- A stand-in for the norm and the rotation of `SGPoint` in the concrete runs: directions
are not normalised and not rotated. -/
def idleDirections : DirectionOps where
  norm := fun _ => 1
  rotateCCW := fun p => p

/-- The action profiles 1 and 2 of the prisoner's dilemma, without binding payoffs and with
the minimal incentive compatible payoffs `(1, 5/3)` and `(5/3, 1)` that the threat `(1, 1)`
gives them. -/
def pdSurvivors : List (List SGAction_V2) :=
  [[{ state := 0, action := 1, minIC := ⟨1, 5 / 3⟩, points := [[], []], bndryDirs := [[], []] },
    { state := 0, action := 2, minIC := ⟨5 / 3, 1⟩, points := [[], []],
      bndryDirs := [[], []] }]]

/-- The variables of `solve_endogenous` on `capGame` with the stand-ins `idleOps`, at its fixed
point: the one action of the game, and the threat tuples, the pivot and the feasible tuple all
at the payoff `(1, 0)`. -/
def UnitEndoState (v : EndoVars SGAction_V2) : Prop :=
  v.actions = capActions ∧ v.threatTuple = [⟨1, 0⟩] ∧ v.newThreatTuple = [⟨1, 0⟩] ∧
  v.pivot = [⟨1, 0⟩] ∧ v.feasibleTuple = [⟨1, 0⟩]

/-- The three directions of a revolution of `solve_endogenous` in which `sensitivity` finds no
candidate, without normalisation and rotation. -/
def unitArc : List SGPoint :=
  [nextDirection ⟨1, 0⟩ (DBL_MAX - 1),
    nextDirection (nextDirection ⟨1, 0⟩ (DBL_MAX - 1)) (DBL_MAX - 1),
    nextDirection (nextDirection (nextDirection ⟨1, 0⟩ (DBL_MAX - 1)) (DBL_MAX - 1))
      (DBL_MAX - 1)]

/-- An action whose binding payoffs of player 0 were cleared, with their tuple indices, while
the trim in progress still holds two points for the player. -/
def staleAction : SGAction_PencilSharpening where
  state := 0
  action := 0
  minIC := ⟨0, 0⟩
  points := [[], []]
  trimmedPoints := [[⟨0, 1⟩, ⟨1, 0⟩], []]
  tuples := [[], []]
  corner := false

/-- An action whose trim in progress is a copy of its binding payoffs. -/
def freshAction : SGAction_PencilSharpening where
  state := 0
  action := 0
  minIC := ⟨0, 0⟩
  points := [[⟨0, 1⟩, ⟨1, 0⟩], []]
  trimmedPoints := [[⟨0, 1⟩, ⟨1, 0⟩], []]
  tuples := [[1, 0], []]
  corner := false

/-- The prisoner's dilemma with both players marked as unconstrained. -/
def pdUnconstrained : SGGame := { prisonersDilemma with unconstrained := [true, true] }

/-- An action of the profile 0 of the prisoner's dilemma (both cooperate) whose `minIC` has
not been computed yet and holds `(0, 0)`. -/
def pdCooperate : SGAction_PencilSharpening where
  state := 0
  action := 0
  minIC := ⟨0, 0⟩
  points := [[], []]
  trimmedPoints := [[], []]
  tuples := [[], []]
  corner := false

/-- An action of the profile 0 of the prisoner's dilemma with `minIC = (7/3, 7/3)`, whose
binding set of player 0 runs from `(7/3, 3)` down to `(7/3, 2)`, below `minIC[1]`; no corner
has been made. -/
def cornerAction : SGAction_PencilSharpening where
  state := 0
  action := 0
  minIC := ⟨7 / 3, 7 / 3⟩
  points := [[⟨7 / 3, 3⟩, ⟨7 / 3, 2⟩], []]
  trimmedPoints := [[⟨7 / 3, 3⟩, ⟨7 / 3, 2⟩], []]
  tuples := [[1, 0], []]
  corner := false

/-- A stand-in for the operations on directions that is exact wherever the Euclidean norm is
rational: the norm is the rational square root of the squared length (the root of numerator
and denominator, rounded down), and the rotation is left out. -/
def rationalDirections : DirectionOps where
  norm := fun p => Rat.sqrt (p.dot p)
  rotateCCW := fun p => p

/-- A game with two states, each with one action profile and staying where it is. -/
def mixedGame : SGGame where
  delta := 1 / 2
  numPlayers := 2
  numStates := 2
  numActions := [[1, 1], [1, 1]]
  numActions_total := [1, 1]
  payoffs := [[⟨0, 0⟩], [⟨0, 0⟩]]
  probabilities := [[[1, 0]], [[0, 1]]]
  eqActions := [[true], [true]]
  unconstrained := [false, false]

/-- The actions of `mixedGame`: that of state 0 has a binding payoff for player 0, that of
state 1 has none. -/
def mixedActions : List (List SGAction_V2) :=
  [[{ state := 0, action := 0, minIC := ⟨0, 0⟩,
      points := [[⟨0, 0⟩, ⟨0, 0⟩], []],
      bndryDirs := [[⟨0, 0⟩, ⟨0, 0⟩], []] }],
   [{ state := 1, action := 0, minIC := ⟨0, 0⟩,
      points := [[], []],
      bndryDirs := [[], []] }]]

/-- The prisoner's dilemma with player 1 marked as unconstrained and player 0 not. -/
def pdHalfConstrained : SGGame := { prisonersDilemma with unconstrained := [false, true] }

/-- A history of two tuples for the prisoner's dilemma whose payoffs of player 0, 1 and 3,
flank `7/3` and whose payoff of player 1 is 2. -/
def pdHistory : List SGTuple := [[⟨1, 2⟩], [⟨3, 2⟩]]

/-- An action of the profile 0 of the prisoner's dilemma with `minIC = (7/3, m)` and empty
binding sets. -/
def pdBound (m : ℚ) : SGAction_PencilSharpening where
  state := 0
  action := 0
  minIC := ⟨7 / 3, m⟩
  points := [[], []]
  trimmedPoints := [[], []]
  tuples := [[], []]
  corner := false

/-! # Theorems -/

/-! ## Facts about points -/

theorem SGPoint.dot_comb (n a b : SGPoint) (w : ℚ) :
    n.dot ((SGPoint.smul w b).add (SGPoint.smul (1 - w) a)) =
      n.dot a + w * (n.dot b - n.dot a) := by
  simp only [SGPoint.dot, SGPoint.add, SGPoint.smul]
  ring

theorem SGPoint.comb_one (a b : SGPoint) :
    (SGPoint.smul 1 b).add (SGPoint.smul (1 - 1) a) = b := by
  cases b
  simp [SGPoint.add, SGPoint.smul]

theorem SGPoint.comb_zero (a b : SGPoint) :
    (SGPoint.smul 0 b).add (SGPoint.smul (1 - 0) a) = a := by
  cases a
  simp [SGPoint.add, SGPoint.smul]

/-- The level of the point computed in the intersection branch is the level of the ray. -/
theorem SGPoint.dot_intersection (n a b : SGPoint) (level : ℚ) (h : n.dot b - n.dot a ≠ 0) :
    n.dot ((SGPoint.smul ((level - n.dot a) / (n.dot b - n.dot a)) b).add
      (SGPoint.smul (1 - (level - n.dot a) / (n.dot b - n.dot a)) a)) = level := by
  rw [SGPoint.dot_comb, div_mul_cancel₀ _ h]
  ring

/-- A two-point segment that is not wholly above the ray and is below it, degenerate, or
already ends on the ray is left as it is. -/
theorem intersectRaySegment_fixed (env : SGEnv) (pivot direction a b : SGPoint)
    (hI : 0 ≤ env.INTERSECTTOL)
    (hab : ¬ (direction.getNormal.dot a > pivot.dot direction.getNormal + env.ICTOL ∧
      direction.getNormal.dot b > pivot.dot direction.getNormal + env.ICTOL))
    (h : (direction.getNormal.dot a < pivot.dot direction.getNormal ∧
          direction.getNormal.dot b < pivot.dot direction.getNormal) ∨
        |direction.getNormal.dot a - direction.getNormal.dot b| ≤ env.INTERSECTTOL ∨
        (direction.getNormal.dot a ≤ pivot.dot direction.getNormal ∧
          direction.getNormal.dot b = pivot.dot direction.getNormal) ∨
        (direction.getNormal.dot a = pivot.dot direction.getNormal ∧
          direction.getNormal.dot b ≤ pivot.dot direction.getNormal)) :
    intersectRaySegment env pivot direction [a, b] = [a, b] := by
  simp only [intersectRaySegment]
  rw [if_neg hab]
  by_cases hlow : direction.getNormal.dot a < pivot.dot direction.getNormal ∧
      direction.getNormal.dot b < pivot.dot direction.getNormal
  · rw [if_pos hlow]
  rw [if_neg hlow]
  by_cases hdeg : |direction.getNormal.dot a - direction.getNormal.dot b| > env.INTERSECTTOL
  swap
  · rw [if_neg hdeg]
  rw [if_pos hdeg]
  have hne : direction.getNormal.dot a ≠ direction.getNormal.dot b := by
    intro he
    rw [he, sub_self, abs_zero] at hdeg
    exact absurd hdeg (not_lt.mpr hI)
  rcases h with h | h | ⟨h1, h2⟩ | ⟨h1, h2⟩
  · exact absurd h hlow
  · exact absurd hdeg (not_lt.mpr h)
  · have hlt : direction.getNormal.dot a < direction.getNormal.dot b :=
      lt_of_le_of_ne (h2 ▸ h1) hne
    have hw : (pivot.dot direction.getNormal - direction.getNormal.dot a) /
        (direction.getNormal.dot b - direction.getNormal.dot a) = 1 := by
      rw [h2]
      exact div_self (sub_ne_zero.mpr (h2 ▸ hne.symm))
    rw [hw]
    simp only [gt_iff_lt, lt_self_iff_false, if_false, if_pos hlt, SGPoint.comb_one]
    norm_num
  · have hlt : ¬ direction.getNormal.dot a < direction.getNormal.dot b := by
      rw [h1]
      exact not_lt.mpr h2
    have hw : (pivot.dot direction.getNormal - direction.getNormal.dot a) /
        (direction.getNormal.dot b - direction.getNormal.dot a) = 0 := by
      rw [h1, sub_self, zero_div]
    rw [hw]
    simp only [gt_iff_lt, if_neg hlt, SGPoint.comb_zero]
    norm_num

theorem intersectRaySegment_nil (env : SGEnv) (pivot direction : SGPoint) :
    intersectRaySegment env pivot direction [] = [] := rfl

/-- The clip of a two-point segment, case by case: what the result is and which facts about
the levels of its endpoints hold in that case. -/
theorem intersectRaySegment_cases (env : SGEnv) (pivot direction a b : SGPoint)
    (hI : 0 ≤ env.INTERSECTTOL) :
    intersectRaySegment env pivot direction [a, b] = [] ∨
    (intersectRaySegment env pivot direction [a, b] = [a, b] ∧
      ¬ (direction.getNormal.dot a > pivot.dot direction.getNormal + env.ICTOL ∧
        direction.getNormal.dot b > pivot.dot direction.getNormal + env.ICTOL) ∧
      ((direction.getNormal.dot a < pivot.dot direction.getNormal ∧
          direction.getNormal.dot b < pivot.dot direction.getNormal) ∨
        |direction.getNormal.dot a - direction.getNormal.dot b| ≤ env.INTERSECTTOL)) ∨
    (intersectRaySegment env pivot direction [a, b] = [b, b] ∧
      pivot.dot direction.getNormal < direction.getNormal.dot b ∧
      direction.getNormal.dot b < direction.getNormal.dot a ∧
      direction.getNormal.dot b ≤ pivot.dot direction.getNormal + env.ICTOL) ∨
    (intersectRaySegment env pivot direction [a, b] = [a, a] ∧
      pivot.dot direction.getNormal < direction.getNormal.dot a ∧
      direction.getNormal.dot a < direction.getNormal.dot b ∧
      direction.getNormal.dot a ≤ pivot.dot direction.getNormal + env.ICTOL) ∨
    (∃ w c : _, 0 ≤ w ∧ w ≤ 1 ∧ c = (SGPoint.smul w b).add (SGPoint.smul (1 - w) a) ∧
      direction.getNormal.dot c = pivot.dot direction.getNormal ∧
      ((intersectRaySegment env pivot direction [a, b] = [a, c] ∧
          direction.getNormal.dot a ≤ pivot.dot direction.getNormal) ∨
        (intersectRaySegment env pivot direction [a, b] = [c, b] ∧
          direction.getNormal.dot b ≤ pivot.dot direction.getNormal))) := by
  simp only [intersectRaySegment]
  by_cases hab : direction.getNormal.dot a > pivot.dot direction.getNormal + env.ICTOL ∧
      direction.getNormal.dot b > pivot.dot direction.getNormal + env.ICTOL
  · left
    rw [if_pos hab]
  rw [if_neg hab]
  by_cases hlow : direction.getNormal.dot a < pivot.dot direction.getNormal ∧
      direction.getNormal.dot b < pivot.dot direction.getNormal
  · right; left
    rw [if_pos hlow]
    exact ⟨rfl, hab, Or.inl hlow⟩
  rw [if_neg hlow]
  by_cases hdeg : |direction.getNormal.dot a - direction.getNormal.dot b| > env.INTERSECTTOL
  swap
  · right; left
    rw [if_neg hdeg]
    exact ⟨rfl, hab, Or.inr (not_lt.mp hdeg)⟩
  rw [if_pos hdeg]
  generalize hl0 : direction.getNormal.dot a = l0 at *
  generalize hl1 : direction.getNormal.dot b = l1 at *
  generalize hlv : pivot.dot direction.getNormal = level at *
  have hab' : l0 ≤ level + env.ICTOL ∨ l1 ≤ level + env.ICTOL := by
    by_contra hc
    push_neg at hc
    exact hab ⟨hc.1, hc.2⟩
  have hlow' : level ≤ l0 ∨ level ≤ l1 := by
    by_contra hc
    push_neg at hc
    exact hlow ⟨hc.1, hc.2⟩
  rcases lt_trichotomy l0 l1 with hlt | heq | hgt
  · have hpos : 0 < l1 - l0 := sub_pos.mpr hlt
    by_cases hw1 : (level - l0) / (l1 - l0) > 1
    · exfalso
      rw [gt_iff_lt, lt_div_iff₀ hpos] at hw1
      rcases hlow' with h | h <;> linarith
    rw [if_neg hw1]
    by_cases hw0 : (level - l0) / (l1 - l0) < 0
    · right; right; right; left
      rw [if_pos hw0]
      rw [div_neg_iff] at hw0
      rcases hw0 with ⟨_, h2⟩ | ⟨h1, _⟩
      · linarith
      · refine ⟨rfl, by linarith, hlt, ?_⟩
        rcases hab' with h | h <;> linarith
    rw [if_neg hw0, if_pos hlt]
    right; right; right; right
    refine ⟨(level - l0) / (l1 - l0), _, not_lt.mp hw0, not_lt.mp hw1, rfl, ?_, ?_⟩
    · rw [SGPoint.dot_comb, hl0, hl1, div_mul_cancel₀ _ (ne_of_gt hpos)]
      ring
    · left
      refine ⟨rfl, ?_⟩
      have := not_lt.mp hw0
      rw [le_div_iff₀ hpos] at this
      linarith
  · exfalso
    rw [heq, sub_self, abs_zero] at hdeg
    exact absurd hdeg (not_lt.mpr hI)
  · have hneg : l1 - l0 < 0 := sub_neg.mpr hgt
    by_cases hw1 : (level - l0) / (l1 - l0) > 1
    · right; right; left
      rw [if_pos hw1]
      rw [gt_iff_lt, lt_div_iff_of_neg hneg] at hw1
      refine ⟨rfl, by linarith, hgt, ?_⟩
      rcases hab' with h | h <;> linarith
    rw [if_neg hw1]
    by_cases hw0 : (level - l0) / (l1 - l0) < 0
    · exfalso
      rw [div_neg_iff] at hw0
      rcases hw0 with ⟨h1, _⟩ | ⟨_, h2⟩
      · rcases hlow' with h | h <;> linarith
      · linarith
    rw [if_neg hw0, if_neg (not_lt.mpr (le_of_lt hgt))]
    right; right; right; right
    refine ⟨(level - l0) / (l1 - l0), _, not_lt.mp hw0, not_lt.mp hw1, rfl, ?_, ?_⟩
    · rw [SGPoint.dot_comb, hl0, hl1, div_mul_cancel₀ _ (ne_of_lt hneg)]
      ring
    · right
      refine ⟨rfl, ?_⟩
      have := not_lt.mp hw1
      rw [div_le_iff_of_neg hneg] at this
      linarith

/-! ## Claims on `intersectRaySegment` -/

/-- C2: for tolerances `ICTOL ≥ 0` and `INTERSECTTOL ≥ 0`, every pivot, direction and segment
of any length, clipping the segment twice gives exactly the segment obtained by clipping it
once. -/
theorem C2_intersectRaySegment_idempotent (env : SGEnv) (hIC : 0 ≤ env.ICTOL)
    (hI : 0 ≤ env.INTERSECTTOL) (pivot direction : SGPoint) (segment : SGTuple) :
    intersectRaySegment env pivot direction (intersectRaySegment env pivot direction segment) =
      intersectRaySegment env pivot direction segment := by
  match segment with
  | [] => rfl
  | [_] => rfl
  | _ :: _ :: _ :: _ => rfl
  | [a, b] =>
    rcases intersectRaySegment_cases env pivot direction a b hI with
      h | ⟨h, _, _⟩ | ⟨h, h1, h2, h3⟩ | ⟨h, h1, h2, h3⟩ | ⟨w, c, _, _, _, hc, ⟨h, h1⟩ | ⟨h, h1⟩⟩
    · rw [h]
      rfl
    · rw [h, h]
    · rw [h]
      refine intersectRaySegment_fixed env pivot direction b b hI ?_ ?_
      · exact fun hh => absurd hh.1 (not_lt.mpr h3)
      · right; left
        simpa using hI
    · rw [h]
      refine intersectRaySegment_fixed env pivot direction a a hI ?_ ?_
      · exact fun hh => absurd hh.1 (not_lt.mpr h3)
      · right; left
        simpa using hI
    · rw [h]
      refine intersectRaySegment_fixed env pivot direction a c hI ?_ ?_
      · intro hh
        have := hh.2
        rw [hc] at this
        linarith
      · right; right; left
        exact ⟨h1, hc⟩
    · rw [h]
      refine intersectRaySegment_fixed env pivot direction c b hI ?_ ?_
      · intro hh
        have := hh.1
        rw [hc] at this
        linarith
      · right; right; right
        exact ⟨hc, h1⟩

/-- Witness of C2: the default tolerances and a segment that straddles the ray. -/
theorem C2_intersectRaySegment_idempotent_witness :
    (0 : ℚ) ≤ SGEnv.defaults.ICTOL ∧ (0 : ℚ) ≤ SGEnv.defaults.INTERSECTTOL ∧
    intersectRaySegment SGEnv.defaults ⟨0, 0⟩ ⟨0, 1⟩
        (intersectRaySegment SGEnv.defaults ⟨0, 0⟩ ⟨0, 1⟩ [⟨-1, 0⟩, ⟨1, 2⟩]) =
      intersectRaySegment SGEnv.defaults ⟨0, 0⟩ ⟨0, 1⟩ [⟨-1, 0⟩, ⟨1, 2⟩] :=
  ⟨by norm_num [SGEnv.defaults], by norm_num [SGEnv.defaults],
    C2_intersectRaySegment_idempotent SGEnv.defaults (by norm_num [SGEnv.defaults])
      (by norm_num [SGEnv.defaults]) ⟨0, 0⟩ ⟨0, 1⟩ [⟨-1, 0⟩, ⟨1, 2⟩]⟩

/-- Counterexample to C3 as stated: with the default tolerances, the segment with endpoint
levels `1.5e-12` and `1e-12` against the ray of level 0 is neither wholly above `ICTOL` nor
below the ray, and its levels differ by less than `INTERSECTTOL`, so it is left unchanged;
its first endpoint stays above `level + ICTOL`. -/
theorem C3_counterexample :
    ∃ x ∈ intersectRaySegment SGEnv.defaults ⟨0, 0⟩ ⟨0, 1⟩
        [⟨3 / (2 * 10 ^ 12), 0⟩, ⟨1 / 10 ^ 12, 0⟩],
      ¬ ((SGPoint.getNormal ⟨0, 1⟩).dot x ≤
        (SGPoint.getNormal ⟨0, 1⟩).dot ⟨0, 0⟩ + SGEnv.defaults.ICTOL) := by
  refine ⟨⟨3 / (2 * 10 ^ 12), 0⟩, ?_, ?_⟩
  · have habs : |(1 : ℚ) / 2000000000000| = 1 / 2000000000000 := abs_of_pos (by norm_num)
    norm_num [intersectRaySegment, SGEnv.defaults, SGPoint.getNormal, SGPoint.dot, habs]
  · norm_num [SGEnv.defaults, SGPoint.getNormal, SGPoint.dot]

/-- C3 (amended): for tolerances `ICTOL ≥ 0` and `INTERSECTTOL ≥ 0`, every endpoint `x` left
by the clip of a two-point segment satisfies
`normal(direction)·x ≤ normal(direction)·pivot + ICTOL + INTERSECTTOL`, and it satisfies
`normal(direction)·x ≤ normal(direction)·pivot + ICTOL` whenever the levels of the two input
endpoints differ by more than `INTERSECTTOL`. -/
theorem C3_intersectRaySegment_halfplane (env : SGEnv) (hIC : 0 ≤ env.ICTOL)
    (hI : 0 ≤ env.INTERSECTTOL) (pivot direction a b x : SGPoint)
    (hx : x ∈ intersectRaySegment env pivot direction [a, b]) :
    direction.getNormal.dot x ≤ direction.getNormal.dot pivot + env.ICTOL + env.INTERSECTTOL ∧
    (|direction.getNormal.dot a - direction.getNormal.dot b| > env.INTERSECTTOL →
      direction.getNormal.dot x ≤ direction.getNormal.dot pivot + env.ICTOL) := by
  have hcomm : direction.getNormal.dot pivot = pivot.dot direction.getNormal := by
    simp only [SGPoint.dot]
    ring
  rw [hcomm]
  rcases intersectRaySegment_cases env pivot direction a b hI with
    h | ⟨h, h1, h2⟩ | ⟨h, h1, h2, h3⟩ | ⟨h, h1, h2, h3⟩ | ⟨w, c, _, _, _, hc, ⟨h, h1⟩ | ⟨h, h1⟩⟩
  · rw [h] at hx
    simp at hx
  · rw [h] at hx
    have hmin : direction.getNormal.dot a ≤ pivot.dot direction.getNormal + env.ICTOL ∨
        direction.getNormal.dot b ≤ pivot.dot direction.getNormal + env.ICTOL := by
      by_contra hc
      push_neg at hc
      exact h1 ⟨hc.1, hc.2⟩
    simp only [List.mem_cons, List.mem_singleton, List.not_mem_nil, or_false] at hx
    rcases h2 with ⟨ha, hb⟩ | hdeg
    · rcases hx with rfl | rfl
      · exact ⟨by linarith, fun _ => by linarith⟩
      · exact ⟨by linarith, fun _ => by linarith⟩
    · have hd := abs_le.mp hdeg
      refine ⟨?_, fun hgt => absurd hgt (not_lt.mpr hdeg)⟩
      rcases hx with rfl | rfl <;> rcases hmin with hm | hm <;> linarith [hd.1, hd.2]
  · rw [h] at hx
    simp only [List.mem_cons, List.mem_singleton, List.not_mem_nil, or_false, or_self] at hx
    subst hx
    exact ⟨by linarith, fun _ => h3⟩
  · rw [h] at hx
    simp only [List.mem_cons, List.mem_singleton, List.not_mem_nil, or_false, or_self] at hx
    subst hx
    exact ⟨by linarith, fun _ => h3⟩
  · rw [h] at hx
    simp only [List.mem_cons, List.mem_singleton, List.not_mem_nil, or_false] at hx
    rcases hx with rfl | rfl
    · exact ⟨by linarith, fun _ => by linarith⟩
    · exact ⟨by linarith, fun _ => by linarith⟩
  · rw [h] at hx
    simp only [List.mem_cons, List.mem_singleton, List.not_mem_nil, or_false] at hx
    rcases hx with rfl | rfl
    · exact ⟨by linarith, fun _ => by linarith⟩
    · exact ⟨by linarith, fun _ => by linarith⟩

/-- Witness of C3 (amended): the default tolerances and a segment that straddles the ray;
the clipped segment still holds the endpoint `(-1, 0)`. -/
theorem C3_intersectRaySegment_halfplane_witness :
    (SGPoint.getNormal ⟨0, 1⟩).dot ⟨-1, 0⟩ ≤
        (SGPoint.getNormal ⟨0, 1⟩).dot ⟨0, 0⟩ + SGEnv.defaults.ICTOL +
          SGEnv.defaults.INTERSECTTOL ∧
      (|(SGPoint.getNormal ⟨0, 1⟩).dot ⟨-1, 0⟩ - (SGPoint.getNormal ⟨0, 1⟩).dot ⟨1, 2⟩| >
          SGEnv.defaults.INTERSECTTOL →
        (SGPoint.getNormal ⟨0, 1⟩).dot ⟨-1, 0⟩ ≤
          (SGPoint.getNormal ⟨0, 1⟩).dot ⟨0, 0⟩ + SGEnv.defaults.ICTOL) :=
  C3_intersectRaySegment_halfplane SGEnv.defaults (by norm_num [SGEnv.defaults])
    (by norm_num [SGEnv.defaults]) ⟨0, 0⟩ ⟨0, 1⟩ ⟨-1, 0⟩ ⟨1, 2⟩ ⟨-1, 0⟩
    (by norm_num [intersectRaySegment, SGEnv.defaults, SGPoint.getNormal, SGPoint.dot,
      SGPoint.add, SGPoint.smul])

/-! ## Running maxima -/

/-- The loop `if (candidate > best) best = candidate` over a list of candidates: the result
is the start value or one of the candidates, and it bounds the start value and every
candidate. -/
theorem foldl_aboveBest (f : Nat → ℚ) (l : List Nat) (init : Option ℚ) :
    let r := l.foldl (fun m d => if aboveBest (f d) m then some (f d) else m) init
    (r = init ∨ ∃ d ∈ l, r = some (f d)) ∧
    (∀ v, init = some v → ∃ w, r = some w ∧ v ≤ w) ∧
    (∀ d ∈ l, ∃ w, r = some w ∧ f d ≤ w) := by
  induction l generalizing init with
  | nil =>
    refine ⟨Or.inl rfl, fun v hv => ⟨v, hv, le_refl v⟩, ?_⟩
    intro d hd
    simp at hd
  | cons a l ih =>
    simp only [List.foldl_cons]
    obtain ⟨h1, h2, h3⟩ := ih (if aboveBest (f a) init then some (f a) else init)
    refine ⟨?_, ?_, ?_⟩
    · rcases h1 with h1 | ⟨d, hd, h1⟩
      · by_cases hab : aboveBest (f a) init = true
        · right
          refine ⟨a, List.mem_cons_self _ _, ?_⟩
          rw [h1, if_pos hab]
        · left
          rw [h1, if_neg hab]
      · exact Or.inr ⟨d, List.mem_cons_of_mem _ hd, h1⟩
    · intro v hv
      subst hv
      by_cases hab : aboveBest (f a) (some v) = true
      · obtain ⟨w, hw, hle⟩ := h2 (f a) (by rw [if_pos hab])
        refine ⟨w, hw, le_trans ?_ hle⟩
        simp only [aboveBest, decide_eq_true_eq] at hab
        exact le_of_lt hab
      · exact h2 v (by rw [if_neg hab])
    · intro d hd
      rcases List.mem_cons.mp hd with rfl | hd
      · by_cases hab : aboveBest (f d) init = true
        · exact h2 (f d) (by rw [if_pos hab])
        · cases init with
          | none => simp [aboveBest] at hab
          | some v =>
            obtain ⟨w, hw, hle⟩ := h2 v (by rw [if_neg hab])
            refine ⟨w, hw, le_trans ?_ hle⟩
            simp only [aboveBest, decide_eq_true_eq] at hab
            exact not_lt.mp hab
      · exact h3 d hd

/-- A joint action index below the number of profiles leaves every player at least one
action. -/
theorem pos_of_lt_prod (sizes : List Nat) (action player : Nat) (ha : action < sizes.prod)
    (hp : player < sizes.length) : 0 < rd sizes player := by
  have hmem : rd sizes player ∈ sizes := by
    simp only [rd, List.getD_eq_getElem?_getD, List.getElem?_eq_getElem hp, Option.getD_some]
    exact List.getElem_mem hp
  rcases Nat.eq_zero_or_pos (rd sizes player) with h0 | hpos
  · rw [h0] at hmem
    rw [List.prod_eq_zero hmem] at ha
    exact absurd ha (Nat.not_lt_zero _)
  · exact hpos

/-! ## Claim on `calculateMinIC` -/

/-- C1: for a game with discount `δ ∈ (0,1)`, a state `s`, a player `i` of the state and an
action profile `a < N_s = ∏ numActions[s]`, the static `calculateMinIC` returns the maximum
over the deviations `d ∈ [0, numActions[s][i])` of
`(1−δ)/δ · (payoffs[s][a'][i] − payoffs[s][a][i]) + Σ_{s'} probabilities[s][a'][s'] ·
threatTuple[s'][i]`, where `a'` is the profile of `a` with player `i`'s component replaced by
`d`: the value is attained at some deviation and bounds the gain of every deviation. -/
theorem C1_calculateMinIC_max (game : SGGame) (action state player : Nat)
    (threatTuple : SGTuple) (_hδ0 : 0 < game.delta) (_hδ1 : game.delta < 1)
    (hplayer : player < (rd game.numActions state).length)
    (haction : action < (rd game.numActions state).prod) :
    (∃ d, d < rd (rd game.numActions state) player ∧
      calculateMinIC game action state player threatTuple =
        (1 - game.delta) / game.delta
          * ((rd (rd game.payoffs state)
                (vectorToIndex ((indexToVector action (rd game.numActions state)).set player d)
                  (rd game.numActions state))).coord player
              - (rd (rd game.payoffs state) action).coord player)
        + ((List.range threatTuple.length).map (fun s' =>
            rd (rd (rd game.probabilities state)
                (vectorToIndex ((indexToVector action (rd game.numActions state)).set player d)
                  (rd game.numActions state))) s'
              * (rd threatTuple s').coord player)).sum) ∧
    ∀ d, d < rd (rd game.numActions state) player →
      (1 - game.delta) / game.delta
          * ((rd (rd game.payoffs state)
                (vectorToIndex ((indexToVector action (rd game.numActions state)).set player d)
                  (rd game.numActions state))).coord player
              - (rd (rd game.payoffs state) action).coord player)
        + ((List.range threatTuple.length).map (fun s' =>
            rd (rd (rd game.probabilities state)
                (vectorToIndex ((indexToVector action (rd game.numActions state)).set player d)
                  (rd game.numActions state))) s'
              * (rd threatTuple s').coord player)).sum
        ≤ calculateMinIC game action state player threatTuple := by
  have hpos := pos_of_lt_prod _ action player haction hplayer
  obtain ⟨h1, -, h3⟩ := foldl_aboveBest (currentGains game action state player threatTuple)
    (List.range (rd (rd game.numActions state) player)) none
  obtain ⟨w, hw, -⟩ := h3 0 (List.mem_range.mpr hpos)
  have hval : calculateMinIC game action state player threatTuple = w := by
    simp only [calculateMinIC]
    rw [hw]
    rfl
  refine ⟨?_, ?_⟩
  · rcases h1 with h1 | ⟨d, hd, h1⟩
    · rw [hw] at h1
      exact absurd h1 (by simp)
    · refine ⟨d, List.mem_range.mp hd, ?_⟩
      rw [hval]
      rw [hw] at h1
      exact Option.some.inj h1
  · intro d hd
    obtain ⟨w', hw', hle⟩ := h3 d (List.mem_range.mpr hd)
    rw [hw] at hw'
    rw [hval, Option.some.inj hw']
    exact hle

/-- Witness of C1: the prisoner's dilemma, state 0, the profile 0 (both cooperate), player 0
and the threat tuple `(1, 1)`. -/
theorem C1_calculateMinIC_max_witness :
    (∃ d, d < rd (rd prisonersDilemma.numActions 0) 0 ∧
      calculateMinIC prisonersDilemma 0 0 0 pdThreat =
        (1 - prisonersDilemma.delta) / prisonersDilemma.delta
          * ((rd (rd prisonersDilemma.payoffs 0)
                (vectorToIndex ((indexToVector 0 (rd prisonersDilemma.numActions 0)).set 0 d)
                  (rd prisonersDilemma.numActions 0))).coord 0
              - (rd (rd prisonersDilemma.payoffs 0) 0).coord 0)
        + ((List.range pdThreat.length).map (fun s' =>
            rd (rd (rd prisonersDilemma.probabilities 0)
                (vectorToIndex ((indexToVector 0 (rd prisonersDilemma.numActions 0)).set 0 d)
                  (rd prisonersDilemma.numActions 0))) s'
              * (rd pdThreat s').coord 0)).sum) ∧
    ∀ d, d < rd (rd prisonersDilemma.numActions 0) 0 →
      (1 - prisonersDilemma.delta) / prisonersDilemma.delta
          * ((rd (rd prisonersDilemma.payoffs 0)
                (vectorToIndex ((indexToVector 0 (rd prisonersDilemma.numActions 0)).set 0 d)
                  (rd prisonersDilemma.numActions 0))).coord 0
              - (rd (rd prisonersDilemma.payoffs 0) 0).coord 0)
        + ((List.range pdThreat.length).map (fun s' =>
            rd (rd (rd prisonersDilemma.probabilities 0)
                (vectorToIndex ((indexToVector 0 (rd prisonersDilemma.numActions 0)).set 0 d)
                  (rd prisonersDilemma.numActions 0))) s'
              * (rd pdThreat s').coord 0)).sum
        ≤ calculateMinIC prisonersDilemma 0 0 0 pdThreat :=
  C1_calculateMinIC_max prisonersDilemma 0 0 0 pdThreat (by norm_num [prisonersDilemma])
    (by norm_num [prisonersDilemma]) (by simp [prisonersDilemma, rd])
    (by simp [prisonersDilemma, rd])

/-! ## Reads and writes of vectors -/

theorem rd_set_eq {α : Type} [Inhabited α] (l : List α) (i : Nat) (v : α)
    (h : i < l.length) : rd (l.set i v) i = v := by
  simp [rd, List.getD_eq_getElem?_getD, List.getElem?_set, h]

theorem rd_set_ne {α : Type} [Inhabited α] (l : List α) (i j : Nat) (v : α) (h : i ≠ j) :
    rd (l.set i v) j = rd l j := by
  simp [rd, List.getD_eq_getElem?_getD, List.getElem?_set, h]

theorem rd_pair_zero {α : Type} [Inhabited α] (a b : α) : rd [a, b] 0 = a := rfl

theorem rd_pair_one {α : Type} [Inhabited α] (a b : α) : rd [a, b] 1 = b := rfl

theorem rd_of_lt_mem {α : Type} [Inhabited α] (l : List α) (i : Nat) (h : i < l.length) :
    rd l i ∈ l := by
  simp only [rd, List.getD_eq_getElem?_getD, List.getElem?_eq_getElem h, Option.getD_some]
  exact List.getElem_mem h

/-- A list of length two is a pair of its two reads. -/
theorem eq_pair_of_length {α : Type} [Inhabited α] (l : List α) (h : l.length = 2) :
    l = [rd l 0, rd l 1] := by
  match l, h with
  | [a, b], _ => rfl

/-! ## The shape of a clipped segment -/

/-- The clip of a two-point segment is empty, or its two points are the two input points
with one of them possibly replaced by a point of the closed segment between them. -/
theorem intersectRaySegment_shape (env : SGEnv) (pivot direction a b : SGPoint) :
    intersectRaySegment env pivot direction [a, b] = [] ∨
    ∃ w0 w1 : ℚ, 0 ≤ w0 ∧ w0 ≤ w1 ∧ w1 ≤ 1 ∧
      intersectRaySegment env pivot direction [a, b] =
        [(SGPoint.smul w0 b).add (SGPoint.smul (1 - w0) a),
         (SGPoint.smul w1 b).add (SGPoint.smul (1 - w1) a)] := by
  simp only [intersectRaySegment]
  split_ifs with h1 h2 h3 h4 h5 h6
  · exact Or.inl rfl
  · exact Or.inr ⟨0, 1, le_refl _, zero_le_one, le_refl _, by
      rw [SGPoint.comb_zero, SGPoint.comb_one]⟩
  · exact Or.inr ⟨1, 1, zero_le_one, le_refl _, le_refl _, by
      rw [SGPoint.comb_one]⟩
  · exact Or.inr ⟨0, 0, le_refl _, le_refl _, zero_le_one, by
      rw [SGPoint.comb_zero]⟩
  · exact Or.inr ⟨0, _, le_refl _, not_lt.mp h5, not_lt.mp h4, by
      rw [SGPoint.comb_zero]⟩
  · exact Or.inr ⟨_, 1, not_lt.mp h5, not_lt.mp h4, le_refl _, by
      rw [SGPoint.comb_one]⟩
  · exact Or.inr ⟨0, 1, le_refl _, zero_le_one, le_refl _, by
      rw [SGPoint.comb_zero, SGPoint.comb_one]⟩

theorem SGPoint.coord_comb (a b : SGPoint) (w : ℚ) (i : Nat) :
    ((SGPoint.smul w b).add (SGPoint.smul (1 - w) a)).coord i =
      w * b.coord i + (1 - w) * a.coord i := by
  simp only [SGPoint.coord, SGPoint.add, SGPoint.smul]
  split_ifs <;> rfl

/-- A coordinate of a point of the closed segment lies between the coordinates of its ends. -/
theorem SGPoint.coord_comb_between (a b : SGPoint) (w : ℚ) (i : Nat) (h0 : 0 ≤ w)
    (h1 : w ≤ 1) (hab : b.coord i ≤ a.coord i) :
    b.coord i ≤ ((SGPoint.smul w b).add (SGPoint.smul (1 - w) a)).coord i ∧
    ((SGPoint.smul w b).add (SGPoint.smul (1 - w) a)).coord i ≤ a.coord i := by
  rw [SGPoint.coord_comb]
  constructor
  · nlinarith
  · nlinarith

/-- A coordinate of a point of the closed segment is at least a common lower bound of the
coordinates of its ends. -/
theorem SGPoint.coord_comb_ge (a b : SGPoint) (w c : ℚ) (i : Nat) (h0 : 0 ≤ w) (h1 : w ≤ 1)
    (ha : c ≤ a.coord i) (hb : c ≤ b.coord i) :
    c ≤ ((SGPoint.smul w b).add (SGPoint.smul (1 - w) a)).coord i := by
  rw [SGPoint.coord_comb]
  nlinarith

/-- The clip keeps a two-point segment ordered in a coordinate in which it was ordered. -/
theorem intersectRaySegment_ordered (env : SGEnv) (pivot direction a b : SGPoint) (j : Nat)
    (tol : ℚ) (htol : 0 ≤ tol) (hab : b.coord j ≤ a.coord j) :
    (intersectRaySegment env pivot direction [a, b]).length = 0 ∨
    ((intersectRaySegment env pivot direction [a, b]).length = 2 ∧
      (rd (intersectRaySegment env pivot direction [a, b]) 0).coord j ≥
        (rd (intersectRaySegment env pivot direction [a, b]) 1).coord j - tol) := by
  rcases intersectRaySegment_shape env pivot direction a b with h | ⟨w0, w1, h0, h01, h1, h⟩
  · left
    rw [h]
    rfl
  · right
    rw [h]
    refine ⟨rfl, ?_⟩
    rw [rd_pair_zero, rd_pair_one, SGPoint.coord_comb, SGPoint.coord_comb]
    nlinarith

/-! ## `maxmin` -/

theorem DBL_MAX_pos : 0 < DBL_MAX := by
  have h : (2 : ℚ) ^ 1024 = 2 ^ 971 * 2 ^ 53 := by rw [← pow_add]
  have h2 : (1 : ℚ) < 2 ^ 53 := by norm_num
  have h3 : (0 : ℚ) < 2 ^ 971 := by positivity
  simp only [DBL_MAX]
  rw [h]
  nlinarith

/-- The scan of `maxmin` over the first `n` points: nothing found when `n = 0`, and otherwise
a maximum and a minimum that are attained at indices below `n` and bound every point below
`n`. -/
theorem maxmin_scan (t : SGTuple) (j n : Nat) :
    (n = 0 ∧ (List.range n).foldl (SGTuple.maxminStep t j) (none, none) = (none, none)) ∨
    ∃ vM iM vm im, (List.range n).foldl (SGTuple.maxminStep t j) (none, none) =
        (some (vM, iM), some (vm, im)) ∧
      iM < n ∧ im < n ∧ vM = (rd t iM).coord j ∧ vm = (rd t im).coord j ∧
      ∀ k, k < n → vm ≤ (rd t k).coord j ∧ (rd t k).coord j ≤ vM := by
  induction n with
  | zero => exact Or.inl ⟨rfl, rfl⟩
  | succ n ih =>
    right
    rw [List.range_succ, List.foldl_append, List.foldl_cons, List.foldl_nil]
    rcases ih with ⟨hn, h⟩ | ⟨vM, iM, vm, im, h, hiM, him, hvM, hvm, hall⟩
    · rw [h]
      subst hn
      refine ⟨(rd t 0).coord j, 0, (rd t 0).coord j, 0, rfl, Nat.zero_lt_one, Nat.zero_lt_one,
        rfl, rfl, ?_⟩
      intro k hk
      have : k = 0 := by omega
      subst this
      exact ⟨le_refl _, le_refl _⟩
    · rw [h]
      have hmM : vm ≤ vM := le_trans (hall iM hiM).1 (le_of_eq hvM.symm)
      simp only [SGTuple.maxminStep]
      by_cases h1 : vM < (rd t n).coord j
      · rw [if_pos h1]
        have h2 : ¬ (rd t n).coord j < vm := by
          intro hc
          linarith
        rw [if_neg h2]
        refine ⟨_, n, vm, im, rfl, Nat.lt_succ_self n, Nat.lt_succ_of_lt him, rfl, hvm, ?_⟩
        intro k hk
        rcases Nat.lt_succ_iff_lt_or_eq.mp hk with hk | rfl
        · exact ⟨(hall k hk).1, le_trans (hall k hk).2 (le_of_lt h1)⟩
        · exact ⟨not_lt.mp h2, le_refl _⟩
      · rw [if_neg h1]
        by_cases h2 : (rd t n).coord j < vm
        · rw [if_pos h2]
          refine ⟨vM, iM, _, n, rfl, Nat.lt_succ_of_lt hiM, Nat.lt_succ_self n, hvM, rfl, ?_⟩
          intro k hk
          rcases Nat.lt_succ_iff_lt_or_eq.mp hk with hk | rfl
          · exact ⟨le_trans (le_of_lt h2) (hall k hk).1, (hall k hk).2⟩
          · exact ⟨le_refl _, not_lt.mp h1⟩
        · rw [if_neg h2]
          refine ⟨vM, iM, vm, im, rfl, Nat.lt_succ_of_lt hiM, Nat.lt_succ_of_lt him, hvM, hvm,
            ?_⟩
          intro k hk
          rcases Nat.lt_succ_iff_lt_or_eq.mp hk with hk | rfl
          · exact hall k hk
          · exact ⟨not_lt.mp h2, not_lt.mp h1⟩

/-- What `maxmin` returns: on an empty tuple the sentinels and index 0; otherwise the
extreme values, attained at the returned indices, which are indices of the tuple. -/
theorem maxmin_spec (t : SGTuple) (j : Nat) :
    (t = [] ∧ SGTuple.maxmin t j = (-DBL_MAX, 0, DBL_MAX, 0)) ∨
    (t ≠ [] ∧ (SGTuple.maxmin t j).2.1 < t.length ∧ (SGTuple.maxmin t j).2.2.2 < t.length ∧
      (SGTuple.maxmin t j).1 = (rd t (SGTuple.maxmin t j).2.1).coord j ∧
      (SGTuple.maxmin t j).2.2.1 = (rd t (SGTuple.maxmin t j).2.2.2).coord j ∧
      ∀ k, k < t.length → (SGTuple.maxmin t j).2.2.1 ≤ (rd t k).coord j ∧
        (rd t k).coord j ≤ (SGTuple.maxmin t j).1) := by
  rcases maxmin_scan t j t.length with ⟨hn, h⟩ | ⟨vM, iM, vm, im, h, hiM, him, hvM, hvm, hall⟩
  · left
    have ht : t = [] := List.length_eq_zero.mp hn
    subst ht
    exact ⟨rfl, rfl⟩
  · right
    have ht : t ≠ [] := by
      intro hc
      subst hc
      exact absurd hiM (Nat.not_lt_zero _)
    simp only [SGTuple.maxmin]
    rw [h]
    exact ⟨ht, hiM, him, hvM, hvm, hall⟩

/-! ## The two loops of `calculateBindingContinuations`, player by player -/

theorem intersectRaySegmentPlayer_points (env : SGEnv) (a : SGAction_PencilSharpening)
    (pivot direction : SGPoint) (player : Nat) :
    (a.intersectRaySegmentPlayer env pivot direction player).points =
      a.points.set player (intersectRaySegment env pivot direction (rd a.points player)) := by
  simp only [SGAction_PencilSharpening.intersectRaySegmentPlayer]
  split_ifs <;> rfl

theorem intersectRaySegmentPlayer_tuples (env : SGEnv) (a : SGAction_PencilSharpening)
    (pivot direction : SGPoint) (player : Nat) (hp : player < a.points.length) :
    (a.intersectRaySegmentPlayer env pivot direction player).tuples =
      if (intersectRaySegment env pivot direction (rd a.points player)).length = 0 then
        a.tuples.set player []
      else a.tuples := by
  simp only [SGAction_PencilSharpening.intersectRaySegmentPlayer, rd_set_eq _ _ _ hp]
  split_ifs <;> rfl

theorem intersectRaySegmentPlayer_minIC (env : SGEnv) (a : SGAction_PencilSharpening)
    (pivot direction : SGPoint) (player : Nat) :
    (a.intersectRaySegmentPlayer env pivot direction player).minIC = a.minIC := by
  simp only [SGAction_PencilSharpening.intersectRaySegmentPlayer]
  split_ifs <;> rfl

/-- The second loop leaves the number of players of `points` and `tuples`, and `minIC`, as
they are, and writes only the entries of its own player. -/
theorem selectPlayer_frame (env : SGEnv) (updatedThreatTuple : List Bool) (game : SGGame)
    (extremeTuples : List SGTuple) (threatTuple pivot : SGTuple) (currentDirection : SGPoint)
    (oldWest : Nat) (a : SGAction_PencilSharpening) (player : Nat) :
    (selectPlayer env updatedThreatTuple game extremeTuples threatTuple pivot currentDirection
        oldWest a player).points.length = a.points.length ∧
    (selectPlayer env updatedThreatTuple game extremeTuples threatTuple pivot currentDirection
        oldWest a player).tuples.length = a.tuples.length ∧
    (selectPlayer env updatedThreatTuple game extremeTuples threatTuple pivot currentDirection
        oldWest a player).minIC = a.minIC ∧
    ∀ q, q ≠ player →
      rd (selectPlayer env updatedThreatTuple game extremeTuples threatTuple pivot
          currentDirection oldWest a player).points q = rd a.points q ∧
      rd (selectPlayer env updatedThreatTuple game extremeTuples threatTuple pivot
          currentDirection oldWest a player).tuples q = rd a.tuples q := by
  simp only [selectPlayer]
  split_ifs <;>
    simp only [SGAction_PencilSharpening.intersectRaySegmentPlayer] <;>
    (try split_ifs) <;>
    simp only [List.length_set, true_and] <;>
    intro q hq <;>
    simp only [rd_set_ne _ _ _ _ (Ne.symm hq), and_self]

theorem clearPlayer_frame (updatedThreatTuple : List Bool) (game : SGGame)
    (a : SGAction_PencilSharpening) (player : Nat) :
    (clearPlayer updatedThreatTuple game a player).points.length = a.points.length ∧
    (clearPlayer updatedThreatTuple game a player).tuples.length = a.tuples.length ∧
    (clearPlayer updatedThreatTuple game a player).minIC = a.minIC ∧
    ∀ q, q ≠ player →
      rd (clearPlayer updatedThreatTuple game a player).points q = rd a.points q ∧
      rd (clearPlayer updatedThreatTuple game a player).tuples q = rd a.tuples q := by
  simp only [clearPlayer]
  split_ifs <;>
    simp only [List.length_set, true_and] <;>
    intro q hq <;>
    simp only [rd_set_ne _ _ _ _ (Ne.symm hq), and_self]

/-- The first loop on its own player: cleared when recomputed, untouched otherwise. -/
theorem clearPlayer_own (updatedThreatTuple : List Bool) (game : SGGame)
    (a : SGAction_PencilSharpening) (player : Nat) (hp : player < a.points.length)
    (ht : player < a.tuples.length) :
    (recomputed updatedThreatTuple game player = true →
      rd (clearPlayer updatedThreatTuple game a player).points player = [] ∧
      rd (clearPlayer updatedThreatTuple game a player).tuples player = []) ∧
    (recomputed updatedThreatTuple game player = false →
      clearPlayer updatedThreatTuple game a player = a) := by
  simp only [clearPlayer]
  constructor
  · intro h
    rw [if_pos h]
    exact ⟨rd_set_eq _ _ _ hp, rd_set_eq _ _ _ ht⟩
  · intro h
    rw [if_neg (by simp [h])]

/-- The second loop on a recomputed player whose entries were cleared by the first loop:
either the best candidate fails the other player's constraint and the action is left as it
is, or the entries of the player are the clip of the selected pair and its tuple indices. -/
theorem selectPlayer_recomputed (env : SGEnv) (updatedThreatTuple : List Bool) (game : SGGame)
    (extremeTuples : List SGTuple) (threatTuple pivot : SGTuple) (currentDirection : SGPoint)
    (oldWest : Nat) (a : SGAction_PencilSharpening) (player : Nat)
    (hrec : recomputed updatedThreatTuple game player = true)
    (hp : player < a.points.length) (ht : player < a.tuples.length)
    (hpe : rd a.points player = []) (hte : rd a.tuples player = []) :
    (¬ (SGTuple.maxmin (collectCandidates env game a extremeTuples threatTuple oldWest
          player).1 (1 - player)).1 ≥ a.minIC.coord (1 - player) ∧
      selectPlayer env updatedThreatTuple game extremeTuples threatTuple pivot
        currentDirection oldWest a player = a) ∨
    ((SGTuple.maxmin (collectCandidates env game a extremeTuples threatTuple oldWest
          player).1 (1 - player)).1 ≥ a.minIC.coord (1 - player) ∧
      rd (selectPlayer env updatedThreatTuple game extremeTuples threatTuple pivot
          currentDirection oldWest a player).points player =
        intersectRaySegment env
          (SGTuple.expectation pivot (rd (rd game.probabilities a.state) a.action))
          currentDirection
          [rd (collectCandidates env game a extremeTuples threatTuple oldWest player).1
              (SGTuple.maxmin (collectCandidates env game a extremeTuples threatTuple oldWest
                player).1 (1 - player)).2.1,
            if (SGTuple.maxmin (collectCandidates env game a extremeTuples threatTuple oldWest
                player).1 (1 - player)).2.2.1 < a.minIC.coord (1 - player) then a.minIC
            else rd (collectCandidates env game a extremeTuples threatTuple oldWest player).1
              (SGTuple.maxmin (collectCandidates env game a extremeTuples threatTuple oldWest
                player).1 (1 - player)).2.2.2] ∧
      rd (selectPlayer env updatedThreatTuple game extremeTuples threatTuple pivot
          currentDirection oldWest a player).tuples player =
        if (rd (selectPlayer env updatedThreatTuple game extremeTuples threatTuple pivot
            currentDirection oldWest a player).points player).length = 0 then []
        else
          [rd (collectCandidates env game a extremeTuples threatTuple oldWest player).2
              (SGTuple.maxmin (collectCandidates env game a extremeTuples threatTuple oldWest
                player).1 (1 - player)).2.1,
            if (SGTuple.maxmin (collectCandidates env game a extremeTuples threatTuple oldWest
                player).1 (1 - player)).2.2.1 < a.minIC.coord (1 - player) then -1
            else rd (collectCandidates env game a extremeTuples threatTuple oldWest player).2
              (SGTuple.maxmin (collectCandidates env game a extremeTuples threatTuple oldWest
                player).1 (1 - player)).2.2.2]) := by
  generalize hc : collectCandidates env game a extremeTuples threatTuple oldWest player = cand
  generalize hm : SGTuple.maxmin cand.1 (1 - player) = mm
  by_cases hg : mm.1 ≥ a.minIC.coord (1 - player)
  swap
  · left
    refine ⟨hg, ?_⟩
    simp only [selectPlayer, hrec, if_true, hc, hm, if_neg hg]
  right
  refine ⟨hg, ?_⟩
  have hp1 : ∀ X : SGTuple, player < (a.points.set player X).length := fun X => by
    rw [List.length_set]
    exact hp
  have ht1 : ∀ X : List Int, player < (a.tuples.set player X).length := fun X => by
    rw [List.length_set]
    exact ht
  by_cases hcorner : mm.2.2.1 < a.minIC.coord (1 - player)
  · simp only [selectPlayer, hrec, if_true, hc, hm, if_pos hg, if_pos hcorner, hpe, hte,
      List.nil_append, intersectRaySegmentPlayer_points]
    simp only [rd_set_eq _ _ _ hp, rd_set_eq _ _ _ (hp1 _), List.set_set, List.singleton_append,
      true_and]
    rw [intersectRaySegmentPlayer_tuples _ _ _ _ _ (by simpa using hp)]
    simp only [rd_set_eq _ _ _ ht, rd_set_eq _ _ _ (ht1 _), rd_set_eq _ _ _ hp, List.set_set,
      List.singleton_append]
    split_ifs with h0
    · exact rd_set_eq _ _ _ ht
    · exact rd_set_eq _ _ _ ht
  · simp only [selectPlayer, hrec, if_true, hc, hm, if_pos hg, if_neg hcorner, hpe, hte,
      List.nil_append, intersectRaySegmentPlayer_points]
    simp only [rd_set_eq _ _ _ hp, rd_set_eq _ _ _ (hp1 _), List.set_set, List.singleton_append,
      true_and]
    rw [intersectRaySegmentPlayer_tuples _ _ _ _ _ (by simpa using hp)]
    simp only [rd_set_eq _ _ _ ht, rd_set_eq _ _ _ (ht1 _), rd_set_eq _ _ _ hp, List.set_set,
      List.singleton_append]
    split_ifs with h0
    · exact rd_set_eq _ _ _ ht
    · exact rd_set_eq _ _ _ ht

/-- The pair selected for a recomputed player is ordered in the other player's coordinate. -/
theorem selected_pair_ordered (t : SGTuple) (j : Nat) (minIC : SGPoint)
    (hg : (SGTuple.maxmin t j).1 ≥ minIC.coord j) :
    (if (SGTuple.maxmin t j).2.2.1 < minIC.coord j then minIC
      else rd t (SGTuple.maxmin t j).2.2.2).coord j
      ≤ (rd t (SGTuple.maxmin t j).2.1).coord j := by
  rcases maxmin_spec t j with ⟨ht, hmm⟩ | ⟨_, hiM, _, hM, hm, hall⟩
  · subst ht
    rw [hmm] at hg ⊢
    have hpos := DBL_MAX_pos
    have h0 : (rd ([] : SGTuple) 0).coord j = 0 := by
      simp [rd, SGPoint.coord, default]
    split_ifs with hc
    · rw [h0]
      simp only [ge_iff_le] at hg
      linarith
    · exact le_refl _
  · split_ifs with hc
    · rw [← hM]
      exact hg
    · rw [← hm, ← hM]
      exact le_trans (hall _ hiM).1 (hall _ hiM).2

/-- The second loop establishes the closing assertions for its own player, given that the
player's entries were cleared if the player is recomputed and satisfied the assertions
before otherwise. -/
theorem selectPlayer_invariant (env : SGEnv) (hP : 0 ≤ env.PASTTHREATTOL)
    (updatedThreatTuple : List Bool) (game : SGGame)
    (extremeTuples : List SGTuple) (threatTuple pivot : SGTuple) (currentDirection : SGPoint)
    (oldWest : Nat) (a : SGAction_PencilSharpening) (player : Nat)
    (hp : player < a.points.length) (ht : player < a.tuples.length)
    (hrec : recomputed updatedThreatTuple game player = true →
      rd a.points player = [] ∧ rd a.tuples player = [])
    (hinv : recomputed updatedThreatTuple game player = false → segmentInvariant env a player) :
    segmentInvariant env
      (selectPlayer env updatedThreatTuple game extremeTuples threatTuple pivot
        currentDirection oldWest a player) player := by
  by_cases hr : recomputed updatedThreatTuple game player = true
  · obtain ⟨hpe, hte⟩ := hrec hr
    rcases selectPlayer_recomputed env updatedThreatTuple game extremeTuples threatTuple pivot
      currentDirection oldWest a player hr hp ht hpe hte with ⟨_, h⟩ | ⟨hg, hpts, htup⟩
    · rw [h]
      simp only [segmentInvariant, hpe, hte, List.length_nil, true_or, and_self]
    · have hord := intersectRaySegment_ordered env
        (SGTuple.expectation pivot (rd (rd game.probabilities a.state) a.action))
        currentDirection _ _ (1 - player) env.PASTTHREATTOL hP
        (selected_pair_ordered _ (1 - player) a.minIC hg)
      rw [← hpts] at hord
      refine ⟨hord, ?_⟩
      rw [htup]
      rcases hord with h0 | ⟨h2, _⟩
      · rw [if_pos h0, h0]
        rfl
      · rw [if_neg (by omega), h2]
        rfl
  · have hr' : recomputed updatedThreatTuple game player = false := by
      simpa using hr
    obtain ⟨hlen, htl⟩ := hinv hr'
    simp only [selectPlayer, hr', Bool.false_eq_true, if_false]
    split_ifs with h1 h2 h3
    · have hpos : (rd a.points player).length > 0 := by
        simp only [Bool.and_eq_true, decide_eq_true_eq] at h1
        exact h1.2
      have h2len : (rd a.points player).length = 2 := by
        rcases hlen with h | ⟨h, _⟩
        · omega
        · exact h
      have hs1 : ((rd a.points player).set 1 a.minIC).length = 2 := by
        rw [List.length_set]
        exact h2len
      have hr0 : rd ((rd a.points player).set 1 a.minIC) 0 = rd (rd a.points player) 0 :=
        rd_set_ne _ _ _ _ (by decide)
      have hr1 : rd ((rd a.points player).set 1 a.minIC) 1 = a.minIC :=
        rd_set_eq _ _ _ (by omega)
      simp only [segmentInvariant, rd_set_eq _ _ _ hp, rd_set_eq _ _ _ ht, List.length_set,
        hr0, hr1, hs1, htl, h2len, and_true, true_and]
      right
      simp only [ge_iff_le] at h2 ⊢
      linarith
    · exact ⟨hlen, htl⟩
    · simp only [segmentInvariant, rd_set_eq _ _ _ hp, rd_set_eq _ _ _ ht, List.length_nil,
        true_or, and_self]
    · exact ⟨hlen, htl⟩

/-! ## Claim on the closing assertions of `calculateBindingContinuations` -/

/-- C4: for every call of `calculateBindingContinuations` (tolerance `PASTTHREATTOL ≥ 0`,
non-empty history, `oldWest < |extremeTuples|`) on an action with one `points` and one
`tuples` entry per player that satisfies the closing assertions beforehand, the closing
assertions hold on exit: for each player `i`, `points[i]` has 0 or 2 points; when it has 2,
`points[i][0][1−i] ≥ points[i][1][1−i] − PASTTHREATTOL`; and `tuples[i]` has the length of
`points[i]`.  (A recomputed player without any candidate passes the test
`maxOtherPayoff >= minIC[1-player]` only when `minIC[1−i]` is not above the sentinel
`-DBL_MAX`; the code then reads `newPoints[player]` at an index it never set, and the
statement covers that run with the default point read there.) -/
theorem C4_calculateBindingContinuations_assertions (env : SGEnv)
    (hP : 0 ≤ env.PASTTHREATTOL) (updatedThreatTuple : List Bool) (game : SGGame)
    (extremeTuples : List SGTuple) (threatTuple pivot : SGTuple) (currentDirection : SGPoint)
    (oldWest : Nat) (a : SGAction_PencilSharpening)
    (_hhist : extremeTuples ≠ []) (_hwest : oldWest < extremeTuples.length)
    (hpl : a.points.length = 2) (htl : a.tuples.length = 2)
    (hinv : ∀ player, player < 2 → segmentInvariant env a player) :
    ∀ player, player < 2 →
      segmentInvariant env
        (calculateBindingContinuations env updatedThreatTuple game extremeTuples threatTuple
          pivot currentDirection oldWest a) player := by
  simp only [calculateBindingContinuations, List.foldl_cons, List.foldl_nil]
  -- the first loop
  obtain ⟨c0p, c0t, -, c0f⟩ := clearPlayer_frame updatedThreatTuple game a 0
  obtain ⟨c0r, c0n⟩ := clearPlayer_own updatedThreatTuple game a 0 (by omega) (by omega)
  generalize clearPlayer updatedThreatTuple game a 0 = a1 at *
  obtain ⟨c1p, c1t, -, c1f⟩ := clearPlayer_frame updatedThreatTuple game a1 1
  obtain ⟨c1r, c1n⟩ := clearPlayer_own updatedThreatTuple game a1 1 (by omega) (by omega)
  generalize clearPlayer updatedThreatTuple game a1 1 = a2 at *
  -- the state of the two players after the first loop
  have h0r : recomputed updatedThreatTuple game 0 = true →
      rd a2.points 0 = [] ∧ rd a2.tuples 0 = [] := by
    intro h
    rw [(c1f 0 (by decide)).1, (c1f 0 (by decide)).2]
    exact c0r h
  have h0n : recomputed updatedThreatTuple game 0 = false → segmentInvariant env a2 0 := by
    intro h
    have := hinv 0 (by decide)
    simp only [segmentInvariant] at this ⊢
    rw [(c1f 0 (by decide)).1, (c1f 0 (by decide)).2, c0n h]
    exact this
  have h1r : recomputed updatedThreatTuple game 1 = true →
      rd a2.points 1 = [] ∧ rd a2.tuples 1 = [] := c1r
  have h1n : recomputed updatedThreatTuple game 1 = false → segmentInvariant env a2 1 := by
    intro h
    have := hinv 1 (by decide)
    simp only [segmentInvariant] at this ⊢
    rw [c1n h, (c0f 1 (by decide)).1, (c0f 1 (by decide)).2]
    exact this
  -- the second loop
  have s0 := selectPlayer_invariant env hP updatedThreatTuple game extremeTuples threatTuple
    pivot currentDirection oldWest a2 0 (by omega) (by omega) h0r h0n
  obtain ⟨s0p, s0t, -, s0f⟩ := selectPlayer_frame env updatedThreatTuple game extremeTuples
    threatTuple pivot currentDirection oldWest a2 0
  generalize selectPlayer env updatedThreatTuple game extremeTuples threatTuple pivot
    currentDirection oldWest a2 0 = a3 at *
  have s1 := selectPlayer_invariant env hP updatedThreatTuple game extremeTuples threatTuple
    pivot currentDirection oldWest a3 1 (by omega) (by omega)
    (by
      intro h
      rw [(s0f 1 (by decide)).1, (s0f 1 (by decide)).2]
      exact h1r h)
    (by
      intro h
      have := h1n h
      simp only [segmentInvariant] at this ⊢
      rw [(s0f 1 (by decide)).1, (s0f 1 (by decide)).2]
      exact this)
  obtain ⟨-, -, -, s1f⟩ := selectPlayer_frame env updatedThreatTuple game extremeTuples
    threatTuple pivot currentDirection oldWest a3 1
  intro player hplayer
  have hcases : player = 0 ∨ player = 1 := by omega
  rcases hcases with rfl | rfl
  · simp only [segmentInvariant] at s0 ⊢
    rw [(s1f 0 (by decide)).1, (s1f 0 (by decide)).2]
    exact s0
  · exact s1

/-- Witness of C4: the default tolerances, a two-tuple history, and an action with empty
binding sets; the closing assertions hold for player 0 on exit. -/
theorem C4_calculateBindingContinuations_assertions_witness :
    segmentInvariant SGEnv.defaults
      (calculateBindingContinuations SGEnv.defaults [true, false] flatGame flatHistory
        [⟨-1, -1⟩] [⟨0, 0⟩] ⟨1, 0⟩ 0 flatAction) 0 :=
  C4_calculateBindingContinuations_assertions SGEnv.defaults (by norm_num [SGEnv.defaults])
    [true, false] flatGame flatHistory [⟨-1, -1⟩] [⟨0, 0⟩] ⟨1, 0⟩ 0 flatAction
    (by simp [flatHistory]) (by simp [flatHistory]) rfl rfl
    (by
      intro player hplayer
      have hcases : player = 0 ∨ player = 1 := by omega
      rcases hcases with rfl | rfl <;> simp [segmentInvariant, flatAction, rd])
    0 (by decide)

/-! ## The candidates of the history walk and player `i`'s own constraint -/

theorem selectPlayer_ids (env : SGEnv) (updatedThreatTuple : List Bool) (game : SGGame)
    (extremeTuples : List SGTuple) (threatTuple pivot : SGTuple) (currentDirection : SGPoint)
    (oldWest : Nat) (a : SGAction_PencilSharpening) (player : Nat) :
    (selectPlayer env updatedThreatTuple game extremeTuples threatTuple pivot currentDirection
        oldWest a player).state = a.state ∧
    (selectPlayer env updatedThreatTuple game extremeTuples threatTuple pivot currentDirection
        oldWest a player).action = a.action := by
  simp only [selectPlayer]
  split_ifs <;>
    simp only [SGAction_PencilSharpening.intersectRaySegmentPlayer] <;>
    (try split_ifs) <;>
    first
    | exact ⟨rfl, rfl⟩
    | simp

theorem clearPlayer_ids (updatedThreatTuple : List Bool) (game : SGGame)
    (a : SGAction_PencilSharpening) (player : Nat) :
    (clearPlayer updatedThreatTuple game a player).state = a.state ∧
    (clearPlayer updatedThreatTuple game a player).action = a.action := by
  simp only [clearPlayer]
  split_ifs <;> exact ⟨rfl, rfl⟩

/-- The candidates depend on the action only through `state`, `action` and `minIC`. -/
theorem collectCandidates_congr (env : SGEnv) (game : SGGame)
    (a b : SGAction_PencilSharpening) (extremeTuples : List SGTuple) (threatTuple : SGTuple)
    (oldWest player : Nat) (hs : a.state = b.state) (ha : a.action = b.action)
    (hm : a.minIC = b.minIC) :
    collectCandidates env game a extremeTuples threatTuple oldWest player =
      collectCandidates env game b extremeTuples threatTuple oldWest player := by
  simp only [collectCandidates, hs, ha, hm]

/-- Every point pushed by the body of the walk has player `i`'s coordinate at least
`minIC[i] − 2·FLATTOL`: the two ends of a flat are within `FLATTOL` of `minIC[i]` and of each
other, and a crossing point has coordinate exactly `minIC[i]`. -/
theorem walkBody_own (env : SGEnv) (hF : 0 ≤ env.FLATTOL) (minIC : SGPoint)
    (player tupleIndex : Nat) (point nextPoint : SGPoint) (newPoints : SGTuple)
    (newTuples : List Int)
    (h : ∀ x ∈ newPoints, minIC.coord player - 2 * env.FLATTOL ≤ x.coord player) :
    ∀ x ∈ (walkBody env minIC player tupleIndex point nextPoint newPoints newTuples).1,
      minIC.coord player - 2 * env.FLATTOL ≤ x.coord player := by
  simp only [walkBody]
  split_ifs with h1 h2
  · intro x hx
    simp only [List.mem_append, List.mem_cons, List.mem_singleton, List.not_mem_nil,
      or_false] at hx
    have hg := abs_lt.mp h1.1
    have hm := abs_lt.mp h1.2
    rcases hx with hx | rfl | rfl
    · exact h x hx
    · linarith [hm.1]
    · linarith [hm.1, hg.2]
  · intro x hx
    simp only [List.mem_append, List.mem_singleton] at hx
    rcases hx with hx | rfl
    · exact h x hx
    · have hne : point.coord player - nextPoint.coord player ≠ 0 := by
        rcases h2 with ⟨ha, hb⟩ | ⟨ha, hb⟩
        · exact ne_of_lt (by linarith)
        · exact ne_of_gt (by linarith)
      have hval : ((SGPoint.smul
            (1 - (minIC.coord player - nextPoint.coord player) /
              (point.coord player - nextPoint.coord player)) nextPoint).add
          (SGPoint.smul ((minIC.coord player - nextPoint.coord player) /
              (point.coord player - nextPoint.coord player)) point)).coord player
          = minIC.coord player := by
        simp only [SGPoint.coord, SGPoint.add, SGPoint.smul] at hne ⊢
        split_ifs at hne ⊢ <;> field_simp <;> ring
      rw [hval]
      linarith
  · exact h

theorem historyWalk_own (env : SGEnv) (hF : 0 ≤ env.FLATTOL) (prob : List ℚ)
    (minIC : SGPoint) (extremeTuples : List SGTuple) (threatTuple : SGTuple)
    (oldWest player : Nat) (tupleIndex : Nat) :
    ∀ (nextPoint : SGPoint) (newPoints : SGTuple) (newTuples : List Int),
      (∀ x ∈ newPoints, minIC.coord player - 2 * env.FLATTOL ≤ x.coord player) →
      ∀ x ∈ (historyWalk env prob minIC extremeTuples threatTuple oldWest player tupleIndex
          nextPoint newPoints newTuples).1,
        minIC.coord player - 2 * env.FLATTOL ≤ x.coord player := by
  induction tupleIndex with
  | zero =>
    intro nextPoint newPoints newTuples h
    simpa only [historyWalk] using h
  | succ k ih =>
    intro nextPoint newPoints newTuples h
    simp only [historyWalk]
    split_ifs with h1 h2
    · exact walkBody_own env hF minIC player (k + 1) nextPoint _ newPoints newTuples h
    · exact ih _ _ _
        (walkBody_own env hF minIC player (k + 1) nextPoint _ newPoints newTuples h)
    · exact h

theorem collectCandidates_own (env : SGEnv) (hF : 0 ≤ env.FLATTOL) (game : SGGame)
    (a : SGAction_PencilSharpening) (extremeTuples : List SGTuple) (threatTuple : SGTuple)
    (oldWest player : Nat) :
    ∀ x ∈ (collectCandidates env game a extremeTuples threatTuple oldWest player).1,
      a.minIC.coord player - 2 * env.FLATTOL ≤ x.coord player := by
  simp only [collectCandidates]
  exact historyWalk_own env hF _ a.minIC extremeTuples threatTuple oldWest player _ _ [] []
    (fun x hx => absurd hx (List.not_mem_nil x))

/-- The binding set recomputed for a player keeps the player's own coordinate at least
`minIC[i] − 2·FLATTOL`, when `minIC` of the other player is above the sentinel. -/
theorem selectPlayer_own_bound (env : SGEnv) (hF : 0 ≤ env.FLATTOL)
    (updatedThreatTuple : List Bool) (game : SGGame)
    (extremeTuples : List SGTuple) (threatTuple pivot : SGTuple) (currentDirection : SGPoint)
    (oldWest : Nat) (a : SGAction_PencilSharpening) (player : Nat)
    (hrec : recomputed updatedThreatTuple game player = true)
    (hp : player < a.points.length) (ht : player < a.tuples.length)
    (hpe : rd a.points player = []) (hte : rd a.tuples player = [])
    (hsent : -DBL_MAX < a.minIC.coord (1 - player)) :
    ∀ x ∈ rd (selectPlayer env updatedThreatTuple game extremeTuples threatTuple pivot
        currentDirection oldWest a player).points player,
      a.minIC.coord player - 2 * env.FLATTOL ≤ x.coord player := by
  rcases selectPlayer_recomputed env updatedThreatTuple game extremeTuples threatTuple pivot
    currentDirection oldWest a player hrec hp ht hpe hte with ⟨_, h⟩ | ⟨hg, hpts, -⟩
  · rw [h, hpe]
    intro x hx
    exact absurd hx (List.not_mem_nil x)
  · rw [hpts]
    have hcand := collectCandidates_own env hF game a extremeTuples threatTuple oldWest player
    generalize collectCandidates env game a extremeTuples threatTuple oldWest player = cand
      at hg hcand ⊢
    rcases maxmin_spec cand.1 (1 - player) with ⟨_, hmm⟩ | ⟨_, hiM, him, -, -, -⟩
    · rw [hmm] at hg
      simp only [ge_iff_le] at hg
      linarith
    · have hp0 := hcand _ (rd_of_lt_mem cand.1 _ hiM)
      have hp1 : a.minIC.coord player - 2 * env.FLATTOL ≤
          (if (SGTuple.maxmin cand.1 (1 - player)).2.2.1 < a.minIC.coord (1 - player)
            then a.minIC
            else rd cand.1 (SGTuple.maxmin cand.1 (1 - player)).2.2.2).coord player := by
        split_ifs
        · linarith
        · exact hcand _ (rd_of_lt_mem cand.1 _ him)
      rcases intersectRaySegment_shape env
        (SGTuple.expectation pivot (rd (rd game.probabilities a.state) a.action))
        currentDirection (rd cand.1 (SGTuple.maxmin cand.1 (1 - player)).2.1)
        (if (SGTuple.maxmin cand.1 (1 - player)).2.2.1 < a.minIC.coord (1 - player)
          then a.minIC
          else rd cand.1 (SGTuple.maxmin cand.1 (1 - player)).2.2.2) with
        h | ⟨w0, w1, h0, h01, h1, h⟩
      · rw [h]
        intro x hx
        exact absurd hx (List.not_mem_nil x)
      · rw [h]
        intro x hx
        simp only [List.mem_cons, List.mem_singleton, List.not_mem_nil, or_false] at hx
        rcases hx with rfl | rfl
        · exact SGPoint.coord_comb_ge _ _ w0 _ player h0 (le_trans h01 h1) hp0 hp1
        · exact SGPoint.coord_comb_ge _ _ w1 _ player (le_trans h0 h01) h1 hp0 hp1

/-! ## Claim on player `i`'s own constraint after `calculateBindingContinuations` -/


theorem flat_candidates :
    collectCandidates SGEnv.defaults flatGame flatAction flatHistory [⟨-1, -1⟩] 0 0 =
      ([⟨-1 / (2 * 10 ^ 8), 1⟩, ⟨-1 / (2 * 10 ^ 8), 2⟩], [1, 0]) := by
  have habs : |(1 : ℚ) / 200000000| = 1 / 200000000 := abs_of_pos (by norm_num)
  simp [collectCandidates, historyWalk, walkBody, flatHistory, flatAction, flatGame, rd,
    SGTuple.expectation, SGTuple.expectationCoord, SGEnv.defaults, SGPoint.coord,
    SGTuple.strictlyLessThan, SGTuple.addPoint, SGPoint.add, SGPoint.const, List.range_succ]
  norm_num [habs]

theorem flat_maxmin :
    SGTuple.maxmin [(⟨-1 / (2 * 10 ^ 8), 1⟩ : SGPoint), ⟨-1 / (2 * 10 ^ 8), 2⟩] 1 =
      (2, 1, 1, 0) := by
  norm_num [SGTuple.maxmin, SGTuple.maxminStep, List.range_succ, rd, SGPoint.coord]

/-- The binding set of player 0 after the call of the counterexample to C5. -/
theorem flat_points :
    rd (calculateBindingContinuations SGEnv.defaults [true, false] flatGame flatHistory
        [⟨-1, -1⟩] [⟨0, 0⟩] ⟨1, 0⟩ 0 flatAction).points 0 =
      [⟨-1 / (2 * 10 ^ 8), 2⟩, ⟨-1 / (2 * 10 ^ 8), 1⟩] := by
  have hclear : clearPlayer [true, false] flatGame
      (clearPlayer [true, false] flatGame flatAction 0) 1 = flatAction := by
    simp [clearPlayer, recomputed, rd, flatGame, flatAction]
  simp only [calculateBindingContinuations, List.foldl_cons, List.foldl_nil, hclear]
  rw [((selectPlayer_frame SGEnv.defaults [true, false] flatGame flatHistory [⟨-1, -1⟩]
    [⟨0, 0⟩] ⟨1, 0⟩ 0 _ 1).2.2.2 0 (by decide)).1]
  rcases selectPlayer_recomputed SGEnv.defaults [true, false] flatGame flatHistory [⟨-1, -1⟩]
    [⟨0, 0⟩] ⟨1, 0⟩ 0 flatAction 0 (by simp [recomputed, rd, flatGame])
    (by simp [flatAction]) (by simp [flatAction]) (by simp [flatAction, rd])
    (by simp [flatAction, rd]) with ⟨h, _⟩ | ⟨_, h, _⟩
  · exfalso
    apply h
    rw [flat_candidates, flat_maxmin]
    norm_num [flatAction, SGPoint.coord]
  · rw [h, flat_candidates, flat_maxmin]
    norm_num [flatAction, flatGame, rd, SGPoint.coord, intersectRaySegment,
      SGTuple.expectation, SGTuple.expectationCoord, SGPoint.getNormal, SGPoint.dot,
      SGEnv.defaults, List.range_succ]

/-- Counterexample to C5 as stated: with the default tolerances, a history whose last two
tuples give player 0 the payoff `-5e-8` is a flat along `minIC[0] = 0` (within
`FLATTOL = 1e-7`), so both tuples become endpoints of the binding set recomputed for the
constrained player 0; the set is not empty and its endpoint `(-5e-8, 2)` is below
`minIC[0] − ICTOL = -1e-12`. -/
theorem C5_counterexample :
    recomputed [true, false] flatGame 0 = true ∧
    ∃ x ∈ rd (calculateBindingContinuations SGEnv.defaults [true, false] flatGame flatHistory
        [⟨-1, -1⟩] [⟨0, 0⟩] ⟨1, 0⟩ 0 flatAction).points 0,
      ¬ (x.coord 0 ≥ flatAction.minIC.coord 0 - SGEnv.defaults.ICTOL) := by
  refine ⟨by simp [recomputed, rd, flatGame], ⟨-1 / (2 * 10 ^ 8), 2⟩, ?_, ?_⟩
  · rw [flat_points]
    exact List.mem_cons_self _ _
  · norm_num [SGPoint.coord, flatAction, SGEnv.defaults]

/-- C5 (amended): after `calculateBindingContinuations` (tolerance `FLATTOL ≥ 0`) recomputes
the binding set of a constrained player `i` of an action whose `minIC[1−i]` is above the
sentinel `-DBL_MAX`, either `points[i]` is empty or both of its endpoints satisfy
`endpoint[i] ≥ minIC[i] − 2·FLATTOL`, for every history, threat tuple, pivot and
direction. -/
theorem C5_calculateBindingContinuations_own_IC (env : SGEnv) (hF : 0 ≤ env.FLATTOL)
    (updatedThreatTuple : List Bool) (game : SGGame)
    (extremeTuples : List SGTuple) (threatTuple pivot : SGTuple) (currentDirection : SGPoint)
    (oldWest : Nat) (a : SGAction_PencilSharpening) (i : Nat) (hi : i < 2)
    (hpl : a.points.length = 2) (htl : a.tuples.length = 2)
    (hrec : recomputed updatedThreatTuple game i = true)
    (hsent : -DBL_MAX < a.minIC.coord (1 - i)) :
    ∀ x ∈ rd (calculateBindingContinuations env updatedThreatTuple game extremeTuples
        threatTuple pivot currentDirection oldWest a).points i,
      x.coord i ≥ a.minIC.coord i - 2 * env.FLATTOL := by
  simp only [calculateBindingContinuations, List.foldl_cons, List.foldl_nil]
  obtain ⟨c0p, c0t, c0m, c0f⟩ := clearPlayer_frame updatedThreatTuple game a 0
  obtain ⟨c0r, -⟩ := clearPlayer_own updatedThreatTuple game a 0 (by omega) (by omega)
  generalize clearPlayer updatedThreatTuple game a 0 = a1 at *
  obtain ⟨c1p, c1t, c1m, c1f⟩ := clearPlayer_frame updatedThreatTuple game a1 1
  obtain ⟨c1r, -⟩ := clearPlayer_own updatedThreatTuple game a1 1 (by omega) (by omega)
  generalize clearPlayer updatedThreatTuple game a1 1 = a2 at *
  have hm2 : a2.minIC = a.minIC := by rw [c1m, c0m]
  obtain ⟨s0p, s0t, s0m, s0f⟩ := selectPlayer_frame env updatedThreatTuple game extremeTuples
    threatTuple pivot currentDirection oldWest a2 0
  obtain ⟨-, -, -, s1f⟩ := selectPlayer_frame env updatedThreatTuple game extremeTuples
    threatTuple pivot currentDirection oldWest
    (selectPlayer env updatedThreatTuple game extremeTuples threatTuple pivot
      currentDirection oldWest a2 0) 1
  have hcases : i = 0 ∨ i = 1 := by omega
  rcases hcases with rfl | rfl
  · rw [(s1f 0 (by decide)).1, ← hm2]
    refine selectPlayer_own_bound env hF updatedThreatTuple game extremeTuples threatTuple
      pivot currentDirection oldWest a2 0 hrec (by omega) (by omega) ?_ ?_ ?_
    · rw [(c1f 0 (by decide)).1]
      exact (c0r hrec).1
    · rw [(c1f 0 (by decide)).2]
      exact (c0r hrec).2
    · rw [hm2]
      exact hsent
  · have hm3 : (selectPlayer env updatedThreatTuple game extremeTuples threatTuple pivot
        currentDirection oldWest a2 0).minIC = a.minIC := by rw [s0m, hm2]
    rw [← hm3]
    refine selectPlayer_own_bound env hF updatedThreatTuple game extremeTuples threatTuple
      pivot currentDirection oldWest _ 1 hrec (by omega) (by omega) ?_ ?_ ?_
    · rw [(s0f 1 (by decide)).1]
      exact (c1r hrec).1
    · rw [(s0f 1 (by decide)).2]
      exact (c1r hrec).2
    · rw [hm3]
      exact hsent

/-- Witness of C5 (amended): the call of the counterexample; the endpoint `(-5e-8, 2)` of the
recomputed binding set of player 0 is within `2·FLATTOL` of `minIC[0]`. -/
theorem C5_calculateBindingContinuations_own_IC_witness :
    (⟨-1 / (2 * 10 ^ 8), 2⟩ : SGPoint).coord 0 ≥
      flatAction.minIC.coord 0 - 2 * SGEnv.defaults.FLATTOL :=
  C5_calculateBindingContinuations_own_IC SGEnv.defaults (by norm_num [SGEnv.defaults])
    [true, false] flatGame flatHistory [⟨-1, -1⟩] [⟨0, 0⟩] ⟨1, 0⟩ 0 flatAction 0 (by decide)
    rfl rfl (by simp [recomputed, rd, flatGame])
    (by
      have := DBL_MAX_pos
      simp only [flatAction, SGPoint.coord]
      norm_num
      exact this)
    ⟨-1 / (2 * 10 ^ 8), 2⟩
    (by
      rw [flat_points]
      exact List.mem_cons_self _ _)

/-! ## The Bellman iteration -/

theorem rd_default_of_le {α : Type} [Inhabited α] (l : List α) (i : Nat) (h : l.length ≤ i) :
    rd l i = default := by
  simp [rd, List.getD_eq_getElem?_getD, List.getElem?_eq_none h]

/-- A sweep over the first `n` states: the length of the tuple is kept, a state that is not
in the non-binding regime or not below `n` keeps its payoff, and a non-binding state below
`n` gets its Bellman payoff. -/
theorem bellmanSweep_upto (game : SGGame) (actions : List (List SGAction_V2))
    (actionTuple : List Nat) (regimeTuple : List Regime) (pivot : SGTuple) (n : Nat) :
    ((List.range n).foldl (bellmanStep game actions actionTuple regimeTuple pivot)
        pivot).length = pivot.length ∧
    ∀ s, rd ((List.range n).foldl (bellmanStep game actions actionTuple regimeTuple pivot)
        pivot) s =
      if s < n ∧ s < pivot.length ∧ rd regimeTuple s = Regime.NonBinding then
        bellmanPayoff game pivot s (rd (rd actions s) (rd actionTuple s)).action
      else rd pivot s := by
  induction n with
  | zero =>
    refine ⟨rfl, fun s => ?_⟩
    simp
  | succ n ih =>
    rw [List.range_succ, List.foldl_append, List.foldl_cons, List.foldl_nil]
    obtain ⟨hlen, hrd⟩ := ih
    generalize (List.range n).foldl (bellmanStep game actions actionTuple regimeTuple pivot)
      pivot = acc at hlen hrd
    simp only [bellmanStep]
    by_cases hr : rd regimeTuple n = Regime.NonBinding
    · rw [if_pos hr]
      refine ⟨by rw [List.length_set, hlen], fun s => ?_⟩
      by_cases hs : s = n
      · subst hs
        by_cases hl : s < pivot.length
        · rw [rd_set_eq _ _ _ (by rw [hlen]; exact hl)]
          rw [if_pos ⟨Nat.lt_succ_self s, hl, hr⟩]
        · have hl' : pivot.length ≤ s := not_lt.mp hl
          rw [rd_default_of_le _ _ (by rw [List.length_set, hlen]; exact hl')]
          rw [if_neg (fun h => hl h.2.1), rd_default_of_le _ _ hl']
      · rw [rd_set_ne _ _ _ _ (Ne.symm hs), hrd s]
        have : (s < n + 1 ∧ s < pivot.length ∧ rd regimeTuple s = Regime.NonBinding) ↔
            (s < n ∧ s < pivot.length ∧ rd regimeTuple s = Regime.NonBinding) := by
          constructor
          · rintro ⟨h1, h2⟩
            exact ⟨by omega, h2⟩
          · rintro ⟨h1, h2⟩
            exact ⟨by omega, h2⟩
        simp only [this]
    · rw [if_neg hr]
      refine ⟨hlen, fun s => ?_⟩
      rw [hrd s]
      by_cases hs : s = n
      · subst hs
        rw [if_neg (fun h => hr h.2.2), if_neg (fun h => hr h.2.2)]
      · have : (s < n + 1 ∧ s < pivot.length ∧ rd regimeTuple s = Regime.NonBinding) ↔
            (s < n ∧ s < pivot.length ∧ rd regimeTuple s = Regime.NonBinding) := by
          constructor
          · rintro ⟨h1, h2⟩
            exact ⟨by omega, h2⟩
          · rintro ⟨h1, h2⟩
            exact ⟨by omega, h2⟩
        simp only [this]

theorem bellmanSweep_length (game : SGGame) (actions : List (List SGAction_V2))
    (actionTuple : List Nat) (regimeTuple : List Regime) (pivot : SGTuple) :
    (bellmanSweep game actions actionTuple regimeTuple pivot).length = pivot.length :=
  (bellmanSweep_upto game actions actionTuple regimeTuple pivot game.numStates).1

theorem bellmanSweep_rd (game : SGGame) (actions : List (List SGAction_V2))
    (actionTuple : List Nat) (regimeTuple : List Regime) (pivot : SGTuple) (s : Nat) :
    rd (bellmanSweep game actions actionTuple regimeTuple pivot) s =
      if s < game.numStates ∧ s < pivot.length ∧ rd regimeTuple s = Regime.NonBinding then
        bellmanPayoff game pivot s (rd (rd actions s) (rd actionTuple s)).action
      else rd pivot s :=
  (bellmanSweep_upto game actions actionTuple regimeTuple pivot game.numStates).2 s

/-- The Bellman iteration returns the sweep of some pivot of the same length that agrees
with the entry pivot outside the non-binding regime, together with the distance moved by
that sweep. -/
theorem bellmanLoop_last (env : SGEnv) (game : SGGame) (actions : List (List SGAction_V2))
    (actionTuple : List Nat) (regimeTuple : List Regime) (remaining : Nat) :
    ∀ pivot : SGTuple, ∃ p0 : SGTuple, p0.length = pivot.length ∧
      (∀ s, rd regimeTuple s ≠ Regime.NonBinding → rd p0 s = rd pivot s) ∧
      bellmanLoop env game actions actionTuple regimeTuple remaining pivot =
        (bellmanSweep game actions actionTuple regimeTuple p0,
          SGTuple.distance (bellmanSweep game actions actionTuple regimeTuple p0) p0) := by
  induction remaining with
  | zero =>
    intro pivot
    exact ⟨pivot, rfl, fun _ _ => rfl, rfl⟩
  | succ r ih =>
    intro pivot
    simp only [bellmanLoop]
    split_ifs with h
    · obtain ⟨p0, hl, hb, he⟩ := ih (bellmanSweep game actions actionTuple regimeTuple pivot)
      refine ⟨p0, by rw [hl, bellmanSweep_length], ?_, he⟩
      intro s hs
      rw [hb s hs, bellmanSweep_rd, if_neg (fun hc => hs hc.2.2)]
    · exact ⟨pivot, rfl, fun _ _ => rfl, rfl⟩

/-! ## The regime check -/

/-- A state under the regime check is a state of the regime vector. -/
theorem checked_lt (v : PolicyVars) (s : Nat) (h : checked v s = true) :
    s < v.regimeTuple.length ∧ rd v.regimeTuple s = Regime.NonBinding ∧
      rd v.bestAPSNotBinding s = false := by
  simp only [checked, Bool.and_eq_true, Bool.not_eq_true', decide_eq_true_eq] at h
  refine ⟨?_, h.2, h.1⟩
  by_contra hc
  have := rd_default_of_le v.regimeTuple s (not_lt.mp hc)
  rw [this] at h
  exact absurd h.2 (by decide)

/-- The first loop of the regime check over the first `n` states. -/
theorem gapScan_upto (game : SGGame) (currDir : SGPoint) (v : PolicyVars) (n : Nat)
    (hn : n ≤ game.numStates) :
    ((List.range n).foldl (gapScanStep currDir v)
        (List.replicate game.numStates 0, false, 0)).1.length = game.numStates ∧
    0 ≤ ((List.range n).foldl (gapScanStep currDir v)
        (List.replicate game.numStates 0, false, 0)).2.2 ∧
    (((List.range n).foldl (gapScanStep currDir v)
        (List.replicate game.numStates 0, false, 0)).2.1 = true →
      ∃ s, s < n ∧ checked v s = true ∧
        0 < gapOf currDir v s ∧
        gapOf currDir v s = ((List.range n).foldl (gapScanStep currDir v)
          (List.replicate game.numStates 0, false, 0)).2.2) ∧
    (((List.range n).foldl (gapScanStep currDir v)
        (List.replicate game.numStates 0, false, 0)).2.1 = false →
      ((List.range n).foldl (gapScanStep currDir v)
        (List.replicate game.numStates 0, false, 0)).2.2 = 0) ∧
    ∀ s, s < n → checked v s = true →
      rd ((List.range n).foldl (gapScanStep currDir v)
          (List.replicate game.numStates 0, false, 0)).1 s = gapOf currDir v s ∧
      gapOf currDir v s ≤ ((List.range n).foldl (gapScanStep currDir v)
          (List.replicate game.numStates 0, false, 0)).2.2 := by
  induction n with
  | zero =>
    refine ⟨by simp, by simp, by simp, by simp, ?_⟩
    intro s hs
    exact absurd hs (Nat.not_lt_zero s)
  | succ n ih =>
    rw [List.range_succ, List.foldl_append, List.foldl_cons, List.foldl_nil]
    obtain ⟨hlen, hpos, hany, hnone, hall⟩ := ih (Nat.le_of_succ_le hn)
    generalize (List.range n).foldl (gapScanStep currDir v)
      (List.replicate game.numStates 0, false, 0) = acc at hlen hpos hany hnone hall
    obtain ⟨gaps, anyV, maxGap⟩ := acc
    simp only at hlen hpos hany hnone hall
    simp only [gapScanStep]
    by_cases hc : checked v n = true
    · rw [if_pos hc]
      by_cases hg : gapOf currDir v n > maxGap
      · rw [if_pos hg]
        simp only
        refine ⟨by rw [List.length_set, hlen], le_of_lt (lt_of_le_of_lt hpos hg),
          fun _ => ⟨n, Nat.lt_succ_self n, hc, lt_of_le_of_lt hpos hg, rfl⟩,
          fun h => absurd h (by simp), ?_⟩
        intro s hs hcs
        rcases Nat.lt_succ_iff_lt_or_eq.mp hs with hs | rfl
        · rw [rd_set_ne _ _ _ _ (by omega)]
          exact ⟨(hall s hs hcs).1, le_trans (hall s hs hcs).2 (le_of_lt hg)⟩
        · exact ⟨rd_set_eq _ _ _ (by omega), le_refl _⟩
      · rw [if_neg hg]
        simp only
        refine ⟨by rw [List.length_set, hlen], hpos, ?_, hnone, ?_⟩
        · intro h
          obtain ⟨s, hs, h1, h2, h3⟩ := hany h
          exact ⟨s, Nat.lt_succ_of_lt hs, h1, h2, h3⟩
        · intro s hs hcs
          rcases Nat.lt_succ_iff_lt_or_eq.mp hs with hs | rfl
          · rw [rd_set_ne _ _ _ _ (by omega)]
            exact hall s hs hcs
          · exact ⟨rd_set_eq _ _ _ (by omega), not_lt.mp hg⟩
    · rw [if_neg hc]
      refine ⟨hlen, hpos, ?_, hnone, ?_⟩
      · intro h
        obtain ⟨s, hs, h1, h2, h3⟩ := hany h
        exact ⟨s, Nat.lt_succ_of_lt hs, h1, h2, h3⟩
      · intro s hs hcs
        rcases Nat.lt_succ_iff_lt_or_eq.mp hs with hs | rfl
        · exact hall s hs hcs
        · exact absurd hcs hc

/-- The first loop of the regime check: `maxGap ≥ 0`; a violation is a checked state whose
positive gap is `maxGap`; without a violation `maxGap = 0`; and every checked state has its
gap in `gaps`, at most `maxGap`. -/
theorem gapScan_spec (game : SGGame) (currDir : SGPoint) (v : PolicyVars) :
    0 ≤ (gapScan game currDir v).2.2 ∧
    ((gapScan game currDir v).2.1 = true →
      ∃ s, s < game.numStates ∧ checked v s = true ∧ 0 < gapOf currDir v s ∧
        gapOf currDir v s = (gapScan game currDir v).2.2) ∧
    ((gapScan game currDir v).2.1 = false → (gapScan game currDir v).2.2 = 0) ∧
    ∀ s, s < game.numStates → checked v s = true →
      rd (gapScan game currDir v).1 s = gapOf currDir v s ∧
      gapOf currDir v s ≤ (gapScan game currDir v).2.2 := by
  obtain ⟨-, h1, h2, h3, h4⟩ := gapScan_upto game currDir v game.numStates (le_refl _)
  exact ⟨h1, h2, h3, h4⟩

/-- The second loop of the regime check over the first `n` states: only `pivot` and
`regimeTuple` are written, a state is switched exactly when it is below `n`, checked and has
a gap of at least `delta*maxGap`, and a switched state gets its best binding payoff. -/
theorem switchStates_upto (game : SGGame) (gaps : List ℚ) (maxGap : ℚ) (v : PolicyVars)
    (n : Nat) :
    ((List.range n).foldl (switchStep game gaps maxGap) v).bestAPSNotBinding
      = v.bestAPSNotBinding ∧
    ((List.range n).foldl (switchStep game gaps maxGap) v).bestBindingPayoffs
      = v.bestBindingPayoffs ∧
    ((List.range n).foldl (switchStep game gaps maxGap) v).actionTuple = v.actionTuple ∧
    ((List.range n).foldl (switchStep game gaps maxGap) v).regimeTuple.length
      = v.regimeTuple.length ∧
    ((List.range n).foldl (switchStep game gaps maxGap) v).pivot.length = v.pivot.length ∧
    (∀ s, rd ((List.range n).foldl (switchStep game gaps maxGap) v).regimeTuple s =
      if s < n ∧ checked v s = true ∧ rd gaps s ≥ game.delta * maxGap then Regime.Binding
      else rd v.regimeTuple s) ∧
    (∀ s, rd ((List.range n).foldl (switchStep game gaps maxGap) v).pivot s =
      if s < n ∧ checked v s = true ∧ rd gaps s ≥ game.delta * maxGap ∧ s < v.pivot.length
      then rd v.bestBindingPayoffs s
      else rd v.pivot s) := by
  induction n with
  | zero =>
    refine ⟨rfl, rfl, rfl, rfl, rfl, fun s => ?_, fun s => ?_⟩ <;> simp
  | succ n ih =>
    rw [List.range_succ, List.foldl_append, List.foldl_cons, List.foldl_nil]
    obtain ⟨h1, h2, h3, h4, h5, h6, h7⟩ := ih
    generalize (List.range n).foldl (switchStep game gaps maxGap) v = acc at *
    have hck : checked acc n = checked v n := by
      simp only [checked, h1, h6 n, Nat.lt_irrefl, false_and, if_false]
    simp only [switchStep, hck]
    by_cases hc : (checked v n && decide (rd gaps n ≥ game.delta * maxGap)) = true
    · rw [if_pos hc]
      simp only [Bool.and_eq_true, decide_eq_true_eq] at hc
      refine ⟨h1, h2, h3, by rw [List.length_set, h4], by rw [List.length_set, h5],
        fun s => ?_, fun s => ?_⟩
      · by_cases hs : s = n
        · subst hs
          rw [rd_set_eq _ _ _ (by rw [h4]; exact (checked_lt v s hc.1).1),
            if_pos ⟨Nat.lt_succ_self s, hc.1, hc.2⟩]
        · rw [rd_set_ne _ _ _ _ (Ne.symm hs), h6 s]
          have : (s < n + 1 ∧ checked v s = true ∧ rd gaps s ≥ game.delta * maxGap) ↔
              (s < n ∧ checked v s = true ∧ rd gaps s ≥ game.delta * maxGap) := by
            constructor
            · rintro ⟨a, b⟩
              exact ⟨by omega, b⟩
            · rintro ⟨a, b⟩
              exact ⟨by omega, b⟩
          simp only [this]
      · by_cases hs : s = n
        · subst hs
          by_cases hl : s < v.pivot.length
          · rw [rd_set_eq _ _ _ (by rw [h5]; exact hl),
              if_pos ⟨Nat.lt_succ_self s, hc.1, hc.2, hl⟩, h2]
          · rw [rd_default_of_le _ _ (by rw [List.length_set, h5]; exact not_lt.mp hl),
              if_neg (fun h => hl h.2.2.2), rd_default_of_le _ _ (not_lt.mp hl)]
        · rw [rd_set_ne _ _ _ _ (Ne.symm hs), h7 s]
          have : (s < n + 1 ∧ checked v s = true ∧ rd gaps s ≥ game.delta * maxGap ∧
                s < v.pivot.length) ↔
              (s < n ∧ checked v s = true ∧ rd gaps s ≥ game.delta * maxGap ∧
                s < v.pivot.length) := by
            constructor
            · rintro ⟨a, b⟩
              exact ⟨by omega, b⟩
            · rintro ⟨a, b⟩
              exact ⟨by omega, b⟩
          simp only [this]
    · rw [if_neg hc]
      simp only [Bool.and_eq_true, decide_eq_true_eq, not_and] at hc
      refine ⟨h1, h2, h3, h4, h5, fun s => ?_, fun s => ?_⟩
      · rw [h6 s]
        by_cases hs : s = n
        · subst hs
          rw [if_neg (fun h => absurd h.1 (Nat.lt_irrefl s)),
            if_neg (fun h => hc h.2.1 h.2.2)]
        · have : (s < n + 1 ∧ checked v s = true ∧ rd gaps s ≥ game.delta * maxGap) ↔
              (s < n ∧ checked v s = true ∧ rd gaps s ≥ game.delta * maxGap) := by
            constructor
            · rintro ⟨a, b⟩
              exact ⟨by omega, b⟩
            · rintro ⟨a, b⟩
              exact ⟨by omega, b⟩
          simp only [this]
      · rw [h7 s]
        by_cases hs : s = n
        · subst hs
          rw [if_neg (fun h => absurd h.1 (Nat.lt_irrefl s)),
            if_neg (fun h => hc h.2.1 h.2.2.1)]
        · have : (s < n + 1 ∧ checked v s = true ∧ rd gaps s ≥ game.delta * maxGap ∧
                s < v.pivot.length) ↔
              (s < n ∧ checked v s = true ∧ rd gaps s ≥ game.delta * maxGap ∧
                s < v.pivot.length) := by
            constructor
            · rintro ⟨a, b⟩
              exact ⟨by omega, b⟩
            · rintro ⟨a, b⟩
              exact ⟨by omega, b⟩
          simp only [this]

/-! ## Loops that keep a property -/

/-- A loop keeps every property that its body keeps. -/
theorem foldl_keeps {α β : Type} (P : α → Prop) (f : α → β → α) (l : List β) (a : α)
    (hstep : ∀ x y, P x → P (f x y)) (ha : P a) : P (l.foldl f a) := by
  induction l generalizing a with
  | nil => exact ha
  | cons b l ih => exact ih (f a b) (hstep a b ha)

/-- Fewer states satisfy a stronger condition that fails at one state of the list. -/
theorem countP_lt_of_imp (l : List Nat) (p q : Nat → Bool)
    (himp : ∀ s, s ∈ l → q s = true → p s = true)
    (hex : ∃ s, s ∈ l ∧ p s = true ∧ q s = false) : l.countP q < l.countP p := by
  induction l with
  | nil =>
    obtain ⟨s, hs, _⟩ := hex
    exact absurd hs (List.not_mem_nil s)
  | cons a l ih =>
    have hle : l.countP q ≤ l.countP p :=
      List.countP_mono_left (fun s hs h => himp s (List.mem_cons_of_mem _ hs) h) 
    obtain ⟨s, hs, hp, hq⟩ := hex
    rcases List.mem_cons.mp hs with rfl | hs
    · rw [List.countP_cons_of_pos _ _ hp, List.countP_cons_of_neg _ _ (by simp [hq])]
      omega
    · have hlt := ih (fun s hs h => himp s (List.mem_cons_of_mem _ hs) h) ⟨s, hs, hp, hq⟩
      by_cases hqa : q a = true
      · rw [List.countP_cons_of_pos _ _ hqa,
          List.countP_cons_of_pos _ _ (himp a (List.mem_cons_self _ _) hqa)]
        omega
      · rw [List.countP_cons_of_neg _ _ hqa]
        by_cases hpa : p a = true
        · rw [List.countP_cons_of_pos _ _ hpa]
          omega
        · rw [List.countP_cons_of_neg _ _ hpa]
          exact hlt

/-! ## One pass of the loop that fixes the regimes -/

theorem regimeFrame_refl (v : PolicyVars) : RegimeFrame v v :=
  ⟨rfl, rfl, rfl, rfl, rfl, rfl, rfl, rfl, rfl, rfl, rfl, fun _ h => h⟩

theorem regimeFrame_trans {u v w : PolicyVars} (h1 : RegimeFrame u v) (h2 : RegimeFrame v w) :
    RegimeFrame u w := by
  obtain ⟨a1, a2, a3, a4, a5, a6, a7, a8, a9, a10, a11, a12⟩ := h1
  obtain ⟨b1, b2, b3, b4, b5, b6, b7, b8, b9, b10, b11, b12⟩ := h2
  exact ⟨b1.trans a1, b2.trans a2, b3.trans a3, b4.trans a4, b5.trans a5, b6.trans a6,
    b7.trans a7, b8.trans a8, b9.trans a9, b10.trans a10, b11.trans a11,
    fun s h => b12 s (a12 s h)⟩

theorem policyToPayoffs_length (env : SGEnv) (game : SGGame)
    (actions : List (List SGAction_V2)) (pivot : SGTuple) (actionTuple : List Nat)
    (regimeTuple : List Regime) :
    (policyToPayoffs env game actions pivot actionTuple regimeTuple).1.length
      = pivot.length := by
  obtain ⟨p0, hl, -, he⟩ := bellmanLoop_last env game actions actionTuple regimeTuple
    (env.MAXUPDATEPIVOTPASSES - 1) pivot
  simp only [policyToPayoffs]
  rw [he, bellmanSweep_length, hl]

/-- The variables the second loop of the regime check does not write. -/
theorem switchStates_others (game : SGGame) (gaps : List ℚ) (maxGap : ℚ) (v : PolicyVars) :
    (switchStates game gaps maxGap v).pivotError = v.pivotError ∧
    (switchStates game gaps maxGap v).rounds = v.rounds ∧
    (switchStates game gaps maxGap v).numPolicyIters = v.numPolicyIters ∧
    (switchStates game gaps maxGap v).newPivot = v.newPivot ∧
    (switchStates game gaps maxGap v).newActionTuple = v.newActionTuple ∧
    (switchStates game gaps maxGap v).newRegimeTuple = v.newRegimeTuple ∧
    (switchStates game gaps maxGap v).bellmanPivot = v.bellmanPivot ∧
    (switchStates game gaps maxGap v).bellmanPivotGap = v.bellmanPivotGap := by
  refine foldl_keeps
    (fun w => w.pivotError = v.pivotError ∧ w.rounds = v.rounds ∧
      w.numPolicyIters = v.numPolicyIters ∧ w.newPivot = v.newPivot ∧
      w.newActionTuple = v.newActionTuple ∧ w.newRegimeTuple = v.newRegimeTuple ∧
      w.bellmanPivot = v.bellmanPivot ∧ w.bellmanPivotGap = v.bellmanPivotGap)
    (switchStep game gaps maxGap) _ v ?_ ⟨rfl, rfl, rfl, rfl, rfl, rfl, rfl, rfl⟩
  intro x y hx
  simp only [switchStep]
  split_ifs
  · exact hx
  · exact hx

/-- The regimes after one pass: a state is switched to the binding regime exactly when it is
checked and its gap is at least `delta*maxGap`. -/
theorem regimePass_regime (env : SGEnv) (game : SGGame) (currDir : SGPoint)
    (actions : List (List SGAction_V2)) (v : PolicyVars) (s : Nat) :
    rd (regimePass env game currDir actions v).1.regimeTuple s =
      if s < game.numStates ∧ checked v s = true ∧
          rd (gapScan game currDir { v with
              pivot := (policyToPayoffs env game actions v.pivot v.actionTuple
                v.regimeTuple).1
              bellmanPivot := (policyToPayoffs env game actions v.pivot v.actionTuple
                v.regimeTuple).1
              bellmanPivotGap := (policyToPayoffs env game actions v.pivot v.actionTuple
                v.regimeTuple).2 }).1 s
            ≥ game.delta * (gapScan game currDir { v with
              pivot := (policyToPayoffs env game actions v.pivot v.actionTuple
                v.regimeTuple).1
              bellmanPivot := (policyToPayoffs env game actions v.pivot v.actionTuple
                v.regimeTuple).1
              bellmanPivotGap := (policyToPayoffs env game actions v.pivot v.actionTuple
                v.regimeTuple).2 }).2.2
      then Regime.Binding
      else rd v.regimeTuple s := by
  simp only [regimePass, switchStates]
  rw [(switchStates_upto game _ _ _ game.numStates).2.2.2.2.2.1 s]
  rfl

theorem regimePass_frame (env : SGEnv) (game : SGGame) (currDir : SGPoint)
    (actions : List (List SGAction_V2)) (v : PolicyVars) :
    RegimeFrame v (regimePass env game currDir actions v).1 := by
  have hreg := regimePass_regime env game currDir actions v
  simp only [regimePass] at hreg ⊢
  obtain ⟨h1, h2, h3, h4, h5, -, -⟩ := switchStates_upto game
    (gapScan game currDir { v with
      pivot := (policyToPayoffs env game actions v.pivot v.actionTuple v.regimeTuple).1
      bellmanPivot := (policyToPayoffs env game actions v.pivot v.actionTuple v.regimeTuple).1
      bellmanPivotGap :=
        (policyToPayoffs env game actions v.pivot v.actionTuple v.regimeTuple).2 }).1
    (gapScan game currDir { v with
      pivot := (policyToPayoffs env game actions v.pivot v.actionTuple v.regimeTuple).1
      bellmanPivot := (policyToPayoffs env game actions v.pivot v.actionTuple v.regimeTuple).1
      bellmanPivotGap :=
        (policyToPayoffs env game actions v.pivot v.actionTuple v.regimeTuple).2 }).2.2
    { v with
      pivot := (policyToPayoffs env game actions v.pivot v.actionTuple v.regimeTuple).1
      bellmanPivot := (policyToPayoffs env game actions v.pivot v.actionTuple v.regimeTuple).1
      bellmanPivotGap :=
        (policyToPayoffs env game actions v.pivot v.actionTuple v.regimeTuple).2 }
    game.numStates
  obtain ⟨g1, g2, g3, g4, g5, g6, -, -⟩ := switchStates_others game
    (gapScan game currDir { v with
      pivot := (policyToPayoffs env game actions v.pivot v.actionTuple v.regimeTuple).1
      bellmanPivot := (policyToPayoffs env game actions v.pivot v.actionTuple v.regimeTuple).1
      bellmanPivotGap :=
        (policyToPayoffs env game actions v.pivot v.actionTuple v.regimeTuple).2 }).1
    (gapScan game currDir { v with
      pivot := (policyToPayoffs env game actions v.pivot v.actionTuple v.regimeTuple).1
      bellmanPivot := (policyToPayoffs env game actions v.pivot v.actionTuple v.regimeTuple).1
      bellmanPivotGap :=
        (policyToPayoffs env game actions v.pivot v.actionTuple v.regimeTuple).2 }).2.2
    { v with
      pivot := (policyToPayoffs env game actions v.pivot v.actionTuple v.regimeTuple).1
      bellmanPivot := (policyToPayoffs env game actions v.pivot v.actionTuple v.regimeTuple).1
      bellmanPivotGap :=
        (policyToPayoffs env game actions v.pivot v.actionTuple v.regimeTuple).2 }
  refine ⟨h3, h1, h2, g1, g2, g3, g4, g5, g6, h4, ?_, ?_⟩
  · simp only [switchStates]
    rw [h5]
    exact policyToPayoffs_length env game actions v.pivot v.actionTuple v.regimeTuple
  · intro s hs
    rw [hreg s]
    split_ifs
    · rfl
    · exact hs

/-- A pass that detects a violation switches a state of the game from the non-binding to the
binding regime, when `delta ≤ 1`. -/
theorem regimePass_switches (env : SGEnv) (game : SGGame) (hδ : game.delta ≤ 1)
    (currDir : SGPoint) (actions : List (List SGAction_V2)) (v : PolicyVars)
    (hviol : (regimePass env game currDir actions v).2 = true) :
    ∃ s, s < game.numStates ∧ rd v.regimeTuple s = Regime.NonBinding ∧
      rd (regimePass env game currDir actions v).1.regimeTuple s = Regime.Binding := by
  have hreg := regimePass_regime env game currDir actions v
  simp only [regimePass] at hviol
  obtain ⟨h0, hany, -, hall⟩ := gapScan_spec game currDir { v with
      pivot := (policyToPayoffs env game actions v.pivot v.actionTuple v.regimeTuple).1
      bellmanPivot := (policyToPayoffs env game actions v.pivot v.actionTuple v.regimeTuple).1
      bellmanPivotGap :=
        (policyToPayoffs env game actions v.pivot v.actionTuple v.regimeTuple).2 }
  obtain ⟨s, hs, hc, hpos, hmax⟩ := hany hviol
  have hc' : checked v s = true := hc
  refine ⟨s, hs, (checked_lt v s hc').2.1, ?_⟩
  rw [hreg s, if_pos]
  refine ⟨hs, hc', ?_⟩
  rw [(hall s hs hc).1, ← hmax]
  simp only [ge_iff_le]
  nlinarith

/-- A pass that detects a violation leaves fewer states in the non-binding regime. -/
theorem regimePass_decreases (env : SGEnv) (game : SGGame) (hδ : game.delta ≤ 1)
    (currDir : SGPoint) (actions : List (List SGAction_V2)) (v : PolicyVars)
    (hviol : (regimePass env game currDir actions v).2 = true) :
    numNonBinding game (regimePass env game currDir actions v).1 < numNonBinding game v := by
  obtain ⟨s, hs, hnb, hb⟩ := regimePass_switches env game hδ currDir actions v hviol
  have hframe := (regimePass_frame env game currDir actions v).2.2.2.2.2.2.2.2.2.2.2
  refine countP_lt_of_imp _ _ _ ?_ ⟨s, List.mem_range.mpr hs, by simp [hnb], by simp [hb]⟩
  intro t _ ht
  simp only [decide_eq_true_eq] at ht ⊢
  by_contra hc
  have hbind : rd v.regimeTuple t = Regime.Binding := by
    cases h : rd v.regimeTuple t with
    | NonBinding => exact absurd h hc
    | Binding => rfl
  rw [hframe t hbind] at ht
  exact absurd ht (by decide)

theorem numNonBinding_le (game : SGGame) (v : PolicyVars) :
    numNonBinding game v ≤ game.numStates := by
  simp only [numNonBinding]
  calc (List.range game.numStates).countP _ ≤ (List.range game.numStates).length :=
        List.countP_le_length _
    _ = game.numStates := List.length_range _

/-- The loop that fixes the regimes ends when given more passes than there are non-binding
states: it makes at most that many passes and one more, its last pass detects no violation,
and it leaves the frame of the variables as it is. -/
theorem regimeFixLoop_ends (env : SGEnv) (game : SGGame) (hδ : game.delta ≤ 1)
    (currDir : SGPoint) (actions : List (List SGAction_V2)) (fuel : Nat) :
    ∀ v : PolicyVars, numNonBinding game v < fuel →
      ∃ r n, regimeFixLoop env game currDir actions fuel v = some (r, n) ∧
        1 ≤ n ∧ n ≤ numNonBinding game v + 1 ∧ RegimeFrame v r ∧
        ∃ v1, RegimeFrame v v1 ∧ (regimePass env game currDir actions v1).2 = false ∧
          r = (regimePass env game currDir actions v1).1 := by
  induction fuel with
  | zero =>
    intro v h
    exact absurd h (Nat.not_lt_zero _)
  | succ fuel ih =>
    intro v h
    simp only [regimeFixLoop]
    by_cases hviol : (regimePass env game currDir actions v).2 = true
    · rw [if_pos hviol]
      have hdec := regimePass_decreases env game hδ currDir actions v hviol
      obtain ⟨r, n, he, h1, hn, hf, v1, hf1, hv1, hr⟩ :=
        ih (regimePass env game currDir actions v).1 (by omega)
      have hfr := regimePass_frame env game currDir actions v
      refine ⟨r, n + 1, by rw [he]; rfl, by omega, by omega, regimeFrame_trans hfr hf, v1,
        regimeFrame_trans hfr hf1, hv1, hr⟩
    · rw [if_neg hviol]
      exact ⟨_, 1, rfl, le_refl 1, by omega, regimePass_frame env game currDir actions v,
        v, regimeFrame_refl v, by simpa using hviol, rfl⟩

/-- After a pass that detects no violation, every checked state of the game has a negative
gap. -/
theorem regimePass_gap_neg (env : SGEnv) (game : SGGame) (currDir : SGPoint)
    (actions : List (List SGAction_V2)) (v : PolicyVars)
    (hviol : (regimePass env game currDir actions v).2 = false) :
    ∀ s, s < game.numStates → checked (regimePass env game currDir actions v).1 s = true →
      gapOf currDir (regimePass env game currDir actions v).1 s < 0 := by
  intro s hs hc
  simp only [regimePass] at hviol hc ⊢
  generalize hv1 : ({ v with
      pivot := (policyToPayoffs env game actions v.pivot v.actionTuple v.regimeTuple).1
      bellmanPivot := (policyToPayoffs env game actions v.pivot v.actionTuple v.regimeTuple).1
      bellmanPivotGap :=
        (policyToPayoffs env game actions v.pivot v.actionTuple v.regimeTuple).2 } :
      PolicyVars) = v1 at hviol hc ⊢
  obtain ⟨-, -, hnone, hall⟩ := gapScan_spec game currDir v1
  obtain ⟨h1, h2, -, -, -, h6, h7⟩ := switchStates_upto game (gapScan game currDir v1).1
    (gapScan game currDir v1).2.2 v1 game.numStates
  have hmax := hnone hviol
  simp only [switchStates] at hc ⊢
  generalize hr : (List.range game.numStates).foldl
    (switchStep game (gapScan game currDir v1).1 (gapScan game currDir v1).2.2) v1 = r at *
  obtain ⟨-, hrNB, hrA⟩ := checked_lt r s hc
  have hreg := h6 s
  rw [hrNB] at hreg
  by_cases hcond : s < game.numStates ∧ checked v1 s = true ∧
      rd (gapScan game currDir v1).1 s ≥ game.delta * (gapScan game currDir v1).2.2
  · rw [if_pos hcond] at hreg
    exact absurd hreg (by decide)
  · rw [if_neg hcond] at hreg
    have hc1 : checked v1 s = true := by
      simp only [checked, ← h1, hrA, ← hreg]
      decide
    have hgap : ¬ rd (gapScan game currDir v1).1 s ≥ game.delta * (gapScan game currDir v1).2.2 :=
      fun h => hcond ⟨hs, hc1, h⟩
    rw [hmax, mul_zero, (hall s hs hc1).1] at hgap
    have hpiv := h7 s
    rw [if_neg (fun h => hcond ⟨h.1, h.2.1, h.2.2.1⟩)] at hpiv
    simp only [gapOf, hpiv, h2] at hgap ⊢
    exact not_le.mp hgap

/-! ## The improvement step -/

/-- The counters and the entry pivot are not written by the improvement of one action. -/
theorem improveAction_counters (game : SGGame) (currDir : SGPoint)
    (actions : List (List SGAction_V2)) (state : Nat) (acc : Option ℚ × PolicyVars)
    (ait : Nat) :
    (improveAction game currDir actions state acc ait).2.rounds = acc.2.rounds ∧
    (improveAction game currDir actions state acc ait).2.numPolicyIters
      = acc.2.numPolicyIters ∧
    (improveAction game currDir actions state acc ait).2.pivot = acc.2.pivot := by
  simp only [improveAction]
  split_ifs <;> exact ⟨rfl, rfl, rfl⟩

theorem improveState_counters (game : SGGame) (currDir : SGPoint)
    (actions : List (List SGAction_V2)) (v : PolicyVars) (state : Nat) :
    (improveState game currDir actions v state).rounds = v.rounds ∧
    (improveState game currDir actions v state).numPolicyIters = v.numPolicyIters ∧
    (improveState game currDir actions v state).pivot = v.pivot := by
  simp only [improveState]
  exact foldl_keeps
    (fun acc : Option ℚ × PolicyVars => acc.2.rounds = v.rounds ∧
      acc.2.numPolicyIters = v.numPolicyIters ∧ acc.2.pivot = v.pivot)
    (improveAction game currDir actions state) _ (none, v)
    (fun x y hx => by
      obtain ⟨h1, h2, h3⟩ := improveAction_counters game currDir actions state x y
      exact ⟨h1.trans hx.1, h2.trans hx.2.1, h3.trans hx.2.2⟩)
    ⟨rfl, rfl, rfl⟩

theorem improvementStep_counters (game : SGGame) (currDir : SGPoint)
    (actions : List (List SGAction_V2)) (v : PolicyVars) :
    (improvementStep game currDir actions v).rounds = v.rounds ∧
    (improvementStep game currDir actions v).numPolicyIters = v.numPolicyIters := by
  simp only [improvementStep]
  exact foldl_keeps
    (fun w : PolicyVars => w.rounds = v.rounds ∧ w.numPolicyIters = v.numPolicyIters)
    (improveState game currDir actions) _ { v with pivotError := 0 }
    (fun x y hx => by
      obtain ⟨h1, h2, -⟩ := improveState_counters game currDir actions x y
      exact ⟨h1.trans hx.1, h2.trans hx.2⟩)
    ⟨rfl, rfl⟩

/-! ## The improvement step chooses one action per state -/

/-- The improvement of one action of `state` keeps the sizes of the vectors and writes only
the entries of `state`. -/
theorem improveAction_frame (game : SGGame) (currDir : SGPoint)
    (actions : List (List SGAction_V2)) (state : Nat) (acc : Option ℚ × PolicyVars)
    (ait : Nat) (hs : Sized game acc.2) :
    Sized game (improveAction game currDir actions state acc ait).2 ∧
    ∀ s, s ≠ state →
      improvedEntry (improveAction game currDir actions state acc ait).2 s
        = improvedEntry acc.2 s := by
  obtain ⟨h1, h2, h3, h4, h5⟩ := hs
  simp only [improveAction]
  split_ifs <;>
    exact ⟨⟨by simp [h1], by simp [h2], by simp [h3], by simp [h4], by simp [h5]⟩,
      fun s hne => by simp [improvedEntry, rd_set_ne _ _ _ _ (Ne.symm hne)]⟩

/-- The loop over the first `n` actions of `state`: once an action has been processed the
running best level is set, and once it is set the entries of `state` belong to one of the
actions processed. -/
theorem improveActions_upto (game : SGGame) (currDir : SGPoint)
    (actions : List (List SGAction_V2)) (state : Nat) (v : PolicyVars)
    (hstate : state < game.numStates) (hs : Sized game v) (n : Nat)
    (hn : n ≤ (rd actions state).length) :
    Sized game ((List.range n).foldl (improveAction game currDir actions state) (none, v)).2 ∧
    ((List.range n).foldl (improveAction game currDir actions state) (none, v)).2.pivot
      = v.pivot ∧
    (0 < n →
      ((List.range n).foldl (improveAction game currDir actions state) (none, v)).1 ≠ none) ∧
    (((List.range n).foldl (improveAction game currDir actions state) (none, v)).1 ≠ none →
      ChoiceOK game currDir actions v.pivot state
        (improvedEntry
          ((List.range n).foldl (improveAction game currDir actions state) (none, v)).2
          state)) := by
  induction n with
  | zero =>
    refine ⟨hs, rfl, fun h => absurd h (Nat.lt_irrefl 0), fun h => ?_⟩
    exact absurd rfl h
  | succ n ih =>
    rw [List.range_succ, List.foldl_append, List.foldl_cons, List.foldl_nil]
    obtain ⟨hsz, hpiv, -, hch⟩ := ih (Nat.le_of_succ_le hn)
    generalize (List.range n).foldl (improveAction game currDir actions state) (none, v) = acc
      at hsz hpiv hch
    obtain ⟨best, w⟩ := acc
    simp only at hsz hpiv hch
    obtain ⟨h1, h2, h3, h4, h5⟩ := hsz
    have hlt : n < (rd actions state).length := hn
    have e1 : state < w.newPivot.length := by rw [h1]; exact hstate
    have e2 : state < w.newActionTuple.length := by rw [h2]; exact hstate
    have e3 : state < w.newRegimeTuple.length := by rw [h3]; exact hstate
    have e4 : state < w.bestAPSNotBinding.length := by rw [h4]; exact hstate
    have e5 : state < w.bestBindingPayoffs.length := by rw [h5]; exact hstate
    refine ⟨(improveAction_frame game currDir actions state (best, w) n
      ⟨h1, h2, h3, h4, h5⟩).1, ?_, ?_⟩
    · rw [(improveAction_counters game currDir actions state (best, w) n).2.2]
      exact hpiv
    · simp only [improveAction, hpiv]
      by_cases c1 : apsNotBinding game currDir (rd (rd actions state) n) = true ∨
          (bestAPSPayoff game currDir state (rd (rd actions state) n)).dot currDir >
            (bellmanPayoff game v.pivot state (rd (rd actions state) n).action).dot currDir
              - 1 / 10 ^ 7
      · rw [if_pos c1]
        by_cases c2 : aboveBest
            ((bellmanPayoff game v.pivot state (rd (rd actions state) n).action).dot currDir)
            best = true
        · rw [if_pos c2]
          refine ⟨fun _ => by simp, fun _ => ?_⟩
          simp only [improvedEntry, ChoiceOK, rd_set_eq _ _ _ e1, rd_set_eq _ _ _ e2,
            rd_set_eq _ _ _ e3, rd_set_eq _ _ _ e4]
          refine ⟨hlt, fun _ => ⟨trivial, trivial, ?_⟩, fun h => absurd h (by decide)⟩
          intro hfalse
          rw [hfalse]
          simp only [Bool.false_eq_true, if_false]
          exact rd_set_eq _ _ _ e5
        · rw [if_neg c2]
          have hb : best ≠ none := by
            intro hc
            rw [hc] at c2
            exact c2 rfl
          exact ⟨fun _ => hb, fun _ => hch hb⟩
      · rw [if_neg c1]
        have c1' := not_or.mp c1
        have haps : apsNotBinding game currDir (rd (rd actions state) n) = false := by
          simpa using c1'.1
        have c3 : (bestAPSPayoff game currDir state (rd (rd actions state) n)).dot currDir <
            (bellmanPayoff game v.pivot state (rd (rd actions state) n).action).dot currDir
              + 1 / 10 ^ 7 := by
          have := not_lt.mp c1'.2
          linarith
        rw [if_pos c3]
        by_cases c4 : aboveBest
            ((bestAPSPayoff game currDir state (rd (rd actions state) n)).dot currDir)
            best = true
        · rw [if_pos c4]
          refine ⟨fun _ => by simp, fun _ => ?_⟩
          simp only [improvedEntry, ChoiceOK, rd_set_eq _ _ _ e1, rd_set_eq _ _ _ e2,
            rd_set_eq _ _ _ e3]
          exact ⟨hlt, fun h => absurd h (by decide), fun _ => ⟨haps, trivial⟩⟩
        · rw [if_neg c4]
          have hb : best ≠ none := by
            intro hc
            rw [hc] at c4
            exact c4 rfl
          exact ⟨fun _ => hb, fun _ => hch hb⟩

/-- The improvement of one state with at least one action: the entries of the state belong
to one of its actions, and the entries of the other states are not written. -/
theorem improveState_choice (game : SGGame) (currDir : SGPoint)
    (actions : List (List SGAction_V2)) (v : PolicyVars) (state : Nat)
    (hstate : state < game.numStates) (hs : Sized game v) (hact : rd actions state ≠ []) :
    Sized game (improveState game currDir actions v state) ∧
    ChoiceOK game currDir actions v.pivot state
      (improvedEntry (improveState game currDir actions v state) state) ∧
    ∀ s, s ≠ state →
      improvedEntry (improveState game currDir actions v state) s = improvedEntry v s := by
  have hpos : 0 < (rd actions state).length := List.length_pos.mpr hact
  obtain ⟨h1, -, h3, h4⟩ := improveActions_upto game currDir actions state v hstate hs
    (rd actions state).length (le_refl _)
  have hframe := foldl_keeps
    (fun acc : Option ℚ × PolicyVars => Sized game acc.2 ∧
      ∀ s, s ≠ state → improvedEntry acc.2 s = improvedEntry v s)
    (improveAction game currDir actions state) (List.range (rd actions state).length) (none, v)
    (fun x y hx => by
      obtain ⟨f1, f2⟩ := improveAction_frame game currDir actions state x y hx.1
      exact ⟨f1, fun s hne => (f2 s hne).trans (hx.2 s hne)⟩)
    ⟨hs, fun _ _ => rfl⟩
  simp only [improveState]
  exact ⟨h1, h4 (h3 hpos), hframe.2⟩

theorem improveState_sized (game : SGGame) (currDir : SGPoint)
    (actions : List (List SGAction_V2)) (v : PolicyVars) (state : Nat) (hs : Sized game v) :
    Sized game (improveState game currDir actions v state) := by
  simp only [improveState]
  exact foldl_keeps (fun acc : Option ℚ × PolicyVars => Sized game acc.2)
    (improveAction game currDir actions state) _ (none, v)
    (fun x y hx => (improveAction_frame game currDir actions state x y hx).1) hs

/-- The loop of the improvement step over the first `n` states. -/
theorem improveStates_upto (game : SGGame) (currDir : SGPoint)
    (actions : List (List SGAction_V2)) (v : PolicyVars) (hs : Sized game v)
    (hact : ∀ s, s < game.numStates → rd actions s ≠ []) (n : Nat)
    (hn : n ≤ game.numStates) :
    Sized game ((List.range n).foldl (improveState game currDir actions) v) ∧
    ((List.range n).foldl (improveState game currDir actions) v).pivot = v.pivot ∧
    ∀ s, s < n → ChoiceOK game currDir actions v.pivot s
      (improvedEntry ((List.range n).foldl (improveState game currDir actions) v) s) := by
  induction n with
  | zero => exact ⟨hs, rfl, fun s h => absurd h (Nat.not_lt_zero s)⟩
  | succ n ih =>
    rw [List.range_succ, List.foldl_append, List.foldl_cons, List.foldl_nil]
    obtain ⟨hsz, hpiv, hall⟩ := ih (Nat.le_of_succ_le hn)
    generalize (List.range n).foldl (improveState game currDir actions) v = w at hsz hpiv hall
    obtain ⟨c1, c2, c3⟩ := improveState_choice game currDir actions w n hn hsz (hact n hn)
    refine ⟨c1, ?_, ?_⟩
    · rw [(improveState_counters game currDir actions w n).2.2, hpiv]
    · intro s hs'
      rcases Nat.lt_succ_iff_lt_or_eq.mp hs' with hlt | rfl
      · rw [c3 s (by omega)]
        exact hall s hlt
      · rw [← hpiv]
        exact c2

/-- After the improvement step the variables are in order and every state is settled on one
of its actions. -/
theorem improvementStep_settled (game : SGGame) (currDir : SGPoint)
    (actions : List (List SGAction_V2)) (v : PolicyVars) (hs : Sized game v)
    (hact : ∀ s, s < game.numStates → rd actions s ≠ []) :
    InOrder game (improvementStep game currDir actions v) ∧
    ∀ s, s < game.numStates →
      Settled game currDir actions (improvementStep game currDir actions v) s := by
  have hs0 : Sized game { v with pivotError := 0 } := hs
  obtain ⟨hsz, -, hall⟩ := improveStates_upto game currDir actions { v with pivotError := 0 }
    hs0 hact game.numStates (le_refl _)
  simp only [improvementStep]
  refine ⟨⟨hsz, hsz.1⟩, fun s hlt => ?_⟩
  obtain ⟨a1, a2, a3⟩ := hall s hlt
  simp only [improvedEntry] at a1 a2 a3
  exact ⟨a1, fun h => (a2 h).2, a3⟩

theorem improvementStep_inOrder (game : SGGame) (currDir : SGPoint)
    (actions : List (List SGAction_V2)) (v : PolicyVars) (hs : Sized game v) :
    InOrder game (improvementStep game currDir actions v) := by
  have hs0 : Sized game { v with pivotError := 0 } := hs
  have hsz := foldl_keeps (fun w : PolicyVars => Sized game w)
    (improveState game currDir actions) (List.range game.numStates) _
    (fun x y hx => improveState_sized game currDir actions x y hx) hs0
  simp only [improvementStep]
  exact ⟨hsz, hsz.1⟩

/-! ## The loop that fixes the regimes keeps the states settled -/

theorem policyToPayoffs_binding (env : SGEnv) (game : SGGame)
    (actions : List (List SGAction_V2)) (pivot : SGTuple) (actionTuple : List Nat)
    (regimeTuple : List Regime) (s : Nat) (hs : rd regimeTuple s ≠ Regime.NonBinding) :
    rd (policyToPayoffs env game actions pivot actionTuple regimeTuple).1 s = rd pivot s := by
  obtain ⟨p0, -, hb, he⟩ := bellmanLoop_last env game actions actionTuple regimeTuple
    (env.MAXUPDATEPIVOTPASSES - 1) pivot
  simp only [policyToPayoffs]
  rw [he, bellmanSweep_rd, if_neg (fun hc => hs hc.2.2), hb s hs]

theorem regimePass_inOrder (env : SGEnv) (game : SGGame) (currDir : SGPoint)
    (actions : List (List SGAction_V2)) (v : PolicyVars) (h : InOrder game v) :
    InOrder game (regimePass env game currDir actions v).1 := by
  obtain ⟨-, f2, f3, -, -, -, f7, f8, f9, -, f11, -⟩ :=
    regimePass_frame env game currDir actions v
  obtain ⟨⟨h1, h2, h3, h4, h5⟩, h6⟩ := h
  exact ⟨⟨by rw [f7]; exact h1, by rw [f8]; exact h2, by rw [f9]; exact h3,
    by rw [f2]; exact h4, by rw [f3]; exact h5⟩, by rw [f11]; exact h6⟩

/-- One pass of the loop that fixes the regimes keeps a state of the game settled. -/
theorem regimePass_settled (env : SGEnv) (game : SGGame) (currDir : SGPoint)
    (actions : List (List SGAction_V2)) (v : PolicyVars) (hord : InOrder game v) (s : Nat)
    (hs : s < game.numStates) (h : Settled game currDir actions v s) :
    Settled game currDir actions (regimePass env game currDir actions v).1 s := by
  obtain ⟨f1, f2, f3, -⟩ := regimePass_frame env game currDir actions v
  have hreg := regimePass_regime env game currDir actions v s
  obtain ⟨a1, a2, a3⟩ := h
  simp only [Settled, f1, f2, f3]
  refine ⟨a1, ?_, ?_⟩
  · intro hnb
    apply a2
    rw [hreg] at hnb
    split_ifs at hnb with hc
    exact hnb
  · intro hb
    simp only [regimePass, switchStates] at hb ⊢
    obtain ⟨-, -, -, -, -, h6, h7⟩ := switchStates_upto game
      (gapScan game currDir { v with
        pivot := (policyToPayoffs env game actions v.pivot v.actionTuple v.regimeTuple).1
        bellmanPivot :=
          (policyToPayoffs env game actions v.pivot v.actionTuple v.regimeTuple).1
        bellmanPivotGap :=
          (policyToPayoffs env game actions v.pivot v.actionTuple v.regimeTuple).2 }).1
      (gapScan game currDir { v with
        pivot := (policyToPayoffs env game actions v.pivot v.actionTuple v.regimeTuple).1
        bellmanPivot :=
          (policyToPayoffs env game actions v.pivot v.actionTuple v.regimeTuple).1
        bellmanPivotGap :=
          (policyToPayoffs env game actions v.pivot v.actionTuple v.regimeTuple).2 }).2.2
      { v with
        pivot := (policyToPayoffs env game actions v.pivot v.actionTuple v.regimeTuple).1
        bellmanPivot :=
          (policyToPayoffs env game actions v.pivot v.actionTuple v.regimeTuple).1
        bellmanPivotGap :=
          (policyToPayoffs env game actions v.pivot v.actionTuple v.regimeTuple).2 }
      game.numStates
    rw [h7 s]
    rw [h6 s] at hb
    have hlen : s < (policyToPayoffs env game actions v.pivot v.actionTuple
        v.regimeTuple).1.length := by
      rw [policyToPayoffs_length, hord.2]
      exact hs
    generalize hv1 : ({ v with
        pivot := (policyToPayoffs env game actions v.pivot v.actionTuple v.regimeTuple).1
        bellmanPivot :=
          (policyToPayoffs env game actions v.pivot v.actionTuple v.regimeTuple).1
        bellmanPivotGap :=
          (policyToPayoffs env game actions v.pivot v.actionTuple v.regimeTuple).2 } :
        PolicyVars) = v1 at hb ⊢
    have e1 : v1.pivot
        = (policyToPayoffs env game actions v.pivot v.actionTuple v.regimeTuple).1 := by
      rw [← hv1]
    have e2 : v1.regimeTuple = v.regimeTuple := by rw [← hv1]
    have e3 : v1.bestBindingPayoffs = v.bestBindingPayoffs := by rw [← hv1]
    have e4 : checked v1 s = checked v s := by rw [← hv1]; rfl
    by_cases hcond : s < game.numStates ∧ checked v1 s = true ∧
        rd (gapScan game currDir v1).1 s ≥ game.delta * (gapScan game currDir v1).2.2
    · -- switched in this pass
      rw [if_pos ⟨hcond.1, hcond.2.1, hcond.2.2, by rw [e1]; exact hlen⟩, e3]
      have hck : checked v s = true := by rw [← e4]; exact hcond.2.1
      obtain ⟨-, hnb, hflag⟩ := checked_lt v s hck
      obtain ⟨b1, b2⟩ := a2 hnb
      have haps : apsNotBinding game currDir (rd (rd actions s) (rd v.actionTuple s))
          = false := by
        rw [← b1]
        exact hflag
      exact ⟨haps, b2 haps⟩
    · -- already binding
      rw [if_neg hcond, e2] at hb
      rw [if_neg (fun h => hcond ⟨h.1, h.2.1, h.2.2.1⟩), e1]
      obtain ⟨b1, b2⟩ := a3 hb
      refine ⟨b1, ?_⟩
      rw [policyToPayoffs_binding env game actions v.pivot v.actionTuple v.regimeTuple s
        (by rw [hb]; decide)]
      exact b2

/-- The loop that fixes the regimes keeps every property that one pass keeps. -/
theorem regimeFixLoop_keeps (env : SGEnv) (game : SGGame) (currDir : SGPoint)
    (actions : List (List SGAction_V2)) (P : PolicyVars → Prop)
    (hP : ∀ v, P v → P (regimePass env game currDir actions v).1) (fuel : Nat) :
    ∀ v r, regimeFixLoop env game currDir actions fuel v = some r → P v → P r.1 := by
  induction fuel with
  | zero =>
    intro v r h
    simp [regimeFixLoop] at h
  | succ fuel ih =>
    intro v r h hv
    simp only [regimeFixLoop] at h
    split_ifs at h with hviol
    · cases hrec : regimeFixLoop env game currDir actions fuel
          (regimePass env game currDir actions v).1 with
      | none => simp [hrec] at h
      | some r' =>
        rw [hrec] at h
        simp only [Option.map_some', Option.some.injEq] at h
        rw [← h]
        exact ih _ r' hrec (hP v hv)
    · simp only [Option.some.injEq] at h
      rw [← h]
      exact hP v hv

/-- The result of the loop that fixes the regimes is the result of a pass without violation,
made on variables that have every property that the entry variables have and one pass
keeps. -/
theorem regimeFixLoop_last (env : SGEnv) (game : SGGame) (currDir : SGPoint)
    (actions : List (List SGAction_V2)) (P : PolicyVars → Prop)
    (hP : ∀ v, P v → P (regimePass env game currDir actions v).1) (fuel : Nat) :
    ∀ v r, regimeFixLoop env game currDir actions fuel v = some r → P v →
      ∃ v1, P v1 ∧ (regimePass env game currDir actions v1).2 = false ∧
        r.1 = (regimePass env game currDir actions v1).1 := by
  induction fuel with
  | zero =>
    intro v r h
    simp [regimeFixLoop] at h
  | succ fuel ih =>
    intro v r h hv
    simp only [regimeFixLoop] at h
    split_ifs at h with hviol
    · cases hrec : regimeFixLoop env game currDir actions fuel
          (regimePass env game currDir actions v).1 with
      | none => simp [hrec] at h
      | some r' =>
        rw [hrec] at h
        simp only [Option.map_some', Option.some.injEq] at h
        rw [← h]
        exact ih _ r' hrec (hP v hv)
    · simp only [Option.some.injEq] at h
      rw [← h]
      exact ⟨v, hv, by simpa using hviol, rfl⟩

/-! ## The rounds of the policy iteration -/

theorem roundOf_sameOutput {env : SGEnv} {game : SGGame} {currDir : SGPoint}
    {actions : List (List SGAction_V2)} {fuel : Nat} {v0 res res' : PolicyVars}
    (h : RoundOf env game currDir actions fuel v0 res) (h' : SameOutput res res') :
    RoundOf env game currDir actions fuel v0 res' := by
  obtain ⟨w, n, he, a1, a2, a3, a4, a5, a6, a7, a8⟩ := h
  obtain ⟨b1, b2, b3, b4, b5, b6, b7, b8⟩ := h'
  exact ⟨w, n, he, b1.trans a1, b2.trans a2, b3.trans a3, b4.trans a4, b5.trans a5,
    b6.trans a6, b7.trans a7, b8.trans a8⟩

/-- A round of the policy iteration that is given more passes than the game has states
ends: it counts one round more and leaves `numPolicyIters` and the sizes of the vectors as
they are. -/
theorem policyRound_ends (env : SGEnv) (game : SGGame) (hδ : game.delta ≤ 1)
    (currDir : SGPoint) (actions : List (List SGAction_V2)) (fuel : Nat)
    (hfuel : game.numStates < fuel) (v : PolicyVars) :
    ∃ res, policyRound env game currDir actions fuel v = some res ∧
      res.rounds = v.rounds + 1 ∧ res.numPolicyIters = v.numPolicyIters ∧
      RoundOf env game currDir actions fuel v res ∧ (Sized game v → Sized game res) := by
  obtain ⟨r, n, he, -, -, hf, -⟩ := regimeFixLoop_ends env game hδ currDir
    actions fuel (improvementStep game currDir actions v)
    (lt_of_le_of_lt (numNonBinding_le game _) hfuel)
  obtain ⟨c1, c2⟩ := improvementStep_counters game currDir actions v
  refine ⟨{ r with rounds := r.rounds + 1 },
    by simp only [policyRound, he, Option.map_some'], ?_, ?_, ?_, ?_⟩
  · simp only [hf.2.2.2.2.1, c1]
  · simp only [hf.2.2.2.2.2.1, c2]
  · exact ⟨r, n, he, rfl, rfl, rfl, rfl, rfl, rfl, rfl, rfl⟩
  · intro hs
    have h1 := (improvementStep_inOrder game currDir actions v hs).1
    obtain ⟨-, f2, f3, -, -, -, f7, f8, f9, -⟩ := hf
    obtain ⟨s1, s2, s3, s4, s5⟩ := h1
    exact ⟨by rw [← s1]; exact congrArg List.length f7,
      by rw [← s2]; exact congrArg List.length f8,
      by rw [← s3]; exact congrArg List.length f9,
      by rw [← s4]; exact congrArg List.length f2,
      by rw [← s5]; exact congrArg List.length f3⟩

/-- The policy iteration ends when every round is given more passes than the game has
states: it makes at least one round and at most one more than the cap still allows; it
stops with `pivotError ≤ POLICYITERTOL`, having counted one round more than
`numPolicyIters`, or with `pivotError > POLICYITERTOL` at the last round the cap allows,
having counted as many rounds as `numPolicyIters`; and the variables it returns are those
of a round started from variables of the same sizes. -/
theorem policyLoop_ends (env : SGEnv) (game : SGGame) (hδ : game.delta ≤ 1)
    (currDir : SGPoint) (actions : List (List SGAction_V2)) (fuel : Nat)
    (hfuel : game.numStates < fuel) (remaining : Nat) :
    ∀ v : PolicyVars, ∃ res,
      policyLoop env game currDir actions fuel remaining v = some res ∧
      v.rounds + 1 ≤ res.rounds ∧ res.rounds ≤ v.rounds + remaining + 1 ∧
      ((res.pivotError ≤ env.POLICYITERTOL ∧
          res.numPolicyIters + v.rounds + 1 = res.rounds + v.numPolicyIters) ∨
        (res.pivotError > env.POLICYITERTOL ∧ res.rounds = v.rounds + remaining + 1 ∧
          res.numPolicyIters + v.rounds = res.rounds + v.numPolicyIters)) ∧
      ∃ v0, (Sized game v → Sized game v0) ∧ RoundOf env game currDir actions fuel v0 res := by
  induction remaining with
  | zero =>
    intro v
    obtain ⟨r, he, hr, hk, hl, -⟩ := policyRound_ends env game hδ currDir actions fuel hfuel v
    simp only [policyLoop, he, Option.map_some']
    by_cases hp : r.pivotError > env.POLICYITERTOL
    · rw [if_pos hp]
      exact ⟨_, rfl, by show v.rounds + 1 ≤ r.rounds; omega,
        by show r.rounds ≤ v.rounds + 0 + 1; omega,
        Or.inr ⟨hp, by show r.rounds = v.rounds + 0 + 1; omega,
          by show r.numPolicyIters + 1 + v.rounds = r.rounds + v.numPolicyIters; omega⟩,
        v, id, roundOf_sameOutput hl ⟨rfl, rfl, rfl, rfl, rfl, rfl, rfl, rfl⟩⟩
    · rw [if_neg hp]
      exact ⟨_, rfl, by omega, by omega, Or.inl ⟨not_lt.mp hp, by omega⟩, v, id, hl⟩
  | succ k ih =>
    intro v
    obtain ⟨r, he, hr, hk, hl, hsz⟩ :=
      policyRound_ends env game hδ currDir actions fuel hfuel v
    simp only [policyLoop, he, Option.some_bind]
    by_cases hp : r.pivotError > env.POLICYITERTOL
    · rw [if_pos hp]
      obtain ⟨res, he2, h1, h2, h3, v0, h4, h5⟩ :=
        ih { r with numPolicyIters := r.numPolicyIters + 1 }
      simp only [hr, hk] at h1 h2 h3
      refine ⟨res, he2, by omega, by omega, ?_, v0, fun hs => h4 (hsz hs), h5⟩
      rcases h3 with ⟨h3, h3'⟩ | ⟨h3, h3', h3''⟩
      · exact Or.inl ⟨h3, by omega⟩
      · exact Or.inr ⟨h3, by omega, by omega⟩
    · rw [if_neg hp]
      exact ⟨_, rfl, by omega, by omega, Or.inl ⟨not_lt.mp hp, by omega⟩, v, id, hl⟩

theorem PolicyVars.init_sized (game : SGGame) (pivot : SGTuple) (actionTuple : List Nat)
    (regimeTuple : List Regime) (ha : actionTuple.length = game.numStates)
    (hr : regimeTuple.length = game.numStates) :
    Sized game (PolicyVars.init game pivot actionTuple regimeTuple) :=
  ⟨List.length_replicate _ _, ha, hr, List.length_replicate _ _, List.length_replicate _ _⟩

/-- The variables of a round started from variables of the right sizes, for a game in which
every state has an action: no checked state has a non-negative gap, and every state is
settled on one of its actions. -/
theorem roundOf_settled {env : SGEnv} {game : SGGame} {currDir : SGPoint}
    {actions : List (List SGAction_V2)} {fuel : Nat} {v0 res : PolicyVars}
    (h : RoundOf env game currDir actions fuel v0 res) (hs : Sized game v0)
    (hact : ∀ s, s < game.numStates → rd actions s ≠ []) :
    ∀ s, s < game.numStates → Settled game currDir actions res s := by
  obtain ⟨w, n, he, a1, a2, a3, a4, a5, -⟩ := h
  obtain ⟨hord, hset⟩ := improvementStep_settled game currDir actions v0 hs hact
  have hkeep := regimeFixLoop_keeps env game currDir actions
    (fun v => InOrder game v ∧ ∀ s, s < game.numStates → Settled game currDir actions v s)
    (fun v hv => ⟨regimePass_inOrder env game currDir actions v hv.1,
      fun s hlt => regimePass_settled env game currDir actions v hv.1 s hlt (hv.2 s hlt)⟩)
    fuel _ (w, n) he ⟨hord, hset⟩
  intro s hlt
  have := hkeep.2 s hlt
  simp only [Settled, a1, a2, a3, a4, a5] at this ⊢
  exact this

theorem roundOf_gap_neg {env : SGEnv} {game : SGGame} {currDir : SGPoint}
    {actions : List (List SGAction_V2)} {fuel : Nat} {v0 res : PolicyVars}
    (h : RoundOf env game currDir actions fuel v0 res) :
    ∀ s, s < game.numStates → checked res s = true → gapOf currDir res s < 0 := by
  obtain ⟨w, n, he, a1, a2, a3, a4, a5, -⟩ := h
  obtain ⟨v1, -, hv1, hw⟩ := regimeFixLoop_last env game currDir actions (fun _ => True)
    (fun _ _ => trivial) fuel _ (w, n) he trivial
  intro s hlt hc
  have hc' : checked w s = true := by
    simp only [checked, a3, a4] at hc ⊢
    exact hc
  have := regimePass_gap_neg env game currDir actions v1 hv1 s hlt (by
    simp only at hw
    rw [← hw]
    exact hc')
  simp only at hw
  rw [← hw] at this
  simp only [gapOf, a1, a5] at this ⊢
  exact this

/-- A loop keeps every property that its body keeps on the elements of the list. -/
theorem foldl_keeps_mem {α β : Type} (P : α → Prop) (f : α → β → α) (l : List β) (a : α)
    (hstep : ∀ x y, y ∈ l → P x → P (f x y)) (ha : P a) : P (l.foldl f a) := by
  induction l generalizing a with
  | nil => exact ha
  | cons b l ih =>
    exact ih (f a b) (fun x y hy hx => hstep x y (List.mem_cons_of_mem _ hy) hx)
      (hstep a b (List.mem_cons_self _ _) ha)

/-- The scan of the binding payoffs returns a player of the game and the index of one of the
player's binding payoffs. -/
theorem bestBindingScan_valid (numPlayers : Nat) (currDir : SGPoint) (act : SGAction_V2)
    (l : ℚ) (p k : Nat) (h : bestBindingScan numPlayers currDir act = some (l, p, k)) :
    p < numPlayers ∧ k < (rd act.points p).length := by
  have key := foldl_keeps_mem
    (fun best : Option (ℚ × Nat × Nat) =>
      ∀ l p k, best = some (l, p, k) → p < numPlayers ∧ k < (rd act.points p).length)
    (fun best p =>
      (List.range (rd act.points p).length).foldl
        (fun best k =>
          if aboveBest ((rd (rd act.points p) k).dot currDir) (best.map Prod.fst) then
            some ((rd (rd act.points p) k).dot currDir, p, k)
          else best)
        best)
    (List.range numPlayers) none
    (fun x q hq hx =>
      foldl_keeps_mem
        (fun best : Option (ℚ × Nat × Nat) =>
          ∀ l p k, best = some (l, p, k) → p < numPlayers ∧ k < (rd act.points p).length)
        _ (List.range (rd act.points q).length) x
        (fun y j hj hy => by
          intro l p k hlpk
          split_ifs at hlpk with hc
          · simp only [Option.some.injEq, Prod.mk.injEq] at hlpk
            obtain ⟨-, rfl, rfl⟩ := hlpk
            exact ⟨List.mem_range.mp hq, List.mem_range.mp hj⟩
          · exact hy l p k hlpk)
        hx)
    (fun l p k hc => by simp at hc)
  exact key l p k h

/-- When the flag `APSNotBinding` of an action is off, its best binding payoff is
`(1−δ)·payoffs[s][a] + δ·e` for one of its binding payoffs `e`. -/
theorem bestAPSPayoff_form (game : SGGame) (currDir : SGPoint) (state : Nat)
    (act : SGAction_V2) (h : apsNotBinding game currDir act = false) :
    ∃ p k, p < game.numPlayers ∧ k < (rd act.points p).length ∧
      bestAPSPayoff game currDir state act =
        (SGPoint.smul (1 - game.delta) (rd (rd game.payoffs state) act.action)).add
          (SGPoint.smul game.delta (rd (rd act.points p) k)) := by
  cases hscan : bestBindingScan game.numPlayers currDir act with
  | none =>
    simp [apsNotBinding, hscan] at h
  | some r =>
    obtain ⟨l, p, k⟩ := r
    obtain ⟨hp, hk⟩ := bestBindingScan_valid game.numPlayers currDir act l p k hscan
    refine ⟨p, k, hp, hk, ?_⟩
    simp only [bestAPSPayoff, hscan, h, Bool.false_eq_true, if_false]

/-! ## Claims on `optimizePolicy` -/

/-- C6: on return from `optimizePolicy` (`δ ∈ (0,1)`, vectors with one entry per state,
every state with at least one surviving action; the inner loop is given more passes than
there are states), no state violates the regime rule: every state `s` in the non-binding
regime whose chosen action has a usable best binding payoff has
`gap[s] = (pivot[s] − bestBindingPayoff[s])·dir < 0`; so the regime check finds
`maxGap = 0` and no checked state has `gap ≥ δ·maxGap`. -/
theorem C6_optimizePolicy_regime_rule (env : SGEnv) (game : SGGame)
    (_hδ0 : 0 < game.delta) (hδ1 : game.delta < 1) (fuel : Nat)
    (hfuel : game.numStates < fuel) (pivot : SGTuple) (actionTuple : List Nat)
    (regimeTuple : List Regime) (currDir : SGPoint) (actions : List (List SGAction_V2))
    (hal : actionTuple.length = game.numStates) (hrl : regimeTuple.length = game.numStates)
    (hact : ∀ s, s < game.numStates → rd actions s ≠ []) :
    ∃ res, optimizePolicy env game fuel pivot actionTuple regimeTuple currDir actions
        = some res ∧
      (∀ s, s < game.numStates → rd res.regimeTuple s = Regime.NonBinding →
        apsNotBinding game currDir (rd (rd actions s) (rd res.actionTuple s)) = false →
        (rd res.pivot s).dot currDir
          - (bestAPSPayoff game currDir s (rd (rd actions s) (rd res.actionTuple s))).dot
              currDir < 0) ∧
      (gapScan game currDir res).2.2 = 0 ∧
      ∀ s, s < game.numStates → checked res s = true →
        ¬ rd (gapScan game currDir res).1 s ≥ game.delta * (gapScan game currDir res).2.2 := by
  obtain ⟨res, he, -, -, -, v0, hv0, hround⟩ := policyLoop_ends env game (le_of_lt hδ1)
    currDir actions fuel hfuel (env.MAXPOLICYITERATIONS - 1)
    (PolicyVars.init game pivot actionTuple regimeTuple)
  have hsz := hv0 (PolicyVars.init_sized game pivot actionTuple regimeTuple hal hrl)
  have hset := roundOf_settled hround hsz hact
  have hgap := roundOf_gap_neg hround
  obtain ⟨-, hany, hnone, hall⟩ := gapScan_spec game currDir res
  have hno : (gapScan game currDir res).2.1 = false := by
    by_contra hc
    obtain ⟨s, hs, hck, hpos, -⟩ := hany (by simpa using hc)
    have := hgap s hs hck
    linarith
  refine ⟨res, he, ?_, hnone hno, ?_⟩
  · intro s hs hnb haps
    obtain ⟨-, h2, -⟩ := hset s hs
    obtain ⟨b1, b2⟩ := h2 hnb
    have hck : checked res s = true := by
      simp only [checked, b1, haps, hnb]
      decide
    have := hgap s hs hck
    simp only [gapOf, b2 haps] at this
    exact this
  · intro s hs hck
    rw [hnone hno, mul_zero, (hall s hs hck).1]
    exact not_le.mpr (hgap s hs hck)

/-- Witness of C6: the two-state game `tieGame`, direction `(1, 0)`, entry pivot `(0, 0)` in
both states. -/
theorem C6_optimizePolicy_regime_rule_witness :
    ∃ res, optimizePolicy SGEnv.defaults tieGame 3 [⟨0, 0⟩, ⟨0, 0⟩] [0, 0]
        [Regime.Binding, Regime.Binding] ⟨1, 0⟩ tieActions = some res ∧
      (∀ s, s < tieGame.numStates → rd res.regimeTuple s = Regime.NonBinding →
        apsNotBinding tieGame ⟨1, 0⟩ (rd (rd tieActions s) (rd res.actionTuple s)) = false →
        (rd res.pivot s).dot ⟨1, 0⟩
          - (bestAPSPayoff tieGame ⟨1, 0⟩ s (rd (rd tieActions s) (rd res.actionTuple s))).dot
              ⟨1, 0⟩ < 0) ∧
      (gapScan tieGame ⟨1, 0⟩ res).2.2 = 0 ∧
      ∀ s, s < tieGame.numStates → checked res s = true →
        ¬ rd (gapScan tieGame ⟨1, 0⟩ res).1 s
          ≥ tieGame.delta * (gapScan tieGame ⟨1, 0⟩ res).2.2 :=
  C6_optimizePolicy_regime_rule SGEnv.defaults tieGame (by norm_num [tieGame])
    (by norm_num [tieGame]) 3 (by simp [tieGame]) [⟨0, 0⟩, ⟨0, 0⟩] [0, 0]
    [Regime.Binding, Regime.Binding] ⟨1, 0⟩ tieActions rfl rfl
    (by
      intro s hs
      have hcases : s = 0 ∨ s = 1 := by
        simp only [tieGame] at hs
        omega
      rcases hcases with rfl | rfl <;> simp [tieActions, rd])

/-- C7: for `δ ∈ (0,1)`, the inner loop of `optimizePolicy` that fixes the regimes, which
has no cap, ends after at most `numStates + 1` passes (it returns when given that many):
every pass that detects a violation switches at least one state from the non-binding to the
binding regime, and no pass switches a state from the binding regime back. -/
theorem C7_regimeFixLoop_terminates (env : SGEnv) (game : SGGame)
    (_hδ0 : 0 < game.delta) (hδ1 : game.delta < 1) (currDir : SGPoint)
    (actions : List (List SGAction_V2)) (fuel : Nat) (hfuel : game.numStates + 1 ≤ fuel)
    (v : PolicyVars) :
    (∃ r n, regimeFixLoop env game currDir actions fuel v = some (r, n) ∧
      n ≤ game.numStates + 1) ∧
    (∀ w, (regimePass env game currDir actions w).2 = true →
      ∃ s, s < game.numStates ∧ rd w.regimeTuple s = Regime.NonBinding ∧
        rd (regimePass env game currDir actions w).1.regimeTuple s = Regime.Binding) ∧
    ∀ w s, rd w.regimeTuple s = Regime.Binding →
      rd (regimePass env game currDir actions w).1.regimeTuple s = Regime.Binding := by
  refine ⟨?_, ?_, ?_⟩
  · obtain ⟨r, n, he, -, hn, -⟩ := regimeFixLoop_ends env game (le_of_lt hδ1) currDir actions
      fuel v (lt_of_le_of_lt (numNonBinding_le game v) hfuel)
    exact ⟨r, n, he, le_trans hn (Nat.succ_le_succ (numNonBinding_le game v))⟩
  · intro w hw
    exact regimePass_switches env game (le_of_lt hδ1) currDir actions w hw
  · intro w s hs
    exact (regimePass_frame env game currDir actions w).2.2.2.2.2.2.2.2.2.2.2 s hs

/-- Witness of C7: the two-state game `tieGame`, with three passes allowed. -/
theorem C7_regimeFixLoop_terminates_witness :
    ∃ r n, regimeFixLoop SGEnv.defaults tieGame ⟨1, 0⟩ tieActions 3
        (PolicyVars.init tieGame [⟨0, 0⟩, ⟨0, 0⟩] [0, 0] [Regime.Binding, Regime.Binding])
        = some (r, n) ∧
      n ≤ tieGame.numStates + 1 :=
  (C7_regimeFixLoop_terminates SGEnv.defaults tieGame (by norm_num [tieGame])
    (by norm_num [tieGame]) ⟨1, 0⟩ tieActions 3 (by simp [tieGame])
    (PolicyVars.init tieGame [⟨0, 0⟩, ⟨0, 0⟩] [0, 0] [Regime.Binding, Regime.Binding])).1

/-- C8 (amended): `optimizePolicy` runs at least one and at most `MAXPOLICYITERATIONS`
policy-improvement rounds (for `MAXPOLICYITERATIONS ≥ 1`), and on return either the last
round's `pivotError` is `≤ POLICYITERTOL` and no warning is due
(`numPolicyIters < MAXPOLICYITERATIONS`), or the last round's `pivotError` is
`> POLICYITERTOL`, exactly `MAXPOLICYITERATIONS` rounds were run and the warning is due
(`numPolicyIters ≥ MAXPOLICYITERATIONS`). -/
theorem C8_optimizePolicy_rounds (env : SGEnv) (game : SGGame)
    (_hδ0 : 0 < game.delta) (hδ1 : game.delta < 1) (hmax : 1 ≤ env.MAXPOLICYITERATIONS)
    (fuel : Nat) (hfuel : game.numStates < fuel) (pivot : SGTuple) (actionTuple : List Nat)
    (regimeTuple : List Regime) (currDir : SGPoint) (actions : List (List SGAction_V2)) :
    ∃ res, optimizePolicy env game fuel pivot actionTuple regimeTuple currDir actions
        = some res ∧
      1 ≤ res.rounds ∧ res.rounds ≤ env.MAXPOLICYITERATIONS ∧
      ((res.pivotError ≤ env.POLICYITERTOL ∧
          res.numPolicyIters < env.MAXPOLICYITERATIONS) ∨
        (res.pivotError > env.POLICYITERTOL ∧ res.rounds = env.MAXPOLICYITERATIONS ∧
          res.numPolicyIters ≥ env.MAXPOLICYITERATIONS)) := by
  obtain ⟨res, he, h1, h2, h3, -⟩ := policyLoop_ends env game (le_of_lt hδ1)
    currDir actions fuel hfuel (env.MAXPOLICYITERATIONS - 1)
    (PolicyVars.init game pivot actionTuple regimeTuple)
  have hr0 : (PolicyVars.init game pivot actionTuple regimeTuple).rounds = 0 := rfl
  have hk0 : (PolicyVars.init game pivot actionTuple regimeTuple).numPolicyIters = 0 := rfl
  rw [hr0] at h1 h2 h3
  rw [hk0] at h3
  refine ⟨res, he, by omega, by omega, ?_⟩
  rcases h3 with ⟨a, b⟩ | ⟨a, b, c⟩
  · exact Or.inl ⟨a, by omega⟩
  · exact Or.inr ⟨a, by omega, by omega⟩

/-- Witness of C8 (amended): the two-state game `tieGame` with the default caps. -/
theorem C8_optimizePolicy_rounds_witness :
    ∃ res, optimizePolicy SGEnv.defaults tieGame 3 [⟨0, 0⟩, ⟨0, 0⟩] [0, 0]
        [Regime.Binding, Regime.Binding] ⟨1, 0⟩ tieActions = some res ∧
      1 ≤ res.rounds ∧ res.rounds ≤ SGEnv.defaults.MAXPOLICYITERATIONS ∧
      ((res.pivotError ≤ SGEnv.defaults.POLICYITERTOL ∧
          res.numPolicyIters < SGEnv.defaults.MAXPOLICYITERATIONS) ∨
        (res.pivotError > SGEnv.defaults.POLICYITERTOL ∧
          res.rounds = SGEnv.defaults.MAXPOLICYITERATIONS ∧
          res.numPolicyIters ≥ SGEnv.defaults.MAXPOLICYITERATIONS)) :=
  C8_optimizePolicy_rounds SGEnv.defaults tieGame (by norm_num [tieGame])
    (by norm_num [tieGame]) (by simp [SGEnv.defaults]) 3 (by simp [tieGame])
    [⟨0, 0⟩, ⟨0, 0⟩] [0, 0] [Regime.Binding, Regime.Binding] ⟨1, 0⟩ tieActions

/-- C10: on return from `optimizePolicy` (`δ ∈ (0,1)`, vectors with one entry per state,
every state with at least one surviving action; the inner loop is given more passes than
there are states), for every state `s` whose returned regime is binding, the returned
action `a_s` is an action of the state and
`pivot[s] = (1−δ)·payoffs[s][a_s] + δ·e` for one of the binding payoffs `e = points[p][k]`
of that same action. -/
theorem C10_optimizePolicy_binding_pivot (env : SGEnv) (game : SGGame)
    (_hδ0 : 0 < game.delta) (hδ1 : game.delta < 1) (fuel : Nat)
    (hfuel : game.numStates < fuel) (pivot : SGTuple) (actionTuple : List Nat)
    (regimeTuple : List Regime) (currDir : SGPoint) (actions : List (List SGAction_V2))
    (hal : actionTuple.length = game.numStates) (hrl : regimeTuple.length = game.numStates)
    (hact : ∀ s, s < game.numStates → rd actions s ≠ []) :
    ∃ res, optimizePolicy env game fuel pivot actionTuple regimeTuple currDir actions
        = some res ∧
      ∀ s, s < game.numStates → rd res.regimeTuple s = Regime.Binding →
        rd res.actionTuple s < (rd actions s).length ∧
        ∃ p k, p < game.numPlayers ∧
          k < (rd (rd (rd actions s) (rd res.actionTuple s)).points p).length ∧
          rd res.pivot s =
            (SGPoint.smul (1 - game.delta)
                (rd (rd game.payoffs s) (rd (rd actions s) (rd res.actionTuple s)).action)).add
              (SGPoint.smul game.delta
                (rd (rd (rd (rd actions s) (rd res.actionTuple s)).points p) k)) := by
  obtain ⟨res, he, -, -, -, v0, hv0, hround⟩ := policyLoop_ends env game (le_of_lt hδ1)
    currDir actions fuel hfuel (env.MAXPOLICYITERATIONS - 1)
    (PolicyVars.init game pivot actionTuple regimeTuple)
  have hsz := hv0 (PolicyVars.init_sized game pivot actionTuple regimeTuple hal hrl)
  have hset := roundOf_settled hround hsz hact
  refine ⟨res, he, ?_⟩
  intro s hs hb
  obtain ⟨h1, -, h3⟩ := hset s hs
  obtain ⟨haps, hpiv⟩ := h3 hb
  obtain ⟨p, k, hp, hk, hform⟩ := bestAPSPayoff_form game currDir s _ haps
  exact ⟨h1, p, k, hp, hk, hpiv.trans hform⟩

/-- Witness of C10: the two-state game `tieGame`, direction `(1, 0)`, entry pivot `(0, 0)`
in both states. -/
theorem C10_optimizePolicy_binding_pivot_witness :
    ∃ res, optimizePolicy SGEnv.defaults tieGame 3 [⟨0, 0⟩, ⟨0, 0⟩] [0, 0]
        [Regime.Binding, Regime.Binding] ⟨1, 0⟩ tieActions = some res ∧
      ∀ s, s < tieGame.numStates → rd res.regimeTuple s = Regime.Binding →
        rd res.actionTuple s < (rd tieActions s).length ∧
        ∃ p k, p < tieGame.numPlayers ∧
          k < (rd (rd (rd tieActions s) (rd res.actionTuple s)).points p).length ∧
          rd res.pivot s =
            (SGPoint.smul (1 - tieGame.delta)
                (rd (rd tieGame.payoffs s)
                  (rd (rd tieActions s) (rd res.actionTuple s)).action)).add
              (SGPoint.smul tieGame.delta
                (rd (rd (rd (rd tieActions s) (rd res.actionTuple s)).points p) k)) :=
  C10_optimizePolicy_binding_pivot SGEnv.defaults tieGame (by norm_num [tieGame])
    (by norm_num [tieGame]) 3 (by simp [tieGame]) [⟨0, 0⟩, ⟨0, 0⟩] [0, 0]
    [Regime.Binding, Regime.Binding] ⟨1, 0⟩ tieActions rfl rfl
    (by
      intro s hs
      have hcases : s = 0 ∨ s = 1 := by
        simp only [tieGame] at hs
        omega
      rcases hcases with rfl | rfl <;> simp [tieActions, rd])

/-! ## Runs that stop at once -/

theorem SGPoint.default_eq : (default : SGPoint) = ⟨0, 0⟩ := rfl

/-- The Bellman iteration stops after one sweep that moves the pivot by at most
`UPDATEPIVOTTOL`. -/
theorem bellmanLoop_converged (env : SGEnv) (game : SGGame)
    (actions : List (List SGAction_V2)) (actionTuple : List Nat) (regimeTuple : List Regime)
    (remaining : Nat) (pivot : SGTuple)
    (h : ¬ SGTuple.distance (bellmanSweep game actions actionTuple regimeTuple pivot) pivot
      > env.UPDATEPIVOTTOL) :
    bellmanLoop env game actions actionTuple regimeTuple remaining pivot =
      (bellmanSweep game actions actionTuple regimeTuple pivot,
        SGTuple.distance (bellmanSweep game actions actionTuple regimeTuple pivot) pivot) := by
  cases remaining with
  | zero => rfl
  | succ r => simp only [bellmanLoop, if_neg h]

/-- The Bellman iteration makes one sweep when the cap allows no further pass. -/
theorem bellmanLoop_capped (env : SGEnv) (game : SGGame)
    (actions : List (List SGAction_V2)) (actionTuple : List Nat) (regimeTuple : List Regime)
    (pivot : SGTuple) :
    bellmanLoop env game actions actionTuple regimeTuple 0 pivot =
      (bellmanSweep game actions actionTuple regimeTuple pivot,
        SGTuple.distance (bellmanSweep game actions actionTuple regimeTuple pivot) pivot) :=
  rfl

/-- The loop that fixes the regimes makes one pass when the pass detects no violation. -/
theorem regimeFixLoop_once (env : SGEnv) (game : SGGame) (currDir : SGPoint)
    (actions : List (List SGAction_V2)) (fuel : Nat) (v : PolicyVars)
    (h : (regimePass env game currDir actions v).2 = false) :
    regimeFixLoop env game currDir actions (fuel + 1) v =
      some ((regimePass env game currDir actions v).1, 1) := by
  simp only [regimeFixLoop, h, Bool.false_eq_true, if_false]

/-- The policy iteration makes one round when the round ends with
`pivotError ≤ POLICYITERTOL`. -/
theorem policyLoop_once (env : SGEnv) (game : SGGame) (currDir : SGPoint)
    (actions : List (List SGAction_V2)) (fuel remaining : Nat) (v r : PolicyVars)
    (hr : policyRound env game currDir actions fuel v = some r)
    (h : ¬ r.pivotError > env.POLICYITERTOL) :
    policyLoop env game currDir actions fuel remaining v = some r := by
  cases remaining with
  | zero => simp only [policyLoop, hr, Option.map_some', if_neg h]
  | succ k => simp only [policyLoop, hr, Option.some_bind, if_neg h]

/-- The policy iteration makes one round when the cap allows no further round. -/
theorem policyLoop_capped (env : SGEnv) (game : SGGame) (currDir : SGPoint)
    (actions : List (List SGAction_V2)) (fuel : Nat) (v r : PolicyVars)
    (hr : policyRound env game currDir actions fuel v = some r)
    (h : r.pivotError > env.POLICYITERTOL) :
    policyLoop env game currDir actions fuel 0 v =
      some { r with numPolicyIters := r.numPolicyIters + 1 } := by
  simp only [policyLoop, hr, Option.map_some', if_pos h]

/-! ## The run of the counterexample to C8 -/

theorem boundary_improvement :
    improvementStep boundaryGame ⟨1, 0⟩ boundaryActions
        (PolicyVars.init boundaryGame [⟨-1, 0⟩] [0] [Regime.Binding]) =
      { pivot := [⟨-1 - 1 / 10 ^ 8, 0⟩], actionTuple := [0], regimeTuple := [Regime.Binding],
        newPivot := [⟨-1 - 1 / 10 ^ 8, 0⟩], newActionTuple := [0],
        newRegimeTuple := [Regime.Binding], bestAPSNotBinding := [false],
        bestBindingPayoffs := [⟨0, 0⟩], pivotError := 1 / 10 ^ 8, numPolicyIters := 0,
        rounds := 0, bellmanPivot := [⟨-1, 0⟩], bellmanPivotGap := 0 } := by
  simp [improvementStep, improveState, improveAction, PolicyVars.init, boundaryGame,
    boundaryActions, rd, apsNotBinding, bestAPSPayoff, bestBindingScan, bellmanPayoff,
    aboveBest, SGTuple.expectation, SGTuple.expectationCoord, SGPoint.dot, SGPoint.add,
    SGPoint.smul, SGPoint.coord, List.range_succ, SGPoint.default_eq]
  norm_num

theorem boundary_pass :
    regimePass SGEnv.defaults boundaryGame ⟨1, 0⟩ boundaryActions
        { pivot := [⟨-1 - 1 / 10 ^ 8, 0⟩], actionTuple := [0],
          regimeTuple := [Regime.Binding], newPivot := [⟨-1 - 1 / 10 ^ 8, 0⟩],
          newActionTuple := [0], newRegimeTuple := [Regime.Binding],
          bestAPSNotBinding := [false], bestBindingPayoffs := [⟨0, 0⟩],
          pivotError := 1 / 10 ^ 8, numPolicyIters := 0, rounds := 0,
          bellmanPivot := [⟨-1, 0⟩], bellmanPivotGap := 0 } =
      ({ pivot := [⟨-1 - 1 / 10 ^ 8, 0⟩], actionTuple := [0],
          regimeTuple := [Regime.Binding], newPivot := [⟨-1 - 1 / 10 ^ 8, 0⟩],
          newActionTuple := [0], newRegimeTuple := [Regime.Binding],
          bestAPSNotBinding := [false], bestBindingPayoffs := [⟨0, 0⟩],
          pivotError := 1 / 10 ^ 8, numPolicyIters := 0, rounds := 0,
          bellmanPivot := [⟨-1 - 1 / 10 ^ 8, 0⟩], bellmanPivotGap := 0 }, false) := by
  have hsweep : bellmanSweep boundaryGame boundaryActions [0] [Regime.Binding]
      [⟨-1 - 1 / 10 ^ 8, 0⟩] = [⟨-1 - 1 / 10 ^ 8, 0⟩] := by
    simp [bellmanSweep, bellmanStep, boundaryGame, rd, List.range_succ]
  have hdist : SGTuple.distance [(⟨-1 - 1 / 10 ^ 8, 0⟩ : SGPoint)] [⟨-1 - 1 / 10 ^ 8, 0⟩]
      = 0 := by
    simp [SGTuple.distance, SGPoint.distance, rd, List.range_succ]
  have hb : policyToPayoffs SGEnv.defaults boundaryGame boundaryActions
      [⟨-1 - 1 / 10 ^ 8, 0⟩] [0] [Regime.Binding] = ([⟨-1 - 1 / 10 ^ 8, 0⟩], 0) := by
    simp only [policyToPayoffs]
    rw [bellmanLoop_converged _ _ _ _ _ _ _ (by
      rw [hsweep, hdist]
      norm_num [SGEnv.defaults]), hsweep, hdist]
  simp only [regimePass, hb]
  simp [gapScan, gapScanStep, switchStates, switchStep, checked, boundaryGame, rd,
    List.range_succ]

theorem boundary_run :
    optimizePolicy SGEnv.defaults boundaryGame 2 [⟨-1, 0⟩] [0] [Regime.Binding] ⟨1, 0⟩
        boundaryActions =
      some
        { pivot := [⟨-1 - 1 / 10 ^ 8, 0⟩], actionTuple := [0],
          regimeTuple := [Regime.Binding], newPivot := [⟨-1 - 1 / 10 ^ 8, 0⟩],
          newActionTuple := [0], newRegimeTuple := [Regime.Binding],
          bestAPSNotBinding := [false], bestBindingPayoffs := [⟨0, 0⟩],
          pivotError := 1 / 10 ^ 8, numPolicyIters := 0, rounds := 1,
          bellmanPivot := [⟨-1 - 1 / 10 ^ 8, 0⟩], bellmanPivotGap := 0 } := by
  simp only [optimizePolicy]
  refine policyLoop_once _ _ _ _ _ _ _ _ ?_ ?_
  · simp only [policyRound, boundary_improvement]
    rw [regimeFixLoop_once _ _ _ _ 1 _ (by rw [boundary_pass]), boundary_pass]
    rfl
  · norm_num [SGEnv.defaults]

/-- Counterexample to C8 as stated: with the default parameters, the round of
`boundaryGame` from the pivot `(-1, 0)` in direction `(1, 0)` ends with
`pivotError = 1e-8 = POLICYITERTOL`; the loop test `pivotError > POLICYITERTOL` fails, so
`optimizePolicy` returns after one round of the 100 allowed, with a `pivotError` that is
not `< POLICYITERTOL`. -/
theorem C8_counterexample :
    ∃ res, optimizePolicy SGEnv.defaults boundaryGame 2 [⟨-1, 0⟩] [0] [Regime.Binding] ⟨1, 0⟩
        boundaryActions = some res ∧
      ¬ (res.pivotError < SGEnv.defaults.POLICYITERTOL ∨
        res.rounds = SGEnv.defaults.MAXPOLICYITERATIONS) := by
  refine ⟨_, boundary_run, ?_⟩
  norm_num [SGEnv.defaults]

/-! ## The runs of the counterexample to C9 -/

theorem range_two : List.range 2 = [0, 1] := rfl

theorem tie_improvement :
    improvementStep tieGame ⟨1, 0⟩ tieActions
        (PolicyVars.init tieGame [⟨0, 0⟩, ⟨0, 0⟩] [0, 0] [Regime.Binding, Regime.Binding]) =
      { pivot := [⟨0, 0⟩, ⟨0, 0⟩], actionTuple := [0, 0],
        regimeTuple := [Regime.NonBinding, Regime.NonBinding],
        newPivot := [⟨0, 0⟩, ⟨0, 0⟩], newActionTuple := [0, 0],
        newRegimeTuple := [Regime.NonBinding, Regime.NonBinding],
        bestAPSNotBinding := [false, true], bestBindingPayoffs := [⟨0, 1⟩, ⟨0, 0⟩],
        pivotError := 0, numPolicyIters := 0, rounds := 0,
        bellmanPivot := [⟨0, 0⟩, ⟨0, 0⟩], bellmanPivotGap := 0 } := by
  simp [improvementStep, improveState, improveAction, PolicyVars.init, tieGame,
    tieActions, rd, apsNotBinding, bestAPSPayoff, bestBindingScan, bellmanPayoff,
    aboveBest, SGTuple.expectation, SGTuple.expectationCoord, SGPoint.dot, SGPoint.add,
    SGPoint.smul, SGPoint.coord, List.range_succ, SGPoint.default_eq]
  norm_num [range_two]

theorem tie_pass :
    regimePass SGEnv.defaults tieGame ⟨1, 0⟩ tieActions
        { pivot := [⟨0, 0⟩, ⟨0, 0⟩], actionTuple := [0, 0],
          regimeTuple := [Regime.NonBinding, Regime.NonBinding],
          newPivot := [⟨0, 0⟩, ⟨0, 0⟩], newActionTuple := [0, 0],
          newRegimeTuple := [Regime.NonBinding, Regime.NonBinding],
          bestAPSNotBinding := [false, true], bestBindingPayoffs := [⟨0, 1⟩, ⟨0, 0⟩],
          pivotError := 0, numPolicyIters := 0, rounds := 0,
          bellmanPivot := [⟨0, 0⟩, ⟨0, 0⟩], bellmanPivotGap := 0 } =
      ({ pivot := [⟨0, 1⟩, ⟨0, 0⟩], actionTuple := [0, 0],
          regimeTuple := [Regime.Binding, Regime.NonBinding],
          newPivot := [⟨0, 0⟩, ⟨0, 0⟩], newActionTuple := [0, 0],
          newRegimeTuple := [Regime.NonBinding, Regime.NonBinding],
          bestAPSNotBinding := [false, true], bestBindingPayoffs := [⟨0, 1⟩, ⟨0, 0⟩],
          pivotError := 0, numPolicyIters := 0, rounds := 0,
          bellmanPivot := [⟨0, 0⟩, ⟨0, 0⟩], bellmanPivotGap := 0 }, false) := by
  have hsweep : bellmanSweep tieGame tieActions [0, 0]
      [Regime.NonBinding, Regime.NonBinding] [⟨0, 0⟩, ⟨0, 0⟩] = [⟨0, 0⟩, ⟨0, 0⟩] := by
    simp [bellmanSweep, bellmanStep, bellmanPayoff, tieGame, tieActions, rd, range_two,
      List.range_succ, SGTuple.expectation, SGTuple.expectationCoord, SGPoint.add,
      SGPoint.smul, SGPoint.coord]
  have hdist : SGTuple.distance [(⟨0, 0⟩ : SGPoint), ⟨0, 0⟩] [⟨0, 0⟩, ⟨0, 0⟩] = 0 := by
    simp [SGTuple.distance, SGPoint.distance, rd, range_two, List.range_succ]
  have hb : policyToPayoffs SGEnv.defaults tieGame tieActions [⟨0, 0⟩, ⟨0, 0⟩] [0, 0]
      [Regime.NonBinding, Regime.NonBinding] = ([⟨0, 0⟩, ⟨0, 0⟩], 0) := by
    simp only [policyToPayoffs]
    rw [bellmanLoop_converged _ _ _ _ _ _ _ (by
      rw [hsweep, hdist]
      norm_num [SGEnv.defaults]), hsweep, hdist]
  simp only [regimePass, hb]
  simp [gapScan, gapScanStep, gapOf, switchStates, switchStep, checked, tieGame, rd,
    range_two, List.range_succ, SGPoint.dot]

/-- The run of `optimizePolicy` on `tieGame`: the Bellman iteration converges exactly and
no cap is reached; state 0 is then switched to the binding regime with a gap of exactly 0,
and the Bellman iteration is not repeated. -/
theorem tie_run :
    optimizePolicy SGEnv.defaults tieGame 3 [⟨0, 0⟩, ⟨0, 0⟩] [0, 0]
        [Regime.Binding, Regime.Binding] ⟨1, 0⟩ tieActions =
      some
        { pivot := [⟨0, 1⟩, ⟨0, 0⟩], actionTuple := [0, 0],
          regimeTuple := [Regime.Binding, Regime.NonBinding],
          newPivot := [⟨0, 0⟩, ⟨0, 0⟩], newActionTuple := [0, 0],
          newRegimeTuple := [Regime.NonBinding, Regime.NonBinding],
          bestAPSNotBinding := [false, true], bestBindingPayoffs := [⟨0, 1⟩, ⟨0, 0⟩],
          pivotError := 0, numPolicyIters := 0, rounds := 1,
          bellmanPivot := [⟨0, 0⟩, ⟨0, 0⟩], bellmanPivotGap := 0 } := by
  simp only [optimizePolicy]
  refine policyLoop_once _ _ _ _ _ _ _ _ ?_ ?_
  · simp only [policyRound, tie_improvement]
    rw [regimeFixLoop_once _ _ _ _ 2 _ (by rw [tie_pass]), tie_pass]
    rfl
  · norm_num [SGEnv.defaults]

theorem cap_improvement :
    improvementStep capGame ⟨1, 0⟩ capActions
        (PolicyVars.init capGame [⟨0, 0⟩] [0] [Regime.Binding]) =
      { pivot := [⟨1 / 2, 0⟩], actionTuple := [0], regimeTuple := [Regime.NonBinding],
        newPivot := [⟨1 / 2, 0⟩], newActionTuple := [0],
        newRegimeTuple := [Regime.NonBinding], bestAPSNotBinding := [true],
        bestBindingPayoffs := [⟨0, 0⟩], pivotError := 1 / 2, numPolicyIters := 0,
        rounds := 0, bellmanPivot := [⟨0, 0⟩], bellmanPivotGap := 0 } := by
  simp [improvementStep, improveState, improveAction, PolicyVars.init, capGame,
    capActions, rd, apsNotBinding, bestAPSPayoff, bestBindingScan, bellmanPayoff,
    aboveBest, SGTuple.expectation, SGTuple.expectationCoord, SGPoint.dot, SGPoint.add,
    SGPoint.smul, SGPoint.coord, List.range_succ, SGPoint.default_eq]
  norm_num

theorem cap_pass :
    regimePass capEnv capGame ⟨1, 0⟩ capActions
        { pivot := [⟨1 / 2, 0⟩], actionTuple := [0], regimeTuple := [Regime.NonBinding],
          newPivot := [⟨1 / 2, 0⟩], newActionTuple := [0],
          newRegimeTuple := [Regime.NonBinding], bestAPSNotBinding := [true],
          bestBindingPayoffs := [⟨0, 0⟩], pivotError := 1 / 2, numPolicyIters := 0,
          rounds := 0, bellmanPivot := [⟨0, 0⟩], bellmanPivotGap := 0 } =
      ({ pivot := [⟨3 / 4, 0⟩], actionTuple := [0], regimeTuple := [Regime.NonBinding],
          newPivot := [⟨1 / 2, 0⟩], newActionTuple := [0],
          newRegimeTuple := [Regime.NonBinding], bestAPSNotBinding := [true],
          bestBindingPayoffs := [⟨0, 0⟩], pivotError := 1 / 2, numPolicyIters := 0,
          rounds := 0, bellmanPivot := [⟨3 / 4, 0⟩], bellmanPivotGap := 1 / 4 }, false) := by
  have hsweep : bellmanSweep capGame capActions [0] [Regime.NonBinding] [⟨1 / 2, 0⟩]
      = [⟨3 / 4, 0⟩] := by
    simp [bellmanSweep, bellmanStep, bellmanPayoff, capGame, capActions, rd, List.range_succ,
      SGTuple.expectation, SGTuple.expectationCoord, SGPoint.add, SGPoint.smul,
      SGPoint.coord]
    norm_num
  have hdist : SGTuple.distance [(⟨3 / 4, 0⟩ : SGPoint)] [⟨1 / 2, 0⟩] = 1 / 4 := by
    have habs : |(3 : ℚ) / 4 - 2⁻¹| = 4⁻¹ := by
      rw [abs_of_pos (by norm_num)]
      norm_num
    simp [SGTuple.distance, SGPoint.distance, rd, List.range_succ, habs]
  have hb : policyToPayoffs capEnv capGame capActions [⟨1 / 2, 0⟩] [0]
      [Regime.NonBinding] = ([⟨3 / 4, 0⟩], 1 / 4) := by
    simp only [policyToPayoffs, capEnv]
    rw [bellmanLoop_capped, hsweep, hdist]
  simp only [regimePass, hb]
  simp [gapScan, gapScanStep, gapOf, switchStates, switchStep, checked, capGame, rd,
    List.range_succ, SGPoint.dot]

/-- The run of `optimizePolicy` on `capGame` with both caps set to one pass: the Bellman
iteration stops at its cap after one sweep that moved the pivot by 1/4. -/
theorem cap_run :
    optimizePolicy capEnv capGame 2 [⟨0, 0⟩] [0] [Regime.Binding] ⟨1, 0⟩ capActions =
      some
        { pivot := [⟨3 / 4, 0⟩], actionTuple := [0], regimeTuple := [Regime.NonBinding],
          newPivot := [⟨1 / 2, 0⟩], newActionTuple := [0],
          newRegimeTuple := [Regime.NonBinding], bestAPSNotBinding := [true],
          bestBindingPayoffs := [⟨0, 0⟩], pivotError := 1 / 2, numPolicyIters := 1,
          rounds := 1, bellmanPivot := [⟨3 / 4, 0⟩], bellmanPivotGap := 1 / 4 } := by
  simp only [optimizePolicy, capEnv]
  refine policyLoop_capped _ _ _ _ _ _
    { pivot := [⟨3 / 4, 0⟩], actionTuple := [0], regimeTuple := [Regime.NonBinding],
      newPivot := [⟨1 / 2, 0⟩], newActionTuple := [0],
      newRegimeTuple := [Regime.NonBinding], bestAPSNotBinding := [true],
      bestBindingPayoffs := [⟨0, 0⟩], pivotError := 1 / 2, numPolicyIters := 0,
      rounds := 1, bellmanPivot := [⟨3 / 4, 0⟩], bellmanPivotGap := 1 / 4 } ?_ ?_
  · simp only [policyRound, cap_improvement]
    have hp := cap_pass
    simp only [capEnv] at hp
    rw [regimeFixLoop_once _ _ _ _ 1 _ (by rw [hp]), hp]
    rfl
  · norm_num [SGEnv.defaults]

/-- Counterexample to C9 as stated, at two inputs.  On `tieGame`, with the default
parameters, the Bellman iteration converges exactly and no cap is reached; the last pass of
the regime check then switches state 0 to the binding regime with a gap of exactly 0, which
moves `pivot[0]` from `(0, 0)` to `(0, 1)` without a new Bellman iteration, so the
non-binding state 1 returns `pivot[1] = (0, 0)` while its Bellman image under the returned
pivot is `(0, 1/2)`.  On `capGame`, with `MAXUPDATEPIVOTPASSES = 1`, the Bellman iteration
stops at its cap and the non-binding state 0 returns `(3/4, 0)` while its Bellman image is
`(7/8, 0)`. -/
theorem C9_counterexample :
    (∃ res, optimizePolicy SGEnv.defaults tieGame 3 [⟨0, 0⟩, ⟨0, 0⟩] [0, 0]
        [Regime.Binding, Regime.Binding] ⟨1, 0⟩ tieActions = some res ∧
      rd res.regimeTuple 1 = Regime.NonBinding ∧ res.bellmanPivotGap = 0 ∧
      ¬ SGPoint.distance (rd res.pivot 1)
          (bellmanPayoff tieGame res.pivot 1 (rd (rd tieActions 1) (rd res.actionTuple 1)).action)
        ≤ SGEnv.defaults.UPDATEPIVOTTOL) ∧
    (∃ res, optimizePolicy capEnv capGame 2 [⟨0, 0⟩] [0] [Regime.Binding] ⟨1, 0⟩ capActions
        = some res ∧
      rd res.regimeTuple 0 = Regime.NonBinding ∧
      ¬ SGPoint.distance (rd res.pivot 0)
          (bellmanPayoff capGame res.pivot 0 (rd (rd capActions 0) (rd res.actionTuple 0)).action)
        ≤ capEnv.UPDATEPIVOTTOL) := by
  refine ⟨⟨_, tie_run, rfl, rfl, ?_⟩, ⟨_, cap_run, rfl, ?_⟩⟩
  · have h : SGPoint.distance (rd [(⟨0, 1⟩ : SGPoint), ⟨0, 0⟩] 1)
        (bellmanPayoff tieGame [⟨0, 1⟩, ⟨0, 0⟩] 1
          (rd (rd tieActions 1) (rd [0, 0] 1)).action) = 1 / 2 := by
      have habs : |(2 : ℚ)⁻¹| = 2⁻¹ := abs_of_pos (by norm_num)
      simp [SGPoint.distance, bellmanPayoff, tieGame, tieActions, rd, SGTuple.expectation,
        SGTuple.expectationCoord, SGPoint.add, SGPoint.smul, SGPoint.coord, range_two, habs]
    simp only [h]
    norm_num [SGEnv.defaults]
  · have hp : bellmanPayoff capGame [⟨3 / 4, 0⟩] 0
        (rd (rd capActions 0) (rd [0] 0)).action = ⟨7 / 8, 0⟩ := by
      simp [bellmanPayoff, capGame, capActions, rd, SGTuple.expectation,
        SGTuple.expectationCoord, SGPoint.add, SGPoint.smul, SGPoint.coord, List.range_succ]
      norm_num
    have h : SGPoint.distance (rd [(⟨3 / 4, 0⟩ : SGPoint)] 0) ⟨7 / 8, 0⟩ = 1 / 8 := by
      have habs : |(3 : ℚ) / 4 - 7 / 8| = 1 / 8 := by
        rw [abs_of_neg (by norm_num)]
        norm_num
      simp only [SGPoint.distance, rd, List.getD_cons_zero, habs, sub_self, abs_zero]
      norm_num
    simp only [hp, h]
    norm_num [capEnv, SGEnv.defaults]

/-! ## The Bellman payoff as a contraction -/

/-- Two weighted sums with the same non-negative weights differ by at most the total weight
times a bound on the difference of their terms. -/
theorem weighted_sum_diff (w a b : Nat → ℚ) (D : ℚ) (n : Nat)
    (hw : ∀ t, t < n → 0 ≤ w t) (hab : ∀ t, t < n → |a t - b t| ≤ D) :
    |((List.range n).map (fun t => w t * a t)).sum
        - ((List.range n).map (fun t => w t * b t)).sum|
      ≤ ((List.range n).map w).sum * D := by
  induction n with
  | zero => simp
  | succ n ih =>
    simp only [List.range_succ, List.map_append, List.map_cons, List.map_nil,
      List.sum_append, List.sum_cons, List.sum_nil, add_zero]
    have h1 := ih (fun t ht => hw t (Nat.lt_succ_of_lt ht))
      (fun t ht => hab t (Nat.lt_succ_of_lt ht))
    have h2 := hab n (Nat.lt_succ_self n)
    have h3 := hw n (Nat.lt_succ_self n)
    have h4 : |w n * a n - w n * b n| ≤ w n * D := by
      rw [← mul_sub, abs_mul, abs_of_nonneg h3]
      exact mul_le_mul_of_nonneg_left h2 h3
    calc |((List.range n).map (fun t => w t * a t)).sum + w n * a n
          - (((List.range n).map (fun t => w t * b t)).sum + w n * b n)|
        = |(((List.range n).map (fun t => w t * a t)).sum
            - ((List.range n).map (fun t => w t * b t)).sum)
            + (w n * a n - w n * b n)| := by
          congr 1
          ring
      _ ≤ |((List.range n).map (fun t => w t * a t)).sum
            - ((List.range n).map (fun t => w t * b t)).sum|
            + |w n * a n - w n * b n| := abs_add _ _
      _ ≤ ((List.range n).map w).sum * D + w n * D := add_le_add h1 h4
      _ = (((List.range n).map w).sum + w n) * D := by ring

/-- A running maximum bounds its start value and every value it has met. -/
theorem foldl_max_ge (f : Nat → ℚ) (l : List Nat) (init : ℚ) :
    init ≤ l.foldl (fun d s => max d (f s)) init ∧
    ∀ s, s ∈ l → f s ≤ l.foldl (fun d s => max d (f s)) init := by
  induction l generalizing init with
  | nil => exact ⟨le_refl _, fun s hs => absurd hs (List.not_mem_nil s)⟩
  | cons a l ih =>
    simp only [List.foldl_cons]
    obtain ⟨h1, h2⟩ := ih (max init (f a))
    refine ⟨le_trans (le_max_left _ _) h1, fun s hs => ?_⟩
    rcases List.mem_cons.mp hs with rfl | hs
    · exact le_trans (le_max_right _ _) h1
    · exact h2 s hs

/-- The distance of two tuples bounds the difference of every coordinate of every state of
the first tuple. -/
theorem SGTuple.coord_diff_le_distance (t0 t1 : SGTuple) (s c : Nat) (hs : s < t0.length) :
    |(rd t0 s).coord c - (rd t1 s).coord c| ≤ SGTuple.distance t0 t1 := by
  have h1 := (foldl_max_ge (fun s => SGPoint.distance (rd t0 s) (rd t1 s))
    (List.range t0.length) 0).2 s (List.mem_range.mpr hs)
  refine le_trans ?_ h1
  simp only [SGPoint.coord, SGPoint.distance]
  split_ifs
  · exact le_max_left _ _
  · exact le_max_right _ _

/-- The Bellman payoffs of one action against two pivots of the same length differ, in the
sup-norm, by at most `δ` times a bound on the coordinates of the difference of the pivots,
when the transition probabilities are non-negative and sum to at most 1. -/
theorem bellmanPayoff_contraction (game : SGGame) (hδ : 0 ≤ game.delta) (p q : SGTuple)
    (s a : Nat) (D : ℚ) (hD0 : 0 ≤ D) (hlen : p.length = q.length)
    (hw : ∀ t, t < p.length → 0 ≤ rd (rd (rd game.probabilities s) a) t)
    (hsum : ((List.range p.length).map
      (fun t => rd (rd (rd game.probabilities s) a) t)).sum ≤ 1)
    (hD : ∀ t c, t < p.length → |(rd p t).coord c - (rd q t).coord c| ≤ D) :
    SGPoint.distance (bellmanPayoff game p s a) (bellmanPayoff game q s a)
      ≤ game.delta * D := by
  have key : ∀ c, |SGTuple.expectationCoord p (rd (rd game.probabilities s) a) c
      - SGTuple.expectationCoord q (rd (rd game.probabilities s) a) c| ≤ D := by
    intro c
    have := weighted_sum_diff (fun t => rd (rd (rd game.probabilities s) a) t)
      (fun t => (rd p t).coord c) (fun t => (rd q t).coord c) D p.length hw
      (fun t ht => hD t c ht)
    simp only [SGTuple.expectationCoord, ← hlen]
    refine le_trans this ?_
    calc ((List.range p.length).map
          (fun t => rd (rd (rd game.probabilities s) a) t)).sum * D ≤ 1 * D :=
          mul_le_mul_of_nonneg_right hsum hD0
      _ = D := one_mul D
  have hx : |(bellmanPayoff game p s a).x - (bellmanPayoff game q s a).x|
      ≤ game.delta * D := by
    have hcalc : (bellmanPayoff game p s a).x - (bellmanPayoff game q s a).x =
        game.delta * (SGTuple.expectationCoord p (rd (rd game.probabilities s) a) 0
          - SGTuple.expectationCoord q (rd (rd game.probabilities s) a) 0) := by
      simp only [bellmanPayoff, SGPoint.add, SGPoint.smul, SGTuple.expectation]
      ring
    rw [hcalc, abs_mul, abs_of_nonneg hδ]
    exact mul_le_mul_of_nonneg_left (key 0) hδ
  have hy : |(bellmanPayoff game p s a).y - (bellmanPayoff game q s a).y|
      ≤ game.delta * D := by
    have hcalc : (bellmanPayoff game p s a).y - (bellmanPayoff game q s a).y =
        game.delta * (SGTuple.expectationCoord p (rd (rd game.probabilities s) a) 1
          - SGTuple.expectationCoord q (rd (rd game.probabilities s) a) 1) := by
      simp only [bellmanPayoff, SGPoint.add, SGPoint.smul, SGTuple.expectation]
      ring
    rw [hcalc, abs_mul, abs_of_nonneg hδ]
    exact mul_le_mul_of_nonneg_left (key 1) hδ
  exact max_le hx hy

theorem SGTuple.distance_nonneg (t0 t1 : SGTuple) : 0 ≤ SGTuple.distance t0 t1 :=
  (foldl_max_ge (fun s => SGPoint.distance (rd t0 s) (rd t1 s)) (List.range t0.length) 0).1

/-! ## Claim on the non-binding states on return from `optimizePolicy` -/

/-- C9 (amended): on return from `optimizePolicy` (`δ ∈ (0,1)`, vectors with one entry per
state, transition probabilities that are non-negative and sum to at most 1; the inner loop
is given more passes than there are states), if the last Bellman iteration stopped with
`bellmanPivotGap ≤ UPDATEPIVOTTOL` (not at its cap) and the regime check after it left the
pivot as that iteration returned it (no state was switched to the binding regime after it),
then for every state `s` whose returned regime is non-binding the returned `pivot[s]` is,
in every coordinate, within `δ · UPDATEPIVOTTOL` of the Bellman image
`(1−δ)·payoffs[s][a_s] + δ·E_{probabilities[s][a_s]}[pivot]` of the returned pivot under the
returned action `a_s`. -/
theorem C9_optimizePolicy_nonbinding_bellman (env : SGEnv) (game : SGGame)
    (hδ0 : 0 < game.delta) (hδ1 : game.delta < 1) (fuel : Nat)
    (hfuel : game.numStates < fuel) (pivot : SGTuple) (actionTuple : List Nat)
    (regimeTuple : List Regime) (currDir : SGPoint) (actions : List (List SGAction_V2))
    (hal : actionTuple.length = game.numStates) (hrl : regimeTuple.length = game.numStates)
    (hprob : ∀ s a, (∀ t, t < game.numStates → 0 ≤ rd (rd (rd game.probabilities s) a) t) ∧
      ((List.range game.numStates).map
        (fun t => rd (rd (rd game.probabilities s) a) t)).sum ≤ 1) :
    ∃ res, optimizePolicy env game fuel pivot actionTuple regimeTuple currDir actions
        = some res ∧
      (res.bellmanPivotGap ≤ env.UPDATEPIVOTTOL → res.pivot = res.bellmanPivot →
        ∀ s, s < game.numStates → rd res.regimeTuple s = Regime.NonBinding →
          SGPoint.distance (rd res.pivot s)
              (bellmanPayoff game res.pivot s (rd (rd actions s) (rd res.actionTuple s)).action)
            ≤ game.delta * env.UPDATEPIVOTTOL) := by
  obtain ⟨res, he, -, -, -, v0, hv0, hround⟩ := policyLoop_ends env game (le_of_lt hδ1)
    currDir actions fuel hfuel (env.MAXPOLICYITERATIONS - 1)
    (PolicyVars.init game pivot actionTuple regimeTuple)
  have hsz := hv0 (PolicyVars.init_sized game pivot actionTuple regimeTuple hal hrl)
  refine ⟨res, he, ?_⟩
  intro hgap hpiv s hs hnb
  obtain ⟨w, n, hw, a1, a2, a3, -, -, -, a7, a8⟩ := hround
  obtain ⟨v1, hord, -, hlast⟩ := regimeFixLoop_last env game currDir actions
    (fun v => InOrder game v) (fun v hv => regimePass_inOrder env game currDir actions v hv)
    fuel _ (w, n) hw (improvementStep_inOrder game currDir actions v0 hsz)
  simp only at hlast
  -- the last Bellman iteration
  obtain ⟨p0, hp0, -, hb⟩ := bellmanLoop_last env game actions v1.actionTuple v1.regimeTuple
    (env.MAXUPDATEPIVOTPASSES - 1) v1.pivot
  have hreg := regimePass_regime env game currDir actions v1 s
  have hact := (regimePass_frame env game currDir actions v1).1
  have hothers := switchStates_others game
    (gapScan game currDir { v1 with
      pivot := (policyToPayoffs env game actions v1.pivot v1.actionTuple v1.regimeTuple).1
      bellmanPivot :=
        (policyToPayoffs env game actions v1.pivot v1.actionTuple v1.regimeTuple).1
      bellmanPivotGap :=
        (policyToPayoffs env game actions v1.pivot v1.actionTuple v1.regimeTuple).2 }).1
    (gapScan game currDir { v1 with
      pivot := (policyToPayoffs env game actions v1.pivot v1.actionTuple v1.regimeTuple).1
      bellmanPivot :=
        (policyToPayoffs env game actions v1.pivot v1.actionTuple v1.regimeTuple).1
      bellmanPivotGap :=
        (policyToPayoffs env game actions v1.pivot v1.actionTuple v1.regimeTuple).2 }).2.2
    { v1 with
      pivot := (policyToPayoffs env game actions v1.pivot v1.actionTuple v1.regimeTuple).1
      bellmanPivot :=
        (policyToPayoffs env game actions v1.pivot v1.actionTuple v1.regimeTuple).1
      bellmanPivotGap :=
        (policyToPayoffs env game actions v1.pivot v1.actionTuple v1.regimeTuple).2 }
  have hbp : w.bellmanPivot
      = (policyToPayoffs env game actions v1.pivot v1.actionTuple v1.regimeTuple).1 := by
    rw [hlast]
    exact hothers.2.2.2.2.2.2.1
  have hbg : w.bellmanPivotGap
      = (policyToPayoffs env game actions v1.pivot v1.actionTuple v1.regimeTuple).2 := by
    rw [hlast]
    exact hothers.2.2.2.2.2.2.2
  simp only [policyToPayoffs] at hbp hbg
  rw [hb] at hbp hbg
  simp only at hbp hbg
  -- the state is non-binding in the last pass
  have hnb1 : rd v1.regimeTuple s = Regime.NonBinding := by
    rw [a3, hlast, hreg] at hnb
    split_ifs at hnb with hc
    exact hnb
  have hlen0 : p0.length = game.numStates := by rw [hp0]; exact hord.2
  have hq : rd res.pivot s = bellmanPayoff game p0 s
      (rd (rd actions s) (rd res.actionTuple s)).action := by
    rw [hpiv, a7, hbp, bellmanSweep_rd, if_pos ⟨hs, by rw [hlen0]; exact hs, hnb1⟩, a2,
      hlast, hact]
  rw [hq, hpiv, a7, hbp]
  have hD : SGTuple.distance (bellmanSweep game actions v1.actionTuple v1.regimeTuple p0) p0
      ≤ env.UPDATEPIVOTTOL := by
    rw [← hbg, ← a8]
    exact hgap
  refine le_trans (bellmanPayoff_contraction game (le_of_lt hδ0) p0
    (bellmanSweep game actions v1.actionTuple v1.regimeTuple p0) s _
    (SGTuple.distance (bellmanSweep game actions v1.actionTuple v1.regimeTuple p0) p0)
    (SGTuple.distance_nonneg _ _) (by rw [bellmanSweep_length]) ?_ ?_ ?_)
    (mul_le_mul_of_nonneg_left hD (le_of_lt hδ0))
  · intro t ht
    exact (hprob s _).1 t (by rw [← hlen0]; exact ht)
  · rw [hlen0]
    exact (hprob s _).2
  · intro t c ht
    rw [abs_sub_comm]
    exact SGTuple.coord_diff_le_distance _ _ t c (by rw [bellmanSweep_length]; exact ht)

/-! ## The run of the witness of C9 -/

theorem still_improvement :
    improvementStep boundaryGame ⟨1, 0⟩ capActions
        (PolicyVars.init boundaryGame [⟨0, 0⟩] [0] [Regime.Binding]) =
      { pivot := [⟨0, 0⟩], actionTuple := [0], regimeTuple := [Regime.NonBinding],
        newPivot := [⟨0, 0⟩], newActionTuple := [0],
        newRegimeTuple := [Regime.NonBinding], bestAPSNotBinding := [true],
        bestBindingPayoffs := [⟨0, 0⟩], pivotError := 0, numPolicyIters := 0,
        rounds := 0, bellmanPivot := [⟨0, 0⟩], bellmanPivotGap := 0 } := by
  simp [improvementStep, improveState, improveAction, PolicyVars.init, boundaryGame,
    capActions, rd, apsNotBinding, bestAPSPayoff, bestBindingScan, bellmanPayoff,
    aboveBest, SGTuple.expectation, SGTuple.expectationCoord, SGPoint.dot, SGPoint.add,
    SGPoint.smul, SGPoint.coord, List.range_succ, SGPoint.default_eq]

theorem still_pass :
    regimePass SGEnv.defaults boundaryGame ⟨1, 0⟩ capActions
        { pivot := [⟨0, 0⟩], actionTuple := [0], regimeTuple := [Regime.NonBinding],
          newPivot := [⟨0, 0⟩], newActionTuple := [0],
          newRegimeTuple := [Regime.NonBinding], bestAPSNotBinding := [true],
          bestBindingPayoffs := [⟨0, 0⟩], pivotError := 0, numPolicyIters := 0,
          rounds := 0, bellmanPivot := [⟨0, 0⟩], bellmanPivotGap := 0 } =
      ({ pivot := [⟨0, 0⟩], actionTuple := [0], regimeTuple := [Regime.NonBinding],
          newPivot := [⟨0, 0⟩], newActionTuple := [0],
          newRegimeTuple := [Regime.NonBinding], bestAPSNotBinding := [true],
          bestBindingPayoffs := [⟨0, 0⟩], pivotError := 0, numPolicyIters := 0,
          rounds := 0, bellmanPivot := [⟨0, 0⟩], bellmanPivotGap := 0 }, false) := by
  have hsweep : bellmanSweep boundaryGame capActions [0] [Regime.NonBinding] [⟨0, 0⟩]
      = [⟨0, 0⟩] := by
    simp [bellmanSweep, bellmanStep, bellmanPayoff, boundaryGame, capActions, rd,
      List.range_succ, SGTuple.expectation, SGTuple.expectationCoord, SGPoint.add,
      SGPoint.smul, SGPoint.coord]
  have hdist : SGTuple.distance [(⟨0, 0⟩ : SGPoint)] [⟨0, 0⟩] = 0 := by
    simp [SGTuple.distance, SGPoint.distance, rd, List.range_succ]
  have hb : policyToPayoffs SGEnv.defaults boundaryGame capActions [⟨0, 0⟩] [0]
      [Regime.NonBinding] = ([⟨0, 0⟩], 0) := by
    simp only [policyToPayoffs]
    rw [bellmanLoop_converged _ _ _ _ _ _ _ (by
      rw [hsweep, hdist]
      norm_num [SGEnv.defaults]), hsweep, hdist]
  simp only [regimePass, hb]
  simp [gapScan, gapScanStep, gapOf, switchStates, switchStep, checked, boundaryGame, rd,
    List.range_succ, SGPoint.dot]

/-- The run of `optimizePolicy` on `boundaryGame` with an action without binding payoffs,
from the pivot `(0, 0)`: the state stays in the non-binding regime at the fixed point
`(0, 0)` of its Bellman equation. -/
theorem still_run :
    optimizePolicy SGEnv.defaults boundaryGame 2 [⟨0, 0⟩] [0] [Regime.Binding] ⟨1, 0⟩
        capActions =
      some
        { pivot := [⟨0, 0⟩], actionTuple := [0], regimeTuple := [Regime.NonBinding],
          newPivot := [⟨0, 0⟩], newActionTuple := [0],
          newRegimeTuple := [Regime.NonBinding], bestAPSNotBinding := [true],
          bestBindingPayoffs := [⟨0, 0⟩], pivotError := 0, numPolicyIters := 0,
          rounds := 1, bellmanPivot := [⟨0, 0⟩], bellmanPivotGap := 0 } := by
  simp only [optimizePolicy]
  refine policyLoop_once _ _ _ _ _ _ _ _ ?_ ?_
  · simp only [policyRound, still_improvement]
    rw [regimeFixLoop_once _ _ _ _ 1 _ (by rw [still_pass]), still_pass]
    rfl
  · norm_num [SGEnv.defaults]

/-- Witness of C9 (amended): `boundaryGame` with an action without binding payoffs; the
run ends in the non-binding regime with a converged Bellman iteration and no switch, and
the returned pivot of state 0 is within `δ · UPDATEPIVOTTOL` of its Bellman image. -/
theorem C9_optimizePolicy_nonbinding_bellman_witness :
    SGPoint.distance (rd [(⟨0, 0⟩ : SGPoint)] 0)
        (bellmanPayoff boundaryGame [⟨0, 0⟩] 0 (rd (rd capActions 0) (rd [0] 0)).action)
      ≤ boundaryGame.delta * SGEnv.defaults.UPDATEPIVOTTOL := by
  obtain ⟨res, he, h⟩ := C9_optimizePolicy_nonbinding_bellman SGEnv.defaults boundaryGame
    (by norm_num [boundaryGame]) (by norm_num [boundaryGame]) 2 (by simp [boundaryGame])
    [⟨0, 0⟩] [0] [Regime.Binding] ⟨1, 0⟩ capActions rfl rfl
    (by
      intro s a
      have d1 : (default : List (List ℚ)) = [] := rfl
      have d2 : (default : List ℚ) = [] := rfl
      have d3 : (default : ℚ) = 0 := rfl
      have hz : ∀ t, 0 ≤ rd (rd (rd boundaryGame.probabilities s) a) t := by
        intro t
        rcases s with _ | s <;> rcases a with _ | a <;> rcases t with _ | t <;>
          simp [boundaryGame, rd, d1, d2, d3]
      refine ⟨fun t _ => hz t, ?_⟩
      rcases s with _ | s <;> rcases a with _ | a <;>
        simp [boundaryGame, rd, List.range_succ, d1, d2, d3])
  rw [still_run] at he
  simp only [Option.some.injEq] at he
  subst he
  exact h (by norm_num [SGEnv.defaults]) rfl 0 (by simp [boundaryGame]) rfl

/-! ## Claim on the size of a clipped segment -/

/-- C20: for every pivot, direction and segment of any length, the segment left by
`intersectRaySegment` is empty or has exactly two points, and it is empty unless the input
segment has exactly two points. -/
theorem C20_intersectRaySegment_cardinality (env : SGEnv) (pivot direction : SGPoint)
    (segment : SGTuple) :
    ((intersectRaySegment env pivot direction segment).length = 0 ∨
      (intersectRaySegment env pivot direction segment).length = 2) ∧
    (segment.length = 2 ∨ intersectRaySegment env pivot direction segment = []) := by
  match segment with
  | [] => exact ⟨Or.inl rfl, Or.inr rfl⟩
  | [_] => exact ⟨Or.inl rfl, Or.inr rfl⟩
  | _ :: _ :: _ :: _ => exact ⟨Or.inl rfl, Or.inr rfl⟩
  | [a, b] =>
    refine ⟨?_, Or.inl rfl⟩
    simp only [intersectRaySegment]
    split_ifs <;> simp

/-! ## Claim on the number of directions -/

/-- Counterexample to C15 as stated: for the built-in `numDir = 200` the statement of line 51
gives 204 directions, which is neither 200 nor `4·⌈200/4⌉`. -/
theorem C15_counterexample :
    numDirections = 204 ∧ numDirections ≠ 200 ∧ roundDirections 200 ≠ 4 * ((200 + 3) / 4) := by
  decide

/-- C15 (amended): for every requested direction count `numDir`, the number of directions
computed as `numDir + (4 − numDir mod 4)` is `4·(⌊numDir/4⌋ + 1)`, the least multiple of 4
strictly above `numDir`; it equals `4·⌈numDir/4⌉` exactly when `numDir` is not a multiple of
4; for the built-in `numDir = 200` the solver uses 204 directions. -/
theorem C15_roundDirections (numDir : Nat) :
    roundDirections numDir = 4 * (numDir / 4 + 1) ∧
    (roundDirections numDir = 4 * ((numDir + 3) / 4) ↔ numDir % 4 ≠ 0) ∧
    numDirections = 204 := by
  refine ⟨?_, ?_, by decide⟩
  · unfold roundDirections
    omega
  · unfold roundDirections
    omega

/-! ## Segments kept by a ray -/

/-- The clip of a segment against a ray is kept by that ray. -/
theorem kept_clip (env : SGEnv) (hI : 0 ≤ env.INTERSECTTOL)
    (pivot direction : SGPoint) (segment : SGTuple) :
    Kept env pivot direction (intersectRaySegment env pivot direction segment) := by
  match segment with
  | [] => exact Or.inl rfl
  | [_] => exact Or.inl rfl
  | _ :: _ :: _ :: _ => exact Or.inl rfl
  | [a, b] =>
    rcases intersectRaySegment_cases env pivot direction a b hI with
      h | ⟨h, h1, h2⟩ | ⟨h, h1, h2, h3⟩ | ⟨h, h1, h2, h3⟩ | ⟨w, c, _, _, _, hc, ⟨h, h1⟩ | ⟨h, h1⟩⟩
    · exact Or.inl h
    · rw [h]
      refine Or.inr ⟨a, b, rfl, ?_⟩
      rcases h2 with ⟨ha, hb⟩ | hdeg
      · exact Or.inl ⟨le_of_lt ha, le_of_lt hb⟩
      · refine Or.inr ⟨hdeg, fun h0 => ?_⟩
        rw [h0] at hdeg
        have hd := abs_le.mp hdeg
        by_contra hc
        push_neg at hc
        exact h1 ⟨hc, by linarith [hd.1, hd.2]⟩
    · rw [h]
      exact Or.inr ⟨b, b, rfl, Or.inr ⟨by simpa using hI, fun _ => h3⟩⟩
    · rw [h]
      exact Or.inr ⟨a, a, rfl, Or.inr ⟨by simpa using hI, fun _ => h3⟩⟩
    · rw [h]
      exact Or.inr ⟨a, c, rfl, Or.inl ⟨h1, le_of_eq hc⟩⟩
    · rw [h]
      exact Or.inr ⟨c, b, rfl, Or.inl ⟨le_of_eq hc, h1⟩⟩

/-- The level of a convex combination of two points lies between their levels. -/
theorem SGPoint.dot_comb_le (n a b : SGPoint) (w bound : ℚ) (h0 : 0 ≤ w) (h1 : w ≤ 1)
    (ha : n.dot a ≤ bound) (hb : n.dot b ≤ bound) :
    n.dot ((SGPoint.smul w b).add (SGPoint.smul (1 - w) a)) ≤ bound := by
  rw [SGPoint.dot_comb]
  nlinarith

/-- A segment kept by a ray is still kept by it after a clip against any other ray. -/
theorem kept_sub (env : SGEnv) (hI : 0 ≤ env.INTERSECTTOL) (pivot direction : SGPoint)
    (segment : SGTuple) (hk : Kept env pivot direction segment) (pivot1 direction1 : SGPoint) :
    Kept env pivot direction (intersectRaySegment env pivot1 direction1 segment) := by
  rcases hk with rfl | ⟨a, b, rfl, hk⟩
  · exact Or.inl rfl
  rcases intersectRaySegment_cases env pivot1 direction1 a b hI with
    h | ⟨h, _, _⟩ | ⟨h, _, _, _⟩ | ⟨h, _, _, _⟩ | ⟨w, c, hw0, hw1, hcd, _, h | h⟩
  · exact Or.inl h
  · rw [h]
    exact Or.inr ⟨a, b, rfl, hk⟩
  · rw [h]
    refine Or.inr ⟨b, b, rfl, ?_⟩
    rcases hk with ⟨_, hb⟩ | ⟨hd, h0⟩
    · exact Or.inl ⟨hb, hb⟩
    · refine Or.inr ⟨by simpa using hI, fun hz => ?_⟩
      have := h0 hz
      rw [hz] at hd
      have hd := abs_le.mp hd
      linarith [hd.1, hd.2]
  · rw [h]
    refine Or.inr ⟨a, a, rfl, ?_⟩
    rcases hk with ⟨ha, _⟩ | ⟨hd, h0⟩
    · exact Or.inl ⟨ha, ha⟩
    · exact Or.inr ⟨by simpa using hI, h0⟩
  · rw [h.1]
    refine Or.inr ⟨a, c, rfl, ?_⟩
    rcases hk with ⟨ha, hb⟩ | ⟨hd, h0⟩
    · exact Or.inl ⟨ha, hcd ▸ SGPoint.dot_comb_le _ a b w _ hw0 hw1 ha hb⟩
    · refine Or.inr ⟨?_, h0⟩
      rw [hcd, SGPoint.dot_comb]
      have hd := abs_le.mp hd
      rw [abs_le]
      constructor <;> nlinarith [hd.1, hd.2]
  · rw [h.1]
    refine Or.inr ⟨c, b, rfl, ?_⟩
    rcases hk with ⟨ha, hb⟩ | ⟨hd, h0⟩
    · exact Or.inl ⟨hcd ▸ SGPoint.dot_comb_le _ a b w _ hw0 hw1 ha hb, hb⟩
    · refine Or.inr ⟨?_, fun hz => ?_⟩
      · rw [hcd, SGPoint.dot_comb]
        have hd := abs_le.mp hd
        rw [abs_le]
        constructor <;> nlinarith [hd.1, hd.2]
      · have := h0 hz
        rw [hz] at hd
        have hd := abs_le.mp hd
        rw [hcd, SGPoint.dot_comb]
        have he : direction.getNormal.dot b - direction.getNormal.dot a = 0 := by
          linarith [hd.1, hd.2]
        rw [he]
        linarith

/-- A segment kept by a ray is left as it is or emptied by the clip against that ray, and it
is left as it is when `INTERSECTTOL = 0`. -/
theorem clip_of_kept (env : SGEnv) (hIC : 0 ≤ env.ICTOL) (hI : 0 ≤ env.INTERSECTTOL)
    (pivot direction : SGPoint) (segment : SGTuple) (hk : Kept env pivot direction segment) :
    (intersectRaySegment env pivot direction segment = segment ∨
      intersectRaySegment env pivot direction segment = []) ∧
    (env.INTERSECTTOL = 0 → intersectRaySegment env pivot direction segment = segment) := by
  rcases hk with rfl | ⟨a, b, rfl, hk⟩
  · exact ⟨Or.inl rfl, fun _ => rfl⟩
  rcases hk with ⟨ha, hb⟩ | ⟨hd, h0⟩
  · have hfix : intersectRaySegment env pivot direction [a, b] = [a, b] := by
      refine intersectRaySegment_fixed env pivot direction a b hI ?_ ?_
      · intro hh
        linarith [hh.1]
      · rcases lt_or_eq_of_le hb with hb1 | hb1
        · rcases lt_or_eq_of_le ha with ha1 | ha1
          · exact Or.inl ⟨ha1, hb1⟩
          · exact Or.inr (Or.inr (Or.inr ⟨ha1, hb⟩))
        · exact Or.inr (Or.inr (Or.inl ⟨ha, hb1⟩))
    exact ⟨Or.inl hfix, fun _ => hfix⟩
  · by_cases hab : direction.getNormal.dot a > pivot.dot direction.getNormal + env.ICTOL ∧
        direction.getNormal.dot b > pivot.dot direction.getNormal + env.ICTOL
    · refine ⟨Or.inr ?_, fun hz => ?_⟩
      · simp only [intersectRaySegment]
        rw [if_pos hab]
      · exact absurd hab.1 (not_lt.mpr (h0 hz))
    · have hfix : intersectRaySegment env pivot direction [a, b] = [a, b] :=
        intersectRaySegment_fixed env pivot direction a b hI hab (Or.inr (Or.inl hd))
      exact ⟨Or.inl hfix, fun _ => hfix⟩

/-! ## Trimming against a list of half-planes -/

theorem clipAll_nil (env : SGEnv) (planes : List (SGPoint × SGPoint)) :
    clipAll env planes [] = [] := by
  induction planes with
  | nil => rfl
  | cons h rest ih => exact ih

/-- A segment kept by a ray is still kept by it after the clips against a list. -/
theorem clipAll_keeps (env : SGEnv) (hI : 0 ≤ env.INTERSECTTOL) (pivot direction : SGPoint)
    (planes : List (SGPoint × SGPoint)) :
    ∀ segment, Kept env pivot direction segment →
      Kept env pivot direction (clipAll env planes segment) := by
  induction planes with
  | nil => exact fun _ hk => hk
  | cons h rest ih =>
    exact fun segment hk => ih _ (kept_sub env hI pivot direction segment hk h.1 h.2)

/-- After the clips against a list, the segment is kept by every half-plane of the list. -/
theorem clipAll_kept (env : SGEnv) (hI : 0 ≤ env.INTERSECTTOL)
    (planes : List (SGPoint × SGPoint)) :
    ∀ segment, ∀ h ∈ planes, Kept env h.1 h.2 (clipAll env planes segment) := by
  induction planes with
  | nil => exact fun _ _ hm => absurd hm (List.not_mem_nil _)
  | cons g rest ih =>
    intro segment h hm
    rcases List.mem_cons.mp hm with rfl | hm
    · exact clipAll_keeps env hI h.1 h.2 rest _ (kept_clip env hI h.1 h.2 segment)
    · exact ih _ h hm

/-- A segment kept by every half-plane of a list is left as it is or emptied by the clips
against the list, and it is left as it is when `INTERSECTTOL = 0`. -/
theorem clipAll_of_kept (env : SGEnv) (hIC : 0 ≤ env.ICTOL) (hI : 0 ≤ env.INTERSECTTOL)
    (planes : List (SGPoint × SGPoint)) (segment : SGTuple)
    (hk : ∀ h ∈ planes, Kept env h.1 h.2 segment) :
    (clipAll env planes segment = segment ∨ clipAll env planes segment = []) ∧
    (env.INTERSECTTOL = 0 → clipAll env planes segment = segment) := by
  induction planes with
  | nil => exact ⟨Or.inl rfl, fun _ => rfl⟩
  | cons g rest ih =>
    have hg := clip_of_kept env hIC hI g.1 g.2 segment (hk g (List.mem_cons_self _ _))
    have hrest := ih (fun h hm => hk h (List.mem_cons_of_mem _ hm))
    have hstep : clipAll env (g :: rest) segment =
        clipAll env rest (intersectRaySegment env g.1 g.2 segment) := rfl
    rw [hstep]
    refine ⟨?_, fun hz => ?_⟩
    · rcases hg.1 with h | h
      · rw [h]
        exact hrest.1
      · rw [h, clipAll_nil]
        exact Or.inr rfl
    · rw [hg.2 hz]
      exact hrest.2 hz

theorem trim_points (env : SGEnv) (a : SGAction_PencilSharpening) (pivot direction : SGPoint) :
    (a.trim env pivot direction).points = a.points := by
  unfold SGAction_PencilSharpening.trim
  generalize List.range a.points.length = l
  induction l generalizing a with
  | nil => rfl
  | cons p l ih =>
    rw [List.foldl_cons, ih]

/-- One call of `trim`, player by player: the entries of `trimmedPoints` below `points.size()`
are clipped, the others are left. -/
theorem trim_trimmedPoints (env : SGEnv) (a : SGAction_PencilSharpening)
    (pivot direction : SGPoint) (i : Nat) :
    (a.trim env pivot direction).trimmedPoints.length = a.trimmedPoints.length ∧
    rd (a.trim env pivot direction).trimmedPoints i =
      if i < a.points.length then intersectRaySegment env pivot direction (rd a.trimmedPoints i)
      else rd a.trimmedPoints i := by
  unfold SGAction_PencilSharpening.trim
  generalize a.points.length = n
  induction n with
  | zero => simp
  | succ n ih =>
    rw [List.range_succ, List.foldl_append, List.foldl_cons, List.foldl_nil]
    generalize (List.range n).foldl _ a = b at ih ⊢
    refine ⟨by simpa using ih.1, ?_⟩
    show rd (b.trimmedPoints.set n _) i = _
    by_cases hin : i = n
    · subst hin
      rw [if_pos (Nat.lt_succ_self i)]
      have hb := ih.2
      rw [if_neg (Nat.lt_irrefl i)] at hb
      by_cases hlen : i < b.trimmedPoints.length
      · rw [rd_set_eq _ _ _ hlen, hb]
      · have h1 : rd (b.trimmedPoints.set i
            (intersectRaySegment env pivot direction (rd b.trimmedPoints i))) i = [] := by
          apply rd_default_of_le
          simpa using not_lt.mp hlen
        have h2 : rd a.trimmedPoints i = [] := by
          rw [← hb]
          exact rd_default_of_le _ _ (not_lt.mp hlen)
        rw [h1, h2]
        rfl
    · rw [rd_set_ne _ _ _ _ (Ne.symm hin), ih.2]
      by_cases h1 : i < n
      · rw [if_pos h1, if_pos (Nat.lt_succ_of_lt h1)]
      · rw [if_neg h1, if_neg (by omega)]

/-- The calls of `trim` for a list of half-planes, player by player. -/
theorem trimAll_trimmedPoints (env : SGEnv) (planes : List (SGPoint × SGPoint)) :
    ∀ (a : SGAction_PencilSharpening) (i : Nat),
      (trimAll env a planes).points = a.points ∧
      (trimAll env a planes).trimmedPoints.length = a.trimmedPoints.length ∧
      rd (trimAll env a planes).trimmedPoints i =
        if i < a.points.length then clipAll env planes (rd a.trimmedPoints i)
        else rd a.trimmedPoints i := by
  induction planes with
  | nil =>
    intro a i
    refine ⟨rfl, rfl, ?_⟩
    split_ifs <;> rfl
  | cons h rest ih =>
    intro a i
    have hstep : trimAll env a (h :: rest) = trimAll env (a.trim env h.1 h.2) rest := rfl
    have h1 := ih (a.trim env h.1 h.2) i
    have h2 := trim_trimmedPoints env a h.1 h.2 i
    rw [hstep]
    refine ⟨h1.1.trans (trim_points env a h.1 h.2), h1.2.1.trans h2.1, ?_⟩
    rw [h1.2.2, trim_points, h2.2]
    split_ifs <;> rfl

/-- Two vectors of the same size with the same reads are equal. -/
theorem eq_of_rd_eq {α : Type} [Inhabited α] (l1 l2 : List α) (hlen : l1.length = l2.length)
    (h : ∀ i, rd l1 i = rd l2 i) : l1 = l2 := by
  apply List.ext_getElem hlen
  intro i h1 h2
  have := h i
  simp only [rd, List.getD_eq_getElem?_getD, List.getElem?_eq_getElem h1,
    List.getElem?_eq_getElem h2, Option.getD_some] at this
  exact this

theorem updateTrim_points (a : SGAction_PencilSharpening) :
    a.updateTrim.points = a.trimmedPoints := by
  simp only [SGAction_PencilSharpening.updateTrim, List.foldl_cons, List.foldl_nil]
  split_ifs <;> rfl


/-! ## Claim on trimming twice -/

/-- Counterexample to C19 as stated: with the default tolerances, the segment of player 0
with levels `2e-12` and `1e-12` against the ray of level 0 is degenerate and is left by the
first half-plane; the second half-plane cuts it in the middle; on the second application the
first half-plane finds both endpoints above `ICTOL` and empties the segment. -/
theorem C19_counterexample :
    rd (trimAll SGEnv.defaults (trimAll SGEnv.defaults thinAction thinPlanes)
        thinPlanes).trimmedPoints 0 = [] ∧
    rd (trimAll SGEnv.defaults thinAction thinPlanes).trimmedPoints 0 =
      [⟨2 / 10 ^ 12, 0⟩, ⟨3 / (2 * 10 ^ 12), 1 / 2⟩] := by
  have habs : |(1 : ℚ) / 1000000000000| = 1 / 1000000000000 := abs_of_pos (by norm_num)
  have h1 : rd (trimAll SGEnv.defaults thinAction thinPlanes).trimmedPoints 0 =
      [⟨2 / 10 ^ 12, 0⟩, ⟨3 / (2 * 10 ^ 12), 1 / 2⟩] := by
    rw [(trimAll_trimmedPoints SGEnv.defaults thinPlanes thinAction 0).2.2]
    norm_num [thinAction, thinPlanes, clipAll, rd, intersectRaySegment, SGEnv.defaults,
      SGPoint.getNormal, SGPoint.dot, SGPoint.add, SGPoint.smul, habs]
  refine ⟨?_, h1⟩
  rw [(trimAll_trimmedPoints SGEnv.defaults thinPlanes _ 0).2.2, h1,
    (trimAll_trimmedPoints SGEnv.defaults thinPlanes thinAction 0).1]
  norm_num [thinAction, thinPlanes, clipAll, intersectRaySegment, SGEnv.defaults,
    SGPoint.getNormal, SGPoint.dot]

/-- C19 (amended): for tolerances `ICTOL ≥ 0` and `INTERSECTTOL ≥ 0`, every action and every
list of half-planes, applying `trim` for each half-plane of the list in order and then the
whole list a second time leaves each `trimmedPoints[i]` either equal to the result of applying
the list once or empty; when `INTERSECTTOL = 0` it leaves `trimmedPoints`, and hence `points`
after `updateTrim`, equal to the result of applying the list once. -/
theorem C19_trim_twice (env : SGEnv) (hIC : 0 ≤ env.ICTOL) (hI : 0 ≤ env.INTERSECTTOL)
    (a : SGAction_PencilSharpening) (planes : List (SGPoint × SGPoint)) :
    (∀ i, rd (trimAll env (trimAll env a planes) planes).trimmedPoints i =
          rd (trimAll env a planes).trimmedPoints i ∨
        rd (trimAll env (trimAll env a planes) planes).trimmedPoints i = []) ∧
    (env.INTERSECTTOL = 0 →
      (trimAll env (trimAll env a planes) planes).trimmedPoints =
          (trimAll env a planes).trimmedPoints ∧
        (trimAll env (trimAll env a planes) planes).updateTrim.points =
          (trimAll env a planes).updateTrim.points) := by
  have key : ∀ i,
      (rd (trimAll env (trimAll env a planes) planes).trimmedPoints i =
          rd (trimAll env a planes).trimmedPoints i ∨
        rd (trimAll env (trimAll env a planes) planes).trimmedPoints i = []) ∧
      (env.INTERSECTTOL = 0 →
        rd (trimAll env (trimAll env a planes) planes).trimmedPoints i =
          rd (trimAll env a planes).trimmedPoints i) := by
    intro i
    have h2 := trimAll_trimmedPoints env planes (trimAll env a planes) i
    have h1 := trimAll_trimmedPoints env planes a i
    rw [h2.2.2, h1.1]
    by_cases hi : i < a.points.length
    · rw [if_pos hi, h1.2.2, if_pos hi]
      exact clipAll_of_kept env hIC hI planes _
        (fun h hm => clipAll_kept env hI planes _ h hm)
    · rw [if_neg hi]
      exact ⟨Or.inl rfl, fun _ => rfl⟩
  refine ⟨fun i => (key i).1, fun hz => ?_⟩
  have heq : (trimAll env (trimAll env a planes) planes).trimmedPoints =
      (trimAll env a planes).trimmedPoints :=
    eq_of_rd_eq _ _ (trimAll_trimmedPoints env planes (trimAll env a planes) 0).2.1
      (fun i => (key i).2 hz)
  exact ⟨heq, by rw [updateTrim_points, updateTrim_points, heq]⟩

/-- Witness of C19 (amended): the default tolerances, the action and the two half-planes of
the counterexample; the second application empties the segment of player 0. -/
theorem C19_trim_twice_witness :
    (0 : ℚ) ≤ SGEnv.defaults.ICTOL ∧ (0 : ℚ) ≤ SGEnv.defaults.INTERSECTTOL ∧
    ((∀ i, rd (trimAll SGEnv.defaults (trimAll SGEnv.defaults thinAction thinPlanes)
            thinPlanes).trimmedPoints i =
          rd (trimAll SGEnv.defaults thinAction thinPlanes).trimmedPoints i ∨
        rd (trimAll SGEnv.defaults (trimAll SGEnv.defaults thinAction thinPlanes)
            thinPlanes).trimmedPoints i = []) ∧
    (SGEnv.defaults.INTERSECTTOL = 0 →
      (trimAll SGEnv.defaults (trimAll SGEnv.defaults thinAction thinPlanes)
            thinPlanes).trimmedPoints =
          (trimAll SGEnv.defaults thinAction thinPlanes).trimmedPoints ∧
        (trimAll SGEnv.defaults (trimAll SGEnv.defaults thinAction thinPlanes)
            thinPlanes).updateTrim.points =
          (trimAll SGEnv.defaults thinAction thinPlanes).updateTrim.points)) :=
  ⟨by norm_num [SGEnv.defaults], by norm_num [SGEnv.defaults],
    C19_trim_twice SGEnv.defaults (by norm_num [SGEnv.defaults])
      (by norm_num [SGEnv.defaults]) thinAction thinPlanes⟩

/-! ## The search for a feasible tuple -/

/-- The first index below `n` that passes a test. -/
theorem find_range (f : Nat → Bool) (n : Nat) :
    (∀ p, (List.range n).find? f = some p → p < n ∧ f p = true ∧ ∀ q < p, f q = false) ∧
    ((List.range n).find? f = none → ∀ q < n, f q = false) := by
  induction n with
  | zero => simp
  | succ n ih =>
    rw [List.range_succ, List.find?_append]
    cases hf : (List.range n).find? f with
    | some p0 =>
      refine ⟨fun p hp => ?_, fun hp => by simp at hp⟩
      simp only [Option.or_some] at hp
      have := ih.1 p0 hf
      cases hp
      exact ⟨Nat.lt_succ_of_lt this.1, this.2⟩
    | none =>
      have hn := ih.2 hf
      simp only [Option.none_or]
      by_cases hfn : f n = true
      · refine ⟨fun p hp => ?_, fun hp => ?_⟩
        · simp [List.find?, hfn] at hp
          subst hp
          exact ⟨Nat.lt_succ_self _, hfn, hn⟩
        · simp [List.find?, hfn] at hp
      · refine ⟨fun p hp => ?_, fun _ q hq => ?_⟩
        · simp [List.find?, hfn] at hp
        · rcases Nat.lt_succ_iff_lt_or_eq.mp hq with h | h
          · exact hn q h
          · subst h
            simpa using hfn

/-- The player found by the loop over the players. -/
theorem feasiblePlayer_spec (numPlayers : Nat) (act : SGAction_V2) :
    (∀ p, feasiblePlayer numPlayers act = some p →
      p < numPlayers ∧ 0 < (rd act.points p).length ∧
        ∀ q < p, (rd act.points q).length = 0) ∧
    (feasiblePlayer numPlayers act = none →
      ∀ q < numPlayers, (rd act.points q).length = 0) := by
  have h := find_range (fun player => decide ((rd act.points player).length > 0)) numPlayers
  refine ⟨fun p hp => ?_, fun hp q hq => ?_⟩
  · have := h.1 p hp
    refine ⟨this.1, by simpa using this.2.1, fun q hq => ?_⟩
    simpa using this.2.2 q hq
  · simpa using h.2 hp q hq

/-- The action found by the loop over the actions of a state. -/
theorem feasibleAction_spec (numPlayers : Nat) (acts : List SGAction_V2) :
    (∀ a p, feasibleAction numPlayers acts = some (a, p) →
      ∃ i, i < acts.length ∧ a = rd acts i ∧ feasiblePlayer numPlayers a = some p ∧
        ∀ j < i, feasiblePlayer numPlayers (rd acts j) = none) ∧
    (feasibleAction numPlayers acts = none →
      ∀ a ∈ acts, feasiblePlayer numPlayers a = none) := by
  induction acts with
  | nil => simp [feasibleAction]
  | cons b rest ih =>
    unfold feasibleAction at ih ⊢
    rw [List.findSome?_cons]
    cases hb : feasiblePlayer numPlayers b with
    | some pb =>
      simp only [Option.map_some']
      refine ⟨fun a p hap => ?_, fun h => by simp at h⟩
      simp only [Option.some.injEq, Prod.mk.injEq] at hap
      obtain ⟨rfl, rfl⟩ := hap
      exact ⟨0, by simp, rfl, hb, fun j hj => absurd hj (Nat.not_lt_zero _)⟩
    | none =>
      simp only [Option.map_none']
      refine ⟨fun a p hap => ?_, fun h a ha => ?_⟩
      · obtain ⟨i, hi, ha, hp, hj⟩ := ih.1 a p hap
        refine ⟨i + 1, by simpa using hi, by simpa [rd] using ha, hp, fun j hj1 => ?_⟩
        cases j with
        | zero => exact hb
        | succ j => simpa [rd] using hj j (by omega)
      · rcases List.mem_cons.mp ha with rfl | ha
        · exact hb
        · exact ih.2 h a ha

/-- The payoff that `findFeasibleTuple` writes for `state` when the action `act` has a binding
payoff for `player`. -/
theorem feasibleState_some (game : SGGame) (actions : List (List SGAction_V2))
    (v : FeasibleVars) (state : Nat) (act : SGAction_V2) (player : Nat)
    (h : feasibleAction game.numPlayers (rd actions state) = some (act, player)) :
    feasibleState game actions v state =
      { v with
        feasibleTuple := v.feasibleTuple.set state
          ((SGPoint.smul (1 - game.delta) (rd (rd game.payoffs state) act.action)).add
            (SGPoint.smul game.delta (rd (rd act.points player) 0))) } := by
  simp only [feasibleState, h]

theorem feasibleState_none (game : SGGame) (actions : List (List SGAction_V2))
    (v : FeasibleVars) (state : Nat)
    (h : feasibleAction game.numPlayers (rd actions state) = none) :
    feasibleState game actions v state =
      { v with
        regimeTuple := v.regimeTuple.set state Regime.NonBinding
        actionTuple := v.actionTuple.set state (some 0)
        anyNonBinding := true } := by
  simp only [feasibleState, h]

/-- The first loop of `findFeasibleTuple` over the states below `k`. -/
theorem feasibleStates_upto (game : SGGame) (actions : List (List SGAction_V2))
    (v0 : FeasibleVars) (h1 : v0.feasibleTuple.length = game.numStates)
    (h2 : v0.actionTuple.length = game.numStates)
    (h3 : ∀ s, rd v0.actionTuple s = none) (h4 : v0.anyNonBinding = false) (k : Nat)
    (hk : k ≤ game.numStates) :
    ((List.range k).foldl (feasibleState game actions) v0).feasibleTuple.length
      = game.numStates ∧
    ((List.range k).foldl (feasibleState game actions) v0).actionTuple.length
      = game.numStates ∧
    ((List.range k).foldl (feasibleState game actions) v0).bellmanCalls = v0.bellmanCalls ∧
    ((List.range k).foldl (feasibleState game actions) v0).failed = v0.failed ∧
    (∀ s < k, ∀ a p, feasibleAction game.numPlayers (rd actions s) = some (a, p) →
      rd ((List.range k).foldl (feasibleState game actions) v0).feasibleTuple s =
        (SGPoint.smul (1 - game.delta) (rd (rd game.payoffs s) a.action)).add
          (SGPoint.smul game.delta (rd (rd a.points p) 0))) ∧
    (∀ s pos, rd ((List.range k).foldl (feasibleState game actions) v0).actionTuple s
        = some pos →
      s < k ∧ pos = 0 ∧ feasibleAction game.numPlayers (rd actions s) = none) ∧
    (((List.range k).foldl (feasibleState game actions) v0).anyNonBinding = true →
      ∃ s < k, feasibleAction game.numPlayers (rd actions s) = none) := by
  induction k with
  | zero =>
    refine ⟨h1, h2, rfl, rfl, fun s hs => absurd hs (Nat.not_lt_zero _), fun s pos h => ?_,
      fun h => ?_⟩
    · simp only [List.range_zero, List.foldl_nil] at h
      rw [h3] at h
      cases h
    · simp only [List.range_zero, List.foldl_nil] at h
      rw [h4] at h
      cases h
  | succ k ih =>
    rw [List.range_succ, List.foldl_append, List.foldl_cons, List.foldl_nil]
    obtain ⟨i1, i2, i3, i4, i5, i6, i7⟩ := ih (Nat.le_of_succ_le hk)
    generalize (List.range k).foldl (feasibleState game actions) v0 = v at *
    cases hf : feasibleAction game.numPlayers (rd actions k) with
    | some ap =>
      obtain ⟨a0, p0⟩ := ap
      rw [feasibleState_some game actions v k a0 p0 hf]
      refine ⟨by simpa using i1, i2, i3, i4, fun s hs a p hap => ?_, fun s pos h => ?_,
        fun h => ?_⟩
      · show rd (v.feasibleTuple.set k _) s = _
        rcases Nat.lt_succ_iff_lt_or_eq.mp hs with hlt | heq
        · rw [rd_set_ne _ _ _ _ (Nat.ne_of_gt hlt)]
          exact i5 s hlt a p hap
        · subst heq
          rw [hf] at hap
          cases hap
          exact rd_set_eq _ _ _ (by omega)
      · have := i6 s pos h
        exact ⟨Nat.lt_succ_of_lt this.1, this.2⟩
      · obtain ⟨s, hs, hn⟩ := i7 h
        exact ⟨s, Nat.lt_succ_of_lt hs, hn⟩
    | none =>
      rw [feasibleState_none game actions v k hf]
      refine ⟨i1, by simpa using i2, i3, i4, fun s hs a p hap => ?_, fun s pos h => ?_,
        fun _ => ⟨k, Nat.lt_succ_self _, hf⟩⟩
      · rcases Nat.lt_succ_iff_lt_or_eq.mp hs with hlt | heq
        · exact i5 s hlt a p hap
        · subst heq
          rw [hf] at hap
          cases hap
      · by_cases hsk : s = k
        · subst hsk
          have h' : rd (v.actionTuple.set s (some 0)) s = some pos := h
          rw [rd_set_eq _ _ _ (by omega)] at h'
          cases h'
          exact ⟨Nat.lt_succ_self _, rfl, hf⟩
        · have h' : rd (v.actionTuple.set k (some 0)) s = some pos := h
          rw [rd_set_ne _ _ _ _ (Ne.symm hsk)] at h'
          have := i6 s pos h'
          exact ⟨Nat.lt_succ_of_lt this.1, this.2⟩

theorem icCheckState_inv (game : SGGame) (actions : List (List SGAction_V2))
    (acc : FeasibleVars × Bool × Option Stop) (state : Nat)
    (h : FeasibleInv game actions acc.1 ∧
      (acc.2.2 = some (Stop.thrown SGException.NOFEASIBLETUPLE) →
        Exhausted game actions acc.1)) :
    FeasibleInv game actions (icCheckState game actions acc state).1 ∧
      ((icCheckState game actions acc state).2.2
          = some (Stop.thrown SGException.NOFEASIBLETUPLE) →
        Exhausted game actions (icCheckState game actions acc state).1) := by
  obtain ⟨v, flag, st⟩ := acc
  obtain ⟨⟨hlen, hpos, hfail⟩, hthrown⟩ := h
  simp only at hlen hpos hfail hthrown
  unfold icCheckState
  cases st with
  | some stop => exact ⟨⟨hlen, hpos, hfail⟩, hthrown⟩
  | none =>
    simp only
    cases hit : rd v.actionTuple state with
    | none => exact ⟨⟨hlen, hpos, hfail⟩, fun h => by cases h⟩
    | some pos =>
      simp only
      obtain ⟨hs, hnone, hbefore⟩ := hpos state pos hit
      by_cases hp : pos < (rd actions state).length
      swap
      · rw [if_neg hp]
        exact ⟨⟨hlen, hpos, hfail⟩, fun h => by cases h⟩
      rw [if_pos hp]
      by_cases hic : icHolds game v.feasibleTuple state (rd (rd actions state) pos) = true
      · rw [if_pos hic]
        exact ⟨⟨hlen, hpos, hfail⟩, fun h => by cases h⟩
      rw [if_neg hic]
      have hfail' : ∀ e ∈ v.failed ++ [(state, pos, v.feasibleTuple)],
          e.2.1 < (rd actions e.1).length ∧
            icHolds game e.2.2 e.1 (rd (rd actions e.1) e.2.1) = false := by
        intro e he
        rcases List.mem_append.mp he with he | he
        · exact hfail e he
        · simp only [List.mem_singleton] at he
          subst he
          exact ⟨hp, by simpa using hic⟩
      have hbefore' : ∀ j < pos + 1, ∃ t,
          (state, j, t) ∈ v.failed ++ [(state, pos, v.feasibleTuple)] := by
        intro j hj
        rcases Nat.lt_succ_iff_lt_or_eq.mp hj with hlt | heq
        · obtain ⟨t, ht⟩ := hbefore j hlt
          exact ⟨t, List.mem_append_left _ ht⟩
        · subst heq
          exact ⟨v.feasibleTuple, List.mem_append_right _ (List.mem_singleton_self _)⟩
      have hpos' : ∀ s q, rd v.actionTuple s = some q →
          s < game.numStates ∧ feasibleAction game.numPlayers (rd actions s) = none ∧
            ∀ j < q, ∃ t, (s, j, t) ∈ v.failed ++ [(state, pos, v.feasibleTuple)] := by
        intro s q hq
        obtain ⟨a, b, c⟩ := hpos s q hq
        exact ⟨a, b, fun j hj => (c j hj).imp (fun t ht => List.mem_append_left _ ht)⟩
      by_cases hend : pos + 1 = (rd actions state).length
      · rw [if_pos hend]
        refine ⟨⟨hlen, hpos', hfail'⟩, fun _ => ⟨state, hs, hnone, ?_⟩⟩
        rw [← hend]
        exact hbefore'
      · rw [if_neg hend]
        refine ⟨⟨by simpa using hlen, fun s q hq => ?_, hfail'⟩, fun h => by cases h⟩
        by_cases hss : s = state
        · subst hss
          have hq' : rd (v.actionTuple.set s (some (pos + 1))) s = some q := hq
          rw [rd_set_eq _ _ _ (by omega)] at hq'
          cases hq'
          exact ⟨hs, hnone, hbefore'⟩
        · have hq' : rd (v.actionTuple.set state (some (pos + 1))) s = some q := hq
          rw [rd_set_ne _ _ _ _ (Ne.symm hss)] at hq'
          exact hpos' s q hq'

/-- The loop `while (notAllIC)` keeps the record of the failed checks in order, and it throws
only for a state all of whose actions are recorded as failed. -/
theorem feasibleLoop_inv (env : SGEnv) (game : SGGame) (actions : List (List SGAction_V2))
    (fuel : Nat) :
    ∀ (flag : Bool) (v : FeasibleVars), FeasibleInv game actions v →
      FeasibleInv game actions (feasibleLoop env game actions fuel flag v).1 ∧
        ((feasibleLoop env game actions fuel flag v).2
            = some (Stop.thrown SGException.NOFEASIBLETUPLE) →
          Exhausted game actions (feasibleLoop env game actions fuel flag v).1) := by
  induction fuel with
  | zero =>
    intro flag v hv
    cases flag with
    | false => exact ⟨hv, fun h => by cases h⟩
    | true => exact ⟨hv, fun h => by cases h⟩
  | succ fuel ih =>
    intro flag v hv
    cases flag with
    | false => exact ⟨hv, fun h => by cases h⟩
    | true =>
      simp only [feasibleLoop]
      by_cases hd : derefOK game actions v = true
      swap
      · rw [if_neg hd]
        exact ⟨hv, fun h => by cases h⟩
      rw [if_pos hd]
      have hstart : FeasibleInv game actions
          { v with
            feasibleTuple := (policyToPayoffs env game actions v.feasibleTuple
              (v.actionTuple.map (fun it => it.getD 0)) v.regimeTuple).1
            bellmanCalls := v.bellmanCalls + 1 } := hv
      have hfold := foldl_keeps
        (fun acc : FeasibleVars × Bool × Option Stop =>
          FeasibleInv game actions acc.1 ∧
            (acc.2.2 = some (Stop.thrown SGException.NOFEASIBLETUPLE) →
              Exhausted game actions acc.1))
        (icCheckState game actions) (List.range game.numStates)
        ({ v with
            feasibleTuple := (policyToPayoffs env game actions v.feasibleTuple
              (v.actionTuple.map (fun it => it.getD 0)) v.regimeTuple).1
            bellmanCalls := v.bellmanCalls + 1 }, false, none)
        (fun x y hx => icCheckState_inv game actions x y hx)
        ⟨hstart, fun h => by cases h⟩
      generalize (List.range game.numStates).foldl (icCheckState game actions) _ = r at hfold ⊢
      obtain ⟨r1, r2, r3⟩ := r
      cases r3 with
      | some stop =>
        simp only
        exact ⟨hfold.1, fun h => hfold.2 (by simpa using h)⟩
      | none =>
        simp only
        exact ih r2 r1 hfold.1

/-- The run of `findFeasibleTuple` on `capGame` with the caps set to one pass: the only action
fails the check of line 847 and the exception is thrown. -/
theorem strict_throws :
    findFeasibleTuple capEnv capGame 1 [⟨0, 0⟩] strictActions =
      Except.error (Stop.thrown SGException.NOFEASIBLETUPLE) := by
  have hsweep : bellmanSweep capGame strictActions [0] [Regime.NonBinding] [⟨0, 0⟩]
      = [⟨1 / 2, 0⟩] := by
    simp [bellmanSweep, bellmanStep, bellmanPayoff, capGame, strictActions, rd, List.range_succ,
      SGTuple.expectation, SGTuple.expectationCoord, SGPoint.add, SGPoint.smul,
      SGPoint.coord]
    norm_num
  have hb : policyToPayoffs capEnv capGame strictActions [⟨0, 0⟩] [0]
      [Regime.NonBinding] = ([⟨1 / 2, 0⟩], SGTuple.distance [⟨1 / 2, 0⟩] [⟨0, 0⟩]) := by
    simp only [policyToPayoffs, capEnv]
    rw [bellmanLoop_capped, hsweep]
  have hv : (List.range capGame.numStates).foldl (feasibleState capGame strictActions)
      { feasibleTuple := [⟨0, 0⟩]
        actionTuple := List.replicate capGame.numStates none
        regimeTuple := List.replicate capGame.numStates Regime.Binding
        anyNonBinding := false
        bellmanCalls := 0
        failed := [] } =
      { feasibleTuple := [⟨0, 0⟩]
        actionTuple := [some 0]
        regimeTuple := [Regime.NonBinding]
        anyNonBinding := true
        bellmanCalls := 0
        failed := [] } := by
    simp [feasibleState, feasibleAction, feasiblePlayer, capGame, strictActions, rd,
      List.range_succ]
  simp only [findFeasibleTuple, findFeasibleTupleRun, hv, feasibleLoop]
  have hd : derefOK capGame strictActions
      { feasibleTuple := [⟨0, 0⟩]
        actionTuple := [some 0]
        regimeTuple := [Regime.NonBinding]
        anyNonBinding := true
        bellmanCalls := 0
        failed := [] } = true := by
    simp [derefOK, capGame, strictActions, rd, List.range_succ]
  simp only [hd, if_true, List.map, Option.getD_some, hb]
  simp [icCheckState, icHolds, capGame, strictActions, rd, List.range_succ, SGPoint.ge,
    SGTuple.expectation, SGTuple.expectationCoord, SGPoint.coord]
  norm_num

/-! ## Claim on `findFeasibleTuple` -/

/-- C11: let `feasibleTuple` have one entry per state.  If every state has an action whose
binding set is non-empty for some player, `findFeasibleTuple` returns for every fuel, without
an exception and without a call of `policyToPayoffs`, and for every state `s` it has set
`feasibleTuple[s] = (1−δ)·payoffs[s][a] + δ·points[p][0]`, where `a` is the first action of
`actions[s]` with a non-empty binding set and `p` its lowest player with non-empty points.
And `NOFEASIBLETUPLE` is thrown only when some state has no such action and every action of
that state is recorded as having failed the check of line 847; every recorded failure is a
check of an action of the state that failed against the tuple recorded with it. -/
theorem C11_findFeasibleTuple (env : SGEnv) (game : SGGame) (fuel : Nat)
    (feasibleTuple : SGTuple) (actions : List (List SGAction_V2))
    (hlen : feasibleTuple.length = game.numStates) :
    ((∀ s < game.numStates, ∃ act ∈ rd actions s, ∃ p < game.numPlayers,
        0 < (rd act.points p).length) →
      findFeasibleTuple env game fuel feasibleTuple actions =
        Except.ok (findFeasibleTupleRun env game fuel feasibleTuple actions).1.feasibleTuple ∧
      (findFeasibleTupleRun env game fuel feasibleTuple actions).1.bellmanCalls = 0 ∧
      ∀ s < game.numStates, ∃ i p, i < (rd actions s).length ∧ p < game.numPlayers ∧
        0 < (rd (rd (rd actions s) i).points p).length ∧
        (∀ q < p, (rd (rd (rd actions s) i).points q).length = 0) ∧
        (∀ j < i, ∀ q < game.numPlayers, (rd (rd (rd actions s) j).points q).length = 0) ∧
        rd (findFeasibleTupleRun env game fuel feasibleTuple actions).1.feasibleTuple s =
          (SGPoint.smul (1 - game.delta)
              (rd (rd game.payoffs s) (rd (rd actions s) i).action)).add
            (SGPoint.smul game.delta (rd (rd (rd (rd actions s) i).points p) 0))) ∧
    (findFeasibleTuple env game fuel feasibleTuple actions =
        Except.error (Stop.thrown SGException.NOFEASIBLETUPLE) →
      ∃ s < game.numStates,
        (∀ act ∈ rd actions s, ∀ p < game.numPlayers, (rd act.points p).length = 0) ∧
        ∀ j < (rd actions s).length, ∃ t,
          (s, j, t) ∈ (findFeasibleTupleRun env game fuel feasibleTuple actions).1.failed) ∧
    (∀ e ∈ (findFeasibleTupleRun env game fuel feasibleTuple actions).1.failed,
      e.2.1 < (rd actions e.1).length ∧
        icHolds game e.2.2 e.1 (rd (rd actions e.1) e.2.1) = false) := by
  have hfirst := feasibleStates_upto game actions
    { feasibleTuple := feasibleTuple
      actionTuple := List.replicate game.numStates none
      regimeTuple := List.replicate game.numStates Regime.Binding
      anyNonBinding := false
      bellmanCalls := 0
      failed := [] }
    hlen (by simp)
    (fun s => by
      by_cases hs : s < game.numStates
      · simp [rd, List.getD_eq_getElem?_getD, List.getElem?_replicate, hs]
      · exact rd_default_of_le _ _ (by simpa using hs))
    rfl game.numStates (Nat.le_refl _)
  obtain ⟨f1, f2, f3, f4, f5, f6, f7⟩ := hfirst
  have hrun : findFeasibleTupleRun env game fuel feasibleTuple actions =
      feasibleLoop env game actions fuel
        ((List.range game.numStates).foldl (feasibleState game actions)
          { feasibleTuple := feasibleTuple
            actionTuple := List.replicate game.numStates none
            regimeTuple := List.replicate game.numStates Regime.Binding
            anyNonBinding := false
            bellmanCalls := 0
            failed := [] }).anyNonBinding
        ((List.range game.numStates).foldl (feasibleState game actions)
          { feasibleTuple := feasibleTuple
            actionTuple := List.replicate game.numStates none
            regimeTuple := List.replicate game.numStates Regime.Binding
            anyNonBinding := false
            bellmanCalls := 0
            failed := [] }) := rfl
  generalize (List.range game.numStates).foldl (feasibleState game actions) _ = v at *
  have hinv : FeasibleInv game actions v := by
    refine ⟨f2, fun s pos h => ?_, fun e he => ?_⟩
    · obtain ⟨a, b, c⟩ := f6 s pos h
      subst b
      exact ⟨a, c, fun j hj => absurd hj (Nat.not_lt_zero _)⟩
    · rw [f4] at he
      cases he
  have hloop := feasibleLoop_inv env game actions fuel v.anyNonBinding v hinv
  rw [← hrun] at hloop
  refine ⟨fun hall => ?_, fun hthrown => ?_, hloop.1.2.2⟩
  · have hfalse : v.anyNonBinding = false := by
      cases hb : v.anyNonBinding with
      | false => rfl
      | true =>
        exfalso
        obtain ⟨s, hs, hn⟩ := f7 hb
        obtain ⟨act, hact, p, hp, hpos⟩ := hall s hs
        have h1 := (feasibleAction_spec game.numPlayers (rd actions s)).2 hn act hact
        have h2 := (feasiblePlayer_spec game.numPlayers act).2 h1 p hp
        omega
    have hrun' : findFeasibleTupleRun env game fuel feasibleTuple actions = (v, none) := by
      rw [hrun, hfalse]
      cases fuel <;> rfl
    refine ⟨?_, ?_, fun s hs => ?_⟩
    · simp only [findFeasibleTuple, hrun']
    · rw [hrun']
      exact f3
    · rw [hrun']
      obtain ⟨act, hact, p, hp, hpos⟩ := hall s hs
      cases hf : feasibleAction game.numPlayers (rd actions s) with
      | none =>
        exfalso
        have h1 := (feasibleAction_spec game.numPlayers (rd actions s)).2 hf act hact
        have h2 := (feasiblePlayer_spec game.numPlayers act).2 h1 p hp
        omega
      | some ap =>
        obtain ⟨a0, p0⟩ := ap
        obtain ⟨i, hi, ha, hpl, hbefore⟩ :=
          (feasibleAction_spec game.numPlayers (rd actions s)).1 a0 p0 hf
        obtain ⟨g1, g2, g3⟩ := (feasiblePlayer_spec game.numPlayers a0).1 p0 hpl
        have h5 := f5 s hs a0 p0 hf
        subst ha
        exact ⟨i, p0, hi, g1, g2, g3,
          fun j hj q hq => (feasiblePlayer_spec game.numPlayers _).2 (hbefore j hj) q hq, h5⟩
  · have hst : (findFeasibleTupleRun env game fuel feasibleTuple actions).2 =
        some (Stop.thrown SGException.NOFEASIBLETUPLE) := by
      unfold findFeasibleTuple at hthrown
      cases hr : (findFeasibleTupleRun env game fuel feasibleTuple actions).2 with
      | none =>
        rw [hr] at hthrown
        cases hthrown
      | some stop =>
        rw [hr] at hthrown
        simp only [Except.error.injEq] at hthrown
        rw [hthrown]
    obtain ⟨s, hs, hn, hall⟩ := hloop.2 hst
    refine ⟨s, hs, fun act hact p hp => ?_, hall⟩
    exact (feasiblePlayer_spec game.numPlayers act).2
      ((feasibleAction_spec game.numPlayers (rd actions s)).2 hn act hact) p hp

/-- Witness of C11: on the one-state game whose action has a binding payoff for player 0 the
call returns without a Bellman iteration; on `capGame` with an action that has no binding
payoff and cannot be incentive compatible the exception is thrown, and the only action of the
state is recorded as failed. -/
theorem C11_findFeasibleTuple_witness :
    ([(⟨0, 0⟩ : SGPoint)]).length = boundaryGame.numStates ∧
    findFeasibleTuple SGEnv.defaults boundaryGame 0 [⟨0, 0⟩] boundaryActions =
      Except.ok (findFeasibleTupleRun SGEnv.defaults boundaryGame 0 [⟨0, 0⟩]
        boundaryActions).1.feasibleTuple ∧
    (findFeasibleTupleRun SGEnv.defaults boundaryGame 0 [⟨0, 0⟩]
      boundaryActions).1.bellmanCalls = 0 ∧
    (∃ s < capGame.numStates,
      (∀ act ∈ rd strictActions s, ∀ p < capGame.numPlayers, (rd act.points p).length = 0) ∧
      ∀ j < (rd strictActions s).length, ∃ t,
        (s, j, t) ∈ (findFeasibleTupleRun capEnv capGame 1 [⟨0, 0⟩] strictActions).1.failed) :=
  ⟨rfl,
    ((C11_findFeasibleTuple SGEnv.defaults boundaryGame 0 [⟨0, 0⟩] boundaryActions rfl).1
      (fun s hs => by
        have h0 : s = 0 := by
          have : s < 1 := hs
          omega
        subst h0
        exact ⟨_, List.mem_singleton_self _, 0, by decide, by decide⟩)).1,
    ((C11_findFeasibleTuple SGEnv.defaults boundaryGame 0 [⟨0, 0⟩] boundaryActions rfl).1
      (fun s hs => by
        have h0 : s = 0 := by
          have : s < 1 := hs
          omega
        subst h0
        exact ⟨_, List.mem_singleton_self _, 0, by decide, by decide⟩)).2.1,
    (C11_findFeasibleTuple capEnv capGame 1 [⟨0, 0⟩] strictActions rfl).2.1 strict_throws⟩

/-! ## The deletion pass -/

/-- The actions left by a deletion pass are, in order, among the actions it started with, as
long as the step of the pass keeps the action profile. -/
theorem erasePass_sublist {A : Type} (prof : A → Nat) (step : A → A) (keep : A → Bool)
    (hstep : ∀ a, prof (step a) = prof a) :
    ∀ (n : Nat) (l : List A) (r : List A × List A), l.length ≤ n →
      erasePass step keep l = Except.ok r → (r.1.map prof).Sublist (l.map prof) := by
  intro n
  induction n with
  | zero =>
    intro l r hl h
    have : l = [] := List.length_eq_zero.mp (Nat.le_zero.mp hl)
    subst this
    simp only [erasePass, Except.ok.injEq] at h
    subst h
    exact List.Sublist.refl _
  | succ n ih =>
    intro l r hl h
    match l, h with
    | [], h =>
      simp only [erasePass, Except.ok.injEq] at h
      subst h
      exact List.Sublist.refl _
    | [a], h =>
      simp only [erasePass] at h
      split_ifs at h
      simp only [Except.ok.injEq] at h
      subst h
      simp [hstep]
    | a :: b :: rest, h =>
      simp only [erasePass] at h
      split_ifs at h
      · cases hr : erasePass step keep (b :: rest) with
        | error e =>
          rw [hr] at h
          cases h
        | ok r0 =>
          rw [hr] at h
          simp only [Except.map, Except.ok.injEq] at h
          subst h
          have := ih (b :: rest) r0 (by simpa using hl) hr
          simpa [hstep] using this
      · cases hr : erasePass step keep rest with
        | error e =>
          rw [hr] at h
          cases h
        | ok r0 =>
          rw [hr] at h
          simp only [Except.map, Except.ok.injEq] at h
          subst h
          have := ih rest r0 (by simp at hl; omega) hr
          simp only [List.map_cons]
          exact List.Sublist.cons _ (List.Sublist.cons₂ _ this)

/-! ## The surviving actions across the passes of `solve` -/

theorem shrinks_refl {A : Type} (ops : SGActionOps A) (x : List (List A)) : Shrinks ops x x :=
  fun _ => List.Sublist.refl _

theorem shrinks_trans {A : Type} {ops : SGActionOps A} {x y z : List (List A)}
    (h1 : Shrinks ops x y) (h2 : Shrinks ops y z) : Shrinks ops x z :=
  fun s => (h2 s).trans (h1 s)

/-- A vector with one entry replaced, read at any index. -/
theorem rd_set {α : Type} [Inhabited α] (l : List α) (i j : Nat) (v : α) :
    rd (l.set i v) j = if i = j ∧ i < l.length then v else rd l j := by
  by_cases hij : i = j
  · subst hij
    by_cases hi : i < l.length
    · rw [if_pos ⟨rfl, hi⟩, rd_set_eq _ _ _ hi]
    · rw [if_neg (fun h => hi h.2), rd_default_of_le _ _ (by simpa using not_lt.mp hi),
        rd_default_of_le _ _ (not_lt.mp hi)]
  · rw [if_neg (fun h => hij h.1), rd_set_ne _ _ _ _ hij]

theorem deletionStep_shrinks {A : Type} (ops : SGActionOps A) (hk : KeepsProfile ops)
    (game : SGGame) (feasibleTuple : SGTuple) (actions acts1 : List (List A)) (state : Nat)
    (h : deletionStep ops game feasibleTuple actions state = Except.ok acts1) :
    Shrinks ops actions acts1 := by
  unfold deletionStep at h
  cases hr : erasePass ops.updateTrim (supportableIn ops game feasibleTuple state)
      (rd actions state) with
  | error e =>
    rw [hr] at h
    cases h
  | ok r =>
    rw [hr] at h
    simp only [Except.map, Except.ok.injEq] at h
    subst h
    intro s
    rw [rd_set]
    split_ifs with hc
    · obtain ⟨rfl, _⟩ := hc
      exact erasePass_sublist (fun a => (ops.view a).action) ops.updateTrim _ hk.2.2.2.2 _ _ _
        (Nat.le_refl _) hr
    · exact List.Sublist.refl _

theorem deletionPasses_shrinks {A : Type} (ops : SGActionOps A) (hk : KeepsProfile ops)
    (game : SGGame) (feasibleTuple : SGTuple) (states : List Nat) :
    ∀ (actions acts1 : List (List A)),
      states.foldlM (deletionStep ops game feasibleTuple) actions = Except.ok acts1 →
      Shrinks ops actions acts1 := by
  induction states with
  | nil =>
    intro actions acts1 h
    simp only [List.foldlM_nil, pure, Except.pure, Except.ok.injEq] at h
    subst h
    exact shrinks_refl ops _
  | cons s rest ih =>
    intro actions acts1 h
    rw [List.foldlM_cons] at h
    cases hs : deletionStep ops game feasibleTuple actions s with
    | error e =>
      rw [hs] at h
      cases h
    | ok acts0 =>
      rw [hs] at h
      exact shrinks_trans (deletionStep_shrinks ops hk game feasibleTuple _ _ s hs)
        (ih acts0 acts1 h)

theorem recalcAction_profile {A : Type} (ops : SGActionOps A) (hk : KeepsProfile ops)
    (game : SGGame) (threatTuple : SGTuple) (directions : List SGPoint)
    (levels : List (List ℚ)) (state : Nat) (a : A) :
    (ops.view (recalcAction ops game threatTuple directions levels state a)).action =
      (ops.view a).action := by
  unfold recalcAction
  rw [← hk.2.1 game [true, true] threatTuple a]
  generalize ops.calculateMinIC game [true, true] threatTuple a = b
  generalize List.range directions.length = l
  induction l generalizing b with
  | nil => rfl
  | cons d l ih =>
    rw [List.foldl_cons, ih, hk.2.2.2.1]

theorem recalcActions_profiles {A : Type} (ops : SGActionOps A) (hk : KeepsProfile ops)
    (game : SGGame) (threatTuple : SGTuple) (directions : List SGPoint)
    (levels : List (List ℚ)) (actions : List (List A)) (s : Nat) :
    profiles ops (rd (recalcActions ops game threatTuple directions levels actions) s) =
      profiles ops (rd actions s) := by
  unfold recalcActions
  generalize List.range game.numStates = l
  induction l generalizing actions with
  | nil => rfl
  | cons t l ih =>
    rw [List.foldl_cons, ih, rd_set]
    split_ifs with hc
    · obtain ⟨rfl, _⟩ := hc
      simp only [profiles, List.map_map]
      apply List.map_congr_left
      intro a _
      exact recalcAction_profile ops hk game threatTuple directions levels t a
    · rfl

theorem initAction_profile {A : Type} (ops : SGActionOps A) (hk : KeepsProfile ops)
    (circle : ℚ → SGPoint) (env : SGEnv) (game : SGGame) (threatTuple : SGTuple)
    (payoffLB payoffUB : SGPoint) (state action : Nat) :
    (ops.view (initAction ops circle env game threatTuple payoffLB payoffUB state action)).action
      = action := by
  unfold initAction
  rw [hk.2.2.2.2]
  have hstart : (ops.view (ops.resetTrimmedPoints
      (ops.calculateMinIC game [true, true] threatTuple (ops.construct env state action)))).action
      = action := by
    rw [hk.2.2.1, hk.2.1, hk.1]
  generalize ops.resetTrimmedPoints _ = b at hstart ⊢
  generalize List.range 4 = l
  induction l generalizing b with
  | nil => exact hstart
  | cons d l ih =>
    rw [List.foldl_cons]
    exact ih _ (by rw [hk.2.2.2.1]; exact hstart)

/-- The lists of actions that `solve` starts with hold each action profile of the state
once, in order. -/
theorem initActions_profiles {A : Type} (ops : SGActionOps A) (hk : KeepsProfile ops)
    (circle : ℚ → SGPoint) (env : SGEnv) (game : SGGame) (threatTuple : SGTuple)
    (payoffLB payoffUB : SGPoint) (s : Nat) (hs : s < game.numStates) :
    profiles ops (rd (initActions ops circle env game threatTuple payoffLB payoffUB) s) =
      List.range (rd game.numActions_total s) := by
  unfold initActions
  have hrd : rd ((List.range game.numStates).map
      (fun state => (List.range (rd game.numActions_total state)).map
        (fun action =>
          initAction ops circle env game threatTuple payoffLB payoffUB state action))) s =
      (List.range (rd game.numActions_total s)).map
        (fun action => initAction ops circle env game threatTuple payoffLB payoffUB s action) := by
    simp [rd, List.getD_eq_getElem?_getD, List.getElem?_map, List.getElem?_range hs]
  rw [hrd]
  simp only [profiles, List.map_map]
  conv_rhs => rw [← List.map_id (List.range (rd game.numActions_total s))]
  apply List.map_congr_left
  intro a _
  exact initAction_profile ops hk circle env game threatTuple payoffLB payoffUB s a

/-! ## The passes of the main loop of `solve` -/

theorem solveDirection_iter {A : Type} (ops : SGActionOps A) (env : SGEnv) (game : SGGame)
    (fuel : Nat) (directions : List SGPoint) (actions : List (List A)) (v w : SweepVars A)
    (dir : Nat) (h : solveDirection ops env game fuel directions actions v dir = Except.ok w) :
    w.iter.iteration = v.iter.iteration ∧ w.iter.actions = v.iter.actions ∧
      w.iter.threatTuple = v.iter.threatTuple := by
  unfold solveDirection at h
  cases ho : optimizePolicy env game fuel v.pivot v.actionTuple v.regimeTuple
      (rd directions dir) (viewAll ops actions) with
  | none =>
    rw [ho] at h
    cases h
  | some r =>
    rw [ho] at h
    simp only [Except.ok.injEq] at h
    subst h
    simp only
    split_ifs <;> exact ⟨rfl, rfl, rfl⟩

theorem solveSweep_iter {A : Type} (ops : SGActionOps A) (env : SGEnv) (game : SGGame)
    (fuel : Nat) (directions : List SGPoint) (actions : List (List A)) (dirs : List Nat) :
    ∀ (v w : SweepVars A),
      dirs.foldlM (solveDirection ops env game fuel directions actions) v = Except.ok w →
      w.iter.iteration = v.iter.iteration ∧ w.iter.actions = v.iter.actions ∧
        w.iter.threatTuple = v.iter.threatTuple := by
  induction dirs with
  | nil =>
    intro v w h
    simp only [List.foldlM_nil, pure, Except.pure, Except.ok.injEq] at h
    subst h
    exact ⟨rfl, rfl, rfl⟩
  | cons d rest ih =>
    intro v w h
    rw [List.foldlM_cons] at h
    cases hs : solveDirection ops env game fuel directions actions v d with
    | error e =>
      rw [hs] at h
      cases h
    | ok v1 =>
      rw [hs] at h
      have h1 := solveDirection_iter ops env game fuel directions actions v v1 d hs
      have h2 := ih v1 w h
      exact ⟨h2.1.trans h1.1, h2.2.1.trans h1.2.1, h2.2.2.trans h1.2.2⟩

/-- One pass of the main loop of `solve`: the actions after the deletion pass are among the
actions before it, the recalculation keeps their profiles, the counter grows by one, and the
record of the pass, which holds the counter and the actions after the deletion pass, is
appended to the solution exactly when `STOREITERATIONS` is not 0. -/
theorem solveIteration_spec {A : Type} (ops : SGActionOps A) (hk : KeepsProfile ops)
    (env : SGEnv) (game : SGGame) (fuel : Nat) (directions : List SGPoint) (v v1 : SolveVars A)
    (h : solveIteration ops env game fuel directions v = Except.ok v1) :
    ∃ del : List (List A), Shrinks ops v.actions del ∧ Shrinks ops del v1.actions ∧
      v1.numIter = v.numIter + 1 ∧
      ((env.STOREITERATIONS = 0 ∧ v1.soln = v.soln) ∨
        (env.STOREITERATIONS ≠ 0 ∧
          ∃ it : SGIteration_V2 A, v1.soln = v.soln ++ [it] ∧ it.iteration = v.numIter ∧
            it.actions = del)) := by
  unfold solveIteration at h
  cases hd : deletionPasses ops game v.feasibleTuple v.actions with
  | error e =>
    rw [hd] at h
    cases h
  | ok del =>
    rw [hd] at h
    simp only at h
    cases hsw : solveSweep ops env game fuel directions del
        { pivot := v.pivot
          actionTuple := List.replicate game.numStates 0
          regimeTuple := List.replicate game.numStates Regime.Binding
          levels := v.levels
          pivots := v.pivots
          errorLevel := 0
          iter :=
            if env.STOREITERATIONS ≠ 0 then
              { iteration := v.numIter, actions := del, threatTuple := v.threatTuple,
                steps := [] }
            else v.iter } with
    | error e =>
      rw [hsw] at h
      cases h
    | ok sw =>
      rw [hsw] at h
      simp only at h
      cases hf : findFeasibleTuple env game fuel v.feasibleTuple (viewAll ops del) with
      | error e =>
        rw [hf] at h
        cases h
      | ok ft =>
        rw [hf] at h
        simp only [Except.ok.injEq] at h
        subst h
        have hit := solveSweep_iter ops env game fuel directions del _ _ sw hsw
        refine ⟨del, deletionPasses_shrinks ops hk game v.feasibleTuple _ _ _ hd, ?_, rfl, ?_⟩
        · intro s
          simp only
          rw [recalcActions_profiles ops hk]
        · by_cases hst : env.STOREITERATIONS = 0
          · left
            exact ⟨hst, by simp [hst]⟩
          · right
            refine ⟨hst, sw.iter, by simp [hst], ?_, ?_⟩
            · rw [hit.1, if_pos hst]
            · rw [hit.2.1, if_pos hst]

/-- The actions `a` followed by later actions that shrink them: the list of snapshots stays
ordered when the last entry shrinks. -/
theorem pairwise_snoc_shrinks {A : Type} (ops : SGActionOps A) (l : List (List (List A)))
    (a b : List (List A)) (h : List.Pairwise (Shrinks ops) (l ++ [a])) (hab : Shrinks ops a b) :
    List.Pairwise (Shrinks ops) (l ++ [b]) := by
  rw [List.pairwise_append] at h ⊢
  refine ⟨h.1, List.pairwise_singleton _ _, fun x hx y hy => ?_⟩
  rw [List.mem_singleton] at hy
  subst hy
  exact shrinks_trans (h.2.2 x hx a (List.mem_singleton_self _)) hab

theorem pairwise_snoc_snoc {A : Type} (ops : SGActionOps A) (l : List (List (List A)))
    (a b : List (List A)) (h : List.Pairwise (Shrinks ops) (l ++ [a])) (hab : Shrinks ops a b) :
    List.Pairwise (Shrinks ops) ((l ++ [a]) ++ [b]) := by
  rw [List.pairwise_append]
  refine ⟨h, List.pairwise_singleton _ _, fun x hx y hy => ?_⟩
  rw [List.mem_singleton] at hy
  subst hy
  rcases List.mem_append.mp hx with hx | hx
  · rw [List.pairwise_append] at h
    exact shrinks_trans (h.2.2 x hx a (List.mem_singleton_self _)) hab
  · rw [List.mem_singleton] at hx
    subst hx
    exact hab

theorem solutionInv_step {A : Type} (ops : SGActionOps A) (env : SGEnv) (first : List (List A))
    (soln soln1 : List (SGIteration_V2 A)) (actions actions1 del : List (List A))
    (numIter : Nat) (hinv : SolutionInv ops env first soln actions numIter)
    (h1 : Shrinks ops actions del) (h2 : Shrinks ops del actions1)
    (hs : (env.STOREITERATIONS = 0 ∧ soln1 = soln) ∨
      (env.STOREITERATIONS ≠ 0 ∧
        ∃ it : SGIteration_V2 A, soln1 = soln ++ [it] ∧ it.iteration = numIter ∧
          it.actions = del)) :
    SolutionInv ops env first soln1 actions1 (numIter + 1) := by
  obtain ⟨hp, hn⟩ := hinv
  rcases hs with ⟨h0, rfl⟩ | ⟨h0, it, rfl, hnum, hact⟩
  · refine ⟨pairwise_snoc_shrinks ops _ _ _ hp (shrinks_trans h1 h2), ?_⟩
    rw [hn, if_pos h0, if_pos h0]
  · refine ⟨?_, ?_⟩
    · have := pairwise_snoc_snoc ops _ _ _ (pairwise_snoc_shrinks ops _ _ _ hp h1) h2
      simpa [hact] using this
    · rw [List.map_append, hn, if_neg h0, if_neg h0, List.range_succ]
      simp [hnum]

theorem solveLoop_inv {A : Type} (ops : SGActionOps A) (hk : KeepsProfile ops) (env : SGEnv)
    (game : SGGame) (fuel : Nat) (directions : List SGPoint) (first : List (List A))
    (remaining : Nat) :
    ∀ (v res : SolveVars A), SolutionInv ops env first v.soln v.actions v.numIter →
      solveLoop ops env game fuel directions remaining v = Except.ok res →
      SolutionInv ops env first res.soln res.actions res.numIter := by
  induction remaining with
  | zero =>
    intro v res hinv h
    simp only [solveLoop, Except.ok.injEq] at h
    subst h
    exact hinv
  | succ n ih =>
    intro v res hinv h
    simp only [solveLoop] at h
    split_ifs at h
    · cases hit : solveIteration ops env game fuel directions v with
      | error e =>
        rw [hit] at h
        cases h
      | ok v1 =>
        rw [hit] at h
        obtain ⟨del, h1, h2, h3, h4⟩ := solveIteration_spec ops hk env game fuel directions v v1 hit
        refine ih v1 res ?_ h
        rw [h3]
        exact solutionInv_step ops env first _ _ _ _ del _ hinv h1 h2 h4
    · simp only [Except.ok.injEq] at h
      subst h
      exact hinv

/-! ## The passes of the main loop of `solve_endogenous` -/

theorem arcStep_iter {A : Type} (ops : SGActionOps A) (dops : DirectionOps) (env : SGEnv)
    (game : SGGame) (fuel : Nat) (actions : List (List A)) (v w : ArcVars A)
    (h : arcStep ops dops env game fuel actions v = Except.ok w) :
    w.iter.iteration = v.iter.iteration ∧ w.iter.actions = v.iter.actions ∧
      w.iter.threatTuple = v.iter.threatTuple := by
  unfold arcStep at h
  cases ho : optimizePolicy env game fuel v.pivot v.actionTuple v.regimeTuple v.currDir
      (viewAll ops actions) with
  | none =>
    rw [ho] at h
    cases h
  | some r =>
    rw [ho] at h
    simp only [Except.ok.injEq] at h
    subst h
    simp only
    split_ifs <;> exact ⟨rfl, rfl, rfl⟩

theorem arcLoop_iter {A : Type} (ops : SGActionOps A) (dops : DirectionOps) (env : SGEnv)
    (game : SGGame) (fuel : Nat) (actions : List (List A)) (arcFuel : Nat) :
    ∀ (v w : ArcVars A), arcLoop ops dops env game fuel actions arcFuel v = Except.ok w →
      w.iter.iteration = v.iter.iteration ∧ w.iter.actions = v.iter.actions ∧
        w.iter.threatTuple = v.iter.threatTuple := by
  induction arcFuel with
  | zero =>
    intro v w h
    simp only [arcLoop] at h
    cases h
  | succ n ih =>
    intro v w h
    simp only [arcLoop] at h
    cases hs : arcStep ops dops env game fuel actions v with
    | error e =>
      rw [hs] at h
      cases h
    | ok v1 =>
      rw [hs] at h
      simp only at h
      have h1 := arcStep_iter ops dops env game fuel actions v v1 hs
      split_ifs at h
      · simp only [Except.ok.injEq] at h
        subst h
        exact h1
      · have h2 := ih v1 w h
        exact ⟨h2.1.trans h1.1, h2.2.1.trans h1.2.1, h2.2.2.trans h1.2.2⟩

theorem retrimAction_profile {A : Type} (ops : SGActionOps A) (hk : KeepsProfile ops)
    (game : SGGame) (threatTuple : SGTuple) (directions : List SGPoint)
    (levels : List (List ℚ)) (state : Nat) (a : A) :
    (ops.view (retrimAction ops game threatTuple directions levels state a)).action =
      (ops.view a).action := by
  unfold retrimAction
  rw [hk.2.2.2.2, ← hk.2.1 game [true, true] threatTuple a]
  generalize ops.calculateMinIC game [true, true] threatTuple a = b
  generalize directions.zip levels = l
  induction l generalizing b with
  | nil => rfl
  | cons d l ih =>
    rw [List.foldl_cons, ih, hk.2.2.2.1]

theorem retrimStep_shrinks {A : Type} (ops : SGActionOps A) (hk : KeepsProfile ops)
    (game : SGGame) (threatTuple feasibleTuple : SGTuple) (directions : List SGPoint)
    (levels : List (List ℚ)) (actions acts1 : List (List A)) (state : Nat)
    (h : retrimStep ops game threatTuple feasibleTuple directions levels actions state
      = Except.ok acts1) :
    Shrinks ops actions acts1 := by
  unfold retrimStep at h
  cases hr : erasePass (retrimAction ops game threatTuple directions levels state)
      (supportableIn ops game feasibleTuple state) (rd actions state) with
  | error e =>
    rw [hr] at h
    cases h
  | ok r =>
    rw [hr] at h
    simp only [Except.map, Except.ok.injEq] at h
    subst h
    intro s
    rw [rd_set]
    split_ifs with hc
    · obtain ⟨rfl, _⟩ := hc
      exact erasePass_sublist (fun a => (ops.view a).action) _ _
        (retrimAction_profile ops hk game threatTuple directions levels state) _ _ _
        (Nat.le_refl _) hr
    · exact List.Sublist.refl _

theorem retrimPasses_shrinks {A : Type} (ops : SGActionOps A) (hk : KeepsProfile ops)
    (game : SGGame) (threatTuple feasibleTuple : SGTuple) (directions : List SGPoint)
    (levels : List (List ℚ)) (states : List Nat) :
    ∀ (actions acts1 : List (List A)),
      states.foldlM (retrimStep ops game threatTuple feasibleTuple directions levels) actions
        = Except.ok acts1 →
      Shrinks ops actions acts1 := by
  induction states with
  | nil =>
    intro actions acts1 h
    simp only [List.foldlM_nil, pure, Except.pure, Except.ok.injEq] at h
    subst h
    exact shrinks_refl ops _
  | cons s rest ih =>
    intro actions acts1 h
    rw [List.foldlM_cons] at h
    cases hs : retrimStep ops game threatTuple feasibleTuple directions levels actions s with
    | error e =>
      rw [hs] at h
      cases h
    | ok acts0 =>
      rw [hs] at h
      exact shrinks_trans
        (retrimStep_shrinks ops hk game threatTuple feasibleTuple directions levels _ _ s hs)
        (ih acts0 acts1 h)

/-- One pass of the main loop of `solve_endogenous`: the actions after the closing pass are
among the actions before it, the counter grows by one, and the record of the pass, which
holds the counter and the actions before the closing pass, is appended to the solution
exactly when `STOREITERATIONS` is not 0. -/
theorem endoIteration_spec {A : Type} (ops : SGActionOps A) (hk : KeepsProfile ops)
    (dops : DirectionOps) (env : SGEnv) (game : SGGame) (fuel arcFuel : Nat)
    (v v1 : EndoVars A)
    (h : endoIteration ops dops env game fuel arcFuel v = Except.ok v1) :
    Shrinks ops v.actions v1.actions ∧ v1.numIter = v.numIter + 1 ∧
      ((env.STOREITERATIONS = 0 ∧ v1.soln = v.soln) ∨
        (env.STOREITERATIONS ≠ 0 ∧
          ∃ it : SGIteration_V2 A, v1.soln = v.soln ++ [it] ∧ it.iteration = v.numIter ∧
            it.actions = v.actions)) := by
  unfold endoIteration at h
  cases harc : arcLoop ops dops env game fuel v.actions arcFuel
      { pivot := v.pivot
        actionTuple := List.replicate game.numStates 0
        regimeTuple := List.replicate game.numStates Regime.Binding
        currDir := ⟨1, 0⟩
        passEast := false
        newDirections := []
        newLevels := []
        newThreatTuple := v.newThreatTuple
        iter :=
          if env.STOREITERATIONS ≠ 0 then
            { iteration := v.numIter, actions := v.actions, threatTuple := v.threatTuple,
              steps := [] }
          else v.iter } with
  | error e =>
    rw [harc] at h
    cases h
  | ok arc =>
    rw [harc] at h
    simp only at h
    cases hf : findFeasibleTuple env game fuel v.feasibleTuple (viewAll ops v.actions) with
    | error e =>
      rw [hf] at h
      cases h
    | ok ft =>
      rw [hf] at h
      simp only at h
      cases hr : retrimPasses ops game arc.newThreatTuple ft arc.newDirections arc.newLevels
          v.actions with
      | error e =>
        rw [hr] at h
        cases h
      | ok acts =>
        rw [hr] at h
        simp only [Except.ok.injEq] at h
        subst h
        have hit := arcLoop_iter ops dops env game fuel v.actions arcFuel _ arc harc
        refine ⟨retrimPasses_shrinks ops hk game _ _ _ _ _ _ _ hr, rfl, ?_⟩
        by_cases hst : env.STOREITERATIONS = 0
        · left
          exact ⟨hst, by simp [hst]⟩
        · right
          refine ⟨hst, arc.iter, by simp [hst], ?_, ?_⟩
          · rw [hit.1, if_pos hst]
          · rw [hit.2.1, if_pos hst]

theorem endoLoop_inv {A : Type} (ops : SGActionOps A) (hk : KeepsProfile ops)
    (dops : DirectionOps) (env : SGEnv) (game : SGGame) (fuel arcFuel : Nat)
    (first : List (List A)) (remaining : Nat) :
    ∀ (v res : EndoVars A), SolutionInv ops env first v.soln v.actions v.numIter →
      endoLoop ops dops env game fuel arcFuel remaining v = Except.ok res →
      SolutionInv ops env first res.soln res.actions res.numIter := by
  induction remaining with
  | zero =>
    intro v res hinv h
    simp only [endoLoop, Except.ok.injEq] at h
    subst h
    exact hinv
  | succ n ih =>
    intro v res hinv h
    simp only [endoLoop] at h
    split_ifs at h
    · cases hit : endoIteration ops dops env game fuel arcFuel v with
      | error e =>
        rw [hit] at h
        cases h
      | ok v1 =>
        rw [hit] at h
        obtain ⟨h1, h3, h4⟩ := endoIteration_spec ops hk dops env game fuel arcFuel v v1 hit
        refine ih v1 res ?_ h
        rw [h3]
        exact solutionInv_step ops env first _ _ _ _ v.actions _ hinv (shrinks_refl ops _) h1 h4
    · simp only [Except.ok.injEq] at h
      subst h
      exact hinv

/-! ## The levels and pivots that the loop over the directions records -/

/-- The loop that records the levels of one direction, over the states below `n`: the new
levels of these states are the levels of the pivot, and the pivot is recorded. -/
theorem levelSteps_upto (currDir : SGPoint) (pivot : SGTuple) (dir : Nat)
    (levels : List (List ℚ)) (newLevels : List ℚ) (pivots : List SGTuple) (e : ℚ) (n : Nat) :
    ((List.range n).foldl (levelStep currDir pivot dir levels) (newLevels, pivots, e)).1.length
      = newLevels.length ∧
    (∀ s < n, s < newLevels.length →
      rd ((List.range n).foldl (levelStep currDir pivot dir levels) (newLevels, pivots, e)).1 s
        = (rd pivot s).dot currDir) ∧
    ((List.range n).foldl (levelStep currDir pivot dir levels) (newLevels, pivots, e)).2.1
      = (if n = 0 then pivots else pivots.set dir pivot) := by
  induction n with
  | zero => exact ⟨rfl, fun s hs => absurd hs (Nat.not_lt_zero _), rfl⟩
  | succ n ih =>
    rw [List.range_succ, List.foldl_append, List.foldl_cons, List.foldl_nil]
    obtain ⟨i1, i2, i3⟩ := ih
    generalize (List.range n).foldl (levelStep currDir pivot dir levels) (newLevels, pivots, e)
      = acc at *
    refine ⟨by simpa [levelStep] using i1, fun s hs hlen => ?_, ?_⟩
    · show rd (acc.1.set n _) s = _
      rcases Nat.lt_succ_iff_lt_or_eq.mp hs with hlt | heq
      · rw [rd_set_ne _ _ _ _ (Nat.ne_of_gt hlt)]
        exact i2 s hlt hlen
      · subst heq
        exact rd_set_eq _ _ _ (by omega)
    · show acc.2.1.set dir pivot = _
      rw [i3, if_neg (Nat.succ_ne_zero n)]
      by_cases hn : n = 0
      · rw [if_pos hn]
      · rw [if_neg hn, List.set_set]

theorem solveDirection_recorded {A : Type} (ops : SGActionOps A) (env : SGEnv) (game : SGGame)
    (fuel : Nat) (directions : List SGPoint) (actions : List (List A)) (v w : SweepVars A)
    (k : Nat) (hk : k < v.levels.length) (hp : k < v.pivots.length)
    (hrec : Recorded game directions v.levels v.pivots k)
    (h : solveDirection ops env game fuel directions actions v k = Except.ok w) :
    w.levels.length = v.levels.length ∧ w.pivots.length = v.pivots.length ∧
      Recorded game directions w.levels w.pivots (k + 1) := by
  unfold solveDirection at h
  cases ho : optimizePolicy env game fuel v.pivot v.actionTuple v.regimeTuple
      (rd directions k) (viewAll ops actions) with
  | none =>
    rw [ho] at h
    cases h
  | some r =>
    rw [ho] at h
    simp only [Except.ok.injEq] at h
    subst h
    obtain ⟨l1, l2, l3⟩ := levelSteps_upto (rd directions k) r.pivot k v.levels
      (List.replicate game.numStates 0) v.pivots v.errorLevel game.numStates
    simp only
    refine ⟨by simp, ?_, ?_⟩
    · rw [l3]
      split_ifs <;> simp
    · intro d hd s hs
      rcases Nat.lt_succ_iff_lt_or_eq.mp hd with hlt | heq
      · rw [rd_set_ne _ _ _ _ (Nat.ne_of_gt hlt), l3, if_neg (Nat.ne_of_gt (Nat.lt_of_le_of_lt (Nat.zero_le s) hs)),
          rd_set_ne _ _ _ _ (Nat.ne_of_gt hlt)]
        exact hrec d hlt s hs
      · subst heq
        rw [rd_set_eq _ _ _ hk, l3, if_neg (Nat.ne_of_gt (Nat.lt_of_le_of_lt (Nat.zero_le s) hs)),
          rd_set_eq _ _ _ hp]
        exact l2 s hs (by simpa using hs)

theorem solveSweep_recorded {A : Type} (ops : SGActionOps A) (env : SGEnv) (game : SGGame)
    (fuel : Nat) (directions : List SGPoint) (actions : List (List A)) (k : Nat) :
    ∀ (v w : SweepVars A), k ≤ v.levels.length → k ≤ v.pivots.length →
      (List.range k).foldlM (solveDirection ops env game fuel directions actions) v
        = Except.ok w →
      w.levels.length = v.levels.length ∧ w.pivots.length = v.pivots.length ∧
        Recorded game directions w.levels w.pivots k := by
  induction k with
  | zero =>
    intro v w _ _ h
    simp only [List.range_zero, List.foldlM_nil, pure, Except.pure, Except.ok.injEq] at h
    subst h
    exact ⟨rfl, rfl, fun d hd => absurd hd (Nat.not_lt_zero _)⟩
  | succ k ih =>
    intro v w hl hp h
    rw [List.range_succ, List.foldlM_append] at h
    cases hm : (List.range k).foldlM (solveDirection ops env game fuel directions actions) v with
    | error e =>
      rw [hm] at h
      cases h
    | ok u =>
      rw [hm] at h
      obtain ⟨u1, u2, u3⟩ := ih v u (Nat.le_of_succ_le hl) (Nat.le_of_succ_le hp) hm
      have hstep : solveDirection ops env game fuel directions actions u k = Except.ok w := by
        cases hs : solveDirection ops env game fuel directions actions u k with
        | error e =>
          simp [List.foldlM_cons, List.foldlM_nil, bind, Except.bind, hs] at h
        | ok w0 =>
          simpa [List.foldlM_cons, List.foldlM_nil, bind, Except.bind, pure, Except.pure, hs]
            using h
      obtain ⟨w1, w2, w3⟩ := solveDirection_recorded ops env game fuel directions actions u w k
        (by omega) (by omega) u3 hstep
      exact ⟨w1.trans u1, w2.trans u2, w3⟩

/-- The update of the threat tuple, state by state. -/
theorem threatUpdate_spec (levels : List (List ℚ)) (n : Nat) :
    ∀ (threatTuple : SGTuple),
      ((List.range n).foldl (threatStep levels) threatTuple).length = threatTuple.length ∧
      (∀ s < n, s < threatTuple.length →
        rd ((List.range n).foldl (threatStep levels) threatTuple) s =
          ⟨-(rd (rd levels (numDirections / 2)) s),
            -(rd (rd levels (3 * numDirections / 4)) s)⟩) ∧
      (∀ s, n ≤ s → rd ((List.range n).foldl (threatStep levels) threatTuple) s
        = rd threatTuple s) := by
  induction n with
  | zero =>
    intro t
    exact ⟨rfl, fun s hs => absurd hs (Nat.not_lt_zero _), fun _ _ => rfl⟩
  | succ n ih =>
    intro t
    rw [List.range_succ, List.foldl_append, List.foldl_cons, List.foldl_nil]
    obtain ⟨i1, i2, i3⟩ := ih t
    generalize (List.range n).foldl (threatStep levels) t = u at *
    refine ⟨by simpa [threatStep] using i1, fun s hs hlen => ?_, fun s hs => ?_⟩
    · show rd (u.set n _) s = _
      rcases Nat.lt_succ_iff_lt_or_eq.mp hs with hlt | heq
      · rw [rd_set_ne _ _ _ _ (Nat.ne_of_gt hlt)]
        exact i2 s hlt hlen
      · subst heq
        rw [rd_set_eq _ _ _ (by omega)]
        simp [SGPoint.setCoord]
    · show rd (u.set n _) s = _
      rw [rd_set_ne _ _ _ _ (by omega)]
      exact i3 s (by omega)

theorem solveDirections_west (circle : ℚ → SGPoint) :
    rd (solveDirections circle) (numDirections / 2) = circle (1 / 2) ∧
    rd (solveDirections circle) (3 * numDirections / 4) = circle (3 / 4) ∧
    (solveDirections circle).length = numDirections := by
  have hn : numDirections = 204 := by decide
  refine ⟨?_, ?_, by simp [solveDirections]⟩
  · simp only [solveDirections, hn, rd, List.getD_eq_getElem?_getD, List.getElem?_map]
    rw [List.getElem?_range (by norm_num)]
    simp only [Option.map_some', Option.getD_some]
    norm_num
  · simp only [solveDirections, hn, rd, List.getD_eq_getElem?_getD, List.getElem?_map]
    rw [List.getElem?_range (by norm_num)]
    simp only [Option.map_some', Option.getD_some]
    norm_num

/-- One pass of the main loop of `solve`: what it leaves in `levels`, `pivots` and
`threatTuple`. -/
theorem solveIteration_threat {A : Type} (ops : SGActionOps A) (env : SGEnv) (game : SGGame)
    (fuel : Nat) (directions : List SGPoint) (v v1 : SolveVars A)
    (hlev : directions.length ≤ v.levels.length) (hpiv : directions.length ≤ v.pivots.length)
    (h : solveIteration ops env game fuel directions v = Except.ok v1) :
    v1.levels.length = v.levels.length ∧ v1.pivots.length = v.pivots.length ∧
    v1.threatTuple = threatUpdate game v1.levels v.threatTuple ∧
    Recorded game directions v1.levels v1.pivots directions.length := by
  unfold solveIteration at h
  cases hd : deletionPasses ops game v.feasibleTuple v.actions with
  | error e =>
    rw [hd] at h
    cases h
  | ok del =>
    rw [hd] at h
    simp only at h
    cases hsw : solveSweep ops env game fuel directions del
        { pivot := v.pivot
          actionTuple := List.replicate game.numStates 0
          regimeTuple := List.replicate game.numStates Regime.Binding
          levels := v.levels
          pivots := v.pivots
          errorLevel := 0
          iter :=
            if env.STOREITERATIONS ≠ 0 then
              { iteration := v.numIter, actions := del, threatTuple := v.threatTuple,
                steps := [] }
            else v.iter } with
    | error e =>
      rw [hsw] at h
      cases h
    | ok sw =>
      rw [hsw] at h
      simp only at h
      cases hf : findFeasibleTuple env game fuel v.feasibleTuple (viewAll ops del) with
      | error e =>
        rw [hf] at h
        cases h
      | ok ft =>
        rw [hf] at h
        simp only [Except.ok.injEq] at h
        subst h
        obtain ⟨s1, s2, s3⟩ := solveSweep_recorded ops env game fuel directions del
          directions.length _ sw hlev hpiv hsw
        exact ⟨s1, s2, rfl, s3⟩

/-! ## A run of `solve`: the game with one state and one action profile -/

theorem unit_improvement (dir : SGPoint) (r0 : Regime) :
    improvementStep capGame dir capActions
        (PolicyVars.init capGame [⟨1, 0⟩] [0] [r0]) =
      { pivot := [⟨1, 0⟩], actionTuple := [0], regimeTuple := [Regime.NonBinding],
        newPivot := [⟨1, 0⟩], newActionTuple := [0],
        newRegimeTuple := [Regime.NonBinding], bestAPSNotBinding := [true],
        bestBindingPayoffs := [⟨0, 0⟩], pivotError := 0, numPolicyIters := 0,
        rounds := 0, bellmanPivot := [⟨1, 0⟩], bellmanPivotGap := 0 } := by
  have hnb : bellmanPayoff capGame [⟨1, 0⟩] 0 0 = ⟨1, 0⟩ := by
    simp [bellmanPayoff, capGame, rd, SGTuple.expectation, SGTuple.expectationCoord,
      SGPoint.add, SGPoint.smul, SGPoint.coord, List.range_succ]
  have h1 : capGame.numStates = 1 := rfl
  have h2 : capGame.numPlayers = 2 := rfl
  simp [improvementStep, improveState, improveAction, PolicyVars.init,
    capActions, rd, apsNotBinding, bestAPSPayoff, bestBindingScan, hnb,
    aboveBest, List.range_succ, SGPoint.default_eq, h1, h2]

theorem unit_pass (dir : SGPoint) :
    regimePass SGEnv.defaults capGame dir capActions
        { pivot := [⟨1, 0⟩], actionTuple := [0], regimeTuple := [Regime.NonBinding],
          newPivot := [⟨1, 0⟩], newActionTuple := [0],
          newRegimeTuple := [Regime.NonBinding], bestAPSNotBinding := [true],
          bestBindingPayoffs := [⟨0, 0⟩], pivotError := 0, numPolicyIters := 0,
          rounds := 0, bellmanPivot := [⟨1, 0⟩], bellmanPivotGap := 0 } =
      ({ pivot := [⟨1, 0⟩], actionTuple := [0], regimeTuple := [Regime.NonBinding],
          newPivot := [⟨1, 0⟩], newActionTuple := [0],
          newRegimeTuple := [Regime.NonBinding], bestAPSNotBinding := [true],
          bestBindingPayoffs := [⟨0, 0⟩], pivotError := 0, numPolicyIters := 0,
          rounds := 0, bellmanPivot := [⟨1, 0⟩], bellmanPivotGap := 0 }, false) := by
  have hnb : bellmanPayoff capGame [⟨1, 0⟩] 0 0 = ⟨1, 0⟩ := by
    simp [bellmanPayoff, capGame, rd, SGTuple.expectation, SGTuple.expectationCoord,
      SGPoint.add, SGPoint.smul, SGPoint.coord, List.range_succ]
  have hsweep : bellmanSweep capGame capActions [0] [Regime.NonBinding] [⟨1, 0⟩]
      = [⟨1, 0⟩] := by
    have h1 : capGame.numStates = 1 := rfl
    simp only [bellmanSweep, h1, List.range_succ, List.range_zero, List.nil_append,
      List.foldl_cons, List.foldl_nil, bellmanStep]
    simp [capActions, rd, hnb]
  have hdist : SGTuple.distance [(⟨1, 0⟩ : SGPoint)] [⟨1, 0⟩] = 0 := by
    simp [SGTuple.distance, SGPoint.distance, rd, List.range_succ]
  have hb : policyToPayoffs SGEnv.defaults capGame capActions [⟨1, 0⟩] [0]
      [Regime.NonBinding] = ([⟨1, 0⟩], 0) := by
    simp only [policyToPayoffs]
    rw [bellmanLoop_converged _ _ _ _ _ _ _ (by
      rw [hsweep, hdist]
      norm_num [SGEnv.defaults]), hsweep, hdist]
  simp only [regimePass, hb]
  simp [gapScan, gapScanStep, gapOf, switchStates, switchStep, checked, capGame, rd,
    List.range_succ]

/-- The run of `optimizePolicy` on `capGame` from its fixed point `(1, 0)`, in any direction
and from any regime: the state ends in the non-binding regime at the fixed point. -/
theorem unit_run (dir : SGPoint) (r0 : Regime) :
    optimizePolicy SGEnv.defaults capGame 2 [⟨1, 0⟩] [0] [r0] dir capActions =
      some
        { pivot := [⟨1, 0⟩], actionTuple := [0], regimeTuple := [Regime.NonBinding],
          newPivot := [⟨1, 0⟩], newActionTuple := [0],
          newRegimeTuple := [Regime.NonBinding], bestAPSNotBinding := [true],
          bestBindingPayoffs := [⟨0, 0⟩], pivotError := 0, numPolicyIters := 0,
          rounds := 1, bellmanPivot := [⟨1, 0⟩], bellmanPivotGap := 0 } := by
  simp only [optimizePolicy]
  refine policyLoop_once _ _ _ _ _ _ _ _ ?_ ?_
  · simp only [policyRound, unit_improvement]
    rw [regimeFixLoop_once _ _ _ _ 1 _ (by rw [unit_pass]), unit_pass]
    rfl
  · norm_num [SGEnv.defaults]


theorem foldlM_range_succ {α : Type} (f : α → Nat → Except Stop α) (k : Nat) (v u w : α)
    (h1 : (List.range k).foldlM f v = Except.ok u) (h2 : f u k = Except.ok w) :
    (List.range (k + 1)).foldlM f v = Except.ok w := by
  rw [List.range_succ, List.foldlM_append, h1]
  simp [List.foldlM_cons, List.foldlM_nil, bind, Except.bind, h2, pure, Except.pure]

theorem unit_direction (directions : List SGPoint) (v : SweepVars SGAction_V2) (d : Nat)
    (r0 : Regime) (hp : v.pivot = [⟨1, 0⟩]) (ha : v.actionTuple = [0])
    (hr : v.regimeTuple = [r0]) :
    ∃ w, solveDirection idleOps SGEnv.defaults capGame 2 directions capActions v d
        = Except.ok w ∧
      w.pivot = [⟨1, 0⟩] ∧ w.actionTuple = [0] ∧ w.regimeTuple = [Regime.NonBinding] ∧
      w.levels = v.levels.set d [(rd directions d).x] ∧
      w.pivots = v.pivots.set d [⟨1, 0⟩] ∧
      w.errorLevel = max v.errorLevel |(rd directions d).x - rd (rd v.levels d) 0| := by
  have hview : viewAll idleOps capActions = capActions := by
    simp [viewAll, idleOps]
  have h1 : capGame.numStates = 1 := rfl
  simp only [solveDirection, hview, hp, ha, hr, unit_run, h1]
  refine ⟨_, rfl, rfl, rfl, rfl, ?_, ?_, ?_⟩
  · simp [levelStep, rd, List.range_succ, SGPoint.dot]
  · simp [levelStep, List.range_succ]
  · simp [levelStep, rd, List.range_succ, SGPoint.dot]

/-- The loop over the directions on `capGame` from its fixed point, for the directions below
`k`: the pivot stays, the levels are the first coordinates of the directions, and the error
level is the largest change of a level. -/
theorem unit_sweep (directions : List SGPoint) (k : Nat) :
    ∀ (v : SweepVars SGAction_V2) (r0 : Regime), v.pivot = [⟨1, 0⟩] → v.actionTuple = [0] →
      v.regimeTuple = [r0] → k ≤ v.levels.length →
      ∃ w, (List.range k).foldlM
          (solveDirection idleOps SGEnv.defaults capGame 2 directions capActions) v
          = Except.ok w ∧
        w.pivot = [⟨1, 0⟩] ∧ w.actionTuple = [0] ∧ (∃ r, w.regimeTuple = [r]) ∧
        w.levels.length = v.levels.length ∧ w.pivots.length = v.pivots.length ∧
        (∀ d < k, rd w.levels d = [(rd directions d).x]) ∧
        (∀ d, k ≤ d → rd w.levels d = rd v.levels d) ∧
        v.errorLevel ≤ w.errorLevel ∧
        (∀ d < k, |(rd directions d).x - rd (rd v.levels d) 0| ≤ w.errorLevel) ∧
        ((∀ d < k, rd (rd v.levels d) 0 = (rd directions d).x) →
          w.errorLevel = v.errorLevel ∨ w.errorLevel = 0) := by
  induction k with
  | zero =>
    intro v r0 hp ha hr _
    exact ⟨v, rfl, hp, ha, ⟨r0, hr⟩, rfl, rfl, fun d hd => absurd hd (Nat.not_lt_zero _),
      fun _ _ => rfl, le_refl _, fun d hd => absurd hd (Nat.not_lt_zero _),
      fun _ => Or.inl rfl⟩
  | succ k ih =>
    intro v r0 hp ha hr hk
    obtain ⟨u, hu, u1, u2, ⟨r, u3⟩, u4, u5, u6, u7, u8, u9, u10⟩ :=
      ih v r0 hp ha hr (Nat.le_of_succ_le hk)
    obtain ⟨w, hw, w1, w2, w3, w4, w5, w6⟩ := unit_direction directions u k r u1 u2 u3
    have hlev : rd (rd u.levels k) 0 = rd (rd v.levels k) 0 := by rw [u7 k (Nat.le_refl _)]
    rw [hlev] at w6
    refine ⟨w, foldlM_range_succ _ k v u w hu hw, w1, w2, ⟨_, w3⟩, ?_, ?_, ?_, ?_, ?_, ?_, ?_⟩
    · rw [w4, List.length_set, u4]
    · rw [w5, List.length_set, u5]
    · intro d hd
      rw [w4]
      rcases Nat.lt_succ_iff_lt_or_eq.mp hd with hlt | heq
      · rw [rd_set_ne _ _ _ _ (Nat.ne_of_gt hlt)]
        exact u6 d hlt
      · subst heq
        exact rd_set_eq _ _ _ (by omega)
    · intro d hd
      rw [w4, rd_set_ne _ _ _ _ (by omega)]
      exact u7 d (by omega)
    · rw [w6]
      exact le_trans u8 (le_max_left _ _)
    · intro d hd
      rw [w6]
      rcases Nat.lt_succ_iff_lt_or_eq.mp hd with hlt | heq
      · exact le_trans (u9 d hlt) (le_max_left _ _)
      · subst heq
        exact le_max_right _ _
    · intro hall
      rw [w6, hall k (Nat.lt_succ_self _), sub_self, abs_zero]
      rcases u10 (fun d hd => hall d (Nat.lt_succ_of_lt hd)) with h | h
      · rcases le_total u.errorLevel 0 with h0 | h0
        · right
          exact max_eq_right h0
        · left
          rw [max_eq_left h0, h]
      · right
        rw [h, max_self]

theorem idle_recalcAction (game : SGGame) (threatTuple : SGTuple) (directions : List SGPoint)
    (levels : List (List ℚ)) (state : Nat) (a : SGAction_V2) :
    recalcAction idleOps game threatTuple directions levels state a = a := by
  unfold recalcAction
  generalize List.range directions.length = l
  induction l with
  | nil => rfl
  | cons d l ih => exact ih

theorem unit_deletion :
    deletionPasses idleOps capGame [⟨1, 0⟩] capActions = Except.ok capActions := by
  have h1 : capGame.numStates = 1 := rfl
  have hkeep : supportableIn idleOps capGame [⟨1, 0⟩] 0
      (idleOps.updateTrim
        { state := 0, action := 0, minIC := ⟨0, 0⟩, points := [[], []],
          bndryDirs := [[], []] })
      = true := by
    simp [supportableIn, idleOps, capGame, rd, SGPoint.ge, SGTuple.expectation,
      SGTuple.expectationCoord, SGPoint.coord, List.range_succ]
  have he : erasePass idleOps.updateTrim (supportableIn idleOps capGame [⟨1, 0⟩] 0)
      (rd capActions 0) = Except.ok (rd capActions 0, rd capActions 0) := by
    show erasePass idleOps.updateTrim (supportableIn idleOps capGame [⟨1, 0⟩] 0)
      [{ state := 0, action := 0, minIC := ⟨0, 0⟩, points := [[], []],
          bndryDirs := [[], []] }] = _
    simp only [erasePass]
    rw [if_pos hkeep]
    rfl
  simp only [deletionPasses, h1, List.range_succ, List.range_zero, List.nil_append,
    List.foldlM_cons, List.foldlM_nil, deletionStep, he]
  rfl

theorem unit_feasible :
    findFeasibleTuple SGEnv.defaults capGame 2 [⟨1, 0⟩] capActions = Except.ok [⟨1, 0⟩] := by
  have hnb : bellmanPayoff capGame [⟨1, 0⟩] 0 0 = ⟨1, 0⟩ := by
    simp [bellmanPayoff, capGame, rd, SGTuple.expectation, SGTuple.expectationCoord,
      SGPoint.add, SGPoint.smul, SGPoint.coord, List.range_succ]
  have hsweep : bellmanSweep capGame capActions [0] [Regime.NonBinding] [⟨1, 0⟩]
      = [⟨1, 0⟩] := by
    have h1 : capGame.numStates = 1 := rfl
    simp only [bellmanSweep, h1, List.range_succ, List.range_zero, List.nil_append,
      List.foldl_cons, List.foldl_nil, bellmanStep]
    simp [capActions, rd, hnb]
  have hdist : SGTuple.distance [(⟨1, 0⟩ : SGPoint)] [⟨1, 0⟩] = 0 := by
    simp [SGTuple.distance, SGPoint.distance, rd, List.range_succ]
  have hb : policyToPayoffs SGEnv.defaults capGame capActions [⟨1, 0⟩] [0]
      [Regime.NonBinding] = ([⟨1, 0⟩], 0) := by
    simp only [policyToPayoffs]
    rw [bellmanLoop_converged _ _ _ _ _ _ _ (by
      rw [hsweep, hdist]
      norm_num [SGEnv.defaults]), hsweep, hdist]
  have hv : (List.range capGame.numStates).foldl (feasibleState capGame capActions)
      { feasibleTuple := [⟨1, 0⟩]
        actionTuple := List.replicate capGame.numStates none
        regimeTuple := List.replicate capGame.numStates Regime.Binding
        anyNonBinding := false
        bellmanCalls := 0
        failed := [] } =
      { feasibleTuple := [⟨1, 0⟩]
        actionTuple := [some 0]
        regimeTuple := [Regime.NonBinding]
        anyNonBinding := true
        bellmanCalls := 0
        failed := [] } := by
    simp [feasibleState, feasibleAction, feasiblePlayer, capGame, capActions, rd,
      List.range_succ]
  have hd : derefOK capGame capActions
      { feasibleTuple := [⟨1, 0⟩]
        actionTuple := [some 0]
        regimeTuple := [Regime.NonBinding]
        anyNonBinding := true
        bellmanCalls := 0
        failed := [] } = true := by
    simp [derefOK, capGame, capActions, rd, List.range_succ]
  simp only [findFeasibleTuple, findFeasibleTupleRun, hv, feasibleLoop]
  simp only [hd, if_true, List.map, Option.getD_some, hb]
  simp [icCheckState, icHolds, capGame, capActions, rd, List.range_succ, SGPoint.ge,
    SGTuple.expectation, SGTuple.expectationCoord, SGPoint.coord, feasibleLoop]

theorem quarterCircle_values :
    quarterCircle 0 = ⟨1, 0⟩ ∧ quarterCircle (1 / 2) = ⟨-1, 0⟩ ∧
      quarterCircle (3 / 4) = ⟨0, -1⟩ := by
  refine ⟨?_, ?_, ?_⟩ <;> norm_num [quarterCircle]

/-- One pass of the main loop of `solve` on `capGame` at its fixed point: the pass returns,
the state stays at the fixed point, every level is the first coordinate of its direction, and
the error level is the largest change of a level. -/
theorem unit_iteration (v : SolveVars SGAction_V2) (hv : UnitState v) :
    ∃ v1, solveIteration idleOps SGEnv.defaults capGame 2 (solveDirections quarterCircle) v
        = Except.ok v1 ∧
      UnitState v1 ∧ v1.numIter = v.numIter + 1 ∧
      (∀ d < numDirections, rd v1.levels d = [(rd (solveDirections quarterCircle) d).x]) ∧
      |1 - rd (rd v.levels 0) 0| ≤ v1.errorLevel ∧
      ((∀ d < numDirections,
          rd (rd v.levels d) 0 = (rd (solveDirections quarterCircle) d).x) →
        v1.errorLevel = 0) := by
  obtain ⟨ha, ht, hp, hf, hl, hpv⟩ := hv
  obtain ⟨d1, d2, d3⟩ := solveDirections_west quarterCircle
  obtain ⟨q0, q1, q2⟩ := quarterCircle_values
  have hn : numDirections = 204 := by decide
  have hd0 : rd (solveDirections quarterCircle) 0 = ⟨1, 0⟩ := by
    simp only [solveDirections, hn, rd, List.getD_eq_getElem?_getD, List.getElem?_map]
    rw [List.getElem?_range (by norm_num)]
    simp only [Option.map_some', Option.getD_some]
    norm_num [q0]
  obtain ⟨sw, hsw, s1, s2, _, s4, s5, s6, _, s8, s9, s10⟩ :=
    unit_sweep (solveDirections quarterCircle) (solveDirections quarterCircle).length
      { pivot := v.pivot
        actionTuple := List.replicate capGame.numStates 0
        regimeTuple := List.replicate capGame.numStates Regime.Binding
        levels := v.levels
        pivots := v.pivots
        errorLevel := 0
        iter :=
          if SGEnv.defaults.STOREITERATIONS ≠ 0 then
            { iteration := v.numIter, actions := capActions, threatTuple := v.threatTuple,
              steps := [] }
          else v.iter }
      Regime.Binding hp rfl rfl (by rw [d3, hl])
  have hthreat : threatUpdate capGame sw.levels [⟨1, 0⟩] = [⟨1, 0⟩] := by
    have h1 : capGame.numStates = 1 := rfl
    have e1 := s6 (numDirections / 2) (by rw [d3, hn]; decide)
    have e2 := s6 (3 * numDirections / 4) (by rw [d3, hn]; decide)
    rw [d1, q1] at e1
    rw [d2, q2] at e2
    simp only [threatUpdate, h1, List.range_succ, List.range_zero, List.nil_append,
      List.foldl_cons, List.foldl_nil, threatStep, e1, e2]
    simp [rd, SGPoint.setCoord]
  have hrecalc : recalcActions idleOps capGame [⟨1, 0⟩] (solveDirections quarterCircle)
      sw.levels capActions = capActions := by
    have h1 : capGame.numStates = 1 := rfl
    simp only [recalcActions, h1, List.range_succ, List.range_zero, List.nil_append,
      List.foldl_cons, List.foldl_nil]
    simp [capActions, rd, idle_recalcAction]
  have hview : viewAll idleOps capActions = capActions := by
    simp [viewAll, idleOps]
  have hiter : solveIteration idleOps SGEnv.defaults capGame 2
      (solveDirections quarterCircle) v =
      Except.ok
        { actions := capActions
          threatTuple := [⟨1, 0⟩]
          pivot := sw.pivot
          feasibleTuple := [⟨1, 0⟩]
          levels := sw.levels
          pivots := sw.pivots
          errorLevel := sw.errorLevel
          numIter := v.numIter + 1
          iter := sw.iter
          soln :=
            if SGEnv.defaults.STOREITERATIONS ≠ 0 then v.soln ++ [sw.iter] else v.soln } := by
    simp only [solveIteration, ha, hf, unit_deletion]
    rw [solveSweep, hsw]
    simp only [hview, unit_feasible, ht, hthreat, hrecalc]
  refine ⟨_, hiter, ⟨rfl, rfl, s1, rfl, s4.trans hl, s5.trans hpv⟩, rfl, ?_, ?_, ?_⟩
  · intro d hd
    exact s6 d (by rw [d3]; exact hd)
  · have := s9 0 (by rw [d3, hn]; decide)
    rw [hd0] at this
    exact this
  · intro hall
    rcases s10 (fun d hd => hall d (by rw [← d3]; exact hd)) with h | h
    · exact h
    · exact h

theorem solveLoop_step {A : Type} (ops : SGActionOps A) (env : SGEnv) (game : SGGame)
    (fuel : Nat) (directions : List SGPoint) (remaining : Nat) (v v1 : SolveVars A)
    (hr : 0 < remaining) (he : v.errorLevel > env.ERRORTOL)
    (h : solveIteration ops env game fuel directions v = Except.ok v1) :
    solveLoop ops env game fuel directions remaining v =
      solveLoop ops env game fuel directions (remaining - 1) v1 := by
  cases remaining with
  | zero => exact absurd hr (Nat.lt_irrefl _)
  | succ n => simp only [solveLoop, if_pos he, h, Nat.add_sub_cancel]

theorem solveLoop_stop {A : Type} (ops : SGActionOps A) (env : SGEnv) (game : SGGame)
    (fuel : Nat) (directions : List SGPoint) (remaining : Nat) (v : SolveVars A)
    (he : ¬ v.errorLevel > env.ERRORTOL) :
    solveLoop ops env game fuel directions remaining v = Except.ok v := by
  cases remaining with
  | zero => rfl
  | succ n => simp only [solveLoop, if_neg he]

theorem unit_init :
    UnitState (SolveVars.init idleOps quarterCircle SGEnv.defaults capGame) ∧
    (SolveVars.init idleOps quarterCircle SGEnv.defaults capGame).levels
      = List.replicate numDirections [0] ∧
    (SolveVars.init idleOps quarterCircle SGEnv.defaults capGame).errorLevel = 1 ∧
    (SolveVars.init idleOps quarterCircle SGEnv.defaults capGame).numIter = 0 ∧
    (SolveVars.init idleOps quarterCircle SGEnv.defaults capGame).soln = [] := by
  have hb : capGame.getPayoffBounds = (⟨1, 0⟩, ⟨1, 0⟩) := by
    simp [SGGame.getPayoffBounds, capGame]
  have h1 : capGame.numStates = 1 := rfl
  have hact : initActions idleOps quarterCircle SGEnv.defaults capGame [⟨1, 0⟩] ⟨1, 0⟩ ⟨1, 0⟩
      = capActions := by
    simp only [initActions, h1, List.range_succ, List.range_zero, List.nil_append, List.map]
    have h2 : rd capGame.numActions_total 0 = 1 := rfl
    simp only [h2, List.range_succ, List.range_zero, List.nil_append, List.map, initAction,
      List.foldl_cons, List.foldl_nil]
    rfl
  have hrep : List.replicate capGame.numStates capGame.getPayoffBounds.2 = [⟨1, 0⟩] := by
    rw [hb, h1]
    rfl
  refine ⟨⟨?_, ?_, ?_, ?_, ?_, ?_⟩, ?_, rfl, rfl, rfl⟩
  · show initActions idleOps quarterCircle SGEnv.defaults capGame
      (List.replicate capGame.numStates capGame.getPayoffBounds.2)
      capGame.getPayoffBounds.2 capGame.getPayoffBounds.1 = capActions
    rw [hrep, hb]
    exact hact
  · exact hrep
  · exact hrep
  · exact hrep
  · exact List.length_replicate _ _
  · exact List.length_replicate _ _
  · show List.replicate numDirections (List.replicate capGame.numStates 0) = _
    rw [h1]
    rfl

/-- The run of `solve` on `capGame` with the default parameters: the main loop makes two
passes, the first of which moves the levels away from their initial zeros and the second of
which finds them unchanged. -/
theorem unit_solve :
    ∃ v1 res, solveIteration idleOps SGEnv.defaults capGame 2 (solveDirections quarterCircle)
        (SolveVars.init idleOps quarterCircle SGEnv.defaults capGame) = Except.ok v1 ∧
      solveIteration idleOps SGEnv.defaults capGame 2 (solveDirections quarterCircle) v1
        = Except.ok res ∧
      solve idleOps quarterCircle SGEnv.defaults capGame 2 = Except.ok res ∧
      res.numIter = 2 ∧ UnitState res := by
  obtain ⟨hu, hlev, herr, hnum, _⟩ := unit_init
  obtain ⟨v1, h1, u1, n1, l1, e1, _⟩ := unit_iteration _ hu
  obtain ⟨v2, h2, u2, n2, _, _, e2⟩ := unit_iteration v1 u1
  have hn : numDirections = 204 := by decide
  have he1 : v1.errorLevel > SGEnv.defaults.ERRORTOL := by
    have h0 : rd (rd (SolveVars.init idleOps quarterCircle SGEnv.defaults capGame).levels 0) 0
        = 0 := by
      rw [hlev, hn]
      rfl
    rw [h0] at e1
    have : (1 : ℚ) ≤ v1.errorLevel := by
      have h1' : |(1 : ℚ) - 0| = 1 := by norm_num
      rw [h1'] at e1
      exact e1
    have ht : SGEnv.defaults.ERRORTOL < 1 := by norm_num [SGEnv.defaults]
    exact lt_of_lt_of_le ht this
  have he2 : v2.errorLevel = 0 := by
    apply e2
    intro d hd
    rw [l1 d hd]
    rfl
  refine ⟨v1, v2, h1, h2, ?_, ?_, u2⟩
  · unfold solve
    rw [solveLoop_step _ _ _ _ _ _ _ v1 (by norm_num [SGEnv.defaults])
        (by rw [herr]; norm_num [SGEnv.defaults]) h1,
      solveLoop_step _ _ _ _ _ _ _ v2 (by norm_num [SGEnv.defaults]) he1 h2,
      solveLoop_stop _ _ _ _ _ _ _ (by rw [he2]; norm_num [SGEnv.defaults])]
  · rw [n2, n1, hnum]

/-! ## The records of the solution -/

theorem solveIteration_soln {A : Type} (ops : SGActionOps A) (env : SGEnv) (game : SGGame)
    (fuel : Nat) (directions : List SGPoint) (v v1 : SolveVars A)
    (h : solveIteration ops env game fuel directions v = Except.ok v1) :
    v1.numIter = v.numIter + 1 ∧
      ((env.STOREITERATIONS = 0 ∧ v1.soln = v.soln) ∨
        (env.STOREITERATIONS ≠ 0 ∧
          ∃ it : SGIteration_V2 A, v1.soln = v.soln ++ [it] ∧ it.iteration = v.numIter)) := by
  unfold solveIteration at h
  cases hd : deletionPasses ops game v.feasibleTuple v.actions with
  | error e =>
    rw [hd] at h
    cases h
  | ok del =>
    rw [hd] at h
    simp only at h
    cases hsw : solveSweep ops env game fuel directions del
        { pivot := v.pivot
          actionTuple := List.replicate game.numStates 0
          regimeTuple := List.replicate game.numStates Regime.Binding
          levels := v.levels
          pivots := v.pivots
          errorLevel := 0
          iter :=
            if env.STOREITERATIONS ≠ 0 then
              { iteration := v.numIter, actions := del, threatTuple := v.threatTuple,
                steps := [] }
            else v.iter } with
    | error e =>
      rw [hsw] at h
      cases h
    | ok sw =>
      rw [hsw] at h
      simp only at h
      cases hf : findFeasibleTuple env game fuel v.feasibleTuple (viewAll ops del) with
      | error e =>
        rw [hf] at h
        cases h
      | ok ft =>
        rw [hf] at h
        simp only [Except.ok.injEq] at h
        subst h
        have hit := solveSweep_iter ops env game fuel directions del _ _ sw hsw
        refine ⟨rfl, ?_⟩
        by_cases hst : env.STOREITERATIONS = 0
        · left
          exact ⟨hst, by simp [hst]⟩
        · right
          refine ⟨hst, sw.iter, by simp [hst], ?_⟩
          rw [hit.1, if_pos hst]

theorem endoIteration_soln {A : Type} (ops : SGActionOps A) (dops : DirectionOps)
    (env : SGEnv) (game : SGGame) (fuel arcFuel : Nat) (v v1 : EndoVars A)
    (h : endoIteration ops dops env game fuel arcFuel v = Except.ok v1) :
    v1.numIter = v.numIter + 1 ∧
      ((env.STOREITERATIONS = 0 ∧ v1.soln = v.soln) ∨
        (env.STOREITERATIONS ≠ 0 ∧
          ∃ it : SGIteration_V2 A, v1.soln = v.soln ++ [it] ∧ it.iteration = v.numIter)) := by
  unfold endoIteration at h
  cases harc : arcLoop ops dops env game fuel v.actions arcFuel
      { pivot := v.pivot
        actionTuple := List.replicate game.numStates 0
        regimeTuple := List.replicate game.numStates Regime.Binding
        currDir := ⟨1, 0⟩
        passEast := false
        newDirections := []
        newLevels := []
        newThreatTuple := v.newThreatTuple
        iter :=
          if env.STOREITERATIONS ≠ 0 then
            { iteration := v.numIter, actions := v.actions, threatTuple := v.threatTuple,
              steps := [] }
          else v.iter } with
  | error e =>
    rw [harc] at h
    cases h
  | ok arc =>
    rw [harc] at h
    simp only at h
    cases hf : findFeasibleTuple env game fuel v.feasibleTuple (viewAll ops v.actions) with
    | error e =>
      rw [hf] at h
      cases h
    | ok ft =>
      rw [hf] at h
      simp only at h
      cases hr : retrimPasses ops game arc.newThreatTuple ft arc.newDirections arc.newLevels
          v.actions with
      | error e =>
        rw [hr] at h
        cases h
      | ok acts =>
        rw [hr] at h
        simp only [Except.ok.injEq] at h
        subst h
        have hit := arcLoop_iter ops dops env game fuel v.actions arcFuel _ arc harc
        refine ⟨rfl, ?_⟩
        by_cases hst : env.STOREITERATIONS = 0
        · left
          exact ⟨hst, by simp [hst]⟩
        · right
          refine ⟨hst, arc.iter, by simp [hst], ?_⟩
          rw [hit.1, if_pos hst]

/-- The records of a solution after one more pass: their iteration numbers stay in order. -/
theorem records_step {A : Type} (env : SGEnv) (soln soln1 : List (SGIteration_V2 A))
    (numIter : Nat)
    (hn : soln.map (fun it => it.iteration) =
      (if env.STOREITERATIONS = 0 then [] else List.range numIter))
    (hs : (env.STOREITERATIONS = 0 ∧ soln1 = soln) ∨
      (env.STOREITERATIONS ≠ 0 ∧
        ∃ it : SGIteration_V2 A, soln1 = soln ++ [it] ∧ it.iteration = numIter)) :
    soln1.map (fun it => it.iteration) =
      (if env.STOREITERATIONS = 0 then [] else List.range (numIter + 1)) := by
  rcases hs with ⟨h0, rfl⟩ | ⟨h0, it, rfl, hnum⟩
  · rw [hn, if_pos h0, if_pos h0]
  · rw [List.map_append, hn, if_neg h0, if_neg h0, List.range_succ]
    simp [hnum]

theorem solveLoop_records {A : Type} (ops : SGActionOps A) (env : SGEnv) (game : SGGame)
    (fuel : Nat) (directions : List SGPoint) (remaining : Nat) :
    ∀ (v res : SolveVars A),
      v.soln.map (fun it => it.iteration) =
        (if env.STOREITERATIONS = 0 then [] else List.range v.numIter) →
      solveLoop ops env game fuel directions remaining v = Except.ok res →
      res.soln.map (fun it => it.iteration) =
        (if env.STOREITERATIONS = 0 then [] else List.range res.numIter) := by
  induction remaining with
  | zero =>
    intro v res hinv h
    simp only [solveLoop, Except.ok.injEq] at h
    subst h
    exact hinv
  | succ n ih =>
    intro v res hinv h
    simp only [solveLoop] at h
    split_ifs at h
    · cases hit : solveIteration ops env game fuel directions v with
      | error e =>
        rw [hit] at h
        cases h
      | ok v1 =>
        rw [hit] at h
        obtain ⟨h3, h4⟩ := solveIteration_soln ops env game fuel directions v v1 hit
        refine ih v1 res ?_ h
        rw [h3]
        exact records_step env _ _ _ hinv h4
    · simp only [Except.ok.injEq] at h
      subst h
      exact hinv

theorem endoLoop_records {A : Type} (ops : SGActionOps A) (dops : DirectionOps) (env : SGEnv)
    (game : SGGame) (fuel arcFuel : Nat) (remaining : Nat) :
    ∀ (v res : EndoVars A),
      v.soln.map (fun it => it.iteration) =
        (if env.STOREITERATIONS = 0 then [] else List.range v.numIter) →
      endoLoop ops dops env game fuel arcFuel remaining v = Except.ok res →
      res.soln.map (fun it => it.iteration) =
        (if env.STOREITERATIONS = 0 then [] else List.range res.numIter) := by
  induction remaining with
  | zero =>
    intro v res hinv h
    simp only [endoLoop, Except.ok.injEq] at h
    subst h
    exact hinv
  | succ n ih =>
    intro v res hinv h
    simp only [endoLoop] at h
    split_ifs at h
    · cases hit : endoIteration ops dops env game fuel arcFuel v with
      | error e =>
        rw [hit] at h
        cases h
      | ok v1 =>
        rw [hit] at h
        obtain ⟨h3, h4⟩ := endoIteration_soln ops dops env game fuel arcFuel v v1 hit
        refine ih v1 res ?_ h
        rw [h3]
        exact records_step env _ _ _ hinv h4
    · simp only [Except.ok.injEq] at h
      subst h
      exact hinv

/-- The records of the run of `solve` on `capGame`: two passes, two records. -/
theorem unit_records :
    ∃ res, solve idleOps quarterCircle SGEnv.defaults capGame 2 = Except.ok res ∧
      res.numIter = 2 ∧ res.soln.map (fun it => it.iteration) = [0, 1] := by
  obtain ⟨_, res, _, _, h, hn, _⟩ := unit_solve
  refine ⟨res, h, hn, ?_⟩
  have := solveLoop_records idleOps SGEnv.defaults capGame 2 (solveDirections quarterCircle)
    SGEnv.defaults.MAXITERATIONS (SolveVars.init idleOps quarterCircle SGEnv.defaults capGame)
    res (by simp [SolveVars.init]) h
  rw [this, hn]
  rfl

/-! ## `sensitivity` without a valid candidate -/

theorem DBL_MAX_large : 4 < DBL_MAX := by
  have h : (2 : ℚ) ^ 1024 = 2 ^ 971 * 2 ^ 53 := by rw [← pow_add]
  have h2 : (5 : ℚ) < 2 ^ 53 - 1 := by norm_num
  have h3 : (1 : ℚ) ≤ 2 ^ 971 := one_le_pow₀ (by norm_num)
  simp only [DBL_MAX]
  rw [h]
  nlinarith

/-- A loop whose body leaves the start value as it is at every element ends with the start
value. -/
theorem foldl_fixed {α β : Type} (f : α → β → α) (b : α) (l : List β)
    (h : ∀ x ∈ l, f b x = b) : l.foldl f b = b := by
  induction l with
  | nil => rfl
  | cons x l ih =>
    rw [List.foldl_cons, h x (List.mem_cons_self _ _)]
    exact ih (fun y hy => h y (List.mem_cons_of_mem _ hy))

/-- When no action of any state gives a valid candidate, that is, each leaves the start value
of `bestLevel` as it is, `sensitivity` returns that start value. -/
theorem sensitivity_no_candidate (game : SGGame) (pivot : SGTuple) (actionTuple : List Nat)
    (regimeTuple : List Regime) (currDir : SGPoint) (actions : List (List SGAction_V2))
    (hno : ∀ state < game.numStates, ∀ ait < (rd actions state).length,
      sensitivityAction game pivot actionTuple regimeTuple currDir actions state (DBL_MAX - 1)
        ait = DBL_MAX - 1) :
    sensitivity game pivot actionTuple regimeTuple currDir actions = DBL_MAX - 1 := by
  have hscan : sensitivityScan game pivot actionTuple regimeTuple currDir actions
      = DBL_MAX - 1 := by
    unfold sensitivityScan
    apply foldl_fixed
    intro state hs
    apply foldl_fixed
    intro ait ha
    exact hno state (List.mem_range.mp hs) ait (List.mem_range.mp ha)
  unfold sensitivity
  rw [hscan]
  exact max_eq_left (by linarith [DBL_MAX_large])

/-- On `capGame` at its fixed point no action gives a valid candidate, in any direction. -/
theorem unit_no_candidate (dir : SGPoint) (r : Regime) :
    ∀ state < capGame.numStates, ∀ ait < (rd capActions state).length,
      sensitivityAction capGame [⟨1, 0⟩] [0] [r] dir capActions state (DBL_MAX - 1) ait
        = DBL_MAX - 1 := by
  intro state hs ait ha
  have h1 : capGame.numStates = 1 := rfl
  have h2 : capGame.numPlayers = 2 := rfl
  rw [h1] at hs
  have hs0 : state = 0 := by omega
  subst hs0
  have ha0 : ait = 0 := by
    have : (rd capActions 0).length = 1 := rfl
    omega
  subst ha0
  have hnb : bellmanPayoff capGame [⟨1, 0⟩] 0 0 = ⟨1, 0⟩ := by
    simp [bellmanPayoff, capGame, rd, SGTuple.expectation, SGTuple.expectationCoord,
      SGPoint.add, SGPoint.smul, SGPoint.coord, List.range_succ]
  have hdist : SGPoint.distance (rd [(⟨1, 0⟩ : SGPoint)] 0) ⟨1, 0⟩ = 0 := by
    simp [SGPoint.distance, rd]
  have hact : rd (rd capActions 0) 0 =
      { state := 0, action := 0, minIC := ⟨0, 0⟩, points := [[], []],
        bndryDirs := [[], []] } := rfl
  have hnon : sensitivityNonBinding capGame [⟨1, 0⟩] [0] [r] dir 0 0 (rd (rd capActions 0) 0)
      (DBL_MAX - 1) = DBL_MAX - 1 := by
    simp only [sensitivityNonBinding, hact, hnb, hdist]
    rw [if_neg (by norm_num)]
  have hp0 : (rd (rd (rd capActions 0) 0).points 0).length = 0 := rfl
  have hp1 : (rd (rd (rd capActions 0) 0).points 1).length = 0 := rfl
  simp only [sensitivityAction, hnon, h2, range_two, List.foldl_cons, List.foldl_nil, hp0, hp1,
    List.range_zero]

theorem unit_sensitivity (dir : SGPoint) (r : Regime) :
    sensitivity capGame [⟨1, 0⟩] [0] [r] dir capActions = DBL_MAX - 1 :=
  sensitivity_no_candidate _ _ _ _ _ _ (unit_no_candidate dir r)

/-! ## No exception but `NOFEASIBLETUPLE` -/

theorem icCheckState_stop (game : SGGame) (actions : List (List SGAction_V2))
    (acc : FeasibleVars × Bool × Option Stop) (state : Nat)
    (h : acc.2.2 ≠ some (Stop.thrown SGException.NO_ADMISSIBLE_DIRECTION)) :
    (icCheckState game actions acc state).2.2
      ≠ some (Stop.thrown SGException.NO_ADMISSIBLE_DIRECTION) := by
  obtain ⟨v, flag, st⟩ := acc
  unfold icCheckState
  cases st with
  | some stop => exact h
  | none =>
    simp only
    cases rd v.actionTuple state with
    | none => simp
    | some pos =>
      simp only
      split_ifs <;> simp

theorem feasibleLoop_stop (env : SGEnv) (game : SGGame) (actions : List (List SGAction_V2))
    (fuel : Nat) :
    ∀ (flag : Bool) (v : FeasibleVars),
      (feasibleLoop env game actions fuel flag v).2
        ≠ some (Stop.thrown SGException.NO_ADMISSIBLE_DIRECTION) := by
  induction fuel with
  | zero =>
    intro flag v
    cases flag <;> simp [feasibleLoop]
  | succ fuel ih =>
    intro flag v
    cases flag with
    | false => simp [feasibleLoop]
    | true =>
      simp only [feasibleLoop]
      split_ifs
      swap
      · simp
      have hfold := foldl_keeps
        (fun acc : FeasibleVars × Bool × Option Stop =>
          acc.2.2 ≠ some (Stop.thrown SGException.NO_ADMISSIBLE_DIRECTION))
        (icCheckState game actions) (List.range game.numStates)
        ({ v with
            feasibleTuple := (policyToPayoffs env game actions v.feasibleTuple
              (v.actionTuple.map (fun it => it.getD 0)) v.regimeTuple).1
            bellmanCalls := v.bellmanCalls + 1 }, false, none)
        (fun x y hx => icCheckState_stop game actions x y hx) (by simp)
      generalize (List.range game.numStates).foldl (icCheckState game actions) _ = r at hfold ⊢
      obtain ⟨r1, r2, r3⟩ := r
      cases r3 with
      | some stop =>
        simp only
        exact hfold
      | none =>
        simp only
        exact ih r2 r1

/-- The only exception that `findFeasibleTuple` throws is `NOFEASIBLETUPLE`. -/
theorem findFeasibleTuple_stop (env : SGEnv) (game : SGGame) (fuel : Nat)
    (feasibleTuple : SGTuple) (actions : List (List SGAction_V2)) :
    findFeasibleTuple env game fuel feasibleTuple actions
      ≠ Except.error (Stop.thrown SGException.NO_ADMISSIBLE_DIRECTION) := by
  have h : (findFeasibleTupleRun env game fuel feasibleTuple actions).2
      ≠ some (Stop.thrown SGException.NO_ADMISSIBLE_DIRECTION) :=
    feasibleLoop_stop env game actions fuel _ _
  intro hc
  unfold findFeasibleTuple at hc
  cases hr : (findFeasibleTupleRun env game fuel feasibleTuple actions).2 with
  | none =>
    rw [hr] at hc
    cases hc
  | some stop =>
    rw [hr] at hc h
    simp only [Except.error.injEq] at hc
    subst hc
    exact h rfl

theorem erasePass_stop {A : Type} (step : A → A) (keep : A → Bool) (e : SGException) :
    ∀ (n : Nat) (l : List A), l.length ≤ n →
      erasePass step keep l ≠ Except.error (Stop.thrown e) := by
  intro n
  induction n with
  | zero =>
    intro l hl
    have : l = [] := List.length_eq_zero.mp (Nat.le_zero.mp hl)
    subst this
    simp [erasePass]
  | succ n ih =>
    intro l hl
    match l with
    | [] => simp [erasePass]
    | [a] =>
      simp only [erasePass]
      split_ifs <;> simp
    | a :: b :: rest =>
      simp only [erasePass]
      split_ifs
      · have := ih (b :: rest) (by simpa using hl)
        cases hr : erasePass step keep (b :: rest) with
        | error s =>
          rw [hr] at this
          simpa [Except.map] using this
        | ok r => simp [Except.map]
      · have := ih rest (by simp at hl; omega)
        cases hr : erasePass step keep rest with
        | error s =>
          rw [hr] at this
          simpa [Except.map] using this
        | ok r => simp [Except.map]

theorem retrimPasses_stop {A : Type} (ops : SGActionOps A) (game : SGGame)
    (threatTuple feasibleTuple : SGTuple) (directions : List SGPoint)
    (levels : List (List ℚ)) (e : SGException) (states : List Nat) :
    ∀ (actions : List (List A)),
      states.foldlM (retrimStep ops game threatTuple feasibleTuple directions levels) actions
        ≠ Except.error (Stop.thrown e) := by
  induction states with
  | nil =>
    intro actions
    simp [List.foldlM_nil, pure, Except.pure]
  | cons s rest ih =>
    intro actions
    rw [List.foldlM_cons]
    cases hs : retrimStep ops game threatTuple feasibleTuple directions levels actions s with
    | error stop =>
      intro hc
      have hc' : stop = Stop.thrown e := by
        simpa [bind, Except.bind] using hc
      subst hc'
      unfold retrimStep at hs
      cases hr : erasePass (retrimAction ops game threatTuple directions levels s)
          (supportableIn ops game feasibleTuple s) (rd actions s) with
      | error s2 =>
        rw [hr] at hs
        simp only [Except.map, Except.error.injEq] at hs
        subst hs
        exact erasePass_stop _ _ e _ _ (Nat.le_refl _) hr
      | ok r =>
        rw [hr] at hs
        simp [Except.map] at hs
    | ok acts => exact ih acts

theorem arcStep_stop {A : Type} (ops : SGActionOps A) (dops : DirectionOps) (env : SGEnv)
    (game : SGGame) (fuel : Nat) (actions : List (List A)) (v : ArcVars A) (e : SGException) :
    arcStep ops dops env game fuel actions v ≠ Except.error (Stop.thrown e) := by
  unfold arcStep
  cases optimizePolicy env game fuel v.pivot v.actionTuple v.regimeTuple v.currDir
      (viewAll ops actions) with
  | none => simp
  | some r => simp

theorem arcLoop_stop {A : Type} (ops : SGActionOps A) (dops : DirectionOps) (env : SGEnv)
    (game : SGGame) (fuel : Nat) (actions : List (List A)) (e : SGException) (arcFuel : Nat) :
    ∀ (v : ArcVars A),
      arcLoop ops dops env game fuel actions arcFuel v ≠ Except.error (Stop.thrown e) := by
  induction arcFuel with
  | zero =>
    intro v
    simp [arcLoop]
  | succ n ih =>
    intro v
    simp only [arcLoop]
    cases hs : arcStep ops dops env game fuel actions v with
    | error stop =>
      simp only
      intro hc
      simp only [Except.error.injEq] at hc
      subst hc
      exact arcStep_stop ops dops env game fuel actions v e hs
    | ok v1 =>
      simp only
      split_ifs
      · simp
      · exact ih v1

theorem endoIteration_stop {A : Type} (ops : SGActionOps A) (dops : DirectionOps)
    (env : SGEnv) (game : SGGame) (fuel arcFuel : Nat) (v : EndoVars A) :
    endoIteration ops dops env game fuel arcFuel v
      ≠ Except.error (Stop.thrown SGException.NO_ADMISSIBLE_DIRECTION) := by
  unfold endoIteration
  cases harc : arcLoop ops dops env game fuel v.actions arcFuel
      { pivot := v.pivot
        actionTuple := List.replicate game.numStates 0
        regimeTuple := List.replicate game.numStates Regime.Binding
        currDir := ⟨1, 0⟩
        passEast := false
        newDirections := []
        newLevels := []
        newThreatTuple := v.newThreatTuple
        iter :=
          if env.STOREITERATIONS ≠ 0 then
            { iteration := v.numIter, actions := v.actions, threatTuple := v.threatTuple,
              steps := [] }
          else v.iter } with
  | error stop =>
    simp only
    intro hc
    simp only [Except.error.injEq] at hc
    subst hc
    exact arcLoop_stop ops dops env game fuel v.actions _ arcFuel _ harc
  | ok arc =>
    simp only
    cases hf : findFeasibleTuple env game fuel v.feasibleTuple (viewAll ops v.actions) with
    | error stop =>
      simp only
      intro hc
      simp only [Except.error.injEq] at hc
      subst hc
      exact findFeasibleTuple_stop env game fuel _ _ hf
    | ok ft =>
      simp only
      cases hr : retrimPasses ops game arc.newThreatTuple ft arc.newDirections arc.newLevels
          v.actions with
      | error stop =>
        simp only
        intro hc
        simp only [Except.error.injEq] at hc
        subst hc
        exact retrimPasses_stop ops game _ _ _ _ _ _ _ hr
      | ok acts => simp

theorem endoLoop_stop {A : Type} (ops : SGActionOps A) (dops : DirectionOps) (env : SGEnv)
    (game : SGGame) (fuel arcFuel : Nat) (remaining : Nat) :
    ∀ (v : EndoVars A),
      endoLoop ops dops env game fuel arcFuel remaining v
        ≠ Except.error (Stop.thrown SGException.NO_ADMISSIBLE_DIRECTION) := by
  induction remaining with
  | zero =>
    intro v
    simp [endoLoop]
  | succ n ih =>
    intro v
    simp only [endoLoop]
    split_ifs
    · cases hit : endoIteration ops dops env game fuel arcFuel v with
      | error stop =>
        simp only
        intro hc
        simp only [Except.error.injEq] at hc
        subst hc
        exact endoIteration_stop ops dops env game fuel arcFuel v hit
      | ok v1 => exact ih v1
    · simp

/-! ## A revolution of `solve_endogenous` on the game with one state and one action profile -/

theorem nextDirection_coords (d : SGPoint) (L : ℚ) (hL : 0 < L + 1) :
    (nextDirection d L).x * (L + 1) = d.x + L * d.y ∧
    (nextDirection d L).y * (L + 1) = d.y - L * d.x := by
  have hne : L + 1 ≠ 0 := ne_of_gt hL
  simp only [nextDirection, SGPoint.add, SGPoint.smul, SGPoint.getNormal]
  constructor
  · field_simp
  · field_simp
    ring

/-- The signs of the coordinates of the first three directions of a revolution in which
`sensitivity` finds no candidate: from `(1, 0)` the directions turn by nearly a quarter each
time, to the south, to the west and to the north. -/
theorem unit_directions :
    0 < (nextDirection ⟨1, 0⟩ (DBL_MAX - 1)).x ∧
    (nextDirection ⟨1, 0⟩ (DBL_MAX - 1)).y < 0 ∧
    (nextDirection (nextDirection ⟨1, 0⟩ (DBL_MAX - 1)) (DBL_MAX - 1)).x < 0 ∧
    (nextDirection (nextDirection ⟨1, 0⟩ (DBL_MAX - 1)) (DBL_MAX - 1)).y < 0 ∧
    (nextDirection (nextDirection (nextDirection ⟨1, 0⟩ (DBL_MAX - 1)) (DBL_MAX - 1))
      (DBL_MAX - 1)).x < 0 ∧
    0 ≤ (nextDirection (nextDirection (nextDirection ⟨1, 0⟩ (DBL_MAX - 1)) (DBL_MAX - 1))
      (DBL_MAX - 1)).y := by
  have hL : 3 < DBL_MAX - 1 := by linarith [DBL_MAX_large]
  generalize DBL_MAX - 1 = L at *
  have hL1 : 0 < L + 1 := by linarith
  obtain ⟨a1, b1⟩ := nextDirection_coords ⟨1, 0⟩ L hL1
  generalize nextDirection ⟨1, 0⟩ L = n1 at *
  obtain ⟨a2, b2⟩ := nextDirection_coords n1 L hL1
  generalize nextDirection n1 L = n2 at *
  obtain ⟨a3, b3⟩ := nextDirection_coords n2 L hL1
  generalize nextDirection n2 L = n3 at *
  simp only [mul_zero, add_zero, zero_sub, mul_one] at a1 b1
  have x1 : 0 < n1.x := by
    by_contra hc
    push_neg at hc
    nlinarith
  have y1 : n1.y < 0 := by
    by_contra hc
    push_neg at hc
    nlinarith
  have x2' : n2.x * (L + 1) * (L + 1) = 1 - L * L := by
    rw [a2, add_mul, a1, mul_assoc, b1]
    ring
  have y2' : n2.y * (L + 1) * (L + 1) = -2 * L := by
    rw [b2, sub_mul, b1, mul_assoc, a1]
    ring
  have hsq : 0 < (L + 1) * (L + 1) := mul_pos hL1 hL1
  have x2 : n2.x < 0 := by
    by_contra hc
    push_neg at hc
    have : 0 ≤ n2.x * ((L + 1) * (L + 1)) := mul_nonneg hc (le_of_lt hsq)
    nlinarith
  have y2 : n2.y < 0 := by
    by_contra hc
    push_neg at hc
    have : 0 ≤ n2.y * ((L + 1) * (L + 1)) := mul_nonneg hc (le_of_lt hsq)
    nlinarith
  have hcu : 0 < (L + 1) * (L + 1) * (L + 1) := mul_pos hsq hL1
  have x3' : n3.x * ((L + 1) * (L + 1) * (L + 1)) = 1 - L * L - 2 * L * L := by
    have : n3.x * ((L + 1) * (L + 1) * (L + 1)) =
        n3.x * (L + 1) * (L + 1) * (L + 1) := by ring
    rw [this, a3, add_mul, add_mul, x2', mul_assoc L, mul_assoc L, y2']
    ring
  have y3' : n3.y * ((L + 1) * (L + 1) * (L + 1)) = L * (L * L - 3) := by
    have : n3.y * ((L + 1) * (L + 1) * (L + 1)) =
        n3.y * (L + 1) * (L + 1) * (L + 1) := by ring
    rw [this, b3, sub_mul, sub_mul, y2', mul_assoc L, mul_assoc L, x2']
    ring
  have x3 : n3.x < 0 := by
    by_contra hc
    push_neg at hc
    have : 0 ≤ n3.x * ((L + 1) * (L + 1) * (L + 1)) := mul_nonneg hc (le_of_lt hcu)
    nlinarith
  have y3 : 0 ≤ n3.y := by
    by_contra hc
    push_neg at hc
    have : n3.y * ((L + 1) * (L + 1) * (L + 1)) < 0 := mul_neg_of_neg_of_pos hc hcu
    nlinarith
  exact ⟨x1, y1, x2, y2, x3, y3⟩


theorem unit_arcStep (v : ArcVars SGAction_V2) (r0 : Regime) (hp : v.pivot = [⟨1, 0⟩])
    (ha : v.actionTuple = [0]) (hr : v.regimeTuple = [r0])
    (ht : v.newThreatTuple = [⟨1, 0⟩]) :
    ∃ w, arcStep idleOps idleDirections SGEnv.defaults capGame 2 capActions v = Except.ok w ∧
      w.pivot = [⟨1, 0⟩] ∧ w.actionTuple = [0] ∧ w.regimeTuple = [Regime.NonBinding] ∧
      w.newThreatTuple = [⟨1, 0⟩] ∧
      w.currDir = nextDirection v.currDir (DBL_MAX - 1) ∧
      w.newDirections = v.newDirections ++ [nextDirection v.currDir (DBL_MAX - 1)] ∧
      w.newLevels = v.newLevels ++ [[(nextDirection v.currDir (DBL_MAX - 1)).x]] ∧
      w.passEast =
        (if v.currDir.y > 0 ∧ (nextDirection v.currDir (DBL_MAX - 1)).y ≤ 0 then v.passEast
        else if v.currDir.x < 0 ∧ (nextDirection v.currDir (DBL_MAX - 1)).x ≥ 0 then
          v.passEast
        else if v.currDir.y < 0 ∧ (nextDirection v.currDir (DBL_MAX - 1)).y ≥ 0 then true
        else v.passEast) := by
  have hview : viewAll idleOps capActions = capActions := by
    simp [viewAll, idleOps]
  have h1 : capGame.numStates = 1 := rfl
  have hsm : ∀ p : SGPoint, SGPoint.smul (1 / idleDirections.norm p) p = p := by
    intro p
    cases p
    simp [SGPoint.smul, idleDirections]
  have hrot : ∀ p : SGPoint, idleDirections.rotateCCW p = p := fun _ => rfl
  have hlev : ∀ p : SGPoint, pivotLevels capGame [⟨1, 0⟩] p = [p.x] := by
    intro p
    simp [pivotLevels, h1, rd, List.range_succ, SGPoint.dot]
  have hrec : ∀ i, recordThreat capGame [⟨1, 0⟩] i [⟨1, 0⟩] = [⟨1, 0⟩] := by
    intro i
    simp only [recordThreat, h1, List.range_succ, List.range_zero, List.nil_append,
      List.foldl_cons, List.foldl_nil]
    by_cases hi : i = 0
    · simp [rd, SGPoint.setCoord, SGPoint.coord, hi]
    · simp [rd, SGPoint.setCoord, SGPoint.coord, hi]
  have hn : ∀ p : SGPoint, p.dot ⟨0, 1⟩ = p.y := by
    intro p
    simp [SGPoint.dot]
  have he : ∀ p : SGPoint, p.dot ⟨1, 0⟩ = p.x := by
    intro p
    simp [SGPoint.dot]
  simp only [arcStep, hview, hp, ha, hr, ht, unit_run, unit_sensitivity, hsm, hrot, hlev, hrec,
    hn, he]
  refine ⟨_, rfl, rfl, rfl, rfl, ?_, rfl, rfl, rfl, rfl⟩
  simp only
  split_ifs <;> rfl

/-- The revolution on `capGame` from its fixed point: `sensitivity` finds no candidate, and
after three directions the revolution has passed due east. -/
theorem unit_arc (v : ArcVars SGAction_V2) (hp : v.pivot = [⟨1, 0⟩])
    (ha : v.actionTuple = [0]) (hr : v.regimeTuple = [Regime.Binding])
    (ht : v.newThreatTuple = [⟨1, 0⟩]) (hc : v.currDir = ⟨1, 0⟩) (he : v.passEast = false)
    (hd : v.newDirections = []) (hl : v.newLevels = []) :
    ∃ arc, arcLoop idleOps idleDirections SGEnv.defaults capGame 2 capActions 3 v
        = Except.ok arc ∧
      arc.pivot = [⟨1, 0⟩] ∧ arc.newThreatTuple = [⟨1, 0⟩] ∧
      arc.newDirections =
        [nextDirection ⟨1, 0⟩ (DBL_MAX - 1),
          nextDirection (nextDirection ⟨1, 0⟩ (DBL_MAX - 1)) (DBL_MAX - 1),
          nextDirection (nextDirection (nextDirection ⟨1, 0⟩ (DBL_MAX - 1)) (DBL_MAX - 1))
            (DBL_MAX - 1)] ∧
      arc.newLevels =
        [[(nextDirection ⟨1, 0⟩ (DBL_MAX - 1)).x],
          [(nextDirection (nextDirection ⟨1, 0⟩ (DBL_MAX - 1)) (DBL_MAX - 1)).x],
          [(nextDirection (nextDirection (nextDirection ⟨1, 0⟩ (DBL_MAX - 1)) (DBL_MAX - 1))
            (DBL_MAX - 1)).x]] := by
  obtain ⟨x1, y1, x2, y2, x3, y3⟩ := unit_directions
  obtain ⟨w1, e1, p1, a1, r1, t1, c1, d1, l1, s1⟩ := unit_arcStep v _ hp ha hr ht
  rw [hc] at c1 d1 l1 s1
  rw [hd] at d1
  rw [hl] at l1
  have s1' : w1.passEast = false := by
    rw [s1, he]
    simp
  obtain ⟨w2, e2, p2, a2, r2, t2, c2, d2, l2, s2⟩ := unit_arcStep w1 _ p1 a1 r1 t1
  rw [c1] at c2 d2 l2 s2
  rw [d1] at d2
  rw [l1] at l2
  have s2' : w2.passEast = false := by
    rw [s2, s1', if_neg (fun h => absurd h.1 (not_lt.mpr (le_of_lt y1))),
      if_neg (fun h => absurd h.1 (not_lt.mpr (le_of_lt x1))),
      if_neg (fun h => absurd h.2 (not_le.mpr y2))]
  obtain ⟨w3, e3, p3, a3, r3, t3, c3, d3, l3, s3⟩ := unit_arcStep w2 _ p2 a2 r2 t2
  rw [c2] at c3 d3 l3 s3
  rw [d2] at d3
  rw [l2] at l3
  have s3' : w3.passEast = true := by
    rw [s3, if_neg (fun h => absurd h.1 (not_lt.mpr (le_of_lt y2))),
      if_neg (fun h => absurd h.2 (not_le.mpr x3)), if_pos ⟨y2, y3⟩]
  refine ⟨w3, ?_, p3, t3, d3, l3⟩
  simp only [arcLoop, e1, s1', e2, s2', e3, s3', Bool.false_eq_true, if_false, if_true]

/-! ## A run of `solve_endogenous` -/

theorem foldl_min_zero {β : Type} (f : β → ℚ) (l : List β) :
    ∀ (init : ℚ), 0 ≤ init → (∀ x ∈ l, 0 ≤ f x) → (∃ x ∈ l, f x = 0) →
      l.foldl (fun m x => min m (f x)) init = 0 := by
  induction l with
  | nil =>
    intro init _ _ hex
    obtain ⟨x, hx, _⟩ := hex
    cases hx
  | cons a l ih =>
    intro init h0 hf hex
    rw [List.foldl_cons]
    obtain ⟨x, hx, hx0⟩ := hex
    rcases List.mem_cons.mp hx with rfl | hx
    · rw [hx0, min_eq_right h0]
      by_cases hl : ∃ y ∈ l, f y = 0
      · exact ih 0 (le_refl _) (fun y hy => hf y (List.mem_cons_of_mem _ hy)) hl
      · have hfix : ∀ y ∈ l, (fun m x => min m (f x)) 0 y = 0 := by
          intro y hy
          exact min_eq_left (hf y (List.mem_cons_of_mem _ hy))
        exact foldl_fixed _ 0 l hfix
    · exact ih _ (le_min h0 (hf a (List.mem_cons_self _ _)))
        (fun y hy => hf y (List.mem_cons_of_mem _ hy)) ⟨x, hx, hx0⟩

theorem levelDistance_nonneg (game : SGGame) (l0 l1 : List ℚ) :
    0 ≤ levelDistance game l0 l1 :=
  (foldl_max_ge (fun s => |rd l0 s - rd l1 s|) _ 0).1

theorem levelDistance_self (game : SGGame) (l : List ℚ) : levelDistance game l l = 0 := by
  unfold levelDistance
  apply foldl_fixed
  intro s _
  simp

theorem SGPoint.distance_self (p : SGPoint) : SGPoint.distance p p = 0 := by
  simp [SGPoint.distance]

theorem SGPoint.pointDistance_nonneg (p q : SGPoint) : 0 ≤ SGPoint.distance p q :=
  le_max_of_le_left (abs_nonneg _)

/-- A revolution that repeats the directions and levels of the previous one has error level
zero. -/
theorem arcError_self (game : SGGame) (directions : List SGPoint) (levels : List (List ℚ)) :
    arcError game directions levels directions levels = 0 := by
  unfold arcError
  apply foldl_fixed
  intro new hnew
  have hin : (directions.zip levels).foldl
      (fun minDist old =>
        min minDist (SGPoint.distance old.1 new.1 + levelDistance game old.2 new.2))
      DBL_MAX = 0 := by
    apply foldl_min_zero (fun old : SGPoint × List ℚ =>
      SGPoint.distance old.1 new.1 + levelDistance game old.2 new.2)
    · exact le_of_lt DBL_MAX_pos
    · intro x _
      exact add_nonneg (SGPoint.pointDistance_nonneg _ _) (levelDistance_nonneg _ _ _)
    · exact ⟨new, hnew, by simp [SGPoint.distance_self, levelDistance_self]⟩
  simp only [hin, max_self]

theorem foldl_max_const {β : Type} (M : ℚ) (l : List β) :
    ∀ (init : ℚ), init ≤ M → l ≠ [] → l.foldl (fun e _ => max e M) init = M := by
  induction l with
  | nil => intro _ _ h; exact absurd rfl h
  | cons a l ih =>
    intro init hi _
    rw [List.foldl_cons, max_eq_right hi]
    cases l with
    | nil => rfl
    | cons b l => exact ih M (le_refl _) (List.cons_ne_nil _ _)

/-- The first revolution, with no previous directions: the error level is the start value of
the nearest distance. -/
theorem arcError_first (game : SGGame) (newDirections : List SGPoint)
    (newLevels : List (List ℚ)) (h : newDirections.zip newLevels ≠ []) :
    arcError game [] [] newDirections newLevels = DBL_MAX := by
  unfold arcError
  have hz : ([] : List SGPoint).zip ([] : List (List ℚ)) = [] := rfl
  rw [hz]
  exact foldl_max_const DBL_MAX _ 0 (le_of_lt DBL_MAX_pos) h

theorem idle_retrimAction (game : SGGame) (threatTuple : SGTuple) (directions : List SGPoint)
    (levels : List (List ℚ)) (state : Nat) (a : SGAction_V2) :
    retrimAction idleOps game threatTuple directions levels state a = a := by
  unfold retrimAction
  generalize directions.zip levels = l
  show l.foldl _ a = a
  induction l with
  | nil => rfl
  | cons d l ih => exact ih

theorem unit_retrim (threatTuple : SGTuple) (directions : List SGPoint)
    (levels : List (List ℚ)) :
    retrimPasses idleOps capGame threatTuple [⟨1, 0⟩] directions levels capActions
      = Except.ok capActions := by
  have h1 : capGame.numStates = 1 := rfl
  have hfun : retrimAction idleOps capGame threatTuple directions levels 0
      = idleOps.updateTrim :=
    funext (fun a => idle_retrimAction capGame threatTuple directions levels 0 a)
  have hkeep : supportableIn idleOps capGame [⟨1, 0⟩] 0
      (idleOps.updateTrim
        { state := 0, action := 0, minIC := ⟨0, 0⟩, points := [[], []],
          bndryDirs := [[], []] })
      = true := by
    simp [supportableIn, idleOps, capGame, rd, SGPoint.ge, SGTuple.expectation,
      SGTuple.expectationCoord, SGPoint.coord, List.range_succ]
  have he : erasePass idleOps.updateTrim (supportableIn idleOps capGame [⟨1, 0⟩] 0)
      (rd capActions 0) = Except.ok (rd capActions 0, rd capActions 0) := by
    show erasePass idleOps.updateTrim (supportableIn idleOps capGame [⟨1, 0⟩] 0)
      [{ state := 0, action := 0, minIC := ⟨0, 0⟩, points := [[], []],
          bndryDirs := [[], []] }] = _
    simp only [erasePass]
    rw [if_pos hkeep]
    rfl
  simp only [retrimPasses, h1, List.range_succ, List.range_zero, List.nil_append,
    List.foldlM_cons, List.foldlM_nil, retrimStep, hfun, he]
  rfl

/-- One pass of the main loop of `solve_endogenous` on `capGame` at its fixed point: the
revolution has the three directions of `unitArc`, and the state stays at the fixed point. -/
theorem unit_endoIteration (v : EndoVars SGAction_V2) (hv : UnitEndoState v) :
    ∃ v1, endoIteration idleOps idleDirections SGEnv.defaults capGame 2 3 v = Except.ok v1 ∧
      UnitEndoState v1 ∧ v1.numIter = v.numIter + 1 ∧ v1.directions = unitArc ∧
      v1.levels = unitArc.map (fun d => [d.x]) ∧
      v1.errorLevel =
        arcError capGame v.directions v.levels unitArc (unitArc.map (fun d => [d.x])) := by
  obtain ⟨ha, ht, hnt, hp, hf⟩ := hv
  obtain ⟨arc, harc, a1, a2, a3, a4⟩ := unit_arc
    { pivot := v.pivot
      actionTuple := List.replicate capGame.numStates 0
      regimeTuple := List.replicate capGame.numStates Regime.Binding
      currDir := ⟨1, 0⟩
      passEast := false
      newDirections := []
      newLevels := []
      newThreatTuple := v.newThreatTuple
      iter :=
        if SGEnv.defaults.STOREITERATIONS ≠ 0 then
          { iteration := v.numIter, actions := capActions, threatTuple := v.threatTuple,
            steps := [] }
        else v.iter }
    hp rfl rfl hnt rfl rfl rfl rfl
  have hview : viewAll idleOps capActions = capActions := by
    simp [viewAll, idleOps]
  have hiter : endoIteration idleOps idleDirections SGEnv.defaults capGame 2 3 v =
      Except.ok
        { actions := capActions
          threatTuple := arc.newThreatTuple
          newThreatTuple := arc.newThreatTuple
          pivot := arc.pivot
          feasibleTuple := [⟨1, 0⟩]
          directions := arc.newDirections
          levels := arc.newLevels
          errorLevel := arcError capGame v.directions v.levels arc.newDirections arc.newLevels
          numIter := v.numIter + 1
          iter := arc.iter
          soln :=
            if SGEnv.defaults.STOREITERATIONS ≠ 0 then v.soln ++ [arc.iter] else v.soln } := by
    simp only [endoIteration, ha, hf, harc, hview, unit_feasible, unit_retrim]
  refine ⟨_, hiter, ⟨rfl, a2, a2, a1, rfl⟩, rfl, a3, a4, ?_⟩
  simp only [a3, a4]
  rfl

theorem endoLoop_step {A : Type} (ops : SGActionOps A) (dops : DirectionOps) (env : SGEnv)
    (game : SGGame) (fuel arcFuel : Nat) (remaining : Nat) (v v1 : EndoVars A)
    (hr : 0 < remaining) (he : v.errorLevel > env.ERRORTOL)
    (h : endoIteration ops dops env game fuel arcFuel v = Except.ok v1) :
    endoLoop ops dops env game fuel arcFuel remaining v =
      endoLoop ops dops env game fuel arcFuel (remaining - 1) v1 := by
  cases remaining with
  | zero => exact absurd hr (Nat.lt_irrefl _)
  | succ n => simp only [endoLoop, if_pos he, h, Nat.add_sub_cancel]

theorem endoLoop_stop_at {A : Type} (ops : SGActionOps A) (dops : DirectionOps) (env : SGEnv)
    (game : SGGame) (fuel arcFuel : Nat) (remaining : Nat) (v : EndoVars A)
    (he : ¬ v.errorLevel > env.ERRORTOL) :
    endoLoop ops dops env game fuel arcFuel remaining v = Except.ok v := by
  cases remaining with
  | zero => rfl
  | succ n => simp only [endoLoop, if_neg he]

theorem unit_endo_init :
    UnitEndoState (EndoVars.init idleOps quarterCircle SGEnv.defaults capGame) := by
  obtain ⟨⟨h1, h2, h3, h4, _, _⟩, _⟩ := unit_init
  exact ⟨h1, h2, h2, h3, h4⟩

/-- The run of `solve_endogenous` on `capGame` with the default parameters: the main loop
makes two passes; in each, `sensitivity` finds no candidate at any of the three directions, and
the second revolution repeats the first. -/
theorem unit_solve_endogenous :
    ∃ res, solve_endogenous idleOps idleDirections quarterCircle SGEnv.defaults capGame 2 3
        = Except.ok res ∧ res.numIter = 2 ∧ UnitEndoState res := by
  obtain ⟨v1, h1, u1, n1, d1, l1, e1⟩ := unit_endoIteration _ unit_endo_init
  obtain ⟨v2, h2, u2, n2, _, _, e2⟩ := unit_endoIteration v1 u1
  have he1 : v1.errorLevel > SGEnv.defaults.ERRORTOL := by
    rw [e1]
    have : arcError capGame
        (EndoVars.init idleOps quarterCircle SGEnv.defaults capGame).directions
        (EndoVars.init idleOps quarterCircle SGEnv.defaults capGame).levels unitArc
        (unitArc.map (fun d => [d.x])) = DBL_MAX :=
      arcError_first _ _ _ (by simp [unitArc])
    rw [this]
    have := DBL_MAX_large
    norm_num [SGEnv.defaults]
    linarith
  have he2 : v2.errorLevel = 0 := by
    rw [e2, d1, l1]
    exact arcError_self _ _ _
  refine ⟨v2, ?_, ?_, u2⟩
  · unfold solve_endogenous
    rw [endoLoop_step _ _ _ _ _ _ _ _ v1 (by norm_num [SGEnv.defaults])
        (by
          show (1 : ℚ) > SGEnv.defaults.ERRORTOL
          norm_num [SGEnv.defaults]) h1,
      endoLoop_step _ _ _ _ _ _ _ _ v2 (by norm_num [SGEnv.defaults]) he1 h2,
      endoLoop_stop_at _ _ _ _ _ _ _ _ (by rw [he2]; norm_num [SGEnv.defaults])]
  · rw [n2, n1]
    rfl

/-! ## Helpers for the claims on the solution -/

theorem keepsProfile_idleOps : KeepsProfile idleOps :=
  ⟨fun _ _ _ => rfl, fun _ _ _ _ => rfl, fun _ => rfl, fun _ _ _ => rfl, fun _ => rfl⟩

theorem viewAll_idleOps (actions : List (List SGAction_V2)) :
    viewAll idleOps actions = actions := by
  simp [viewAll, idleOps]

theorem solutionInv_init {A : Type} (ops : SGActionOps A) (env : SGEnv)
    (first : List (List A)) : SolutionInv ops env first [] first 0 := by
  refine ⟨?_, ?_⟩
  · simp only [List.map_nil, List.cons_append, List.nil_append]
    exact List.pairwise_pair.mpr (shrinks_refl ops first)
  · simp

/-- Every list of a chain of shrinking action lists holds, at a state of the game, pairwise
different profiles, which are among the profiles the game gives to the state. -/
theorem chain_profiles {A : Type} (ops : SGActionOps A) (game : SGGame)
    (first : List (List A)) (rest : List (List (List A)))
    (hfirst : ∀ s < game.numStates,
      profiles ops (rd first s) = List.range (rd game.numActions_total s))
    (hchain : List.Pairwise (Shrinks ops) (first :: rest)) :
    ∀ x ∈ first :: rest, ∀ s < game.numStates,
      (profiles ops (rd x s)).Sublist (List.range (rd game.numActions_total s)) ∧
      (profiles ops (rd x s)).Nodup := by
  intro x hx s hs
  have hsub : (profiles ops (rd x s)).Sublist (List.range (rd game.numActions_total s)) := by
    rcases List.mem_cons.mp hx with rfl | hx
    · rw [hfirst s hs]
    · rw [← hfirst s hs]
      exact (List.pairwise_cons.mp hchain).1 x hx s
  exact ⟨hsub, hsub.nodup (List.nodup_range _)⟩

/-! ## Claim on the update of the threat tuple -/

/-- C14: in a pass of the main loop of `solve` whose directions are placed at the angles
`2π·d/D` (`D = numDirections`, a multiple of 4), so that in exact arithmetic the direction of
index `D/2` is `(−1, 0)` and that of index `3D/4` is `(0, −1)`, the threat update sets
`threatTuple[s][0] = −levels[D/2][s]` and `threatTuple[s][1] = −levels[3D/4][s]` for every
state `s`, and these are the x-coordinate of the pivot recorded for the direction `(−1, 0)`
and the y-coordinate of the pivot recorded for `(0, −1)`.  The vectors `threatTuple`,
`levels` and `pivots` have the sizes they are constructed with, which the pass keeps. -/
theorem C14_threat_update {A : Type} (ops : SGActionOps A) (circle : ℚ → SGPoint)
    (env : SGEnv) (game : SGGame) (fuel : Nat) (v v1 : SolveVars A)
    (hwest : circle (1 / 2) = ⟨-1, 0⟩) (hsouth : circle (3 / 4) = ⟨0, -1⟩)
    (hthreat : v.threatTuple.length = game.numStates)
    (hlev : v.levels.length = numDirections) (hpiv : v.pivots.length = numDirections)
    (h : solveIteration ops env game fuel (solveDirections circle) v = Except.ok v1) :
    4 ∣ numDirections ∧
    rd (solveDirections circle) (numDirections / 2) = ⟨-1, 0⟩ ∧
    rd (solveDirections circle) (3 * numDirections / 4) = ⟨0, -1⟩ ∧
    v1.threatTuple.length = game.numStates ∧ v1.levels.length = numDirections ∧
    v1.pivots.length = numDirections ∧
    ∀ s < game.numStates,
      (rd v1.threatTuple s).x = -(rd (rd v1.levels (numDirections / 2)) s) ∧
      (rd v1.threatTuple s).y = -(rd (rd v1.levels (3 * numDirections / 4)) s) ∧
      (rd v1.threatTuple s).x = (rd (rd v1.pivots (numDirections / 2)) s).x ∧
      (rd v1.threatTuple s).y = (rd (rd v1.pivots (3 * numDirections / 4)) s).y := by
  obtain ⟨d1, d2, d3⟩ := solveDirections_west circle
  obtain ⟨i1, i2, i3, i4⟩ := solveIteration_threat ops env game fuel (solveDirections circle)
    v v1 (by rw [d3, hlev]) (by rw [d3, hpiv]) h
  obtain ⟨t1, t2, _⟩ := threatUpdate_spec v1.levels game.numStates v.threatTuple
  rw [← threatUpdate, ← i3] at t1 t2
  have hn : numDirections = 204 := by decide
  refine ⟨by rw [hn]; decide, d1.trans hwest, d2.trans hsouth, t1.trans hthreat,
    i1.trans hlev, i2.trans hpiv, fun s hs => ?_⟩
  have ht := t2 s hs (by rw [hthreat]; exact hs)
  have hw := i4 (numDirections / 2) (by rw [d3, hn]; decide) s hs
  have hso := i4 (3 * numDirections / 4) (by rw [d3, hn]; decide) s hs
  rw [d1, hwest] at hw
  rw [d2, hsouth] at hso
  rw [ht]
  refine ⟨rfl, rfl, ?_, ?_⟩
  · show -(rd (rd v1.levels (numDirections / 2)) s) = _
    rw [hw]
    simp [SGPoint.dot]
  · show -(rd (rd v1.levels (3 * numDirections / 4)) s) = _
    rw [hso]
    simp [SGPoint.dot]

/-- Witness of C14: with `quarterCircle`, which is exact at the quarter turns, the first pass
of `solve` on `capGame` ends, and after it the threat tuple is read from the levels of the
directions `(−1, 0)` and `(0, −1)`. -/
theorem C14_threat_update_witness :
    quarterCircle (1 / 2) = ⟨-1, 0⟩ ∧ quarterCircle (3 / 4) = ⟨0, -1⟩ ∧
    ∃ v1, solveIteration idleOps SGEnv.defaults capGame 2 (solveDirections quarterCircle)
        (SolveVars.init idleOps quarterCircle SGEnv.defaults capGame) = Except.ok v1 ∧
      rd (solveDirections quarterCircle) (numDirections / 2) = ⟨-1, 0⟩ ∧
      rd (solveDirections quarterCircle) (3 * numDirections / 4) = ⟨0, -1⟩ ∧
      ∀ s < capGame.numStates,
        (rd v1.threatTuple s).x = -(rd (rd v1.levels (numDirections / 2)) s) ∧
        (rd v1.threatTuple s).y = -(rd (rd v1.levels (3 * numDirections / 4)) s) ∧
        (rd v1.threatTuple s).x = (rd (rd v1.pivots (numDirections / 2)) s).x ∧
        (rd v1.threatTuple s).y = (rd (rd v1.pivots (3 * numDirections / 4)) s).y := by
  obtain ⟨hu, _⟩ := unit_init
  obtain ⟨v1, h, _⟩ := unit_iteration _ hu
  obtain ⟨_, hw, hs⟩ := quarterCircle_values
  have hc := C14_threat_update idleOps quarterCircle SGEnv.defaults capGame 2
    (SolveVars.init idleOps quarterCircle SGEnv.defaults capGame) v1 hw hs
    (by rw [hu.2.1]; rfl) hu.2.2.2.2.1 hu.2.2.2.2.2 h
  exact ⟨hw, hs, v1, h, hc.2.1, hc.2.2.1, hc.2.2.2.2.2.2⟩

/-! ## Claim on the sensitivity step without a candidate -/

/-- Counterexample to C12 as stated: on `capGame`, at the direction `(1, 0)`, no action of the
game gives `sensitivity` a candidate, and `sensitivity` returns its start value
`DBL_MAX − 1`; the body of the loop `while (!passEast)` then returns with the next direction
computed from that level and recorded, and the run of `solve_endogenous` ends after two
passes of the main loop without an exception. -/
theorem C12_counterexample :
    sensitivity capGame [⟨1, 0⟩] [0] [Regime.NonBinding] ⟨1, 0⟩ capActions = DBL_MAX - 1 ∧
    (∀ state < capGame.numStates, ∀ ait < (rd capActions state).length,
      sensitivityAction capGame [⟨1, 0⟩] [0] [Regime.NonBinding] ⟨1, 0⟩ capActions state
        (DBL_MAX - 1) ait = DBL_MAX - 1) ∧
    (∃ w, arcStep idleOps idleDirections SGEnv.defaults capGame 2 capActions
        { pivot := [⟨1, 0⟩], actionTuple := [0], regimeTuple := [Regime.Binding],
          currDir := ⟨1, 0⟩, passEast := false, newDirections := [], newLevels := [],
          newThreatTuple := [⟨1, 0⟩],
          iter := { iteration := 0, actions := capActions, threatTuple := [⟨1, 0⟩],
                    steps := [] } } = Except.ok w ∧
      w.currDir = nextDirection ⟨1, 0⟩ (DBL_MAX - 1) ∧
      w.newDirections = [nextDirection ⟨1, 0⟩ (DBL_MAX - 1)]) ∧
    (∃ res, solve_endogenous idleOps idleDirections quarterCircle SGEnv.defaults capGame 2 3
        = Except.ok res ∧ res.numIter = 2) := by
  obtain ⟨w, hw, _, _, _, _, hc, hd, _⟩ := unit_arcStep
    { pivot := [⟨1, 0⟩], actionTuple := [0], regimeTuple := [Regime.Binding],
      currDir := ⟨1, 0⟩, passEast := false, newDirections := [], newLevels := [],
      newThreatTuple := [⟨1, 0⟩],
      iter := { iteration := 0, actions := capActions, threatTuple := [⟨1, 0⟩],
                steps := [] } } Regime.Binding rfl rfl rfl rfl
  obtain ⟨res, h, hn, _⟩ := unit_solve_endogenous
  exact ⟨unit_sensitivity _ _, unit_no_candidate _ _, ⟨w, hw, hc, hd⟩, ⟨res, h, hn⟩⟩

/-- C12, amended: when, after `optimizePolicy` has returned, no action and regime gives the
sensitivity step of `solve_endogenous` a candidate level, `sensitivity` returns its start
value `DBL_MAX − 1`, and the body of the loop `while (!passEast)` returns normally: it
computes the next direction from that level, normalises it, records it and goes on with its
rotation.  No run of `solve_endogenous` ends with the exception `NO_ADMISSIBLE_DIRECTION`. -/
theorem C12_no_candidate_continues {A : Type} (ops : SGActionOps A) (dops : DirectionOps)
    (circle : ℚ → SGPoint) (env : SGEnv) (game : SGGame) (fuel arcFuel : Nat)
    (actions : List (List A)) (v : ArcVars A) (r : PolicyVars)
    (hopt : optimizePolicy env game fuel v.pivot v.actionTuple v.regimeTuple v.currDir
      (viewAll ops actions) = some r)
    (hno : ∀ state < game.numStates, ∀ ait < (rd (viewAll ops actions) state).length,
      sensitivityAction game r.pivot r.actionTuple r.regimeTuple v.currDir
        (viewAll ops actions) state (DBL_MAX - 1) ait = DBL_MAX - 1) :
    sensitivity game r.pivot r.actionTuple r.regimeTuple v.currDir (viewAll ops actions)
      = DBL_MAX - 1 ∧
    (∃ w, arcStep ops dops env game fuel actions v = Except.ok w ∧
      w.newDirections = v.newDirections ++
        [SGPoint.smul (1 / dops.norm (nextDirection v.currDir (DBL_MAX - 1)))
          (nextDirection v.currDir (DBL_MAX - 1))] ∧
      w.currDir = dops.rotateCCW
        (SGPoint.smul (1 / dops.norm (nextDirection v.currDir (DBL_MAX - 1)))
          (nextDirection v.currDir (DBL_MAX - 1)))) ∧
    solve_endogenous ops dops circle env game fuel arcFuel
      ≠ Except.error (Stop.thrown SGException.NO_ADMISSIBLE_DIRECTION) := by
  have hs := sensitivity_no_candidate game r.pivot r.actionTuple r.regimeTuple v.currDir
    (viewAll ops actions) hno
  refine ⟨hs, ?_, endoLoop_stop ops dops env game fuel arcFuel _ _⟩
  simp only [arcStep, hopt, hs]
  exact ⟨_, rfl, rfl, rfl⟩

/-- Witness of C12, amended: on `capGame` at the direction `(1, 0)`, `optimizePolicy` returns
and no action gives a candidate. -/
theorem C12_no_candidate_continues_witness :
    sensitivity capGame [⟨1, 0⟩] [0] [Regime.NonBinding] ⟨0, 1⟩ capActions = DBL_MAX - 1 ∧
    (∃ w, arcStep idleOps idleDirections SGEnv.defaults capGame 2 capActions
        { pivot := [⟨1, 0⟩], actionTuple := [0], regimeTuple := [Regime.NonBinding],
          currDir := ⟨0, 1⟩, passEast := false, newDirections := [], newLevels := [],
          newThreatTuple := [⟨1, 0⟩],
          iter := { iteration := 0, actions := capActions, threatTuple := [⟨1, 0⟩],
                    steps := [] } } = Except.ok w ∧
      w.newDirections =
        [SGPoint.smul (1 / idleDirections.norm (nextDirection ⟨0, 1⟩ (DBL_MAX - 1)))
          (nextDirection ⟨0, 1⟩ (DBL_MAX - 1))] ∧
      w.currDir = idleDirections.rotateCCW
        (SGPoint.smul (1 / idleDirections.norm (nextDirection ⟨0, 1⟩ (DBL_MAX - 1)))
          (nextDirection ⟨0, 1⟩ (DBL_MAX - 1)))) ∧
    solve_endogenous idleOps idleDirections quarterCircle SGEnv.defaults capGame 2 3
      ≠ Except.error (Stop.thrown SGException.NO_ADMISSIBLE_DIRECTION) :=
  C12_no_candidate_continues idleOps idleDirections quarterCircle SGEnv.defaults capGame 2 3
    capActions
    { pivot := [⟨1, 0⟩], actionTuple := [0], regimeTuple := [Regime.NonBinding],
      currDir := ⟨0, 1⟩, passEast := false, newDirections := [], newLevels := [],
      newThreatTuple := [⟨1, 0⟩],
      iter := { iteration := 0, actions := capActions, threatTuple := [⟨1, 0⟩],
                steps := [] } }
    { pivot := [⟨1, 0⟩], actionTuple := [0], regimeTuple := [Regime.NonBinding],
      newPivot := [⟨1, 0⟩], newActionTuple := [0],
      newRegimeTuple := [Regime.NonBinding], bestAPSNotBinding := [true],
      bestBindingPayoffs := [⟨0, 0⟩], pivotError := 0, numPolicyIters := 0,
      rounds := 1, bellmanPivot := [⟨1, 0⟩], bellmanPivotGap := 0 }
    (by
      rw [viewAll_idleOps]
      exact unit_run ⟨0, 1⟩ Regime.NonBinding)
    (by
      rw [viewAll_idleOps]
      exact unit_no_candidate ⟨0, 1⟩ Regime.NonBinding)

/-! ## Claim on the actions that survive -/

/-- C16: in `solve` and in `solve_endogenous`, with member functions of `SGAction_V2` that
leave `getAction()` as it is, the lists of actions never grow.  Over one pass of either main
loop the profiles of `actions[s]` after the pass are a sublist of those before it; in a run
that ends, the initial actions, the actions of every record of the solution and the final
actions form a chain in which the profiles of every later list are a sublist of those of
every earlier one, so that a profile that is absent from one of them is absent from all later
ones; and in each of them the profiles of a state are pairwise different and among the
profiles `0 .. numActions_total[s] − 1` of the game. -/
theorem C16_actions_never_grow {A : Type} (ops : SGActionOps A) (hk : KeepsProfile ops)
    (dops : DirectionOps) (circle : ℚ → SGPoint) (env : SGEnv) (game : SGGame)
    (fuel arcFuel : Nat) :
    (∀ v v1 : SolveVars A,
      solveIteration ops env game fuel (solveDirections circle) v = Except.ok v1 →
      Shrinks ops v.actions v1.actions) ∧
    (∀ v v1 : EndoVars A,
      endoIteration ops dops env game fuel arcFuel v = Except.ok v1 →
      Shrinks ops v.actions v1.actions) ∧
    (∀ res, solve ops circle env game fuel = Except.ok res →
      List.Pairwise (Shrinks ops)
        (((SolveVars.init ops circle env game).actions ::
          res.soln.map (fun it => it.actions)) ++ [res.actions]) ∧
      ∀ x ∈ ((SolveVars.init ops circle env game).actions ::
          res.soln.map (fun it => it.actions)) ++ [res.actions],
        ∀ s < game.numStates,
          (profiles ops (rd x s)).Sublist (List.range (rd game.numActions_total s)) ∧
          (profiles ops (rd x s)).Nodup) ∧
    (∀ res, solve_endogenous ops dops circle env game fuel arcFuel = Except.ok res →
      List.Pairwise (Shrinks ops)
        (((EndoVars.init ops circle env game).actions ::
          res.soln.map (fun it => it.actions)) ++ [res.actions]) ∧
      ∀ x ∈ ((EndoVars.init ops circle env game).actions ::
          res.soln.map (fun it => it.actions)) ++ [res.actions],
        ∀ s < game.numStates,
          (profiles ops (rd x s)).Sublist (List.range (rd game.numActions_total s)) ∧
          (profiles ops (rd x s)).Nodup) := by
  refine ⟨?_, ?_, ?_, ?_⟩
  · intro v v1 h
    obtain ⟨del, h1, h2, _⟩ := solveIteration_spec ops hk env game fuel _ v v1 h
    exact shrinks_trans h1 h2
  · intro v v1 h
    exact (endoIteration_spec ops hk dops env game fuel arcFuel v v1 h).1
  · intro res h
    have hinv := solveLoop_inv ops hk env game fuel (solveDirections circle)
      (SolveVars.init ops circle env game).actions env.MAXITERATIONS
      (SolveVars.init ops circle env game) res (solutionInv_init ops env _) h
    refine ⟨hinv.1, ?_⟩
    exact chain_profiles ops game _ _
      (fun s hs => initActions_profiles ops hk circle env game _ _ _ s hs) hinv.1
  · intro res h
    have hinv := endoLoop_inv ops hk dops env game fuel arcFuel
      (EndoVars.init ops circle env game).actions env.MAXITERATIONS
      (EndoVars.init ops circle env game) res (solutionInv_init ops env _) h
    refine ⟨hinv.1, ?_⟩
    exact chain_profiles ops game _ _
      (fun s hs => initActions_profiles ops hk circle env game _ _ _ s hs) hinv.1

/-- Witness of C16: the member functions of `idleOps` keep the profile, and the runs of
`solve` and of `solve_endogenous` on `capGame` end after two passes with a chain of shrinking
action lists. -/
theorem C16_actions_never_grow_witness :
    KeepsProfile idleOps ∧
    (∃ res, solve idleOps quarterCircle SGEnv.defaults capGame 2 = Except.ok res ∧
      res.numIter = 2 ∧
      List.Pairwise (Shrinks idleOps)
        (((SolveVars.init idleOps quarterCircle SGEnv.defaults capGame).actions ::
          res.soln.map (fun it => it.actions)) ++ [res.actions])) ∧
    (∃ res, solve_endogenous idleOps idleDirections quarterCircle SGEnv.defaults capGame 2 3
        = Except.ok res ∧ res.numIter = 2 ∧
      List.Pairwise (Shrinks idleOps)
        (((EndoVars.init idleOps quarterCircle SGEnv.defaults capGame).actions ::
          res.soln.map (fun it => it.actions)) ++ [res.actions])) := by
  obtain ⟨_, res, _, _, h, hn, _⟩ := unit_solve
  obtain ⟨res2, h2, hn2, _⟩ := unit_solve_endogenous
  exact ⟨keepsProfile_idleOps,
    ⟨res, h, hn,
      ((C16_actions_never_grow idleOps keepsProfile_idleOps idleDirections quarterCircle
        SGEnv.defaults capGame 2 3).2.2.1 res h).1⟩,
    ⟨res2, h2, hn2,
      ((C16_actions_never_grow idleOps keepsProfile_idleOps idleDirections quarterCircle
        SGEnv.defaults capGame 2 3).2.2.2 res2 h2).1⟩⟩

/-! ## Claim on the records of the solution -/

/-- Counterexample to C18 as stated: with the default `STOREITERATIONS = 1`, the runs of
`solve` and of `solve_endogenous` on `capGame` make two passes of the main loop and retain
two records, those of the passes 0 and 1, not only the last one. -/
theorem C18_counterexample :
    SGEnv.defaults.STOREITERATIONS = 1 ∧
    (∃ res, solve idleOps quarterCircle SGEnv.defaults capGame 2 = Except.ok res ∧
      res.numIter = 2 ∧ res.soln.length = 2 ∧
      res.soln.map (fun it => it.iteration) = [0, 1]) ∧
    (∃ res, solve_endogenous idleOps idleDirections quarterCircle SGEnv.defaults capGame 2 3
        = Except.ok res ∧ res.numIter = 2 ∧ res.soln.length = 2 ∧
      res.soln.map (fun it => it.iteration) = [0, 1]) := by
  obtain ⟨res, h, hn, hr⟩ := unit_records
  obtain ⟨res2, h2, hn2, _⟩ := unit_solve_endogenous
  have hr2 := endoLoop_records idleOps idleDirections SGEnv.defaults capGame 2 3
    SGEnv.defaults.MAXITERATIONS (EndoVars.init idleOps quarterCircle SGEnv.defaults capGame)
    res2 (by simp [EndoVars.init]) h2
  rw [hn2] at hr2
  have hr2 : res2.soln.map (fun it => it.iteration) = [0, 1] := by
    rw [hr2]
    rfl
  refine ⟨rfl, ⟨res, h, hn, ?_, hr⟩, ⟨res2, h2, hn2, ?_, hr2⟩⟩
  · have := congrArg List.length hr
    simpa using this
  · have := congrArg List.length hr2
    simpa using this

/-- C18, amended: `STOREITERATIONS` is read as a truth value.  When a run of `solve` or of
`solve_endogenous` ends after `numIter` passes of the main loop, the solution holds no record
if `STOREITERATIONS = 0`, and otherwise (for `STOREITERATIONS = 1` too) it holds the records
of all the passes, numbered `0 .. numIter − 1` in order. -/
theorem C18_records_retained {A : Type} (ops : SGActionOps A) (dops : DirectionOps)
    (circle : ℚ → SGPoint) (env : SGEnv) (game : SGGame) (fuel arcFuel : Nat) :
    (∀ res, solve ops circle env game fuel = Except.ok res →
      res.soln.map (fun it => it.iteration) =
        (if env.STOREITERATIONS = 0 then [] else List.range res.numIter) ∧
      res.soln.length = (if env.STOREITERATIONS = 0 then 0 else res.numIter)) ∧
    (∀ res, solve_endogenous ops dops circle env game fuel arcFuel = Except.ok res →
      res.soln.map (fun it => it.iteration) =
        (if env.STOREITERATIONS = 0 then [] else List.range res.numIter) ∧
      res.soln.length = (if env.STOREITERATIONS = 0 then 0 else res.numIter)) := by
  have hlen : ∀ (l : List (SGIteration_V2 A)) (n : Nat),
      l.map (fun it => it.iteration) =
        (if env.STOREITERATIONS = 0 then [] else List.range n) →
      l.length = (if env.STOREITERATIONS = 0 then 0 else n) := by
    intro l n h
    have := congrArg List.length h
    rw [List.length_map] at this
    rw [this]
    split <;> simp
  refine ⟨?_, ?_⟩
  · intro res h
    have hr := solveLoop_records ops env game fuel (solveDirections circle)
      env.MAXITERATIONS (SolveVars.init ops circle env game) res
      (by simp [SolveVars.init]) h
    exact ⟨hr, hlen _ _ hr⟩
  · intro res h
    have hr := endoLoop_records ops dops env game fuel arcFuel
      env.MAXITERATIONS (EndoVars.init ops circle env game) res
      (by simp [EndoVars.init]) h
    exact ⟨hr, hlen _ _ hr⟩

/-- Witness of C18, amended: the run of `solve` on `capGame` ends after two passes, and its
solution holds the records of both. -/
theorem C18_records_retained_witness :
    ∃ res, solve idleOps quarterCircle SGEnv.defaults capGame 2 = Except.ok res ∧
      res.numIter = 2 ∧
      res.soln.map (fun it => it.iteration) =
        (if SGEnv.defaults.STOREITERATIONS = 0 then [] else List.range res.numIter) ∧
      res.soln.length = (if SGEnv.defaults.STOREITERATIONS = 0 then 0 else res.numIter) := by
  obtain ⟨_, res, _, _, h, hn, _⟩ := unit_solve
  exact ⟨res, h, hn,
    (C18_records_retained idleOps idleDirections quarterCircle SGEnv.defaults capGame 2 3).1
      res h⟩

/-! ## Claim on the deletion passes -/

/-- C17, the code at a failing input: in the prisoner's dilemma with the feasible tuple
`(1, 1)`, neither of the two listed actions is supportable.  The deletion pass of `solve`
erases the first and passes over the second, which stays in the list without having been
examined; on the list that holds only one of them the pass increments the iterator at
`end()`.  The closing pass of `solve_endogenous` does the same. -/
theorem C17_deletion_pass_skips :
    erasePass idleOps.updateTrim (supportableIn idleOps prisonersDilemma pdThreat 0)
        (rd pdSurvivors 0) =
      Except.ok ([rd (rd pdSurvivors 0) 1], [rd (rd pdSurvivors 0) 0]) ∧
    supportableIn idleOps prisonersDilemma pdThreat 0 (rd (rd pdSurvivors 0) 1) = false ∧
    deletionStep idleOps prisonersDilemma pdThreat pdSurvivors 0 =
      Except.ok [[rd (rd pdSurvivors 0) 1]] ∧
    deletionStep idleOps prisonersDilemma pdThreat [[rd (rd pdSurvivors 0) 1]] 0 =
      Except.error Stop.undefinedBehaviour ∧
    retrimStep idleOps prisonersDilemma pdThreat pdThreat [] [] pdSurvivors 0 =
      Except.ok [[rd (rd pdSurvivors 0) 1]] ∧
    retrimStep idleOps prisonersDilemma pdThreat pdThreat [] [] [[rd (rd pdSurvivors 0) 1]] 0 =
      Except.error Stop.undefinedBehaviour := by
  have k0 : supportableIn idleOps prisonersDilemma pdThreat 0 (rd (rd pdSurvivors 0) 0)
      = false := by
    simp [supportableIn, idleOps, prisonersDilemma, pdThreat, pdSurvivors, rd, SGPoint.ge,
      SGTuple.expectation, SGTuple.expectationCoord, SGPoint.coord, List.range_succ]
    norm_num
  have k1 : supportableIn idleOps prisonersDilemma pdThreat 0 (rd (rd pdSurvivors 0) 1)
      = false := by
    simp [supportableIn, idleOps, prisonersDilemma, pdThreat, pdSurvivors, rd, SGPoint.ge,
      SGTuple.expectation, SGTuple.expectationCoord, SGPoint.coord, List.range_succ]
    norm_num
  have e2 : erasePass idleOps.updateTrim (supportableIn idleOps prisonersDilemma pdThreat 0)
      (rd pdSurvivors 0) =
      Except.ok ([rd (rd pdSurvivors 0) 1], [rd (rd pdSurvivors 0) 0]) := by
    show erasePass idleOps.updateTrim (supportableIn idleOps prisonersDilemma pdThreat 0)
      [rd (rd pdSurvivors 0) 0, rd (rd pdSurvivors 0) 1] = _
    simp only [erasePass]
    rw [if_neg (by
      show ¬ supportableIn idleOps prisonersDilemma pdThreat 0 (rd (rd pdSurvivors 0) 0) = true
      rw [k0]
      exact Bool.false_ne_true)]
    rfl
  have e1 : erasePass idleOps.updateTrim (supportableIn idleOps prisonersDilemma pdThreat 0)
      [rd (rd pdSurvivors 0) 1] = Except.error Stop.undefinedBehaviour := by
    simp only [erasePass]
    rw [if_neg (by
      show ¬ supportableIn idleOps prisonersDilemma pdThreat 0 (rd (rd pdSurvivors 0) 1) = true
      rw [k1]
      exact Bool.false_ne_true)]
  have hre : ∀ a, retrimAction idleOps prisonersDilemma pdThreat [] [] 0 a
      = idleOps.updateTrim a := fun _ => rfl
  have hfun : retrimAction idleOps prisonersDilemma pdThreat [] [] 0 = idleOps.updateTrim :=
    funext hre
  refine ⟨e2, k1, ?_, ?_, ?_, ?_⟩
  · simp only [deletionStep, e2]
    rfl
  · simp only [deletionStep]
    show (erasePass idleOps.updateTrim (supportableIn idleOps prisonersDilemma pdThreat 0)
      [rd (rd pdSurvivors 0) 1]).map _ = _
    rw [e1]
    rfl
  · simp only [retrimStep, hfun, e2]
    rfl
  · simp only [retrimStep, hfun]
    show (erasePass idleOps.updateTrim (supportableIn idleOps prisonersDilemma pdThreat 0)
      [rd (rd pdSurvivors 0) 1]).map _ = _
    rw [e1]
    rfl

/-! ## Claims on `updateTrim` and on the cases of `intersectRaySegment` -/

/-- Counterexample to C21 as stated: in `staleAction`, `tuples[i]` is as long as `points[i]`
and `trimmedPoints[i]` has 0 or 2 points for both players; after `updateTrim`, `points[0]` has
the two trimmed points and `tuples[0]` is still empty. -/
theorem C21_counterexample :
    (rd staleAction.tuples 0).length = (rd staleAction.points 0).length ∧
    (rd staleAction.tuples 1).length = (rd staleAction.points 1).length ∧
    (rd staleAction.trimmedPoints 0).length = 2 ∧
    (rd staleAction.trimmedPoints 1).length = 0 ∧
    (rd staleAction.updateTrim.points 0).length = 2 ∧
    (rd staleAction.updateTrim.tuples 0).length = 0 := by
  decide

/-- The tuples after `updateTrim`: the entry of a player below 2 whose trimmed points are
empty is cleared, every other entry is kept. -/
theorem updateTrim_tuples (a : SGAction_PencilSharpening) (i : Nat) :
    rd a.updateTrim.tuples i =
      if i < 2 ∧ i < a.tuples.length ∧ (rd a.trimmedPoints i).length = 0 then []
      else rd a.tuples i := by
  have hf : ∀ (b : SGAction_PencilSharpening) (p : Nat),
      (if (rd b.points p).length = 0 then { b with tuples := b.tuples.set p [] }
        else b).points = b.points ∧
      (if (rd b.points p).length = 0 then { b with tuples := b.tuples.set p [] }
        else b).tuples.length = b.tuples.length ∧
      rd (if (rd b.points p).length = 0 then { b with tuples := b.tuples.set p [] }
        else b).tuples i =
        if (p = i ∧ p < b.tuples.length) ∧ (rd b.points p).length = 0 then []
        else rd b.tuples i := by
    intro b p
    by_cases c : (rd b.points p).length = 0
    · rw [if_pos c]
      simp only [List.length_set, rd_set, c, and_true, true_and]
    · rw [if_neg c]
      simp only [c, and_false, if_false, true_and]
  unfold SGAction_PencilSharpening.updateTrim
  simp only [List.foldl_cons, List.foldl_nil]
  obtain ⟨p0, l0, r0⟩ := hf { a with points := a.trimmedPoints } 0
  obtain ⟨p1, l1, r1⟩ := hf
    (if (rd ({ a with points := a.trimmedPoints } : SGAction_PencilSharpening).points 0).length
        = 0 then
      { ({ a with points := a.trimmedPoints } : SGAction_PencilSharpening) with
        tuples := ({ a with points := a.trimmedPoints } :
          SGAction_PencilSharpening).tuples.set 0 [] }
    else { a with points := a.trimmedPoints }) 1
  rw [r1, p0, l0, r0]
  by_cases h0 : i = 0
  · subst h0
    by_cases c : (rd a.trimmedPoints 0).length = 0 <;> by_cases l : 0 < a.tuples.length <;>
      simp [c, l]
  · by_cases h1 : i = 1
    · subst h1
      by_cases c : (rd a.trimmedPoints 1).length = 0 <;> by_cases l : 1 < a.tuples.length <;>
        simp [c, l]
    · have h2 : ¬ i < 2 := by omega
      simp [h2, Ne.symm h0, Ne.symm h1]

/-- C21 (amended): for every action with one `tuples` entry per player in which, before the
call, `|tuples[i]| = |points[i]|` and `trimmedPoints[i]` either is empty or has two points
while `points[i]` has two points too, `updateTrim` leaves `points = trimmedPoints`,
`|tuples[i]| = |points[i]|` and `|points[i]| ∈ {0, 2}` for both players. -/
theorem C21_updateTrim_commits (a : SGAction_PencilSharpening) (ht : a.tuples.length = 2)
    (h : ∀ i < 2, (rd a.tuples i).length = (rd a.points i).length ∧
      ((rd a.trimmedPoints i).length = 0 ∨
        ((rd a.trimmedPoints i).length = 2 ∧ (rd a.points i).length = 2))) :
    a.updateTrim.points = a.trimmedPoints ∧
    ∀ i < 2, (rd a.updateTrim.tuples i).length = (rd a.updateTrim.points i).length ∧
      ((rd a.updateTrim.points i).length = 0 ∨ (rd a.updateTrim.points i).length = 2) := by
  refine ⟨updateTrim_points a, ?_⟩
  intro i hi
  rw [updateTrim_points, updateTrim_tuples]
  obtain ⟨h1, h2⟩ := h i hi
  rcases h2 with e | ⟨e, e2⟩
  · refine ⟨?_, Or.inl e⟩
    rw [if_pos ⟨hi, by omega, e⟩, e]
    rfl
  · refine ⟨?_, Or.inr e⟩
    rw [if_neg (by omega), h1, e2, e]

/-- Witness of C21 (amended): `freshAction`, whose trim in progress is a copy of its binding
payoffs. -/
theorem C21_updateTrim_commits_witness :
    freshAction.tuples.length = 2 ∧
    freshAction.updateTrim.points = freshAction.trimmedPoints ∧
    ∀ i < 2, (rd freshAction.updateTrim.tuples i).length
        = (rd freshAction.updateTrim.points i).length ∧
      ((rd freshAction.updateTrim.points i).length = 0 ∨
        (rd freshAction.updateTrim.points i).length = 2) :=
  ⟨rfl, C21_updateTrim_commits freshAction rfl (by decide)⟩

/-- Counterexample to C23 as stated: with the default tolerances and the ray of level 0, the
endpoints of the segment have the levels `5e-13` and `−1`, both at most `level + ICTOL`; the
clip moves the first endpoint onto the ray. -/
theorem C23_counterexample :
    (SGPoint.getNormal ⟨0, 1⟩).dot ⟨5 / 10 ^ 13, 0⟩ ≤
      (SGPoint.getNormal ⟨0, 1⟩).dot ⟨0, 0⟩ + SGEnv.defaults.ICTOL ∧
    (SGPoint.getNormal ⟨0, 1⟩).dot ⟨-1, 0⟩ ≤
      (SGPoint.getNormal ⟨0, 1⟩).dot ⟨0, 0⟩ + SGEnv.defaults.ICTOL ∧
    intersectRaySegment SGEnv.defaults ⟨0, 0⟩ ⟨0, 1⟩ [⟨5 / 10 ^ 13, 0⟩, ⟨-1, 0⟩] =
      [⟨0, 0⟩, ⟨-1, 0⟩] ∧
    intersectRaySegment SGEnv.defaults ⟨0, 0⟩ ⟨0, 1⟩ [⟨5 / 10 ^ 13, 0⟩, ⟨-1, 0⟩] ≠
      [⟨5 / 10 ^ 13, 0⟩, ⟨-1, 0⟩] := by
  have habs : |(2000000000001 : ℚ) / 2000000000000| = 2000000000001 / 2000000000000 :=
    abs_of_pos (by norm_num)
  have hclip : intersectRaySegment SGEnv.defaults ⟨0, 0⟩ ⟨0, 1⟩
      [⟨5 / 10 ^ 13, 0⟩, ⟨-1, 0⟩] = [⟨0, 0⟩, ⟨-1, 0⟩] := by
    simp only [intersectRaySegment, SGEnv.defaults, SGPoint.getNormal, SGPoint.dot,
      SGPoint.smul, SGPoint.add]
    norm_num [habs]
  refine ⟨by norm_num [SGEnv.defaults, SGPoint.getNormal, SGPoint.dot],
    by norm_num [SGEnv.defaults, SGPoint.getNormal, SGPoint.dot], hclip, ?_⟩
  rw [hclip]
  intro h
  have := congrArg (fun l => (rd l 0).x) h
  norm_num [rd] at this

/-- C23 (amended): for tolerances `ICTOL ≥ 0` and `INTERSECTTOL ≥ 0`, a two-point segment whose
endpoints both satisfy `normal(direction)·x ≤ normal(direction)·pivot`, without the tolerance,
is left unchanged by `intersectRaySegment`. -/
theorem C23_below_unchanged (env : SGEnv) (hIC : 0 ≤ env.ICTOL) (hI : 0 ≤ env.INTERSECTTOL)
    (pivot direction a b : SGPoint)
    (ha : direction.getNormal.dot a ≤ direction.getNormal.dot pivot)
    (hb : direction.getNormal.dot b ≤ direction.getNormal.dot pivot) :
    intersectRaySegment env pivot direction [a, b] = [a, b] := by
  have hcomm : direction.getNormal.dot pivot = pivot.dot direction.getNormal := by
    simp only [SGPoint.dot]
    ring
  rw [hcomm] at ha hb
  apply intersectRaySegment_fixed env pivot direction a b hI
  · intro h
    linarith [h.1]
  · rcases lt_or_eq_of_le ha with ha1 | ha1
    · rcases lt_or_eq_of_le hb with hb1 | hb1
      · exact Or.inl ⟨ha1, hb1⟩
      · exact Or.inr (Or.inr (Or.inl ⟨ha, hb1⟩))
    · exact Or.inr (Or.inr (Or.inr ⟨ha1, hb⟩))

/-- Witness of C23 (amended): the default tolerances and a segment with one endpoint on the
ray and one below it. -/
theorem C23_below_unchanged_witness :
    0 ≤ SGEnv.defaults.ICTOL ∧ 0 ≤ SGEnv.defaults.INTERSECTTOL ∧
    (SGPoint.getNormal ⟨0, 1⟩).dot ⟨0, 3⟩ ≤ (SGPoint.getNormal ⟨0, 1⟩).dot ⟨0, 0⟩ ∧
    (SGPoint.getNormal ⟨0, 1⟩).dot ⟨-1, 0⟩ ≤ (SGPoint.getNormal ⟨0, 1⟩).dot ⟨0, 0⟩ ∧
    intersectRaySegment SGEnv.defaults ⟨0, 0⟩ ⟨0, 1⟩ [⟨0, 3⟩, ⟨-1, 0⟩] = [⟨0, 3⟩, ⟨-1, 0⟩] :=
  ⟨by norm_num [SGEnv.defaults], by norm_num [SGEnv.defaults],
    by norm_num [SGPoint.getNormal, SGPoint.dot],
    by norm_num [SGPoint.getNormal, SGPoint.dot],
    C23_below_unchanged SGEnv.defaults (by norm_num [SGEnv.defaults])
      (by norm_num [SGEnv.defaults]) ⟨0, 0⟩ ⟨0, 1⟩ ⟨0, 3⟩ ⟨-1, 0⟩
      (by norm_num [SGPoint.getNormal, SGPoint.dot])
      (by norm_num [SGPoint.getNormal, SGPoint.dot])⟩

/-- Counterexample to C24 as stated: with the default tolerances and the ray of level 0, the
endpoints of the segment have the levels `5e-13`, above the ray and not above `ICTOL`, and
`−4e-13`, below the ray; the levels differ by less than `INTERSECTTOL`, and the clip leaves the
two points as they are. -/
theorem C24_counterexample :
    |(SGPoint.getNormal ⟨0, 1⟩).dot ⟨5 / 10 ^ 13, 0⟩ -
      (SGPoint.getNormal ⟨0, 1⟩).dot ⟨-4 / 10 ^ 13, 0⟩| < SGEnv.defaults.INTERSECTTOL ∧
    (SGPoint.getNormal ⟨0, 1⟩).dot ⟨-4 / 10 ^ 13, 0⟩ < (SGPoint.getNormal ⟨0, 1⟩).dot ⟨0, 0⟩ ∧
    (SGPoint.getNormal ⟨0, 1⟩).dot ⟨0, 0⟩ < (SGPoint.getNormal ⟨0, 1⟩).dot ⟨5 / 10 ^ 13, 0⟩ ∧
    intersectRaySegment SGEnv.defaults ⟨0, 0⟩ ⟨0, 1⟩ [⟨5 / 10 ^ 13, 0⟩, ⟨-4 / 10 ^ 13, 0⟩] =
      [⟨5 / 10 ^ 13, 0⟩, ⟨-4 / 10 ^ 13, 0⟩] ∧
    intersectRaySegment SGEnv.defaults ⟨0, 0⟩ ⟨0, 1⟩ [⟨5 / 10 ^ 13, 0⟩, ⟨-4 / 10 ^ 13, 0⟩] ≠
      [] := by
  have habs : |(9 : ℚ) / 10000000000000| = 9 / 10000000000000 := abs_of_pos (by norm_num)
  have hclip : intersectRaySegment SGEnv.defaults ⟨0, 0⟩ ⟨0, 1⟩
      [⟨5 / 10 ^ 13, 0⟩, ⟨-4 / 10 ^ 13, 0⟩] = [⟨5 / 10 ^ 13, 0⟩, ⟨-4 / 10 ^ 13, 0⟩] := by
    simp only [intersectRaySegment, SGEnv.defaults, SGPoint.getNormal, SGPoint.dot,
      SGPoint.smul, SGPoint.add]
    norm_num [habs]
  refine ⟨?_, by norm_num [SGPoint.getNormal, SGPoint.dot],
    by norm_num [SGPoint.getNormal, SGPoint.dot], hclip, ?_⟩
  · simp only [SGPoint.getNormal, SGPoint.dot, SGEnv.defaults]
    norm_num [habs]
  · rw [hclip]
    exact List.cons_ne_nil _ _

/-- C24 (amended): for `INTERSECTTOL ≥ 0`, a two-point segment whose endpoints are not both
above `level + ICTOL` and whose levels satisfy `|l0 − l1| ≤ INTERSECTTOL` is left unchanged by
`intersectRaySegment`: no intersection is taken, and the segment is not emptied. -/
theorem C24_degenerate_unchanged (env : SGEnv) (hI : 0 ≤ env.INTERSECTTOL)
    (pivot direction a b : SGPoint)
    (hab : ¬ (direction.getNormal.dot a > direction.getNormal.dot pivot + env.ICTOL ∧
      direction.getNormal.dot b > direction.getNormal.dot pivot + env.ICTOL))
    (hd : |direction.getNormal.dot a - direction.getNormal.dot b| ≤ env.INTERSECTTOL) :
    intersectRaySegment env pivot direction [a, b] = [a, b] := by
  have hcomm : direction.getNormal.dot pivot = pivot.dot direction.getNormal := by
    simp only [SGPoint.dot]
    ring
  rw [hcomm] at hab
  exact intersectRaySegment_fixed env pivot direction a b hI hab (Or.inr (Or.inl hd))

/-- Witness of C24 (amended): the segment of the counterexample. -/
theorem C24_degenerate_unchanged_witness :
    0 ≤ SGEnv.defaults.INTERSECTTOL ∧
    intersectRaySegment SGEnv.defaults ⟨0, 0⟩ ⟨0, 1⟩ [⟨3 / 10 ^ 13, 0⟩, ⟨-2 / 10 ^ 13, 0⟩] =
      [⟨3 / 10 ^ 13, 0⟩, ⟨-2 / 10 ^ 13, 0⟩] :=
  ⟨by norm_num [SGEnv.defaults],
    C24_degenerate_unchanged SGEnv.defaults (by norm_num [SGEnv.defaults]) ⟨0, 0⟩ ⟨0, 1⟩
      ⟨3 / 10 ^ 13, 0⟩ ⟨-2 / 10 ^ 13, 0⟩
      (by norm_num [SGEnv.defaults, SGPoint.getNormal, SGPoint.dot])
      (by
        have habs : |(1 : ℚ) / 2000000000000| = 1 / 2000000000000 :=
          abs_of_pos (by norm_num)
        simp only [SGPoint.getNormal, SGPoint.dot, SGEnv.defaults]
        norm_num [habs])⟩

/-! ## Claim on the skipped players of `calculateMinIC` -/

/-- One step of the loop of the member `calculateMinIC` leaves `state` and `action` as they
are, and changes `minIC` in the coordinate of its player only, and only if the flag is set. -/
theorem calculateMinIC_coords (a : SGAction_PencilSharpening) (game : SGGame)
    (update : List Bool) (threatTuple : SGTuple) (hn : game.numPlayers = 2) :
    (a.calculateMinIC game update threatTuple).state = a.state ∧
    (a.calculateMinIC game update threatTuple).action = a.action ∧
    (a.calculateMinIC game update threatTuple).minIC.coord 0 =
      (if rd update 0 then calculateMinIC game a.action a.state 0 threatTuple
        else a.minIC.coord 0) ∧
    (a.calculateMinIC game update threatTuple).minIC.coord 1 =
      (if rd update 1 then calculateMinIC game a.action a.state 1 threatTuple
        else a.minIC.coord 1) := by
  unfold SGAction_PencilSharpening.calculateMinIC
  rw [hn]
  cases h0 : rd update 0 <;> cases h1 : rd update 1 <;>
    simp [List.range_succ, h0, h1, SGPoint.setCoord, SGPoint.coord]

/-- The member `calculateMinIC(game, update, threatTuple)` does not read the vector
`unconstrained`: the action it leaves is the same whatever that vector holds.  In a game of
two players it skips exactly the players whose flag `update[i]` is off, whose `minIC[i]` stays
as it was, and for every player whose flag is set `minIC[i]` becomes the value of the static
`calculateMinIC`, the largest gain of a deviation. -/
theorem calculateMinIC_update_only (a : SGAction_PencilSharpening) (game : SGGame)
    (update : List Bool) (threatTuple : SGTuple) (hn : game.numPlayers = 2) :
    (∀ u : List Bool,
      a.calculateMinIC { game with unconstrained := u } update threatTuple =
        a.calculateMinIC game update threatTuple) ∧
    ∀ i < 2,
      (rd update i = false →
        (a.calculateMinIC game update threatTuple).minIC.coord i = a.minIC.coord i) ∧
      (rd update i = true →
        (a.calculateMinIC game update threatTuple).minIC.coord i =
          calculateMinIC game a.action a.state i threatTuple) := by
  obtain ⟨_, _, c0, c1⟩ := calculateMinIC_coords a game update threatTuple hn
  refine ⟨fun u => rfl, ?_⟩
  intro i hi
  have hcases : i = 0 ∨ i = 1 := by omega
  rcases hcases with rfl | rfl
  · refine ⟨fun h => ?_, fun h => ?_⟩
    · rw [c0, h]
      rfl
    · rw [c0, h]
      rfl
  · refine ⟨fun h => ?_, fun h => ?_⟩
    · rw [c1, h]
      rfl
    · rw [c1, h]
      rfl

/-- The action that `calculateMinIC` leaves in the prisoner's dilemma with player 1
unconstrained, both flags set: `minIC = (7/3, 7/3)`. -/
theorem pd_minIC :
    pdCooperate.calculateMinIC pdHalfConstrained [true, true] pdThreat =
      pdBound (7 / 3) := by
  simp [SGAction_PencilSharpening.calculateMinIC, calculateMinIC, currentGains,
    deviationIndex, indexToVector, vectorToIndex, aboveBest, rd, List.range_succ,
    SGTuple.expectationCoord, SGPoint.coord, SGPoint.setCoord, pdThreat, pdHalfConstrained,
    prisonersDilemma, pdCooperate, pdBound]
  norm_num

/-- The candidate of player 0 collected from `pdHistory` for `minIC[0] = 7/3`, whatever
`minIC[1]` is: the point `(7/3, 2)` on the segment of the two tuples. -/
theorem pd_candidates (m : ℚ) :
    collectCandidates SGEnv.defaults pdHalfConstrained
        (pdBound m) pdHistory pdThreat 0 0 =
      ([⟨7 / 3, 2⟩], [1]) := by
  have habs : |(2 : ℚ)| = 2 := abs_of_pos (by norm_num)
  simp [collectCandidates, historyWalk, walkBody, pdHistory, pdBound, pdHalfConstrained,
    prisonersDilemma, pdThreat, rd, SGTuple.expectation, SGTuple.expectationCoord,
    SGEnv.defaults, SGPoint.coord, SGTuple.strictlyLessThan, SGTuple.addPoint, SGPoint.add,
    SGPoint.smul, SGPoint.const, List.range_succ]
  norm_num [habs]

theorem pd_maxmin : SGTuple.maxmin [(⟨7 / 3, 2⟩ : SGPoint)] (1 - 0) = (2, 0, 2, 0) := by
  norm_num [SGTuple.maxmin, SGTuple.maxminStep, List.range_succ, rd, SGPoint.coord]

/-- The binding set of player 0 after `calculateBindingContinuations` in the prisoner's
dilemma with player 1 unconstrained, for `minIC = (7/3, m)`: the candidate `(7/3, 2)` is
kept when `m ≤ 2` and dropped when `m > 2`. -/
theorem pd_points (m : ℚ) :
    rd (calculateBindingContinuations SGEnv.defaults [true, true] pdHalfConstrained pdHistory
        pdThreat [⟨1, 1⟩] ⟨1, 0⟩ 0 (pdBound m)).points 0 =
      if m ≤ 2 then [⟨7 / 3, 2⟩, ⟨7 / 3, 2⟩] else [] := by
  have hclear : clearPlayer [true, true] pdHalfConstrained
      (clearPlayer [true, true] pdHalfConstrained (pdBound m) 0) 1 =
      pdBound m := by
    simp [clearPlayer, recomputed, rd, pdHalfConstrained, pdBound]
  simp only [calculateBindingContinuations, List.foldl_cons, List.foldl_nil, hclear]
  rw [((selectPlayer_frame SGEnv.defaults [true, true] pdHalfConstrained pdHistory pdThreat
    [⟨1, 1⟩] ⟨1, 0⟩ 0 _ 1).2.2.2 0 (by decide)).1]
  rcases selectPlayer_recomputed SGEnv.defaults [true, true] pdHalfConstrained pdHistory
    pdThreat [⟨1, 1⟩] ⟨1, 0⟩ 0 (pdBound m) 0
    (by simp [recomputed, rd, pdHalfConstrained, prisonersDilemma])
    (by simp [pdBound]) (by simp [pdBound]) (by simp [pdBound, rd])
    (by simp [pdBound, rd]) with ⟨hn, h⟩ | ⟨hg, h, _⟩
  · rw [pd_candidates, pd_maxmin] at hn
    have hm : ¬ m ≤ 2 := by
      simpa [SGPoint.coord, pdBound] using hn
    rw [h, if_neg hm]
    simp [pdBound, rd]
  · rw [pd_candidates, pd_maxmin] at hg
    have hm : m ≤ 2 := by
      simpa [SGPoint.coord, pdBound] using hg
    rw [h, if_pos hm, pd_candidates, pd_maxmin]
    have hlt : ¬ (2 : ℚ) < m := not_lt.mpr hm
    simp [intersectRaySegment, pdBound, pdHalfConstrained, prisonersDilemma, rd,
      SGTuple.expectation, SGTuple.expectationCoord, SGPoint.coord, SGPoint.getNormal,
      SGPoint.dot, SGEnv.defaults, hlt, List.range_succ]
    norm_num

/-- C22, the code at a failing input: in the prisoner's dilemma with player 1 marked as
unconstrained (`unconstrained = [false, true]`), the member `calculateMinIC` with both update
flags set does not skip player 1: it sets `minIC[1] = 7/3`, the largest gain of a deviation,
not the most negative value.  `calculateBindingContinuations` then imposes that constraint on
the binding set of player 0: the only candidate `(7/3, 2)` fails `2 ≥ minIC[1]` and
`points[0]` is left empty, whereas with `minIC[1]` at the most negative value the candidate is
kept.  With both players unconstrained `minIC[0]` becomes `7/3` in the same way.  In general
the member `calculateMinIC` of a game of two players does not read `unconstrained`: it gives
the same action whatever that vector holds, skips exactly the players whose flag `update[i]`
is off, and sets `minIC[i]` to the value of the static `calculateMinIC` for every player
whose flag is set. -/
theorem C22_unconstrained_player_constrained :
    rd pdHalfConstrained.unconstrained 1 = true ∧
    pdCooperate.calculateMinIC pdHalfConstrained [true, true] pdThreat = pdBound (7 / 3) ∧
    (pdCooperate.calculateMinIC pdHalfConstrained [true, true] pdThreat).minIC.coord 1
      = 7 / 3 ∧
    (pdCooperate.calculateMinIC pdHalfConstrained [true, true] pdThreat).minIC.coord 1
      ≠ -DBL_MAX ∧
    recomputed [true, true] pdHalfConstrained 0 = true ∧
    recomputed [true, true] pdHalfConstrained 1 = false ∧
    collectCandidates SGEnv.defaults pdHalfConstrained
        (pdCooperate.calculateMinIC pdHalfConstrained [true, true] pdThreat) pdHistory
        pdThreat 0 0 = ([⟨7 / 3, 2⟩], [1]) ∧
    rd (calculateBindingContinuations SGEnv.defaults [true, true] pdHalfConstrained pdHistory
        pdThreat [⟨1, 1⟩] ⟨1, 0⟩ 0
        (pdCooperate.calculateMinIC pdHalfConstrained [true, true] pdThreat)).points 0 = [] ∧
    rd (calculateBindingContinuations SGEnv.defaults [true, true] pdHalfConstrained pdHistory
        pdThreat [⟨1, 1⟩] ⟨1, 0⟩ 0 (pdBound (-DBL_MAX))).points 0
      = [⟨7 / 3, 2⟩, ⟨7 / 3, 2⟩] ∧
    rd pdUnconstrained.unconstrained 0 = true ∧
    (pdCooperate.calculateMinIC pdUnconstrained [true, true] pdThreat).minIC.coord 0
      = 7 / 3 ∧
    ∀ (a : SGAction_PencilSharpening) (game : SGGame) (update : List Bool)
      (threatTuple : SGTuple), game.numPlayers = 2 →
      (∀ u : List Bool,
        a.calculateMinIC { game with unconstrained := u } update threatTuple =
          a.calculateMinIC game update threatTuple) ∧
      ∀ i < 2,
        (rd update i = false →
          (a.calculateMinIC game update threatTuple).minIC.coord i = a.minIC.coord i) ∧
        (rd update i = true →
          (a.calculateMinIC game update threatTuple).minIC.coord i =
            calculateMinIC game a.action a.state i threatTuple) := by
  have hpos := DBL_MAX_pos
  have hboth : (pdCooperate.calculateMinIC pdUnconstrained [true, true] pdThreat).minIC.coord 0
      = 7 / 3 := by
    rw [(calculateMinIC_coords pdCooperate pdUnconstrained [true, true] pdThreat rfl).2.2.1]
    simp [calculateMinIC, currentGains, deviationIndex, indexToVector, vectorToIndex,
      aboveBest, rd, List.range_succ, SGTuple.expectationCoord, SGPoint.coord, pdThreat,
      pdUnconstrained, prisonersDilemma, pdCooperate]
    norm_num
  have hne : ((7 : ℚ) / 3) ≠ -DBL_MAX := by
    intro h
    linarith
  refine ⟨rfl, pd_minIC, ?_, ?_, ?_, ?_, ?_, ?_, ?_, rfl, hboth,
    fun a game update threatTuple hn =>
      calculateMinIC_update_only a game update threatTuple hn⟩
  · rw [pd_minIC]
    rfl
  · rw [pd_minIC]
    exact hne
  · simp [recomputed, rd, pdHalfConstrained, prisonersDilemma]
  · simp [recomputed, rd, pdHalfConstrained, prisonersDilemma]
  · rw [pd_minIC]
    exact pd_candidates _
  · rw [pd_minIC, pd_points, if_neg (by norm_num)]
  · rw [pd_points, if_pos (by linarith)]

/-! ## Claim on the tuple indices of the history walk -/

/-- The body of the walk pushes as many tuple indices as points, and the indices it pushes are
`tupleIndex` and `tupleIndex − 1`. -/
theorem walkBody_tuples (env : SGEnv) (minIC : SGPoint) (player tupleIndex : Nat)
    (point nextPoint : SGPoint) (newPoints : SGTuple) (newTuples : List Int)
    (P : Int → Prop) (hP0 : P (tupleIndex : Int)) (hP1 : P ((tupleIndex : Int) - 1))
    (hlen : newTuples.length = newPoints.length) (h : ∀ t ∈ newTuples, P t) :
    (walkBody env minIC player tupleIndex point nextPoint newPoints newTuples).2.length =
      (walkBody env minIC player tupleIndex point nextPoint newPoints newTuples).1.length ∧
    ∀ t ∈ (walkBody env minIC player tupleIndex point nextPoint newPoints newTuples).2, P t := by
  unfold walkBody
  simp only []
  split_ifs with c1 c2
  · refine ⟨by simp [hlen], ?_⟩
    intro t ht
    simp only [List.mem_append, List.mem_cons, List.mem_singleton, List.not_mem_nil,
      or_false] at ht
    rcases ht with ht | rfl | rfl
    · exact h t ht
    · exact hP0
    · exact hP1
  · refine ⟨by simp [hlen], ?_⟩
    intro t ht
    simp only [List.mem_append, List.mem_singleton] at ht
    rcases ht with ht | rfl
    · exact h t ht
    · exact hP0
  · exact ⟨hlen, h⟩

/-- The walk from `tupleIndex` down pushes as many tuple indices as points, and every index it
pushes lies between `oldWest` and the index it starts from. -/
theorem historyWalk_tuples (env : SGEnv) (prob : List ℚ) (minIC : SGPoint)
    (extremeTuples : List SGTuple) (threatTuple : SGTuple) (oldWest player top : Nat)
    (tupleIndex : Nat) :
    ∀ (nextPoint : SGPoint) (newPoints : SGTuple) (newTuples : List Int),
      tupleIndex ≤ top → newTuples.length = newPoints.length →
      (∀ t ∈ newTuples, (oldWest : Int) ≤ t ∧ t ≤ (top : Int)) →
      (historyWalk env prob minIC extremeTuples threatTuple oldWest player tupleIndex
          nextPoint newPoints newTuples).2.length =
        (historyWalk env prob minIC extremeTuples threatTuple oldWest player tupleIndex
          nextPoint newPoints newTuples).1.length ∧
      ∀ t ∈ (historyWalk env prob minIC extremeTuples threatTuple oldWest player tupleIndex
          nextPoint newPoints newTuples).2, (oldWest : Int) ≤ t ∧ t ≤ (top : Int) := by
  induction tupleIndex with
  | zero =>
    intro nextPoint newPoints newTuples _ hlen h
    exact ⟨hlen, h⟩
  | succ n ih =>
    intro nextPoint newPoints newTuples htop hlen h
    unfold historyWalk
    by_cases hw : n + 1 > oldWest
    · rw [if_pos hw]
      have hb := walkBody_tuples env minIC player (n + 1) nextPoint
        (SGTuple.expectation (rd extremeTuples n) prob) newPoints newTuples
        (fun t => (oldWest : Int) ≤ t ∧ t ≤ (top : Int))
        ⟨by omega, by omega⟩ ⟨by push_cast; omega, by push_cast; omega⟩ hlen h
      simp only []
      split_ifs
      · exact hb
      · exact ih _ _ _ (by omega) hb.1 hb.2
    · rw [if_neg hw]
      exact ⟨hlen, h⟩

/-- The candidates of a player: as many tuple indices as points, every index between
`oldWest` and the last index of the history. -/
theorem collectCandidates_tuples (env : SGEnv) (game : SGGame) (a : SGAction_PencilSharpening)
    (extremeTuples : List SGTuple) (threatTuple : SGTuple) (oldWest player : Nat) :
    (collectCandidates env game a extremeTuples threatTuple oldWest player).2.length =
      (collectCandidates env game a extremeTuples threatTuple oldWest player).1.length ∧
    ∀ t ∈ (collectCandidates env game a extremeTuples threatTuple oldWest player).2,
      (oldWest : Int) ≤ t ∧ t ≤ ((extremeTuples.length - 1 : Nat) : Int) := by
  unfold collectCandidates
  exact historyWalk_tuples env _ a.minIC extremeTuples threatTuple oldWest player
    (extremeTuples.length - 1) (extremeTuples.length - 1) _ [] [] (le_refl _) rfl
    (fun t ht => absurd ht (List.not_mem_nil t))

/-- The walk from `tupleIndex` down reads the history at the positions from `oldWest` to
`tupleIndex` only: two histories that agree there give the same candidates. -/
theorem historyWalk_reads (env : SGEnv) (prob : List ℚ) (minIC : SGPoint)
    (extremeTuples other : List SGTuple) (threatTuple : SGTuple) (oldWest player : Nat)
    (tupleIndex : Nat) :
    ∀ (nextPoint : SGPoint) (newPoints : SGTuple) (newTuples : List Int),
      (∀ t, oldWest ≤ t → t ≤ tupleIndex → rd other t = rd extremeTuples t) →
      historyWalk env prob minIC other threatTuple oldWest player tupleIndex nextPoint
          newPoints newTuples =
        historyWalk env prob minIC extremeTuples threatTuple oldWest player tupleIndex
          nextPoint newPoints newTuples := by
  induction tupleIndex with
  | zero =>
    intro nextPoint newPoints newTuples _
    rfl
  | succ n ih =>
    intro nextPoint newPoints newTuples h
    unfold historyWalk
    by_cases hw : n + 1 > oldWest
    · rw [if_pos hw, if_pos hw]
      rw [h n (by omega) (by omega), h (n + 1) (by omega) (le_refl _)]
      simp only []
      split_ifs
      · rfl
      · exact ih _ _ _ (fun t h1 h2 => h t h1 (by omega))
    · rw [if_neg hw, if_neg hw]

/-- The candidates of a player depend on the history only through its length and its
positions from `oldWest` to the last. -/
theorem collectCandidates_reads (env : SGEnv) (game : SGGame) (a : SGAction_PencilSharpening)
    (extremeTuples other : List SGTuple) (threatTuple : SGTuple) (oldWest player : Nat)
    (hwest : oldWest < extremeTuples.length) (hlen : other.length = extremeTuples.length)
    (h : ∀ t, oldWest ≤ t → t < extremeTuples.length → rd other t = rd extremeTuples t) :
    collectCandidates env game a other threatTuple oldWest player =
      collectCandidates env game a extremeTuples threatTuple oldWest player := by
  unfold collectCandidates
  simp only []
  rw [hlen, h (extremeTuples.length - 1) (by omega) (by omega)]
  exact historyWalk_reads env _ a.minIC extremeTuples other threatTuple oldWest player _ _ _ _
    (fun t h1 h2 => h t h1 (by omega))

/-- The second loop reads the history through the candidates only. -/
theorem selectPlayer_reads (env : SGEnv) (updatedThreatTuple : List Bool) (game : SGGame)
    (extremeTuples other : List SGTuple) (threatTuple pivot : SGTuple)
    (currentDirection : SGPoint) (oldWest : Nat) (a : SGAction_PencilSharpening) (player : Nat)
    (hwest : oldWest < extremeTuples.length) (hlen : other.length = extremeTuples.length)
    (h : ∀ t, oldWest ≤ t → t < extremeTuples.length → rd other t = rd extremeTuples t) :
    selectPlayer env updatedThreatTuple game other threatTuple pivot currentDirection oldWest
        a player =
      selectPlayer env updatedThreatTuple game extremeTuples threatTuple pivot currentDirection
        oldWest a player := by
  simp only [selectPlayer,
    collectCandidates_reads env game a extremeTuples other threatTuple oldWest player hwest
      hlen h]

/-- The tuple indices that the second loop leaves for a recomputed player whose entries were
cleared: each is `-1` or lies between `oldWest` and the last index of the history. -/
theorem selectPlayer_tuples (env : SGEnv) (updatedThreatTuple : List Bool) (game : SGGame)
    (extremeTuples : List SGTuple) (threatTuple pivot : SGTuple) (currentDirection : SGPoint)
    (oldWest : Nat) (a : SGAction_PencilSharpening) (player : Nat)
    (hrec : recomputed updatedThreatTuple game player = true)
    (hp : player < a.points.length) (ht : player < a.tuples.length)
    (hpe : rd a.points player = []) (hte : rd a.tuples player = [])
    (hmin : -DBL_MAX < a.minIC.coord (1 - player)) :
    ∀ t ∈ rd (selectPlayer env updatedThreatTuple game extremeTuples threatTuple pivot
        currentDirection oldWest a player).tuples player,
      t = -1 ∨ ((oldWest : Int) ≤ t ∧ t ≤ ((extremeTuples.length - 1 : Nat) : Int)) := by
  obtain ⟨clen, cmem⟩ := collectCandidates_tuples env game a extremeTuples threatTuple oldWest
    player
  rcases selectPlayer_recomputed env updatedThreatTuple game extremeTuples threatTuple pivot
    currentDirection oldWest a player hrec hp ht hpe hte with ⟨_, h⟩ | ⟨hge, _, h⟩
  · rw [h, hte]
    intro t ht
    exact absurd ht (List.not_mem_nil t)
  · rw [h]
    rcases maxmin_spec (collectCandidates env game a extremeTuples threatTuple oldWest
      player).1 (1 - player) with ⟨_, hm⟩ | ⟨_, hM, hm, _⟩
    · rw [hm] at hge
      exact absurd hge (not_le.mpr hmin)
    · intro t ht
      split_ifs at ht with c1 c2
      · exact absurd ht (List.not_mem_nil t)
      · simp only [List.mem_cons, List.mem_singleton, List.not_mem_nil, or_false] at ht
        rcases ht with rfl | rfl
        · exact Or.inr (cmem _ (rd_of_lt_mem _ _ (by rw [clen]; exact hM)))
        · exact Or.inl rfl
      · simp only [List.mem_cons, List.mem_singleton, List.not_mem_nil, or_false] at ht
        rcases ht with rfl | rfl
        · exact Or.inr (cmem _ (rd_of_lt_mem _ _ (by rw [clen]; exact hM)))
        · exact Or.inr (cmem _ (rd_of_lt_mem _ _ (by rw [clen]; exact hm)))

/-- The function reads the history only at the positions from `oldWest` to the last: two
histories of the same length that agree there give the same action on exit. -/
theorem calculateBindingContinuations_reads (env : SGEnv) (updatedThreatTuple : List Bool)
    (game : SGGame) (extremeTuples other : List SGTuple) (threatTuple pivot : SGTuple)
    (currentDirection : SGPoint) (oldWest : Nat) (a : SGAction_PencilSharpening)
    (hwest : oldWest < extremeTuples.length) (hlen : other.length = extremeTuples.length)
    (h : ∀ t, oldWest ≤ t → t < extremeTuples.length → rd other t = rd extremeTuples t) :
    calculateBindingContinuations env updatedThreatTuple game other threatTuple pivot
        currentDirection oldWest a =
      calculateBindingContinuations env updatedThreatTuple game extremeTuples threatTuple
        pivot currentDirection oldWest a := by
  simp only [calculateBindingContinuations, List.foldl_cons, List.foldl_nil]
  rw [selectPlayer_reads env updatedThreatTuple game extremeTuples other threatTuple pivot
      currentDirection oldWest _ 0 hwest hlen h,
    selectPlayer_reads env updatedThreatTuple game extremeTuples other threatTuple pivot
      currentDirection oldWest _ 1 hwest hlen h]

/-- C26: given a non-empty history and `oldWest < |extremeTuples|`, on an action with one
`points` and one `tuples` entry per player, `calculateBindingContinuations` reads the history
at the positions from `oldWest` to `|extremeTuples| − 1` only (a history of the same length
that agrees with it there gives the same action on exit), and for every player whose binding
set is recomputed each entry of `tuples[i]` on exit is `−1` or an index `t` with
`oldWest ≤ t ≤ |extremeTuples| − 1`.  The second part is stated for an action whose
`minIC[1−i]` is above the sentinel `-DBL_MAX`: otherwise a player without any candidate passes
the test `maxOtherPayoff >= minIC[1-player]`, and the code reads `newTuples[player]` at an
index it never set. -/
theorem C26_history_walk_indices (env : SGEnv) (updatedThreatTuple : List Bool)
    (game : SGGame) (extremeTuples : List SGTuple) (threatTuple pivot : SGTuple)
    (currentDirection : SGPoint) (oldWest : Nat) (a : SGAction_PencilSharpening)
    (_hhist : extremeTuples ≠ []) (hwest : oldWest < extremeTuples.length)
    (hpl : a.points.length = 2) (htl : a.tuples.length = 2) :
    (∀ other : List SGTuple, other.length = extremeTuples.length →
      (∀ t, oldWest ≤ t → t < extremeTuples.length → rd other t = rd extremeTuples t) →
      calculateBindingContinuations env updatedThreatTuple game other threatTuple pivot
          currentDirection oldWest a =
        calculateBindingContinuations env updatedThreatTuple game extremeTuples threatTuple
          pivot currentDirection oldWest a) ∧
    ∀ player, player < 2 → recomputed updatedThreatTuple game player = true →
      -DBL_MAX < a.minIC.coord (1 - player) →
      ∀ t ∈ rd (calculateBindingContinuations env updatedThreatTuple game extremeTuples
          threatTuple pivot currentDirection oldWest a).tuples player,
        t = -1 ∨ ((oldWest : Int) ≤ t ∧ t ≤ (extremeTuples.length : Int) - 1) := by
  refine ⟨fun other hlen h =>
    calculateBindingContinuations_reads env updatedThreatTuple game extremeTuples other
      threatTuple pivot currentDirection oldWest a hwest hlen h, ?_⟩
  have hcast : ((extremeTuples.length - 1 : Nat) : Int) = (extremeTuples.length : Int) - 1 := by
    omega
  rw [← hcast]
  simp only [calculateBindingContinuations, List.foldl_cons, List.foldl_nil]
  -- the first loop
  obtain ⟨c0p, c0t, c0m, c0f⟩ := clearPlayer_frame updatedThreatTuple game a 0
  obtain ⟨c0r, -⟩ := clearPlayer_own updatedThreatTuple game a 0 (by omega) (by omega)
  generalize clearPlayer updatedThreatTuple game a 0 = a1 at *
  obtain ⟨c1p, c1t, c1m, c1f⟩ := clearPlayer_frame updatedThreatTuple game a1 1
  obtain ⟨c1r, -⟩ := clearPlayer_own updatedThreatTuple game a1 1 (by omega) (by omega)
  generalize clearPlayer updatedThreatTuple game a1 1 = a2 at *
  -- the second loop
  obtain ⟨s0p, s0t, s0m, s0f⟩ := selectPlayer_frame env updatedThreatTuple game extremeTuples
    threatTuple pivot currentDirection oldWest a2 0
  have s0 := selectPlayer_tuples env updatedThreatTuple game extremeTuples threatTuple pivot
    currentDirection oldWest a2 0
  generalize selectPlayer env updatedThreatTuple game extremeTuples threatTuple pivot
    currentDirection oldWest a2 0 = a3 at *
  obtain ⟨-, -, -, s1f⟩ := selectPlayer_frame env updatedThreatTuple game extremeTuples
    threatTuple pivot currentDirection oldWest a3 1
  have s1 := selectPlayer_tuples env updatedThreatTuple game extremeTuples threatTuple pivot
    currentDirection oldWest a3 1
  intro player hplayer hrec hmin
  have hcases : player = 0 ∨ player = 1 := by omega
  rcases hcases with rfl | rfl
  · rw [(s1f 0 (by decide)).2]
    refine s0 hrec (by omega) (by omega) ?_ ?_ (by rw [c1m, c0m]; exact hmin)
    · rw [(c1f 0 (by decide)).1]
      exact (c0r hrec).1
    · rw [(c1f 0 (by decide)).2]
      exact (c0r hrec).2
  · refine s1 hrec (by omega) (by omega) ?_ ?_ (by rw [s0m, c1m, c0m]; exact hmin)
    · rw [(s0f 1 (by decide)).1]
      exact (c1r hrec).1
    · rw [(s0f 1 (by decide)).2]
      exact (c1r hrec).2

/-- The tuple indices of player 0 after the call on the history of two tuples. -/
theorem flat_tuples :
    rd (calculateBindingContinuations SGEnv.defaults [true, false] flatGame flatHistory
        [⟨-1, -1⟩] [⟨0, 0⟩] ⟨1, 0⟩ 0 flatAction).tuples 0 = [0, 1] := by
  have hclear : clearPlayer [true, false] flatGame
      (clearPlayer [true, false] flatGame flatAction 0) 1 = flatAction := by
    simp [clearPlayer, recomputed, rd, flatGame, flatAction]
  have hp := flat_points
  simp only [calculateBindingContinuations, List.foldl_cons, List.foldl_nil, hclear] at hp ⊢
  rw [((selectPlayer_frame SGEnv.defaults [true, false] flatGame flatHistory [⟨-1, -1⟩]
    [⟨0, 0⟩] ⟨1, 0⟩ 0 _ 1).2.2.2 0 (by decide)).1] at hp
  rw [((selectPlayer_frame SGEnv.defaults [true, false] flatGame flatHistory [⟨-1, -1⟩]
    [⟨0, 0⟩] ⟨1, 0⟩ 0 _ 1).2.2.2 0 (by decide)).2]
  rcases selectPlayer_recomputed SGEnv.defaults [true, false] flatGame flatHistory [⟨-1, -1⟩]
    [⟨0, 0⟩] ⟨1, 0⟩ 0 flatAction 0 (by simp [recomputed, rd, flatGame])
    (by simp [flatAction]) (by simp [flatAction]) (by simp [flatAction, rd])
    (by simp [flatAction, rd]) with ⟨h, _⟩ | ⟨_, _, h⟩
  · exfalso
    apply h
    rw [flat_candidates, flat_maxmin]
    norm_num [flatAction, SGPoint.coord]
  · rw [h, hp, flat_candidates, flat_maxmin]
    norm_num [flatAction, rd, SGPoint.coord]

/-- Witness of C26: the history of two tuples with `oldWest = 0` and the action with empty
binding sets; player 0 is recomputed, and the entries of `tuples[0]` on exit are the indices 0 and 1
of the history. -/
theorem C26_history_walk_indices_witness :
    flatHistory ≠ [] ∧ 0 < flatHistory.length ∧
    recomputed [true, false] flatGame 0 = true ∧
    -DBL_MAX < flatAction.minIC.coord (1 - 0) ∧
    rd (calculateBindingContinuations SGEnv.defaults [true, false] flatGame flatHistory
        [⟨-1, -1⟩] [⟨0, 0⟩] ⟨1, 0⟩ 0 flatAction).tuples 0 = [0, 1] ∧
    ∀ t ∈ rd (calculateBindingContinuations SGEnv.defaults [true, false] flatGame flatHistory
        [⟨-1, -1⟩] [⟨0, 0⟩] ⟨1, 0⟩ 0 flatAction).tuples 0,
      t = -1 ∨ (((0 : Nat) : Int) ≤ t ∧ t ≤ (flatHistory.length : Int) - 1) :=
  have hmin : -DBL_MAX < flatAction.minIC.coord (1 - 0) := by
    have := DBL_MAX_pos
    show -DBL_MAX < (0 : ℚ)
    linarith
  ⟨by simp [flatHistory], by simp [flatHistory], rfl, hmin, flat_tuples,
    (C26_history_walk_indices SGEnv.defaults [true, false] flatGame flatHistory [⟨-1, -1⟩]
      [⟨0, 0⟩] ⟨1, 0⟩ 0 flatAction (by simp [flatHistory]) (by simp [flatHistory]) rfl
      rfl).2 0 (by decide) rfl hmin⟩

/-! ## Claim on the corner flag -/

theorem clearPlayer_corner (updatedThreatTuple : List Bool) (game : SGGame)
    (a : SGAction_PencilSharpening) (player : Nat) :
    (clearPlayer updatedThreatTuple game a player).corner = a.corner := by
  simp only [clearPlayer]
  split_ifs <;> rfl

/-- The second loop never takes the corner flag back. -/
theorem selectPlayer_corner_kept (env : SGEnv) (updatedThreatTuple : List Bool)
    (game : SGGame) (extremeTuples : List SGTuple) (threatTuple pivot : SGTuple)
    (currentDirection : SGPoint) (oldWest : Nat) (a : SGAction_PencilSharpening)
    (player : Nat) (h : a.corner = true) :
    (selectPlayer env updatedThreatTuple game extremeTuples threatTuple pivot currentDirection
        oldWest a player).corner = true := by
  simp only [selectPlayer]
  split_ifs <;>
    (try simp only [SGAction_PencilSharpening.intersectRaySegmentPlayer]) <;>
    (try split_ifs) <;>
    first
    | exact h
    | rfl

/-- The recomputation branch of the second loop sets the corner flag when it pushes
`minIC`. -/
theorem selectPlayer_corner_set (env : SGEnv) (updatedThreatTuple : List Bool)
    (game : SGGame) (extremeTuples : List SGTuple) (threatTuple pivot : SGTuple)
    (currentDirection : SGPoint) (oldWest : Nat) (a : SGAction_PencilSharpening)
    (player : Nat) (hrec : recomputed updatedThreatTuple game player = true)
    (hmax : (SGTuple.maxmin (collectCandidates env game a extremeTuples threatTuple oldWest
      player).1 (1 - player)).1 ≥ a.minIC.coord (1 - player))
    (hmin : (SGTuple.maxmin (collectCandidates env game a extremeTuples threatTuple oldWest
      player).1 (1 - player)).2.2.1 < a.minIC.coord (1 - player)) :
    (selectPlayer env updatedThreatTuple game extremeTuples threatTuple pivot currentDirection
        oldWest a player).corner = true := by
  simp only [selectPlayer, hrec, if_true, hmax, hmin,
    SGAction_PencilSharpening.intersectRaySegmentPlayer]
  split_ifs <;> rfl

/-- C25, the code at a failing input: in the prisoner's dilemma, with the threat of player 1
updated and that of player 0 not, the binding set of player 0 of `cornerAction` is only
re-checked against the constraint of player 1 (lines 295-311); its second endpoint `(7/3, 2)`
is below `minIC[1] = 7/3` and is replaced by `minIC`, with the tuple index `−1`, and the
corner flag is still false on exit.  In the recomputation branch (lines 273-287) the same
replacement sets the flag: for every recomputed player whose best candidate meets the
constraint of the other player and whose worst does not, the flag is true on exit. -/
theorem C25_corner_flag_unset :
    rd (calculateBindingContinuations SGEnv.defaults [false, true] prisonersDilemma
        [[⟨1, 1⟩]] pdThreat [⟨1, 1⟩] ⟨1, 0⟩ 0 cornerAction).points 0 =
      [⟨7 / 3, 3⟩, cornerAction.minIC] ∧
    rd (calculateBindingContinuations SGEnv.defaults [false, true] prisonersDilemma
        [[⟨1, 1⟩]] pdThreat [⟨1, 1⟩] ⟨1, 0⟩ 0 cornerAction).tuples 0 = [1, -1] ∧
    cornerAction.corner = false ∧
    (calculateBindingContinuations SGEnv.defaults [false, true] prisonersDilemma
        [[⟨1, 1⟩]] pdThreat [⟨1, 1⟩] ⟨1, 0⟩ 0 cornerAction).corner = false ∧
    ∀ (env : SGEnv) (updatedThreatTuple : List Bool) (game : SGGame)
      (extremeTuples : List SGTuple) (threatTuple pivot : SGTuple)
      (currentDirection : SGPoint) (oldWest : Nat) (a : SGAction_PencilSharpening)
      (player : Nat), player < 2 → recomputed updatedThreatTuple game player = true →
      (SGTuple.maxmin (collectCandidates env game a extremeTuples threatTuple oldWest
        player).1 (1 - player)).1 ≥ a.minIC.coord (1 - player) →
      (SGTuple.maxmin (collectCandidates env game a extremeTuples threatTuple oldWest
        player).1 (1 - player)).2.2.1 < a.minIC.coord (1 - player) →
      (calculateBindingContinuations env updatedThreatTuple game extremeTuples threatTuple
        pivot currentDirection oldWest a).corner = true := by
  have hD : ((7 : ℚ) / 3 ≤ -DBL_MAX) = False := by
    have := DBL_MAX_pos
    apply eq_false
    intro h
    linarith
  have hrun : calculateBindingContinuations SGEnv.defaults [false, true] prisonersDilemma
      [[⟨1, 1⟩]] pdThreat [⟨1, 1⟩] ⟨1, 0⟩ 0 cornerAction =
      { cornerAction with
        points := [[⟨7 / 3, 3⟩, ⟨7 / 3, 7 / 3⟩], []]
        tuples := [[1, -1], []] } := by
    simp [calculateBindingContinuations, clearPlayer, selectPlayer, recomputed,
      collectCandidates, historyWalk, SGTuple.maxmin, rd, prisonersDilemma, cornerAction,
      SGPoint.coord, hD]
    norm_num
    intro h
    rw [hD] at h
    exact h.elim
  refine ⟨by rw [hrun]; rfl, by rw [hrun]; rfl, rfl, by rw [hrun]; rfl, ?_⟩
  intro env updatedThreatTuple game extremeTuples threatTuple pivot currentDirection oldWest a
    player hplayer hrec hmax hmin
  simp only [calculateBindingContinuations, List.foldl_cons, List.foldl_nil]
  obtain ⟨c0s, c0a⟩ := clearPlayer_ids updatedThreatTuple game a 0
  obtain ⟨-, -, c0m, -⟩ := clearPlayer_frame updatedThreatTuple game a 0
  generalize clearPlayer updatedThreatTuple game a 0 = a1 at *
  obtain ⟨c1s, c1a⟩ := clearPlayer_ids updatedThreatTuple game a1 1
  obtain ⟨-, -, c1m, -⟩ := clearPlayer_frame updatedThreatTuple game a1 1
  generalize clearPlayer updatedThreatTuple game a1 1 = a2 at *
  have hcases : player = 0 ∨ player = 1 := by omega
  rcases hcases with rfl | rfl
  · apply selectPlayer_corner_kept
    apply selectPlayer_corner_set _ _ _ _ _ _ _ _ _ _ hrec
    · rw [collectCandidates_congr env game a2 a extremeTuples threatTuple oldWest 0
        (c1s.trans c0s) (c1a.trans c0a) (c1m.trans c0m), c1m, c0m]
      exact hmax
    · rw [collectCandidates_congr env game a2 a extremeTuples threatTuple oldWest 0
        (c1s.trans c0s) (c1a.trans c0a) (c1m.trans c0m), c1m, c0m]
      exact hmin
  · obtain ⟨s0s, s0a⟩ := selectPlayer_ids env updatedThreatTuple game extremeTuples
      threatTuple pivot currentDirection oldWest a2 0
    obtain ⟨-, -, s0m, -⟩ := selectPlayer_frame env updatedThreatTuple game extremeTuples
      threatTuple pivot currentDirection oldWest a2 0
    generalize selectPlayer env updatedThreatTuple game extremeTuples threatTuple pivot
      currentDirection oldWest a2 0 = a3 at *
    apply selectPlayer_corner_set _ _ _ _ _ _ _ _ _ _ hrec
    · rw [collectCandidates_congr env game a3 a extremeTuples threatTuple oldWest 1
        (s0s.trans (c1s.trans c0s)) (s0a.trans (c1a.trans c0a))
        (s0m.trans (c1m.trans c0m)), s0m, c1m, c0m]
      exact hmax
    · rw [collectCandidates_congr env game a3 a extremeTuples threatTuple oldWest 1
        (s0s.trans (c1s.trans c0s)) (s0a.trans (c1a.trans c0a))
        (s0m.trans (c1m.trans c0m)), s0m, c1m, c0m]
      exact hmin

/-! ## Claim on the improvement step -/

/-- One action of the improvement step against the running best level: when the level of
its proposal is above the running best, the proposal is written to the entries of the state
and its level becomes the running best; otherwise nothing changes. -/
theorem improveAction_proposal (game : SGGame) (currDir : SGPoint)
    (actions : List (List SGAction_V2)) (state : Nat) (acc : Option ℚ × PolicyVars)
    (ait : Nat) (hstate : state < game.numStates) (hs : Sized game acc.2) :
    (improveAction game currDir actions state acc ait).2.pivot = acc.2.pivot ∧
    (aboveBest ((specProposal game currDir acc.2.pivot state
        (rd (rd actions state) ait)).1.dot currDir) acc.1 = true →
      (improveAction game currDir actions state acc ait).1 =
        some ((specProposal game currDir acc.2.pivot state
          (rd (rd actions state) ait)).1.dot currDir) ∧
      rd (improveAction game currDir actions state acc ait).2.newActionTuple state = ait ∧
      rd (improveAction game currDir actions state acc ait).2.newPivot state =
        (specProposal game currDir acc.2.pivot state (rd (rd actions state) ait)).1 ∧
      rd (improveAction game currDir actions state acc ait).2.newRegimeTuple state =
        (specProposal game currDir acc.2.pivot state (rd (rd actions state) ait)).2) ∧
    (aboveBest ((specProposal game currDir acc.2.pivot state
        (rd (rd actions state) ait)).1.dot currDir) acc.1 = false →
      improveAction game currDir actions state acc ait = acc) := by
  obtain ⟨h1, h2, h3, _, _⟩ := hs
  unfold improveAction specProposal
  simp only []
  by_cases c : apsNotBinding game currDir (rd (rd actions state) ait) = true
      ∨ (bestAPSPayoff game currDir state (rd (rd actions state) ait)).dot currDir
        > (bellmanPayoff game acc.2.pivot state (rd (rd actions state) ait).action).dot
          currDir - 1 / 10 ^ 7
  · rw [if_pos c, if_pos c]
    refine ⟨?_, ?_, ?_⟩
    · split_ifs <;> rfl
    · intro hb
      rw [if_pos hb]
      exact ⟨rfl, rd_set_eq _ _ _ (by rw [h2]; exact hstate),
        rd_set_eq _ _ _ (by rw [h1]; exact hstate),
        rd_set_eq _ _ _ (by rw [h3]; exact hstate)⟩
    · intro hb
      rw [if_neg (by rw [hb]; exact Bool.false_ne_true)]
  · rw [if_neg c, if_neg c]
    have hlt : (bestAPSPayoff game currDir state (rd (rd actions state) ait)).dot currDir
        < (bellmanPayoff game acc.2.pivot state (rd (rd actions state) ait).action).dot
          currDir + 1 / 10 ^ 7 := by
      have := not_lt.mp (not_or.mp c).2
      have h7 : (0 : ℚ) < 1 / 10 ^ 7 := by norm_num
      linarith
    rw [if_pos hlt]
    refine ⟨?_, ?_, ?_⟩
    · split_ifs <;> rfl
    · intro hb
      rw [if_pos hb]
      exact ⟨rfl, rd_set_eq _ _ _ (by rw [h2]; exact hstate),
        rd_set_eq _ _ _ (by rw [h1]; exact hstate),
        rd_set_eq _ _ _ (by rw [h3]; exact hstate)⟩
    · intro hb
      rw [if_neg (by rw [hb]; exact Bool.false_ne_true)]

/-- The loop over the first `n` actions of `state`: the running best level is the level of
the proposal written to the entries of the state, and no action processed has a proposal of
a higher level. -/
theorem improveActions_best (game : SGGame) (currDir : SGPoint)
    (actions : List (List SGAction_V2)) (state : Nat) (v : PolicyVars)
    (hstate : state < game.numStates) (hs : Sized game v) (n : Nat) :
    Sized game ((List.range n).foldl (improveAction game currDir actions state) (none, v)).2 ∧
    ((List.range n).foldl (improveAction game currDir actions state) (none, v)).2.pivot
      = v.pivot ∧
    ((n = 0 ∧
        ((List.range n).foldl (improveAction game currDir actions state) (none, v)).1 = none) ∨
      ∃ ait, ait < n ∧
        ((List.range n).foldl (improveAction game currDir actions state) (none, v)).1 =
          some ((specProposal game currDir v.pivot state
            (rd (rd actions state) ait)).1.dot currDir) ∧
        rd ((List.range n).foldl (improveAction game currDir actions state)
          (none, v)).2.newActionTuple state = ait ∧
        rd ((List.range n).foldl (improveAction game currDir actions state)
          (none, v)).2.newPivot state =
          (specProposal game currDir v.pivot state (rd (rd actions state) ait)).1 ∧
        rd ((List.range n).foldl (improveAction game currDir actions state)
          (none, v)).2.newRegimeTuple state =
          (specProposal game currDir v.pivot state (rd (rd actions state) ait)).2 ∧
        ∀ j, j < n →
          (specProposal game currDir v.pivot state (rd (rd actions state) j)).1.dot currDir
            ≤ (specProposal game currDir v.pivot state
              (rd (rd actions state) ait)).1.dot currDir) := by
  induction n with
  | zero => exact ⟨hs, rfl, Or.inl ⟨rfl, rfl⟩⟩
  | succ n ih =>
    obtain ⟨ihs, ihp, ih⟩ := ih
    rw [List.range_succ, List.foldl_append, List.foldl_cons, List.foldl_nil]
    generalize (List.range n).foldl (improveAction game currDir actions state) (none, v) = acc
      at ihs ihp ih
    obtain ⟨hp, hyes, hno⟩ := improveAction_proposal game currDir actions state acc n hstate ihs
    have hsz := (improveAction_frame game currDir actions state acc n ihs).1
    rw [ihp] at hyes hno
    refine ⟨hsz, hp.trans ihp, Or.inr ?_⟩
    cases hb : aboveBest ((specProposal game currDir v.pivot state
        (rd (rd actions state) n)).1.dot currDir) acc.1 with
    | true =>
      obtain ⟨e1, e2, e3, e4⟩ := hyes hb
      refine ⟨n, Nat.lt_succ_self n, e1, e2, e3, e4, ?_⟩
      intro j hj
      rcases Nat.lt_succ_iff_lt_or_eq.mp hj with hj | rfl
      · rcases ih with ⟨hn0, _⟩ | ⟨ait, _, hbest, _, _, _, hmax⟩
        · omega
        · rw [hbest] at hb
          have hlt := of_decide_eq_true hb
          exact le_trans (hmax j hj) (le_of_lt hlt)
      · exact le_refl _
    | false =>
      rw [hno hb]
      rcases ih with ⟨_, hnone⟩ | ⟨ait, hait, hbest, e2, e3, e4, hmax⟩
      · rw [hnone] at hb
        exact absurd hb (by simp [aboveBest])
      · refine ⟨ait, Nat.lt_succ_of_lt hait, hbest, e2, e3, e4, ?_⟩
        intro j hj
        rcases Nat.lt_succ_iff_lt_or_eq.mp hj with hj | rfl
        · exact hmax j hj
        · rw [hbest] at hb
          have hnlt := of_decide_eq_false hb
          exact not_lt.mp hnlt

/-- The improvement of a state with at least one action writes the best proposal of the
state to its entries. -/
theorem improveState_best (game : SGGame) (currDir : SGPoint)
    (actions : List (List SGAction_V2)) (v : PolicyVars) (state : Nat)
    (hstate : state < game.numStates) (hs : Sized game v) (hact : rd actions state ≠ []) :
    BestProposal game currDir actions v.pivot state
      (improveState game currDir actions v state) := by
  obtain ⟨_, _, h⟩ := improveActions_best game currDir actions state v hstate hs
    (rd actions state).length
  rcases h with ⟨h0, _⟩ | ⟨ait, hait, _, e2, e3, e4, hmax⟩
  · exact absurd (List.length_eq_zero.mp h0) hact
  · exact ⟨ait, hait, e2, e3, e4, hmax⟩

/-- The improvement of a state keeps the sizes of the vectors and the pivot, and writes only
the entries of that state. -/
theorem improveState_others (game : SGGame) (currDir : SGPoint)
    (actions : List (List SGAction_V2)) (v : PolicyVars) (state : Nat)
    (hstate : state < game.numStates) (hs : Sized game v) :
    Sized game (improveState game currDir actions v state) ∧
    (improveState game currDir actions v state).pivot = v.pivot ∧
    ∀ s, s ≠ state →
      improvedEntry (improveState game currDir actions v state) s = improvedEntry v s := by
  obtain ⟨h1, h2, _⟩ := improveActions_best game currDir actions state v hstate hs
    (rd actions state).length
  refine ⟨h1, h2, ?_⟩
  have hk := foldl_keeps
    (fun acc : Option ℚ × PolicyVars =>
      Sized game acc.2 ∧ ∀ s, s ≠ state → improvedEntry acc.2 s = improvedEntry v s)
    (improveAction game currDir actions state) (List.range (rd actions state).length)
    (none, v)
    (fun x y hx =>
      ⟨(improveAction_frame game currDir actions state x y hx.1).1,
        fun s hne =>
          ((improveAction_frame game currDir actions state x y hx.1).2 s hne).trans
            (hx.2 s hne)⟩)
    ⟨hs, fun _ _ => rfl⟩
  exact hk.2

/-- The loop of the improvement step over the first `n` states: every state below `n` that
has an action holds its best proposal. -/
theorem improveStates_best (game : SGGame) (currDir : SGPoint)
    (actions : List (List SGAction_V2)) (v : PolicyVars) (hs : Sized game v) (state : Nat)
    (hact : rd actions state ≠ []) (n : Nat) (hn : n ≤ game.numStates) :
    Sized game ((List.range n).foldl (improveState game currDir actions) v) ∧
    ((List.range n).foldl (improveState game currDir actions) v).pivot = v.pivot ∧
    (state < n → BestProposal game currDir actions v.pivot state
      ((List.range n).foldl (improveState game currDir actions) v)) := by
  induction n with
  | zero => exact ⟨hs, rfl, fun h => absurd h (Nat.not_lt_zero _)⟩
  | succ n ih =>
    obtain ⟨ihs, ihp, ih⟩ := ih (by omega)
    rw [List.range_succ, List.foldl_append, List.foldl_cons, List.foldl_nil]
    generalize (List.range n).foldl (improveState game currDir actions) v = w at ihs ihp ih
    obtain ⟨o1, o2, o3⟩ := improveState_others game currDir actions w n (by omega) ihs
    refine ⟨o1, o2.trans ihp, fun hlt => ?_⟩
    rcases Nat.lt_succ_iff_lt_or_eq.mp hlt with hlt | rfl
    · obtain ⟨ait, hait, e2, e3, e4, hmax⟩ := ih hlt
      have he := o3 state (by omega)
      simp only [improvedEntry, Prod.mk.injEq] at he
      exact ⟨ait, hait, he.2.1.trans e2, he.1.trans e3, he.2.2.1.trans e4, hmax⟩
    · have := improveState_best game currDir actions w state (by omega) ihs hact
      rw [ihp] at this
      exact this

/-- C27: in the improvement step of `optimizePolicy`, entered with vectors of one entry per
state, for every state with at least one surviving action the new pivot, action and regime
of the state are those of the proposal of one action of the state, and the level
`proposal·dir` of that proposal is maximal among the proposals of all the actions of the
state.  The proposal of an action is the non-binding payoff
`(1−δ)·payoffs[s][a] + δ·E[pivot]` with the regime `NonBinding` when `APSNotBinding` is set
or `bestAPSPayoff·dir > nonBinding·dir − 1e-7`, and its best binding payoff with the regime
`Binding` otherwise: the test of the second branch, `bestAPSPayoff·dir < nonBinding·dir +
1e-7`, always holds there. -/
theorem C27_improvement_step (game : SGGame) (currDir : SGPoint)
    (actions : List (List SGAction_V2)) (v : PolicyVars) (hs : Sized game v) (state : Nat)
    (hstate : state < game.numStates) (hact : rd actions state ≠ []) :
    ∃ ait, ait < (rd actions state).length ∧
      rd (improvementStep game currDir actions v).actionTuple state = ait ∧
      rd (improvementStep game currDir actions v).pivot state =
        (specProposal game currDir v.pivot state (rd (rd actions state) ait)).1 ∧
      rd (improvementStep game currDir actions v).regimeTuple state =
        (specProposal game currDir v.pivot state (rd (rd actions state) ait)).2 ∧
      (specProposal game currDir v.pivot state (rd (rd actions state) ait)) =
        (if apsNotBinding game currDir (rd (rd actions state) ait) = true
            ∨ (bestAPSPayoff game currDir state (rd (rd actions state) ait)).dot currDir
              > (bellmanPayoff game v.pivot state (rd (rd actions state) ait).action).dot
                currDir - 1 / 10 ^ 7 then
          (bellmanPayoff game v.pivot state (rd (rd actions state) ait).action,
            Regime.NonBinding)
        else (bestAPSPayoff game currDir state (rd (rd actions state) ait), Regime.Binding)) ∧
      ∀ j, j < (rd actions state).length →
        (specProposal game currDir v.pivot state (rd (rd actions state) j)).1.dot currDir
          ≤ (specProposal game currDir v.pivot state
            (rd (rd actions state) ait)).1.dot currDir := by
  obtain ⟨_, _, h⟩ := improveStates_best game currDir actions { v with pivotError := 0 } hs
    state hact game.numStates (le_refl _)
  obtain ⟨ait, hait, e2, e3, e4, hmax⟩ := h hstate
  exact ⟨ait, hait, e2, e3, e4, rfl, hmax⟩

/-- Witness of C27: the prisoner's dilemma with the two actions of `pdSurvivors` in its state,
at the direction `(1, 0)`, entered with the variables of `optimizePolicy` on entry. -/
theorem C27_improvement_step_witness :
    Sized prisonersDilemma (PolicyVars.init prisonersDilemma pdThreat [0] [Regime.Binding]) ∧
    rd pdSurvivors 0 ≠ [] ∧
    ∃ ait, ait < (rd pdSurvivors 0).length ∧
      rd (improvementStep prisonersDilemma ⟨1, 0⟩ pdSurvivors
        (PolicyVars.init prisonersDilemma pdThreat [0] [Regime.Binding])).actionTuple 0
          = ait ∧
      rd (improvementStep prisonersDilemma ⟨1, 0⟩ pdSurvivors
        (PolicyVars.init prisonersDilemma pdThreat [0] [Regime.Binding])).pivot 0 =
        (specProposal prisonersDilemma ⟨1, 0⟩ pdThreat 0 (rd (rd pdSurvivors 0) ait)).1 ∧
      ∀ j, j < (rd pdSurvivors 0).length →
        (specProposal prisonersDilemma ⟨1, 0⟩ pdThreat 0 (rd (rd pdSurvivors 0) j)).1.dot
            ⟨1, 0⟩
          ≤ (specProposal prisonersDilemma ⟨1, 0⟩ pdThreat 0
            (rd (rd pdSurvivors 0) ait)).1.dot ⟨1, 0⟩ := by
  have hs : Sized prisonersDilemma
      (PolicyVars.init prisonersDilemma pdThreat [0] [Regime.Binding]) :=
    PolicyVars.init_sized prisonersDilemma pdThreat [0] [Regime.Binding] rfl rfl
  have hact : rd pdSurvivors 0 ≠ [] := by simp [pdSurvivors, rd]
  obtain ⟨ait, h1, h2, h3, _, _, h6⟩ := C27_improvement_step prisonersDilemma ⟨1, 0⟩
    pdSurvivors (PolicyVars.init prisonersDilemma pdThreat [0] [Regime.Binding]) hs 0
    (by decide) hact
  exact ⟨hs, hact, ait, h1, h2, h3, h6⟩

/-! ## Claim on the frame of `policyToPayoffs` -/

/-- The Bellman iteration returns the pivot after a number of sweeps between 1 and the number
of passes the cap allows. -/
theorem bellmanLoop_iterate (env : SGEnv) (game : SGGame) (actions : List (List SGAction_V2))
    (actionTuple : List Nat) (regimeTuple : List Regime) (remaining : Nat) :
    ∀ pivot : SGTuple, ∃ n, 1 ≤ n ∧ n ≤ remaining + 1 ∧
      (bellmanLoop env game actions actionTuple regimeTuple remaining pivot).1 =
        (bellmanSweep game actions actionTuple regimeTuple)^[n] pivot := by
  induction remaining with
  | zero =>
    intro pivot
    exact ⟨1, le_refl _, le_refl _, rfl⟩
  | succ r ih =>
    intro pivot
    unfold bellmanLoop
    split_ifs
    · obtain ⟨n, h1, h2, h3⟩ := ih (bellmanSweep game actions actionTuple regimeTuple pivot)
      exact ⟨n + 1, by omega, by omega, by rw [h3, Function.iterate_succ_apply]⟩
    · exact ⟨1, le_refl _, by omega, rfl⟩

/-- C28: `policyToPayoffs` changes only the states in the non-binding regime.  For every
pivot, action tuple and regime tuple, `pivot[s]` on return is `pivot[s]` on entry for every
state `s` whose regime is `Binding`; the call is the identity when the regime of every state
of the pivot is `Binding`; the pivot on return is the pivot on entry after `n` sweeps, with
`1 ≤ n ≤ max(1, MAXUPDATEPIVOTPASSES)`; and a sweep on a pivot `p` sets every state `s` of
the game in the regime `NonBinding` to `(1−δ)·payoffs[s][a_s] + δ·E_{prob[s][a_s]}[p]`, with
`p` as it was before the sweep, and leaves every state in the regime `Binding` as it is. -/
theorem C28_policyToPayoffs_frame (env : SGEnv) (game : SGGame)
    (actions : List (List SGAction_V2)) (pivot : SGTuple) (actionTuple : List Nat)
    (regimeTuple : List Regime) :
    (∀ s, rd regimeTuple s = Regime.Binding →
      rd (policyToPayoffs env game actions pivot actionTuple regimeTuple).1 s = rd pivot s) ∧
    ((∀ s, s < pivot.length → rd regimeTuple s = Regime.Binding) →
      (policyToPayoffs env game actions pivot actionTuple regimeTuple).1 = pivot) ∧
    (∃ n, 1 ≤ n ∧ n ≤ max 1 env.MAXUPDATEPIVOTPASSES ∧
      (policyToPayoffs env game actions pivot actionTuple regimeTuple).1 =
        (bellmanSweep game actions actionTuple regimeTuple)^[n] pivot) ∧
    ∀ (p : SGTuple) (s : Nat), s < game.numStates → s < p.length →
      (rd regimeTuple s = Regime.NonBinding →
        rd (bellmanSweep game actions actionTuple regimeTuple p) s =
          (SGPoint.smul (1 - game.delta)
            (rd (rd game.payoffs s) (rd (rd actions s) (rd actionTuple s)).action)).add
          (SGPoint.smul game.delta
            (SGTuple.expectation p
              (rd (rd game.probabilities s) (rd (rd actions s) (rd actionTuple s)).action)))) ∧
      (rd regimeTuple s = Regime.Binding →
        rd (bellmanSweep game actions actionTuple regimeTuple p) s = rd p s) := by
  have hb : ∀ s, rd regimeTuple s = Regime.Binding →
      rd (policyToPayoffs env game actions pivot actionTuple regimeTuple).1 s = rd pivot s := by
    intro s hs
    exact policyToPayoffs_binding env game actions pivot actionTuple regimeTuple s
      (by rw [hs]; exact fun h => Regime.noConfusion h)
  refine ⟨hb, ?_, ?_, ?_⟩
  · intro hall
    apply eq_of_rd_eq
    · exact policyToPayoffs_length env game actions pivot actionTuple regimeTuple
    · intro s
      by_cases hs : s < pivot.length
      · exact hb s (hall s hs)
      · rw [rd_default_of_le _ _ (by rw [policyToPayoffs_length]; omega),
          rd_default_of_le _ _ (by omega)]
  · obtain ⟨n, h1, h2, h3⟩ := bellmanLoop_iterate env game actions actionTuple regimeTuple
      (env.MAXUPDATEPIVOTPASSES - 1) pivot
    exact ⟨n, h1, by omega, h3⟩
  · intro p s hs hp
    rw [bellmanSweep_rd]
    refine ⟨fun h => ?_, fun h => ?_⟩
    · rw [if_pos ⟨hs, hp, h⟩]
      rfl
    · rw [if_neg (by rw [h]; exact fun c => Regime.noConfusion c.2.2)]

/-! ## Claims on the indifference level and on the next direction -/

/-- C29: for a direction `dir`, a pivot point `p` and a candidate payoff `q` with
`denom = normal(dir)·(q − p) ≠ 0`, the level `t = ((p − q)·dir) / denom` makes the direction
`dir + t·normal(dir)` indifferent between the two: `p·(dir + t·normal(dir)) =
q·(dir + t·normal(dir))`.  This is the level that `sensitivity` computes: the non-binding
block of an action returns either `bestLevel` as it was or this `t` for the non-binding
payoff of the action, and the binding block of a binding payoff returns either `bestLevel` as
it was or this `t` for `(1−δ)·payoffs[s][a] + δ·points[p][k]`, in both cases with
`denom ≠ 0`. -/
theorem C29_indifference_level (dir p q : SGPoint) (hdenom : dir.getNormal.dot (q.sub p) ≠ 0) :
    p.dot (dir.add
        (SGPoint.smul ((p.sub q).dot dir / dir.getNormal.dot (q.sub p)) dir.getNormal)) =
      q.dot (dir.add
        (SGPoint.smul ((p.sub q).dot dir / dir.getNormal.dot (q.sub p)) dir.getNormal)) ∧
    (∀ (game : SGGame) (pivot : SGTuple) (actionTuple : List Nat) (regimeTuple : List Regime)
      (state ait : Nat) (act : SGAction_V2) (bestLevel : ℚ),
      sensitivityNonBinding game pivot actionTuple regimeTuple dir state ait act bestLevel
        = bestLevel ∨
      (dir.getNormal.dot ((bellmanPayoff game pivot state act.action).sub (rd pivot state))
          ≠ 0 ∧
        sensitivityNonBinding game pivot actionTuple regimeTuple dir state ait act bestLevel =
          ((rd pivot state).sub (bellmanPayoff game pivot state act.action)).dot dir /
            dir.getNormal.dot
              ((bellmanPayoff game pivot state act.action).sub (rd pivot state)))) ∧
    (∀ (game : SGGame) (pivot : SGTuple) (actionTuple : List Nat) (regimeTuple : List Regime)
      (state ait : Nat) (act : SGAction_V2) (i k : Nat) (bestLevel : ℚ),
      sensitivityBinding game pivot actionTuple regimeTuple dir state ait act i k bestLevel
        = bestLevel ∨
      (dir.getNormal.dot
          (((SGPoint.smul (1 - game.delta) (rd (rd game.payoffs state) act.action)).add
            (SGPoint.smul game.delta (rd (rd act.points i) k))).sub (rd pivot state)) ≠ 0 ∧
        sensitivityBinding game pivot actionTuple regimeTuple dir state ait act i k bestLevel =
          ((rd pivot state).sub
            ((SGPoint.smul (1 - game.delta) (rd (rd game.payoffs state) act.action)).add
              (SGPoint.smul game.delta (rd (rd act.points i) k)))).dot dir /
            dir.getNormal.dot
              (((SGPoint.smul (1 - game.delta) (rd (rd game.payoffs state) act.action)).add
                (SGPoint.smul game.delta (rd (rd act.points i) k))).sub (rd pivot state)))) := by
  have hpos : ∀ d : ℚ, |d| > 1 / 10 ^ 10 → d ≠ 0 := by
    intro d hd h0
    rw [h0, abs_zero] at hd
    norm_num at hd
  refine ⟨?_, ?_, ?_⟩
  · simp only [SGPoint.dot, SGPoint.add, SGPoint.smul, SGPoint.sub, SGPoint.getNormal]
      at hdenom ⊢
    have ht := div_mul_cancel₀ ((p.x - q.x) * dir.x + (p.y - q.y) * dir.y) hdenom
    generalize ((p.x - q.x) * dir.x + (p.y - q.y) * dir.y) /
      (dir.y * (q.x - p.x) + -dir.x * (q.y - p.y)) = t at ht ⊢
    linear_combination (-1) * ht
  · intro game pivot actionTuple regimeTuple state ait act bestLevel
    unfold sensitivityNonBinding
    simp only []
    split_ifs with c1 c2 c3 c4
    · exact Or.inr ⟨hpos _ c1.2, rfl⟩
    all_goals exact Or.inl rfl
  · intro game pivot actionTuple regimeTuple state ait act i k bestLevel
    unfold sensitivityBinding
    simp only []
    split_ifs with c1 c2 c3 c4
    · exact Or.inr ⟨hpos _ c1.2, rfl⟩
    all_goals exact Or.inl rfl

/-- Witness of C29: the direction `(1, 0)`, the pivot point `(0, 0)` and the candidate
`(1, 1)`, with `denom = −1` and `t = 1`. -/
theorem C29_indifference_level_witness :
    (SGPoint.getNormal ⟨1, 0⟩).dot (SGPoint.sub ⟨1, 1⟩ ⟨0, 0⟩) ≠ 0 ∧
    (SGPoint.sub ⟨0, 0⟩ ⟨1, 1⟩).dot ⟨1, 0⟩ /
      (SGPoint.getNormal ⟨1, 0⟩).dot (SGPoint.sub ⟨1, 1⟩ ⟨0, 0⟩) = 1 ∧
    SGPoint.dot ⟨0, 0⟩ (SGPoint.add ⟨1, 0⟩
        (SGPoint.smul ((SGPoint.sub ⟨0, 0⟩ ⟨1, 1⟩).dot ⟨1, 0⟩ /
          (SGPoint.getNormal ⟨1, 0⟩).dot (SGPoint.sub ⟨1, 1⟩ ⟨0, 0⟩))
          (SGPoint.getNormal ⟨1, 0⟩))) =
      SGPoint.dot ⟨1, 1⟩ (SGPoint.add ⟨1, 0⟩
        (SGPoint.smul ((SGPoint.sub ⟨0, 0⟩ ⟨1, 1⟩).dot ⟨1, 0⟩ /
          (SGPoint.getNormal ⟨1, 0⟩).dot (SGPoint.sub ⟨1, 1⟩ ⟨0, 0⟩))
          (SGPoint.getNormal ⟨1, 0⟩))) :=
  ⟨by norm_num [SGPoint.getNormal, SGPoint.dot, SGPoint.sub],
    by norm_num [SGPoint.getNormal, SGPoint.dot, SGPoint.sub],
    (C29_indifference_level ⟨1, 0⟩ ⟨0, 0⟩ ⟨1, 1⟩
      (by norm_num [SGPoint.getNormal, SGPoint.dot, SGPoint.sub])).1⟩

theorem nonneg_eq_of_sq_eq (x y : ℚ) (hx : 0 ≤ x) (hy : 0 ≤ y) (h : x ^ 2 = y ^ 2) : x = y := by
  have h1 : (x - y) * (x + y) = 0 := by ring_nf; linarith
  rcases mul_eq_zero.mp h1 with h2 | h2
  · linarith
  · have hx0 : x = 0 := by linarith
    have hy0 : y = 0 := by linarith
    rw [hx0, hy0]

/-- C30: the value that `sensitivity` returns is `max(bestLevel, 0)`, hence never negative.
For a non-zero direction `dir` and a level `t ≥ 0`, with `norm()` the Euclidean norm (a
non-negative value whose square is the squared length) at the two vectors concerned, the
direction that `solve_endogenous` records, `(1/(t+1))·dir + (t/(t+1))·normal(dir)` divided by
its norm, equals `dir + t·normal(dir)` divided by its norm and has squared length 1.  The
body of the loop `while (!passEast)` records exactly this direction for the level that
`sensitivity` returned. -/
theorem C30_next_direction (dops : DirectionOps) (dir : SGPoint) (t : ℚ)
    (hdir : dir ≠ ⟨0, 0⟩) (ht : 0 ≤ t)
    (hn1 : 0 ≤ dops.norm (nextDirection dir t) ∧
      dops.norm (nextDirection dir t) ^ 2 = (nextDirection dir t).dot (nextDirection dir t))
    (hn2 : 0 ≤ dops.norm (dir.add (SGPoint.smul t dir.getNormal)) ∧
      dops.norm (dir.add (SGPoint.smul t dir.getNormal)) ^ 2 =
        (dir.add (SGPoint.smul t dir.getNormal)).dot
          (dir.add (SGPoint.smul t dir.getNormal))) :
    (∀ (game : SGGame) (pivot : SGTuple) (actionTuple : List Nat) (regimeTuple : List Regime)
      (currDir : SGPoint) (actions : List (List SGAction_V2)),
      0 ≤ sensitivity game pivot actionTuple regimeTuple currDir actions) ∧
    SGPoint.smul (1 / dops.norm (nextDirection dir t)) (nextDirection dir t) =
      SGPoint.smul (1 / dops.norm (dir.add (SGPoint.smul t dir.getNormal)))
        (dir.add (SGPoint.smul t dir.getNormal)) ∧
    (SGPoint.smul (1 / dops.norm (nextDirection dir t)) (nextDirection dir t)).dot
      (SGPoint.smul (1 / dops.norm (nextDirection dir t)) (nextDirection dir t)) = 1 ∧
    (∀ (A : Type) (ops : SGActionOps A) (env : SGEnv) (game : SGGame) (fuel : Nat)
      (actions : List (List A)) (v w : ArcVars A),
      arcStep ops dops env game fuel actions v = Except.ok w →
      ∃ r, optimizePolicy env game fuel v.pivot v.actionTuple v.regimeTuple v.currDir
          (viewAll ops actions) = some r ∧
        w.newDirections = v.newDirections ++
          [SGPoint.smul
            (1 / dops.norm (nextDirection v.currDir
              (sensitivity game r.pivot r.actionTuple r.regimeTuple v.currDir
                (viewAll ops actions))))
            (nextDirection v.currDir
              (sensitivity game r.pivot r.actionTuple r.regimeTuple v.currDir
                (viewAll ops actions)))]) := by
  obtain ⟨a, b⟩ := dir
  obtain ⟨h1, h1s⟩ := hn1
  obtain ⟨h2, h2s⟩ := hn2
  have hc : 0 < t + 1 := by linarith
  have hc0 : t + 1 ≠ 0 := ne_of_gt hc
  have hab : 0 < a ^ 2 + b ^ 2 := by
    rcases eq_or_ne a 0 with ha | ha
    · rcases eq_or_ne b 0 with hb | hb
      · exact absurd (by rw [ha, hb]) hdir
      · have := pow_pos (abs_pos.mpr hb) 2
        rw [sq_abs] at this
        nlinarith [sq_nonneg a]
    · have := pow_pos (abs_pos.mpr ha) 2
      rw [sq_abs] at this
      nlinarith [sq_nonneg b]
  have hu : nextDirection ⟨a, b⟩ t = ⟨(a + t * b) / (t + 1), (b - t * a) / (t + 1)⟩ := by
    simp only [nextDirection, SGPoint.add, SGPoint.smul, SGPoint.getNormal, SGPoint.mk.injEq]
    constructor
    · field_simp
    · field_simp
      ring
  have hv : (SGPoint.mk a b).add (SGPoint.smul t (SGPoint.mk a b).getNormal) =
      ⟨a + t * b, b - t * a⟩ := by
    simp only [SGPoint.add, SGPoint.smul, SGPoint.getNormal, SGPoint.mk.injEq, true_and]
    ring
  rw [hu] at h1 h1s ⊢
  rw [hv] at h2 h2s ⊢
  generalize dops.norm ⟨(a + t * b) / (t + 1), (b - t * a) / (t + 1)⟩ = N1 at h1 h1s ⊢
  generalize dops.norm ⟨a + t * b, b - t * a⟩ = N2 at h2 h2s ⊢
  simp only [SGPoint.dot] at h1s h2s
  have hvv : 0 < (a + t * b) * (a + t * b) + (b - t * a) * (b - t * a) := by
    have : (a + t * b) * (a + t * b) + (b - t * a) * (b - t * a)
        = (1 + t ^ 2) * (a ^ 2 + b ^ 2) := by ring
    rw [this]
    exact mul_pos (by positivity) hab
  have hN2 : 0 < N2 := by
    rcases lt_or_eq_of_le h2 with h | h
    · exact h
    · rw [← h] at h2s
      norm_num at h2s
      linarith
  have hrel : N1 * (t + 1) = N2 := by
    apply nonneg_eq_of_sq_eq _ _ (mul_nonneg h1 (le_of_lt hc)) h2
    rw [mul_pow, h1s, h2s, div_eq_mul_inv, div_eq_mul_inv]
    linear_combination
      ((a + t * b) * (a + t * b) + (b - t * a) * (b - t * a)) * ((t + 1) * (t + 1)⁻¹ + 1) *
        mul_inv_cancel₀ hc0
  have hN1 : 0 < N1 := by
    rcases lt_or_eq_of_le h1 with h | h
    · exact h
    · rw [← h, zero_mul] at hrel
      linarith
  have hN1' : N1 ≠ 0 := ne_of_gt hN1
  refine ⟨fun _ _ _ _ _ _ => le_max_right _ _, ?_, ?_, ?_⟩
  · rw [← hrel]
    simp only [SGPoint.smul, SGPoint.mk.injEq]
    constructor <;> field_simp
  · simp only [SGPoint.smul, SGPoint.dot]
    generalize (a + t * b) / (t + 1) = ux at h1s ⊢
    generalize (b - t * a) / (t + 1) = uy at h1s ⊢
    rw [one_div]
    linear_combination (-(N1⁻¹ ^ 2)) * h1s + (N1 * N1⁻¹ + 1) * mul_inv_cancel₀ hN1'
  · intro A ops env game fuel actions v w h
    unfold arcStep at h
    cases hopt : optimizePolicy env game fuel v.pivot v.actionTuple v.regimeTuple v.currDir
        (viewAll ops actions) with
    | none => simp [hopt] at h
    | some r =>
      simp only [hopt, Except.ok.injEq] at h
      exact ⟨r, rfl, by rw [← h]⟩

/-- Witness of C30: the direction `(1, 0)` and the level `3/4`, with `rationalDirections`,
which is exact at the two vectors `(4/7, −3/7)` and `(1, −3/4)` of length `5/7` and `5/4`;
the direction recorded is `(4/5, −3/5)`. -/
theorem C30_next_direction_witness :
    (0 : ℚ) ≤ 3 / 4 ∧
    nextDirection ⟨1, 0⟩ (3 / 4) = ⟨4 / 7, -3 / 7⟩ ∧
    rationalDirections.norm (nextDirection ⟨1, 0⟩ (3 / 4)) = 5 / 7 ∧
    SGPoint.smul (1 / rationalDirections.norm (nextDirection ⟨1, 0⟩ (3 / 4)))
        (nextDirection ⟨1, 0⟩ (3 / 4)) =
      SGPoint.smul
        (1 / rationalDirections.norm
          (SGPoint.add ⟨1, 0⟩ (SGPoint.smul (3 / 4) (SGPoint.getNormal ⟨1, 0⟩))))
        (SGPoint.add ⟨1, 0⟩ (SGPoint.smul (3 / 4) (SGPoint.getNormal ⟨1, 0⟩))) ∧
    (SGPoint.smul (1 / rationalDirections.norm (nextDirection ⟨1, 0⟩ (3 / 4)))
        (nextDirection ⟨1, 0⟩ (3 / 4))).dot
      (SGPoint.smul (1 / rationalDirections.norm (nextDirection ⟨1, 0⟩ (3 / 4)))
        (nextDirection ⟨1, 0⟩ (3 / 4))) = 1 := by
  have hu : nextDirection ⟨1, 0⟩ (3 / 4) = ⟨4 / 7, -3 / 7⟩ := by
    simp only [nextDirection, SGPoint.add, SGPoint.smul, SGPoint.getNormal, SGPoint.mk.injEq]
    constructor <;> norm_num
  have hv : SGPoint.add ⟨1, 0⟩ (SGPoint.smul (3 / 4) (SGPoint.getNormal ⟨1, 0⟩)) =
      ⟨1, -3 / 4⟩ := by
    simp only [SGPoint.add, SGPoint.smul, SGPoint.getNormal, SGPoint.mk.injEq]
    constructor <;> norm_num
  have hnu : rationalDirections.norm ⟨4 / 7, -3 / 7⟩ = 5 / 7 := by
    show Rat.sqrt (SGPoint.dot ⟨4 / 7, -3 / 7⟩ ⟨4 / 7, -3 / 7⟩) = 5 / 7
    have : SGPoint.dot ⟨4 / 7, -3 / 7⟩ ⟨4 / 7, -3 / 7⟩ = (5 / 7 : ℚ) * (5 / 7) := by
      norm_num [SGPoint.dot]
    rw [this, Rat.sqrt_eq, abs_of_pos (by norm_num)]
  have hnv : rationalDirections.norm ⟨1, -3 / 4⟩ = 5 / 4 := by
    show Rat.sqrt (SGPoint.dot ⟨1, -3 / 4⟩ ⟨1, -3 / 4⟩) = 5 / 4
    have : SGPoint.dot ⟨1, -3 / 4⟩ ⟨1, -3 / 4⟩ = (5 / 4 : ℚ) * (5 / 4) := by
      norm_num [SGPoint.dot]
    rw [this, Rat.sqrt_eq, abs_of_pos (by norm_num)]
  have h := C30_next_direction rationalDirections ⟨1, 0⟩ (3 / 4)
    (by intro h; have := congrArg SGPoint.x h; norm_num at this) (by norm_num)
    (by rw [hu, hnu]; norm_num [SGPoint.dot])
    (by rw [hv, hnv]; norm_num [SGPoint.dot])
  exact ⟨by norm_num, hu, by rw [hu, hnu], h.2.1, h.2.2.1⟩

/-! ## Claims on the value of `calculateMinIC` -/

theorem indexToVector_length (sizes : List Nat) :
    ∀ index, (indexToVector index sizes).length = sizes.length := by
  induction sizes with
  | nil => intro _; rfl
  | cons n sizes ih =>
    intro index
    simp only [indexToVector, List.length_cons, ih]

/-- The conversion of a joint index to a profile and back is a round trip for an index below
the number of profiles. -/
theorem vectorToIndex_indexToVector (sizes : List Nat) :
    ∀ index, index < sizes.prod → vectorToIndex (indexToVector index sizes) sizes = index := by
  induction sizes with
  | nil =>
    intro index h
    simp only [List.prod_nil] at h
    simp only [indexToVector, vectorToIndex]
    omega
  | cons n sizes ih =>
    intro index h
    simp only [List.prod_cons] at h
    have hn : 0 < n := by
      rcases Nat.eq_zero_or_pos n with h0 | h0
      · rw [h0, Nat.zero_mul] at h
        exact absurd h (Nat.not_lt_zero _)
      · exact h0
    simp only [indexToVector, vectorToIndex]
    rw [ih (index / n) (Nat.div_lt_of_lt_mul h)]
    exact Nat.mod_add_div index n

/-- The own action of a player in the profile of a joint index below the number of profiles
is one of the player's actions. -/
theorem indexToVector_lt (sizes : List Nat) :
    ∀ index player, index < sizes.prod → player < sizes.length →
      rd (indexToVector index sizes) player < rd sizes player := by
  induction sizes with
  | nil =>
    intro index player _ hp
    exact absurd hp (Nat.not_lt_zero _)
  | cons n sizes ih =>
    intro index player h hp
    simp only [List.prod_cons] at h
    have hn : 0 < n := by
      rcases Nat.eq_zero_or_pos n with h0 | h0
      · rw [h0, Nat.zero_mul] at h
        exact absurd h (Nat.not_lt_zero _)
      · exact h0
    cases player with
    | zero =>
      show index % n < n
      exact Nat.mod_lt _ hn
    | succ p =>
      have := ih (index / n) p (Nat.div_lt_of_lt_mul h) (by simpa using hp)
      simpa [rd, indexToVector] using this

/-- The deviation of a player to the player's own action is the action profile itself. -/
theorem deviationIndex_own (game : SGGame) (action state player : Nat)
    (haction : action < (rd game.numActions state).prod) :
    deviationIndex game action state player
      (rd (indexToVector action (rd game.numActions state)) player) = action := by
  unfold deviationIndex
  simp only []
  have hset : (indexToVector action (rd game.numActions state)).set player
      (rd (indexToVector action (rd game.numActions state)) player) =
      indexToVector action (rd game.numActions state) := by
    apply eq_of_rd_eq
    · simp
    · intro i
      rw [rd_set]
      split_ifs with c
      · rw [c.1]
      · rfl
  rw [hset]
  exact vectorToIndex_indexToVector _ _ haction

/-- C34: for a state `s`, an action profile `a < N_s = ∏ numActions[s]` and a player `i` of
the state, the conversion of the joint index to a profile and back is a round trip, the
player's own action is among the deviations, and `calculateMinIC` returns a value that is at
least `Σ_{s'} probabilities[s][a][s'] · threatTuple[s'][i]`, the expected threat payoff under
the action itself. -/
theorem C34_calculateMinIC_lower_bound (game : SGGame) (action state player : Nat)
    (threatTuple : SGTuple) (hplayer : player < (rd game.numActions state).length)
    (haction : action < (rd game.numActions state).prod) :
    vectorToIndex (indexToVector action (rd game.numActions state)) (rd game.numActions state)
      = action ∧
    rd (indexToVector action (rd game.numActions state)) player
      < rd (rd game.numActions state) player ∧
    ((List.range threatTuple.length).map (fun s' =>
        rd (rd (rd game.probabilities state) action) s' * (rd threatTuple s').coord player)).sum
      ≤ calculateMinIC game action state player threatTuple := by
  have hown := indexToVector_lt (rd game.numActions state) action player haction hplayer
  refine ⟨vectorToIndex_indexToVector _ _ haction, hown, ?_⟩
  obtain ⟨_, _, h3⟩ := foldl_aboveBest (currentGains game action state player threatTuple)
    (List.range (rd (rd game.numActions state) player)) none
  obtain ⟨w, hw, hle⟩ := h3 _ (List.mem_range.mpr hown)
  have hval : calculateMinIC game action state player threatTuple = w := by
    simp only [calculateMinIC]
    rw [hw]
    rfl
  rw [hval]
  refine le_trans (le_of_eq ?_) hle
  simp only [currentGains, deviationIndex_own game action state player haction,
    sub_self, mul_zero, zero_add, SGTuple.expectationCoord]

/-- Witness of C34: the prisoner's dilemma, state 0, the profile 0 (both cooperate), player 0
and the threat tuple `(1, 1)`. -/
theorem C34_calculateMinIC_lower_bound_witness :
    0 < (rd prisonersDilemma.numActions 0).length ∧
    0 < (rd prisonersDilemma.numActions 0).prod ∧
    ((List.range pdThreat.length).map (fun s' =>
        rd (rd (rd prisonersDilemma.probabilities 0) 0) s' * (rd pdThreat s').coord 0)).sum
      ≤ calculateMinIC prisonersDilemma 0 0 0 pdThreat :=
  ⟨by decide, by decide,
    (C34_calculateMinIC_lower_bound prisonersDilemma 0 0 0 pdThreat (by decide)
      (by decide)).2.2⟩

/-- A weighted sum with non-negative weights is monotone in its terms. -/
theorem weighted_sum_mono (w a b : Nat → ℚ) (n : Nat) (hw : ∀ t, t < n → 0 ≤ w t)
    (hab : ∀ t, t < n → a t ≤ b t) :
    ((List.range n).map (fun t => w t * a t)).sum
      ≤ ((List.range n).map (fun t => w t * b t)).sum := by
  induction n with
  | zero => simp
  | succ n ih =>
    rw [List.range_succ, List.map_append, List.map_append, List.sum_append, List.sum_append]
    have h1 := ih (fun t ht => hw t (by omega)) (fun t ht => hab t (by omega))
    have h2 := mul_le_mul_of_nonneg_left (hab n (by omega)) (hw n (by omega))
    simp only [List.map_cons, List.map_nil, List.sum_cons, List.sum_nil, add_zero]
    linarith

/-- C35: `calculateMinIC` is monotone in the threat tuple.  For a game whose transition
probabilities in the state are non-negative, two threat tuples with one entry per state (of
the same length), and a player `i`: if `threatTuple[s'][i] ≤ threatTuple'[s'][i]` for every
state `s'`, then `calculateMinIC` with `threatTuple` is at most `calculateMinIC` with
`threatTuple'`. -/
theorem C35_calculateMinIC_monotone (game : SGGame) (action state player : Nat)
    (threatTuple other : SGTuple) (hlen : threatTuple.length = other.length)
    (hprob : ∀ a s', 0 ≤ rd (rd (rd game.probabilities state) a) s')
    (hle : ∀ s', (rd threatTuple s').coord player ≤ (rd other s').coord player) :
    calculateMinIC game action state player threatTuple
      ≤ calculateMinIC game action state player other := by
  have hgain : ∀ d, currentGains game action state player threatTuple d
      ≤ currentGains game action state player other d := by
    intro d
    simp only [currentGains, SGTuple.expectationCoord, hlen]
    have := weighted_sum_mono
      (fun s' => rd (rd (rd game.probabilities state)
        (deviationIndex game action state player d)) s')
      (fun s' => (rd threatTuple s').coord player) (fun s' => (rd other s').coord player)
      other.length (fun t _ => hprob _ t) (fun t _ => hle t)
    linarith
  obtain ⟨h1, _, _⟩ := foldl_aboveBest (currentGains game action state player threatTuple)
    (List.range (rd (rd game.numActions state) player)) none
  obtain ⟨k1, _, k3⟩ := foldl_aboveBest (currentGains game action state player other)
    (List.range (rd (rd game.numActions state) player)) none
  simp only [calculateMinIC]
  rcases h1 with h1 | ⟨d, hd, h1⟩
  · rw [h1]
    rcases k1 with k1 | ⟨d, hd, _⟩
    · rw [k1]
    · have hn : List.range (rd (rd game.numActions state) player) ≠ [] :=
        List.ne_nil_of_mem hd
      obtain ⟨w, hw, _⟩ := (foldl_aboveBest
        (currentGains game action state player threatTuple)
        (List.range (rd (rd game.numActions state) player)) none).2.2 d hd
      rw [h1] at hw
      exact absurd hw (by simp)
  · obtain ⟨w, hw, hwle⟩ := k3 d hd
    rw [h1, hw]
    exact le_trans (hgain d) hwle

/-- Witness of C35: the prisoner's dilemma and the threat tuples `(1, 1)` and `(2, 2)`. -/
theorem C35_calculateMinIC_monotone_witness :
    calculateMinIC prisonersDilemma 0 0 0 pdThreat
      ≤ calculateMinIC prisonersDilemma 0 0 0 [⟨2, 2⟩] :=
  C35_calculateMinIC_monotone prisonersDilemma 0 0 0 pdThreat [⟨2, 2⟩] rfl
    (by
      intro a s'
      have h : ∀ x ∈ rd prisonersDilemma.probabilities 0, ∀ y ∈ x, (0 : ℚ) ≤ y := by
        simp [prisonersDilemma, rd]
      by_cases ha : a < (rd prisonersDilemma.probabilities 0).length
      · by_cases hs : s' < (rd (rd prisonersDilemma.probabilities 0) a).length
        · exact h _ (rd_of_lt_mem _ _ ha) _ (rd_of_lt_mem _ _ hs)
        · rw [rd_default_of_le _ _ (by omega)]
          exact le_refl _
      · rw [rd_default_of_le (rd prisonersDilemma.probabilities 0) a (by omega)]
        rw [rd_default_of_le (default : List ℚ) s' (Nat.zero_le s')]
        exact le_refl _)
    (by
      intro s'
      by_cases hs : s' < 1
      · have : s' = 0 := by omega
        subst this
        norm_num [pdThreat, rd, SGPoint.coord]
      · rw [rd_default_of_le pdThreat s' (by show 1 ≤ s'; omega),
          rd_default_of_le ([⟨2, 2⟩] : SGTuple) s' (by show 1 ≤ s'; omega)])

/-! ## Claims on the snap branches, the acceptance condition and the box of the payoffs -/

/-- C37: in `intersectRaySegment` with `INTERSECTTOL ≥ 0`, when the run reaches a snap branch
(the segment has two points that are not both above `level + ICTOL` and not both below
`level`, their levels differ by more than `INTERSECTTOL`, and `weightOn1 > 1` or
`weightOn1 < 0`), both endpoints lie strictly above the line `normal·x = level`, the lower of
the two has a level of at most `level + ICTOL`, and the result is the segment with both points
equal to that lower endpoint: `segment[1]` when `weightOn1 > 1`, `segment[0]` when
`weightOn1 < 0`.  Then `ICTOL > 0`: with `ICTOL = 0` the snap branches are not reached. -/
theorem C37_snap_branches (env : SGEnv) (hI : 0 ≤ env.INTERSECTTOL)
    (pivot direction a b : SGPoint)
    (h1 : ¬ (direction.getNormal.dot a > pivot.dot direction.getNormal + env.ICTOL ∧
      direction.getNormal.dot b > pivot.dot direction.getNormal + env.ICTOL))
    (h2 : ¬ (direction.getNormal.dot a < pivot.dot direction.getNormal ∧
      direction.getNormal.dot b < pivot.dot direction.getNormal))
    (h3 : |direction.getNormal.dot a - direction.getNormal.dot b| > env.INTERSECTTOL)
    (hsnap : (pivot.dot direction.getNormal - direction.getNormal.dot a) /
          (direction.getNormal.dot b - direction.getNormal.dot a) > 1 ∨
        (pivot.dot direction.getNormal - direction.getNormal.dot a) /
          (direction.getNormal.dot b - direction.getNormal.dot a) < 0) :
    pivot.dot direction.getNormal < direction.getNormal.dot a ∧
    pivot.dot direction.getNormal < direction.getNormal.dot b ∧
    min (direction.getNormal.dot a) (direction.getNormal.dot b)
      ≤ pivot.dot direction.getNormal + env.ICTOL ∧
    0 < env.ICTOL ∧
    ((pivot.dot direction.getNormal - direction.getNormal.dot a) /
          (direction.getNormal.dot b - direction.getNormal.dot a) > 1 →
      direction.getNormal.dot b < direction.getNormal.dot a ∧
      intersectRaySegment env pivot direction [a, b] = [b, b]) ∧
    ((pivot.dot direction.getNormal - direction.getNormal.dot a) /
          (direction.getNormal.dot b - direction.getNormal.dot a) < 0 →
      direction.getNormal.dot a < direction.getNormal.dot b ∧
      intersectRaySegment env pivot direction [a, b] = [a, a]) := by
  have hclip : intersectRaySegment env pivot direction [a, b] =
      if (pivot.dot direction.getNormal - direction.getNormal.dot a) /
          (direction.getNormal.dot b - direction.getNormal.dot a) > 1 then [b, b]
      else if (pivot.dot direction.getNormal - direction.getNormal.dot a) /
          (direction.getNormal.dot b - direction.getNormal.dot a) < 0 then [a, a]
      else
        if direction.getNormal.dot a < direction.getNormal.dot b then
          [a, (SGPoint.smul ((pivot.dot direction.getNormal - direction.getNormal.dot a) /
            (direction.getNormal.dot b - direction.getNormal.dot a)) b).add
            (SGPoint.smul (1 - (pivot.dot direction.getNormal - direction.getNormal.dot a) /
              (direction.getNormal.dot b - direction.getNormal.dot a)) a)]
        else
          [(SGPoint.smul ((pivot.dot direction.getNormal - direction.getNormal.dot a) /
            (direction.getNormal.dot b - direction.getNormal.dot a)) b).add
            (SGPoint.smul (1 - (pivot.dot direction.getNormal - direction.getNormal.dot a) /
              (direction.getNormal.dot b - direction.getNormal.dot a)) a), b] := by
    simp only [intersectRaySegment, if_neg h1, if_neg h2, if_pos h3]
  generalize direction.getNormal.dot a = l0 at *
  generalize direction.getNormal.dot b = l1 at *
  generalize pivot.dot direction.getNormal = level at *
  have hne : l1 - l0 ≠ 0 := by
    intro h
    have : l0 - l1 = 0 := by linarith
    rw [this, abs_zero] at h3
    linarith
  have hgt : (level - l0) / (l1 - l0) > 1 → l1 < l0 ∧ level < l1 := by
    intro hw
    rcases lt_or_gt_of_ne hne with hneg | hpos
    · have := (lt_div_iff_of_neg hneg).mp hw
      exact ⟨by linarith, by linarith⟩
    · have := (lt_div_iff₀ hpos).mp hw
      exact absurd ⟨by linarith, by linarith⟩ h2
  have hlt : (level - l0) / (l1 - l0) < 0 → l0 < l1 ∧ level < l0 := by
    intro hw
    rcases lt_or_gt_of_ne hne with hneg | hpos
    · have := (div_lt_iff_of_neg hneg).mp hw
      exact absurd ⟨by linarith, by linarith⟩ h2
    · have := (div_lt_iff₀ hpos).mp hw
      exact ⟨by linarith, by linarith⟩
  have habove : level < l0 ∧ level < l1 := by
    rcases hsnap with hw | hw
    · obtain ⟨k1, k2⟩ := hgt hw
      exact ⟨by linarith, k2⟩
    · obtain ⟨k1, k2⟩ := hlt hw
      exact ⟨k2, by linarith⟩
  have hmin : min l0 l1 ≤ level + env.ICTOL := by
    by_contra hc
    have hc := not_le.mp hc
    exact h1 ⟨lt_of_lt_of_le hc (min_le_left _ _), lt_of_lt_of_le hc (min_le_right _ _)⟩
  have hic : 0 < env.ICTOL := by
    have : level < min l0 l1 := lt_min habove.1 habove.2
    linarith
  refine ⟨habove.1, habove.2, hmin, hic, ?_, ?_⟩
  · intro hw
    exact ⟨(hgt hw).1, by rw [hclip, if_pos hw]⟩
  · intro hw
    have hn : ¬ (level - l0) / (l1 - l0) > 1 := by
      intro hw1
      linarith
    exact ⟨(hlt hw).1, by rw [hclip, if_neg hn, if_pos hw]⟩

/-- Witness of C37: the default tolerances and the ray of level 0; the endpoints have the
levels `2e-12` and `5e-13`, `weightOn1 = 4/3`, and the segment becomes twice its second
point. -/
theorem C37_snap_branches_witness :
    (SGPoint.dot ⟨0, 0⟩ (SGPoint.getNormal ⟨0, 1⟩) -
        (SGPoint.getNormal ⟨0, 1⟩).dot ⟨2 / 10 ^ 12, 0⟩) /
      ((SGPoint.getNormal ⟨0, 1⟩).dot ⟨5 / 10 ^ 13, 1⟩ -
        (SGPoint.getNormal ⟨0, 1⟩).dot ⟨2 / 10 ^ 12, 0⟩) = 4 / 3 ∧
    intersectRaySegment SGEnv.defaults ⟨0, 0⟩ ⟨0, 1⟩ [⟨2 / 10 ^ 12, 0⟩, ⟨5 / 10 ^ 13, 1⟩] =
      [⟨5 / 10 ^ 13, 1⟩, ⟨5 / 10 ^ 13, 1⟩] := by
  have habs : |(3 : ℚ) / 2000000000000| = 3 / 2000000000000 := abs_of_pos (by norm_num)
  have hw : (SGPoint.dot ⟨0, 0⟩ (SGPoint.getNormal ⟨0, 1⟩) -
        (SGPoint.getNormal ⟨0, 1⟩).dot ⟨2 / 10 ^ 12, 0⟩) /
      ((SGPoint.getNormal ⟨0, 1⟩).dot ⟨5 / 10 ^ 13, 1⟩ -
        (SGPoint.getNormal ⟨0, 1⟩).dot ⟨2 / 10 ^ 12, 0⟩) = 4 / 3 := by
    norm_num [SGPoint.dot, SGPoint.getNormal]
  exact ⟨hw,
    ((C37_snap_branches SGEnv.defaults (by norm_num [SGEnv.defaults]) ⟨0, 0⟩ ⟨0, 1⟩
      ⟨2 / 10 ^ 12, 0⟩ ⟨5 / 10 ^ 13, 1⟩
      (by norm_num [SGEnv.defaults, SGPoint.dot, SGPoint.getNormal])
      (by norm_num [SGPoint.dot, SGPoint.getNormal])
      (by
        simp only [SGPoint.dot, SGPoint.getNormal, SGEnv.defaults]
        norm_num [habs])
      (Or.inl (by rw [hw]; norm_num))).2.2.2.2.1 (by rw [hw]; norm_num)).2⟩

/-- C38: the acceptance condition of the binding candidates of `sensitivity` as C++ parses
it, `(ait ≠ chosen ∧ denom > 1e-6) ∨ (ait = chosen ∧ NonBinding ∧ denom < −1e-6) ∨
(Binding ∧ denom > 1e-6)`, is equivalent, for every action, regime and `denom`, to the
grouping `(ait ≠ chosen ∧ denom > 1e-6) ∨ (ait = chosen ∧ ((NonBinding ∧ denom < −1e-6) ∨
(Binding ∧ denom > 1e-6)))`; hence `sensitivityBinding`, which has the first, returns the same
value as `sensitivityBindingGrouped`, which has the second, on every input. -/
theorem C38_acceptance_condition :
    (∀ (ait chosen : Nat) (regime : Regime) (denom : ℚ),
      ((ait ≠ chosen ∧ denom > 1 / 10 ^ 6)
          ∨ (ait = chosen ∧ (regime = Regime.NonBinding ∧ denom < -(1 / 10 ^ 6)))
          ∨ (regime = Regime.Binding ∧ denom > 1 / 10 ^ 6)) ↔
        ((ait ≠ chosen ∧ denom > 1 / 10 ^ 6)
          ∨ (ait = chosen
            ∧ ((regime = Regime.NonBinding ∧ denom < -(1 / 10 ^ 6))
              ∨ (regime = Regime.Binding ∧ denom > 1 / 10 ^ 6))))) ∧
    ∀ (game : SGGame) (pivot : SGTuple) (actionTuple : List Nat) (regimeTuple : List Regime)
      (currDir : SGPoint) (state ait : Nat) (act : SGAction_V2) (p k : Nat) (bestLevel : ℚ),
      sensitivityBinding game pivot actionTuple regimeTuple currDir state ait act p k bestLevel =
        sensitivityBindingGrouped game pivot actionTuple regimeTuple currDir state ait act p k
          bestLevel := by
  have hiff : ∀ (ait chosen : Nat) (regime : Regime) (denom : ℚ),
      ((ait ≠ chosen ∧ denom > 1 / 10 ^ 6)
          ∨ (ait = chosen ∧ (regime = Regime.NonBinding ∧ denom < -(1 / 10 ^ 6)))
          ∨ (regime = Regime.Binding ∧ denom > 1 / 10 ^ 6)) ↔
        ((ait ≠ chosen ∧ denom > 1 / 10 ^ 6)
          ∨ (ait = chosen
            ∧ ((regime = Regime.NonBinding ∧ denom < -(1 / 10 ^ 6))
              ∨ (regime = Regime.Binding ∧ denom > 1 / 10 ^ 6)))) := by
    intro ait chosen regime denom
    constructor
    · rintro (h | h | h)
      · exact Or.inl h
      · exact Or.inr ⟨h.1, Or.inl h.2⟩
      · by_cases c : ait = chosen
        · exact Or.inr ⟨c, Or.inr h⟩
        · exact Or.inl ⟨c, h.2⟩
    · rintro (h | ⟨c, h | h⟩)
      · exact Or.inl h
      · exact Or.inr (Or.inl ⟨c, h⟩)
      · exact Or.inr (Or.inr h)
  refine ⟨hiff, ?_⟩
  intro game pivot actionTuple regimeTuple currDir state ait act p k bestLevel
  unfold sensitivityBinding sensitivityBindingGrouped
  simp only [hiff]

/-- C32: at the initialisation of `solve` and of `solve_endogenous`, each action is trimmed at
the four directions `circle (k/4)`, `k = 0..3`, with the level
`max(currDir·payoffLB, currDir·payoffUB)`.  When these directions are the cardinal directions
`(1,0)`, `(0,1)`, `(−1,0)`, `(0,−1)` (exact arithmetic) and `payoffLB ≤ payoffUB` in both
coordinates, the four levels are `UB.x`, `UB.y`, `−LB.x`, `−LB.y`, the support values of the
box `[payoffLB, payoffUB]`, and a point satisfies `d_k·x ≤ level_k` for all four `k` exactly
when it lies in the box. -/
theorem C32_box_trim (circle : ℚ → SGPoint) (payoffLB payoffUB : SGPoint)
    (h0 : circle (((0 : Nat) : ℚ) / 4) = ⟨1, 0⟩) (h1 : circle (((1 : Nat) : ℚ) / 4) = ⟨0, 1⟩)
    (h2 : circle (((2 : Nat) : ℚ) / 4) = ⟨-1, 0⟩)
    (h3 : circle (((3 : Nat) : ℚ) / 4) = ⟨0, -1⟩)
    (hx : payoffLB.x ≤ payoffUB.x) (hy : payoffLB.y ≤ payoffUB.y) :
    (∀ (A : Type) (ops : SGActionOps A) (env : SGEnv) (game : SGGame) (threatTuple : SGTuple)
      (state action : Nat),
      initAction ops circle env game threatTuple payoffLB payoffUB state action =
        ops.updateTrim
          ((List.range 4).foldl
            (fun a (dir : Nat) =>
              ops.trim (circle ((dir : ℚ) / 4))
                (trimLevel (circle ((dir : ℚ) / 4)) payoffLB payoffUB) a)
            (ops.resetTrimmedPoints
              (ops.calculateMinIC game [true, true] threatTuple
                (ops.construct env state action))))) ∧
    trimLevel (circle (((0 : Nat) : ℚ) / 4)) payoffLB payoffUB = payoffUB.x ∧
    trimLevel (circle (((1 : Nat) : ℚ) / 4)) payoffLB payoffUB = payoffUB.y ∧
    trimLevel (circle (((2 : Nat) : ℚ) / 4)) payoffLB payoffUB = -payoffLB.x ∧
    trimLevel (circle (((3 : Nat) : ℚ) / 4)) payoffLB payoffUB = -payoffLB.y ∧
    ∀ x : SGPoint,
      (∀ k : Nat, k < 4 →
        (circle ((k : ℚ) / 4)).dot x ≤ trimLevel (circle ((k : ℚ) / 4)) payoffLB payoffUB) ↔
      (payoffLB.x ≤ x.x ∧ x.x ≤ payoffUB.x ∧ payoffLB.y ≤ x.y ∧ x.y ≤ payoffUB.y) := by
  have l0 : trimLevel (circle (((0 : Nat) : ℚ) / 4)) payoffLB payoffUB = payoffUB.x := by
    rw [h0]
    simp only [trimLevel, SGPoint.dot, one_mul, zero_mul, add_zero]
    exact max_eq_right hx
  have l1 : trimLevel (circle (((1 : Nat) : ℚ) / 4)) payoffLB payoffUB = payoffUB.y := by
    rw [h1]
    simp only [trimLevel, SGPoint.dot, one_mul, zero_mul, zero_add]
    exact max_eq_right hy
  have l2 : trimLevel (circle (((2 : Nat) : ℚ) / 4)) payoffLB payoffUB = -payoffLB.x := by
    rw [h2]
    simp only [trimLevel, SGPoint.dot, neg_mul, one_mul, zero_mul, add_zero]
    exact max_eq_left (by linarith)
  have l3 : trimLevel (circle (((3 : Nat) : ℚ) / 4)) payoffLB payoffUB = -payoffLB.y := by
    rw [h3]
    simp only [trimLevel, SGPoint.dot, neg_mul, one_mul, zero_mul, zero_add]
    exact max_eq_left (by linarith)
  refine ⟨fun _ _ _ _ _ _ _ => rfl, l0, l1, l2, l3, ?_⟩
  intro x
  constructor
  · intro h
    have k0 := h 0 (by decide)
    have k1 := h 1 (by decide)
    have k2 := h 2 (by decide)
    have k3 := h 3 (by decide)
    rw [l0, h0] at k0
    rw [l1, h1] at k1
    rw [l2, h2] at k2
    rw [l3, h3] at k3
    simp only [SGPoint.dot] at k0 k1 k2 k3
    refine ⟨by linarith, by linarith, by linarith, by linarith⟩
  · rintro ⟨a1, a2, a3, a4⟩ k hk
    have hcases : k = 0 ∨ k = 1 ∨ k = 2 ∨ k = 3 := by omega
    rcases hcases with rfl | rfl | rfl | rfl
    · rw [l0, h0]
      simp only [SGPoint.dot]
      linarith
    · rw [l1, h1]
      simp only [SGPoint.dot]
      linarith
    · rw [l2, h2]
      simp only [SGPoint.dot]
      linarith
    · rw [l3, h3]
      simp only [SGPoint.dot]
      linarith

/-- The points of `quarterCircle` at the four quarter turns. -/
theorem quarterCircle_cardinal :
    quarterCircle (((0 : Nat) : ℚ) / 4) = ⟨1, 0⟩ ∧ quarterCircle (((1 : Nat) : ℚ) / 4) = ⟨0, 1⟩ ∧
    quarterCircle (((2 : Nat) : ℚ) / 4) = ⟨-1, 0⟩ ∧
    quarterCircle (((3 : Nat) : ℚ) / 4) = ⟨0, -1⟩ := by
  refine ⟨?_, ?_, ?_, ?_⟩ <;>
    simp [quarterCircle] <;> norm_num

/-- Witness of C32: `quarterCircle`, which is exact at the quarter turns, and the payoff
bounds `(1, 1)` and `(5, 5)`; the point `(3, 3)` lies in the box. -/
theorem C32_box_trim_witness :
    trimLevel (quarterCircle (((2 : Nat) : ℚ) / 4)) ⟨1, 1⟩ ⟨5, 5⟩ = -1 ∧
    ((∀ k : Nat, k < 4 →
        (quarterCircle ((k : ℚ) / 4)).dot ⟨3, 3⟩ ≤
          trimLevel (quarterCircle ((k : ℚ) / 4)) ⟨1, 1⟩ ⟨5, 5⟩) ↔
      ((1 : ℚ) ≤ 3 ∧ (3 : ℚ) ≤ 5 ∧ (1 : ℚ) ≤ 3 ∧ (3 : ℚ) ≤ 5)) :=
  ⟨(C32_box_trim quarterCircle ⟨1, 1⟩ ⟨5, 5⟩ quarterCircle_cardinal.1
      quarterCircle_cardinal.2.1 quarterCircle_cardinal.2.2.1 quarterCircle_cardinal.2.2.2
      (by norm_num) (by norm_num)).2.2.2.1,
    (C32_box_trim quarterCircle ⟨1, 1⟩ ⟨5, 5⟩ quarterCircle_cardinal.1
      quarterCircle_cardinal.2.1 quarterCircle_cardinal.2.2.1 quarterCircle_cardinal.2.2.2
      (by norm_num) (by norm_num)).2.2.2.2.2 ⟨3, 3⟩⟩

/-! ## Claims on the endpoints selected by `calculateBindingContinuations` -/

/-- The entries of one player on exit from `calculateBindingContinuations` are those that
the second loop leaves for the player, run on an action with the same `state`, `action` and
`minIC` whose entries of the player were cleared if the player is recomputed and are those of
the entry action otherwise. -/
theorem calculateBindingContinuations_player (env : SGEnv) (updatedThreatTuple : List Bool)
    (game : SGGame) (extremeTuples : List SGTuple) (threatTuple pivot : SGTuple)
    (currentDirection : SGPoint) (oldWest : Nat) (a : SGAction_PencilSharpening)
    (hpl : a.points.length = 2) (htl : a.tuples.length = 2) (player : Nat)
    (hplayer : player < 2) :
    ∃ b : SGAction_PencilSharpening, b.state = a.state ∧ b.action = a.action ∧
      b.minIC = a.minIC ∧ player < b.points.length ∧ player < b.tuples.length ∧
      (recomputed updatedThreatTuple game player = true →
        rd b.points player = [] ∧ rd b.tuples player = []) ∧
      (recomputed updatedThreatTuple game player = false →
        rd b.points player = rd a.points player ∧ rd b.tuples player = rd a.tuples player) ∧
      rd (calculateBindingContinuations env updatedThreatTuple game extremeTuples threatTuple
          pivot currentDirection oldWest a).points player =
        rd (selectPlayer env updatedThreatTuple game extremeTuples threatTuple pivot
          currentDirection oldWest b player).points player ∧
      rd (calculateBindingContinuations env updatedThreatTuple game extremeTuples threatTuple
          pivot currentDirection oldWest a).tuples player =
        rd (selectPlayer env updatedThreatTuple game extremeTuples threatTuple pivot
          currentDirection oldWest b player).tuples player := by
  simp only [calculateBindingContinuations, List.foldl_cons, List.foldl_nil]
  obtain ⟨c0s, c0a⟩ := clearPlayer_ids updatedThreatTuple game a 0
  obtain ⟨c0p, c0t, c0m, c0f⟩ := clearPlayer_frame updatedThreatTuple game a 0
  obtain ⟨c0r, c0n⟩ := clearPlayer_own updatedThreatTuple game a 0 (by omega) (by omega)
  generalize clearPlayer updatedThreatTuple game a 0 = a1 at *
  obtain ⟨c1s, c1a⟩ := clearPlayer_ids updatedThreatTuple game a1 1
  obtain ⟨c1p, c1t, c1m, c1f⟩ := clearPlayer_frame updatedThreatTuple game a1 1
  obtain ⟨c1r, c1n⟩ := clearPlayer_own updatedThreatTuple game a1 1 (by omega) (by omega)
  generalize clearPlayer updatedThreatTuple game a1 1 = a2 at *
  have hcases : player = 0 ∨ player = 1 := by omega
  rcases hcases with rfl | rfl
  · obtain ⟨-, -, -, s1f⟩ := selectPlayer_frame env updatedThreatTuple game extremeTuples
      threatTuple pivot currentDirection oldWest
      (selectPlayer env updatedThreatTuple game extremeTuples threatTuple pivot
        currentDirection oldWest a2 0) 1
    refine ⟨a2, c1s.trans c0s, c1a.trans c0a, c1m.trans c0m, by omega, by omega, ?_, ?_,
      (s1f 0 (by decide)).1, (s1f 0 (by decide)).2⟩
    · intro h
      rw [(c1f 0 (by decide)).1, (c1f 0 (by decide)).2]
      exact c0r h
    · intro h
      rw [(c1f 0 (by decide)).1, (c1f 0 (by decide)).2, c0n h]
      exact ⟨rfl, rfl⟩
  · obtain ⟨s0s, s0a⟩ := selectPlayer_ids env updatedThreatTuple game extremeTuples
      threatTuple pivot currentDirection oldWest a2 0
    obtain ⟨s0p, s0t, s0m, s0f⟩ := selectPlayer_frame env updatedThreatTuple game
      extremeTuples threatTuple pivot currentDirection oldWest a2 0
    generalize selectPlayer env updatedThreatTuple game extremeTuples threatTuple pivot
      currentDirection oldWest a2 0 = a3 at *
    refine ⟨a3, s0s.trans (c1s.trans c0s), s0a.trans (c1a.trans c0a),
      s0m.trans (c1m.trans c0m), by omega, by omega, ?_, ?_, rfl, rfl⟩
    · intro h
      rw [(s0f 1 (by decide)).1, (s0f 1 (by decide)).2]
      exact c1r h
    · intro h
      rw [(s0f 1 (by decide)).1, (s0f 1 (by decide)).2, c1n h]
      exact ⟨(c0f 1 (by decide)).1, (c0f 1 (by decide)).2⟩

/-- C33: in `calculateBindingContinuations` on an action with one `points` and one `tuples`
entry per player, for a recomputed player `i` with at least one candidate whose largest
coordinate of the other player is at least `minIC[1−i]`: the indices `maxIndex` and
`minIndex` are those of candidates with the largest and the smallest coordinate of the other
player; if the smallest is below `minIC[1−i]`, the segment handed to the clip is (largest
candidate, `minIC`) with the tuple indices (history index of the largest candidate, `−1`); if
it is not, the segment is (largest candidate, smallest candidate) with their history indices.
On exit `points[i]` is the clip of that segment, and `tuples[i]` holds the two indices unless
the clip has emptied the segment. -/
theorem C33_endpoint_selection (env : SGEnv) (updatedThreatTuple : List Bool)
    (game : SGGame) (extremeTuples : List SGTuple) (threatTuple pivot : SGTuple)
    (currentDirection : SGPoint) (oldWest : Nat) (a : SGAction_PencilSharpening)
    (hpl : a.points.length = 2) (htl : a.tuples.length = 2) (player : Nat)
    (hplayer : player < 2) (hrec : recomputed updatedThreatTuple game player = true)
    (hcand : (collectCandidates env game a extremeTuples threatTuple oldWest player).1 ≠ [])
    (hmax : (SGTuple.maxmin (collectCandidates env game a extremeTuples threatTuple oldWest
      player).1 (1 - player)).1 ≥ a.minIC.coord (1 - player)) :
    (SGTuple.maxmin (collectCandidates env game a extremeTuples threatTuple oldWest
        player).1 (1 - player)).2.1
      < (collectCandidates env game a extremeTuples threatTuple oldWest player).1.length ∧
    (SGTuple.maxmin (collectCandidates env game a extremeTuples threatTuple oldWest
        player).1 (1 - player)).2.2.2
      < (collectCandidates env game a extremeTuples threatTuple oldWest player).1.length ∧
    (∀ k, k < (collectCandidates env game a extremeTuples threatTuple oldWest player).1.length →
      (rd (collectCandidates env game a extremeTuples threatTuple oldWest player).1
          (SGTuple.maxmin (collectCandidates env game a extremeTuples threatTuple oldWest
            player).1 (1 - player)).2.2.2).coord (1 - player)
        ≤ (rd (collectCandidates env game a extremeTuples threatTuple oldWest player).1
          k).coord (1 - player) ∧
      (rd (collectCandidates env game a extremeTuples threatTuple oldWest player).1
          k).coord (1 - player)
        ≤ (rd (collectCandidates env game a extremeTuples threatTuple oldWest player).1
          (SGTuple.maxmin (collectCandidates env game a extremeTuples threatTuple oldWest
            player).1 (1 - player)).2.1).coord (1 - player)) ∧
    ((rd (collectCandidates env game a extremeTuples threatTuple oldWest player).1
          (SGTuple.maxmin (collectCandidates env game a extremeTuples threatTuple oldWest
            player).1 (1 - player)).2.2.2).coord (1 - player) < a.minIC.coord (1 - player) →
      rd (calculateBindingContinuations env updatedThreatTuple game extremeTuples threatTuple
          pivot currentDirection oldWest a).points player =
        intersectRaySegment env
          (SGTuple.expectation pivot (rd (rd game.probabilities a.state) a.action))
          currentDirection
          [rd (collectCandidates env game a extremeTuples threatTuple oldWest player).1
              (SGTuple.maxmin (collectCandidates env game a extremeTuples threatTuple oldWest
                player).1 (1 - player)).2.1, a.minIC] ∧
      rd (calculateBindingContinuations env updatedThreatTuple game extremeTuples threatTuple
          pivot currentDirection oldWest a).tuples player =
        if (rd (calculateBindingContinuations env updatedThreatTuple game extremeTuples
            threatTuple pivot currentDirection oldWest a).points player).length = 0 then []
        else
          [rd (collectCandidates env game a extremeTuples threatTuple oldWest player).2
              (SGTuple.maxmin (collectCandidates env game a extremeTuples threatTuple oldWest
                player).1 (1 - player)).2.1, -1]) ∧
    (¬ (rd (collectCandidates env game a extremeTuples threatTuple oldWest player).1
          (SGTuple.maxmin (collectCandidates env game a extremeTuples threatTuple oldWest
            player).1 (1 - player)).2.2.2).coord (1 - player) < a.minIC.coord (1 - player) →
      rd (calculateBindingContinuations env updatedThreatTuple game extremeTuples threatTuple
          pivot currentDirection oldWest a).points player =
        intersectRaySegment env
          (SGTuple.expectation pivot (rd (rd game.probabilities a.state) a.action))
          currentDirection
          [rd (collectCandidates env game a extremeTuples threatTuple oldWest player).1
              (SGTuple.maxmin (collectCandidates env game a extremeTuples threatTuple oldWest
                player).1 (1 - player)).2.1,
            rd (collectCandidates env game a extremeTuples threatTuple oldWest player).1
              (SGTuple.maxmin (collectCandidates env game a extremeTuples threatTuple oldWest
                player).1 (1 - player)).2.2.2] ∧
      rd (calculateBindingContinuations env updatedThreatTuple game extremeTuples threatTuple
          pivot currentDirection oldWest a).tuples player =
        if (rd (calculateBindingContinuations env updatedThreatTuple game extremeTuples
            threatTuple pivot currentDirection oldWest a).points player).length = 0 then []
        else
          [rd (collectCandidates env game a extremeTuples threatTuple oldWest player).2
              (SGTuple.maxmin (collectCandidates env game a extremeTuples threatTuple oldWest
                player).1 (1 - player)).2.1,
            rd (collectCandidates env game a extremeTuples threatTuple oldWest player).2
              (SGTuple.maxmin (collectCandidates env game a extremeTuples threatTuple oldWest
                player).1 (1 - player)).2.2.2]) := by
  obtain ⟨b, bs, ba, bm, bp, bt, brec, _, hpts, htup⟩ :=
    calculateBindingContinuations_player env updatedThreatTuple game extremeTuples threatTuple
      pivot currentDirection oldWest a hpl htl player hplayer
  have hc := collectCandidates_congr env game b a extremeTuples threatTuple oldWest player
    bs ba bm
  rcases maxmin_spec (collectCandidates env game a extremeTuples threatTuple oldWest
    player).1 (1 - player) with ⟨he, _⟩ | ⟨_, hM, hm, _, hmv, hall⟩
  · exact absurd he hcand
  rcases selectPlayer_recomputed env updatedThreatTuple game extremeTuples threatTuple pivot
    currentDirection oldWest b player hrec bp bt (brec hrec).1 (brec hrec).2 with
    ⟨hn, _⟩ | ⟨_, h1, h2⟩
  · rw [hc, bm] at hn
    exact absurd hmax hn
  rw [← hpts] at h1 h2
  rw [← htup] at h2
  rw [hc, bm, bs, ba] at h1
  rw [hc, bm] at h2
  rw [hmv] at h1 h2
  refine ⟨hM, hm, fun k hk => ?_, fun hlt => ?_, fun hge => ?_⟩
  · have := hall k hk
    rw [hmv] at this
    have hMv := (maxmin_spec (collectCandidates env game a extremeTuples threatTuple oldWest
      player).1 (1 - player))
    rcases hMv with ⟨he, _⟩ | ⟨_, _, _, hMval, _, _⟩
    · exact absurd he hcand
    · rw [hMval] at this
      exact this
  · rw [if_pos hlt] at h1 h2
    exact ⟨h1, h2⟩
  · rw [if_neg hge] at h1 h2
    exact ⟨h1, h2⟩

/-- Witness of C33: the history of two tuples with `oldWest = 0` and the action with empty
binding sets; player 0 is recomputed, its two candidates have the coordinates 1 and 2 of
player 1, both at least `minIC[1] = 0`, and the segment handed to the clip is (the candidate
with coordinate 2, the candidate with coordinate 1). -/
theorem C33_endpoint_selection_witness :
    recomputed [true, false] flatGame 0 = true ∧
    collectCandidates SGEnv.defaults flatGame flatAction flatHistory [⟨-1, -1⟩] 0 0 =
      ([⟨-1 / (2 * 10 ^ 8), 1⟩, ⟨-1 / (2 * 10 ^ 8), 2⟩], [1, 0]) ∧
    rd (calculateBindingContinuations SGEnv.defaults [true, false] flatGame flatHistory
        [⟨-1, -1⟩] [⟨0, 0⟩] ⟨1, 0⟩ 0 flatAction).points 0 =
      intersectRaySegment SGEnv.defaults
        (SGTuple.expectation [⟨0, 0⟩] (rd (rd flatGame.probabilities 0) 0)) ⟨1, 0⟩
        [⟨-1 / (2 * 10 ^ 8), 2⟩, ⟨-1 / (2 * 10 ^ 8), 1⟩] := by
  have hmm : SGTuple.maxmin (collectCandidates SGEnv.defaults flatGame flatAction flatHistory
      [⟨-1, -1⟩] 0 0).1 (1 - 0) = (2, 1, 1, 0) := by
    rw [flat_candidates]
    exact flat_maxmin
  have h := (C33_endpoint_selection SGEnv.defaults [true, false] flatGame flatHistory
    [⟨-1, -1⟩] [⟨0, 0⟩] ⟨1, 0⟩ 0 flatAction rfl rfl 0 (by decide) rfl
    (by rw [flat_candidates]; simp)
    (by rw [hmm]; norm_num [flatAction, SGPoint.coord])).2.2.2.2
    (by rw [hmm, flat_candidates]; norm_num [flatAction, SGPoint.coord, rd])
  rw [hmm, flat_candidates] at h
  exact ⟨rfl, flat_candidates, h.1⟩

/-- The two points that the second loop pushes for a recomputed player both meet the
constraint of the other player. -/
theorem selected_pair_constraint (t : SGTuple) (j : Nat) (minIC : SGPoint)
    (hg : (SGTuple.maxmin t j).1 ≥ minIC.coord j) :
    minIC.coord j ≤ (rd t (SGTuple.maxmin t j).2.1).coord j ∧
    minIC.coord j ≤ (if (SGTuple.maxmin t j).2.2.1 < minIC.coord j then minIC
      else rd t (SGTuple.maxmin t j).2.2.2).coord j := by
  rcases maxmin_spec t j with ⟨ht, hmm⟩ | ⟨_, _, _, hM, hm, _⟩
  · subst ht
    rw [hmm] at hg ⊢
    have hpos := DBL_MAX_pos
    have h0 : (rd ([] : SGTuple) 0).coord j = 0 := by
      simp [rd, SGPoint.coord, default]
    simp only [ge_iff_le] at hg
    refine ⟨by rw [h0]; linarith, ?_⟩
    split_ifs with hc
    · exact le_refl _
    · rw [h0]
      linarith
  · refine ⟨by rw [← hM]; exact hg, ?_⟩
    split_ifs with hc
    · exact le_refl _
    · rw [← hm]
      exact not_lt.mp hc

/-- The second loop on its own player, when the player is recomputed or re-checked against
the updated constraint of the other player: every point left for the player meets the
constraint of the other player. -/
theorem selectPlayer_constraint (env : SGEnv) (updatedThreatTuple : List Bool)
    (game : SGGame) (extremeTuples : List SGTuple) (threatTuple pivot : SGTuple)
    (currentDirection : SGPoint) (oldWest : Nat) (a : SGAction_PencilSharpening)
    (player : Nat) (hp : player < a.points.length) (ht : player < a.tuples.length)
    (hrec : recomputed updatedThreatTuple game player = true →
      rd a.points player = [] ∧ rd a.tuples player = [])
    (hinv : recomputed updatedThreatTuple game player = false →
      (rd a.points player).length = 0 ∨ (rd a.points player).length = 2)
    (hcase : recomputed updatedThreatTuple game player = true ∨
      rd updatedThreatTuple (1 - player) = true) :
    ∀ x ∈ rd (selectPlayer env updatedThreatTuple game extremeTuples threatTuple pivot
        currentDirection oldWest a player).points player,
      a.minIC.coord (1 - player) ≤ x.coord (1 - player) := by
  by_cases hr : recomputed updatedThreatTuple game player = true
  · obtain ⟨hpe, hte⟩ := hrec hr
    rcases selectPlayer_recomputed env updatedThreatTuple game extremeTuples threatTuple pivot
      currentDirection oldWest a player hr hp ht hpe hte with ⟨_, h⟩ | ⟨hg, hpts, _⟩
    · rw [h, hpe]
      intro x hx
      exact absurd hx (List.not_mem_nil x)
    · rw [hpts]
      obtain ⟨hA, hB⟩ := selected_pair_constraint _ (1 - player) a.minIC hg
      rcases intersectRaySegment_shape env
        (SGTuple.expectation pivot (rd (rd game.probabilities a.state) a.action))
        currentDirection
        (rd (collectCandidates env game a extremeTuples threatTuple oldWest player).1
          (SGTuple.maxmin (collectCandidates env game a extremeTuples threatTuple oldWest
            player).1 (1 - player)).2.1)
        (if (SGTuple.maxmin (collectCandidates env game a extremeTuples threatTuple oldWest
            player).1 (1 - player)).2.2.1 < a.minIC.coord (1 - player) then a.minIC
          else rd (collectCandidates env game a extremeTuples threatTuple oldWest player).1
            (SGTuple.maxmin (collectCandidates env game a extremeTuples threatTuple oldWest
              player).1 (1 - player)).2.2.2) with h | ⟨w0, w1, h0, h01, h1, h⟩
      · rw [h]
        intro x hx
        exact absurd hx (List.not_mem_nil x)
      · rw [h]
        intro x hx
        simp only [List.mem_cons, List.mem_singleton, List.not_mem_nil, or_false] at hx
        rcases hx with rfl | rfl
        · exact SGPoint.coord_comb_ge _ _ w0 _ _ h0 (le_trans h01 h1) hA hB
        · exact SGPoint.coord_comb_ge _ _ w1 _ _ (le_trans h0 h01) h1 hA hB
  · have hr' : recomputed updatedThreatTuple game player = false := by
      simpa using hr
    have hlen := hinv hr'
    simp only [selectPlayer, hr', Bool.false_eq_true, if_false]
    split_ifs with h1 h2 h3
    · have hpos : (rd a.points player).length > 0 := by
        simp only [Bool.and_eq_true, decide_eq_true_eq] at h1
        exact h1.2
      have h2len : (rd a.points player).length = 2 := by
        rcases hlen with h | h
        · omega
        · exact h
      show ∀ x ∈ rd (a.points.set player ((rd a.points player).set 1 a.minIC)) player,
        a.minIC.coord (1 - player) ≤ x.coord (1 - player)
      rw [rd_set_eq _ _ _ hp]
      obtain ⟨p0, p1, hpp⟩ : ∃ p0 p1, rd a.points player = [p0, p1] := by
        match hq : rd a.points player with
        | [] => rw [hq] at h2len; simp at h2len
        | [_] => rw [hq] at h2len; simp at h2len
        | [p0, p1] => exact ⟨p0, p1, rfl⟩
        | _ :: _ :: _ :: _ => rw [hq] at h2len; simp at h2len
      rw [hpp] at h2 ⊢
      intro x hx
      simp only [List.set_cons_succ, List.set_cons_zero, List.mem_cons, List.mem_singleton,
        List.not_mem_nil, or_false] at hx
      rcases hx with rfl | rfl
      · exact h2
      · exact le_refl _
    · have hpos : (rd a.points player).length > 0 := by
        simp only [Bool.and_eq_true, decide_eq_true_eq] at h1
        exact h1.2
      have h2len : (rd a.points player).length = 2 := by
        rcases hlen with h | h
        · omega
        · exact h
      obtain ⟨p0, p1, hpp⟩ : ∃ p0 p1, rd a.points player = [p0, p1] := by
        match hq : rd a.points player with
        | [] => rw [hq] at h2len; simp at h2len
        | [_] => rw [hq] at h2len; simp at h2len
        | [p0, p1] => exact ⟨p0, p1, rfl⟩
        | _ :: _ :: _ :: _ => rw [hq] at h2len; simp at h2len
      rw [hpp] at h2 h3 ⊢
      intro x hx
      simp only [List.mem_cons, List.mem_singleton, List.not_mem_nil, or_false] at hx
      rcases hx with rfl | rfl
      · exact h2
      · exact not_lt.mp h3
    · show ∀ x ∈ rd (a.points.set player []) player,
        a.minIC.coord (1 - player) ≤ x.coord (1 - player)
      rw [rd_set_eq _ _ _ hp]
      intro x hx
      exact absurd hx (List.not_mem_nil x)
    · have hu : rd updatedThreatTuple (1 - player) = true := by
        rcases hcase with h | h
        · exact absurd h hr
        · exact h
      have hz : (rd a.points player).length = 0 := by
        by_contra hne
        apply h1
        simp only [Bool.and_eq_true, decide_eq_true_eq]
        exact ⟨hu, Nat.pos_of_ne_zero hne⟩
      rw [List.length_eq_zero.mp hz]
      intro x hx
      exact absurd hx (List.not_mem_nil x)

/-! ## Claim on the constraint of the other player -/

/-- C36: after `calculateBindingContinuations`, called on an action with one `points` and one
`tuples` entry per player whose entries of player `i` satisfy the closing assertions, if
player `i` was recomputed, or was not and the threat of the other player was updated (so
that `points[i]` was re-checked), then `minIC` is as on entry and every point of `points[i]`
meets the constraint of the other player exactly, `points[i][k][1−i] ≥ minIC[1−i]`; this
includes the points left by the final clip, each of which is a convex combination of the
two points pushed.  (A recomputed player without any candidate passes the test
`maxOtherPayoff >= minIC[1-player]` only when `minIC[1−i]` is not above the sentinel
`-DBL_MAX`; the statement covers that run with the default point read there.) -/
theorem C36_other_player_constraint (env : SGEnv) (updatedThreatTuple : List Bool)
    (game : SGGame) (extremeTuples : List SGTuple) (threatTuple pivot : SGTuple)
    (currentDirection : SGPoint) (oldWest : Nat) (a : SGAction_PencilSharpening)
    (hpl : a.points.length = 2) (htl : a.tuples.length = 2) (player : Nat)
    (hplayer : player < 2) (hinv : segmentInvariant env a player)
    (hcase : recomputed updatedThreatTuple game player = true ∨
      rd updatedThreatTuple (1 - player) = true) :
    (calculateBindingContinuations env updatedThreatTuple game extremeTuples threatTuple
      pivot currentDirection oldWest a).minIC = a.minIC ∧
    ∀ x ∈ rd (calculateBindingContinuations env updatedThreatTuple game extremeTuples
        threatTuple pivot currentDirection oldWest a).points player,
      a.minIC.coord (1 - player) ≤ x.coord (1 - player) := by
  constructor
  · simp only [calculateBindingContinuations, List.foldl_cons, List.foldl_nil]
    rw [(selectPlayer_frame _ _ _ _ _ _ _ _ _ _).2.2.1,
      (selectPlayer_frame _ _ _ _ _ _ _ _ _ _).2.2.1,
      (clearPlayer_frame _ _ _ _).2.2.1, (clearPlayer_frame _ _ _ _).2.2.1]
  · obtain ⟨b, _, _, bm, bp, bt, brec, bnot, hpts, _⟩ :=
      calculateBindingContinuations_player env updatedThreatTuple game extremeTuples
        threatTuple pivot currentDirection oldWest a hpl htl player hplayer
    rw [hpts, ← bm]
    refine selectPlayer_constraint env updatedThreatTuple game extremeTuples threatTuple pivot
      currentDirection oldWest b player bp bt brec ?_ hcase
    intro h
    rw [(bnot h).1]
    rcases hinv.1 with h0 | ⟨h2, _⟩
    · exact Or.inl h0
    · exact Or.inr h2

/-- Witness of C36: the history of two tuples with `oldWest = 0` and the action with empty
binding sets; player 0 is recomputed, and the two points left for it have the coordinates 2
and 1 of player 1, both at least `minIC[1] = 0`. -/
theorem C36_other_player_constraint_witness :
    segmentInvariant SGEnv.defaults flatAction 0 ∧
    recomputed [true, false] flatGame 0 = true ∧
    rd (calculateBindingContinuations SGEnv.defaults [true, false] flatGame flatHistory
        [⟨-1, -1⟩] [⟨0, 0⟩] ⟨1, 0⟩ 0 flatAction).points 0 =
      [⟨-1 / (2 * 10 ^ 8), 2⟩, ⟨-1 / (2 * 10 ^ 8), 1⟩] ∧
    ∀ x ∈ rd (calculateBindingContinuations SGEnv.defaults [true, false] flatGame
        flatHistory [⟨-1, -1⟩] [⟨0, 0⟩] ⟨1, 0⟩ 0 flatAction).points 0,
      flatAction.minIC.coord (1 - 0) ≤ x.coord (1 - 0) :=
  have hinv : segmentInvariant SGEnv.defaults flatAction 0 := by
    simp [segmentInvariant, flatAction, rd]
  ⟨hinv, rfl, flat_points,
    (C36_other_player_constraint SGEnv.defaults [true, false] flatGame flatHistory
      [⟨-1, -1⟩] [⟨0, 0⟩] ⟨1, 0⟩ 0 flatAction rfl rfl 0 (by decide) hinv (Or.inl rfl)).2⟩

/-! ## Claim on the error level of `solve_endogenous` -/

/-- A running minimum is at most its start value and every value it has met, and it is one
of them. -/
theorem foldl_min_attained {β : Type} (f : β → ℚ) (l : List β) (init : ℚ) :
    l.foldl (fun m x => min m (f x)) init ≤ init ∧
    (∀ x ∈ l, l.foldl (fun m x => min m (f x)) init ≤ f x) ∧
    (l.foldl (fun m x => min m (f x)) init = init ∨
      ∃ x ∈ l, l.foldl (fun m x => min m (f x)) init = f x) := by
  induction l generalizing init with
  | nil => exact ⟨le_refl _, fun x hx => absurd hx (List.not_mem_nil x), Or.inl rfl⟩
  | cons a l ih =>
    simp only [List.foldl_cons]
    obtain ⟨h1, h2, h3⟩ := ih (min init (f a))
    refine ⟨le_trans h1 (min_le_left _ _), fun x hx => ?_, ?_⟩
    · rcases List.mem_cons.mp hx with rfl | hx
      · exact le_trans h1 (min_le_right _ _)
      · exact h2 x hx
    · rcases h3 with h | ⟨x, hx, h⟩
      · rcases min_choice init (f a) with hc | hc
        · exact Or.inl (h.trans hc)
        · exact Or.inr ⟨a, List.mem_cons_self _ _, h.trans hc⟩
      · exact Or.inr ⟨x, List.mem_cons_of_mem _ hx, h⟩

/-- A running maximum is at least its start value and every value it has met, and it is one
of them. -/
theorem foldl_max_attained {β : Type} (f : β → ℚ) (l : List β) (init : ℚ) :
    init ≤ l.foldl (fun m x => max m (f x)) init ∧
    (∀ x ∈ l, f x ≤ l.foldl (fun m x => max m (f x)) init) ∧
    (l.foldl (fun m x => max m (f x)) init = init ∨
      ∃ x ∈ l, l.foldl (fun m x => max m (f x)) init = f x) := by
  induction l generalizing init with
  | nil => exact ⟨le_refl _, fun x hx => absurd hx (List.not_mem_nil x), Or.inl rfl⟩
  | cons a l ih =>
    simp only [List.foldl_cons]
    obtain ⟨h1, h2, h3⟩ := ih (max init (f a))
    refine ⟨le_trans (le_max_left _ _) h1, fun x hx => ?_, ?_⟩
    · rcases List.mem_cons.mp hx with rfl | hx
      · exact le_trans (le_max_right _ _) h1
      · exact h2 x hx
    · rcases h3 with h | ⟨x, hx, h⟩
      · rcases max_choice init (f a) with hc | hc
        · exact Or.inl (h.trans hc)
        · exact Or.inr ⟨a, List.mem_cons_self _ _, h.trans hc⟩
      · exact Or.inr ⟨x, List.mem_cons_of_mem _ hx, h⟩

/-- The distance of two vectors of levels is the largest absolute difference of the levels
of a state, and zero when the game has no state. -/
theorem levelDistance_sup (game : SGGame) (l0 l1 : List ℚ) :
    (∀ s < game.numStates, |rd l0 s - rd l1 s| ≤ levelDistance game l0 l1) ∧
    ((game.numStates = 0 ∧ levelDistance game l0 l1 = 0) ∨
      ∃ s < game.numStates, levelDistance game l0 l1 = |rd l0 s - rd l1 s|) := by
  obtain ⟨h1, h2, h3⟩ := foldl_max_attained (fun s => |rd l0 s - rd l1 s|)
    (List.range game.numStates) 0
  refine ⟨fun s hs => h2 s (List.mem_range.mpr hs), ?_⟩
  rcases h3 with h | ⟨s, hs, h⟩
  · by_cases hn : game.numStates = 0
    · exact Or.inl ⟨hn, h⟩
    · right
      have h0 : 0 < game.numStates := Nat.pos_of_ne_zero hn
      refine ⟨0, h0, ?_⟩
      have hle := h2 0 (List.mem_range.mpr h0)
      exact le_antisymm (by rw [show levelDistance game l0 l1 = 0 from h]; exact abs_nonneg _)
        hle
  · exact Or.inr ⟨s, List.mem_range.mp hs, h⟩

/-- The error level as a nearest-neighbour maximum, given that every new entry has a
previous entry at a distance that does not exceed the start value of the nearest distance. -/
theorem arcError_max_min (game : SGGame) (directions : List SGPoint)
    (levels : List (List ℚ)) (newDirections : List SGPoint) (newLevels : List (List ℚ))
    (hrange : ∀ new ∈ newDirections.zip newLevels, ∃ old ∈ directions.zip levels,
      SGPoint.distance old.1 new.1 + levelDistance game old.2 new.2 ≤ DBL_MAX) :
    (∀ new ∈ newDirections.zip newLevels, ∃ old ∈ directions.zip levels,
      SGPoint.distance old.1 new.1 + levelDistance game old.2 new.2
        ≤ arcError game directions levels newDirections newLevels) ∧
    (newDirections.zip newLevels ≠ [] →
      ∃ new ∈ newDirections.zip newLevels, ∃ old ∈ directions.zip levels,
        arcError game directions levels newDirections newLevels =
          SGPoint.distance old.1 new.1 + levelDistance game old.2 new.2 ∧
        ∀ other ∈ directions.zip levels,
          arcError game directions levels newDirections newLevels
            ≤ SGPoint.distance other.1 new.1 + levelDistance game other.2 new.2) ∧
    (newDirections.zip newLevels = [] →
      arcError game directions levels newDirections newLevels = 0) := by
  -- the nearest distance of one new entry
  have hinner : ∀ new ∈ newDirections.zip newLevels,
      (∃ old ∈ directions.zip levels,
        (directions.zip levels).foldl
          (fun minDist old =>
            min minDist (SGPoint.distance old.1 new.1 + levelDistance game old.2 new.2))
          DBL_MAX = SGPoint.distance old.1 new.1 + levelDistance game old.2 new.2) ∧
      ∀ other ∈ directions.zip levels,
        (directions.zip levels).foldl
          (fun minDist old =>
            min minDist (SGPoint.distance old.1 new.1 + levelDistance game old.2 new.2))
          DBL_MAX ≤ SGPoint.distance other.1 new.1 + levelDistance game other.2 new.2 := by
    intro new hnew
    obtain ⟨h1, h2, h3⟩ := foldl_min_attained
      (fun old : SGPoint × List ℚ =>
        SGPoint.distance old.1 new.1 + levelDistance game old.2 new.2)
      (directions.zip levels) DBL_MAX
    refine ⟨?_, h2⟩
    rcases h3 with h | h
    · obtain ⟨old, hold, hle⟩ := hrange new hnew
      refine ⟨old, hold, le_antisymm (h2 old hold) ?_⟩
      rw [h]
      exact hle
    · exact h
  obtain ⟨m1, m2, m3⟩ := foldl_max_attained
    (fun new : SGPoint × List ℚ =>
      (directions.zip levels).foldl
        (fun minDist old =>
          min minDist (SGPoint.distance old.1 new.1 + levelDistance game old.2 new.2))
        DBL_MAX)
    (newDirections.zip newLevels) 0
  refine ⟨fun new hnew => ?_, fun hne => ?_, fun he => ?_⟩
  · obtain ⟨⟨old, hold, heq⟩, _⟩ := hinner new hnew
    refine ⟨old, hold, ?_⟩
    rw [← heq]
    exact m2 new hnew
  · rcases m3 with h | ⟨new, hnew, h⟩
    · obtain ⟨new, hnew⟩ := List.exists_mem_of_ne_nil _ hne
      obtain ⟨⟨old, hold, heq⟩, hall⟩ := hinner new hnew
      have hle := m2 new hnew
      have hz : (directions.zip levels).foldl
          (fun minDist old =>
            min minDist (SGPoint.distance old.1 new.1 + levelDistance game old.2 new.2))
          DBL_MAX = 0 := by
        apply le_antisymm
        · rw [← h]
          exact hle
        · rw [heq]
          exact add_nonneg (SGPoint.pointDistance_nonneg _ _) (levelDistance_nonneg _ _ _)
      refine ⟨new, hnew, old, hold, ?_, fun other hother => ?_⟩
      · show (newDirections.zip newLevels).foldl _ 0 = _
        rw [h, ← heq, hz]
      · show (newDirections.zip newLevels).foldl _ 0 ≤ _
        rw [h, ← hz]
        exact hall other hother
    · obtain ⟨⟨old, hold, heq⟩, hall⟩ := hinner new hnew
      refine ⟨new, hnew, old, hold, ?_, fun other hother => ?_⟩
      · show (newDirections.zip newLevels).foldl _ 0 = _
        rw [h, heq]
      · show (newDirections.zip newLevels).foldl _ 0 ≤ _
        rw [h]
        exact hall other hother
  · unfold arcError
    rw [he]
    rfl

/-- The error level that a pass of the main loop of `solve_endogenous` leaves is that of the
new directions and levels against those of the pass before. -/
theorem endoIteration_errorLevel {A : Type} (ops : SGActionOps A) (dops : DirectionOps)
    (env : SGEnv) (game : SGGame) (fuel arcFuel : Nat) (v v1 : EndoVars A)
    (hrun : endoIteration ops dops env game fuel arcFuel v = Except.ok v1) :
    v1.errorLevel = arcError game v.directions v.levels v1.directions v1.levels := by
  simp only [endoIteration] at hrun
  split at hrun
  · exact absurd hrun (by simp)
  · split at hrun
    · exact absurd hrun (by simp)
    · split at hrun
      · exact absurd hrun (by simp)
      · simp only [Except.ok.injEq] at hrun
        rw [← hrun]

/-- C31: at the end of a pass of the main loop of `solve_endogenous` (a revolution), where
every entry of the new list of (direction, level) has an entry of the previous list at a
distance within the range of a `double` (so the previous list is not empty if the new one is
not), `errorLevel` is the nearest-neighbour maximum of the new list against the previous
one, with the distance `SGPoint::distance(dir, dir') + sup_s |lvl[s] − lvl'[s]|` of two
entries: every new entry has a previous entry at a distance of at most `errorLevel`; if the
new list is not empty, `errorLevel` is the distance of some new entry to a previous entry
that is nearest to it; if it is empty, `errorLevel` is 0.  The second summand of the distance
is the largest absolute difference of the levels of a state.  If the new list equals the
previous one, `errorLevel` is 0. -/
theorem C31_error_level {A : Type} (ops : SGActionOps A) (dops : DirectionOps)
    (env : SGEnv) (game : SGGame) (fuel arcFuel : Nat) (v v1 : EndoVars A)
    (hrun : endoIteration ops dops env game fuel arcFuel v = Except.ok v1)
    (hrange : ∀ new ∈ v1.directions.zip v1.levels, ∃ old ∈ v.directions.zip v.levels,
      SGPoint.distance old.1 new.1 + levelDistance game old.2 new.2 ≤ DBL_MAX) :
    (∀ new ∈ v1.directions.zip v1.levels, ∃ old ∈ v.directions.zip v.levels,
      SGPoint.distance old.1 new.1 + levelDistance game old.2 new.2 ≤ v1.errorLevel) ∧
    (v1.directions.zip v1.levels ≠ [] →
      ∃ new ∈ v1.directions.zip v1.levels, ∃ old ∈ v.directions.zip v.levels,
        v1.errorLevel = SGPoint.distance old.1 new.1 + levelDistance game old.2 new.2 ∧
        ∀ other ∈ v.directions.zip v.levels,
          v1.errorLevel
            ≤ SGPoint.distance other.1 new.1 + levelDistance game other.2 new.2) ∧
    (v1.directions.zip v1.levels = [] → v1.errorLevel = 0) ∧
    (∀ l0 l1 : List ℚ,
      (∀ s < game.numStates, |rd l0 s - rd l1 s| ≤ levelDistance game l0 l1) ∧
      ((game.numStates = 0 ∧ levelDistance game l0 l1 = 0) ∨
        ∃ s < game.numStates, levelDistance game l0 l1 = |rd l0 s - rd l1 s|)) ∧
    (v1.directions = v.directions → v1.levels = v.levels → v1.errorLevel = 0) := by
  have he := endoIteration_errorLevel ops dops env game fuel arcFuel v v1 hrun
  obtain ⟨h1, h2, h3⟩ := arcError_max_min game v.directions v.levels v1.directions v1.levels
    hrange
  rw [← he] at h1 h2 h3
  refine ⟨h1, h2, h3, fun l0 l1 => levelDistance_sup game l0 l1, fun hd hl => ?_⟩
  rw [he, hd, hl]
  exact arcError_self _ _ _

/-- Witness of C31: the second pass of the main loop on `capGame` repeats the three
directions and the levels of the first, and its error level is 0. -/
theorem C31_error_level_witness :
    ∃ v v1 : EndoVars SGAction_V2,
      endoIteration idleOps idleDirections SGEnv.defaults capGame 2 3 v = Except.ok v1 ∧
      v.directions = unitArc ∧ v1.directions = unitArc ∧
      v1.levels = v.levels ∧ v1.errorLevel = 0 := by
  obtain ⟨v, _, u, _, d, l, _⟩ := unit_endoIteration _ unit_endo_init
  obtain ⟨v1, h1, _, _, d1, l1, _⟩ := unit_endoIteration v u
  have hrange : ∀ new ∈ v1.directions.zip v1.levels, ∃ old ∈ v.directions.zip v.levels,
      SGPoint.distance old.1 new.1 + levelDistance capGame old.2 new.2 ≤ DBL_MAX := by
    intro new hnew
    rw [d1, l1] at hnew
    rw [d, l]
    refine ⟨new, hnew, ?_⟩
    rw [SGPoint.distance_self, levelDistance_self, add_zero]
    exact le_of_lt DBL_MAX_pos
  exact ⟨v, v1, h1, d, d1, l1.trans l.symm,
    (C31_error_level idleOps idleDirections SGEnv.defaults capGame 2 3 v v1 h1 hrange).2.2.2.2
      (d1.trans d.symm) (l1.trans l.symm)⟩

/-! ## Claim on the contraction of the Bellman sweep -/

theorem SGPoint.pointDistance_comm (p q : SGPoint) :
    SGPoint.distance p q = SGPoint.distance q p := by
  simp only [SGPoint.distance, abs_sub_comm]

/-- The distance of two tuples of the same length does not depend on their order. -/
theorem SGTuple.tupleDistance_comm (t0 t1 : SGTuple) (h : t0.length = t1.length) :
    SGTuple.distance t0 t1 = SGTuple.distance t1 t0 := by
  simp only [SGTuple.distance, h]
  congr 1
  funext d s
  rw [SGPoint.pointDistance_comm]

/-- The distance of two tuples is at most a non-negative bound on the distances of the
points of every state of the first tuple. -/
theorem SGTuple.tupleDistance_le (t0 t1 : SGTuple) (B : ℚ) (hB : 0 ≤ B)
    (h : ∀ s, s < t0.length → SGPoint.distance (rd t0 s) (rd t1 s) ≤ B) :
    SGTuple.distance t0 t1 ≤ B := by
  obtain ⟨_, _, h3⟩ := foldl_max_attained
    (fun s => SGPoint.distance (rd t0 s) (rd t1 s)) (List.range t0.length) 0
  rcases h3 with h0 | ⟨s, hs, he⟩
  · show (List.range t0.length).foldl _ 0 ≤ B
    rw [h0]
    exact hB
  · show (List.range t0.length).foldl _ 0 ≤ B
    rw [he]
    exact h s (List.mem_range.mp hs)

/-- One sweep of the Bellman iteration brings two pivots with one point per state that agree
on the binding states closer by the factor `δ`. -/
theorem bellmanSweep_contraction (game : SGGame) (actions : List (List SGAction_V2))
    (actionTuple : List Nat) (regimeTuple : List Regime) (hδ : 0 ≤ game.delta)
    (hprob : ∀ s, s < game.numStates → rd regimeTuple s = Regime.NonBinding →
      (∀ t, t < game.numStates →
        0 ≤ rd (rd (rd game.probabilities s) (rd (rd actions s) (rd actionTuple s)).action)
          t) ∧
      ((List.range game.numStates).map
        (fun t => rd (rd (rd game.probabilities s)
          (rd (rd actions s) (rd actionTuple s)).action) t)).sum ≤ 1)
    (p q : SGTuple) (hp : p.length = game.numStates) (hq : q.length = game.numStates)
    (hagree : ∀ s, s < game.numStates → rd regimeTuple s = Regime.Binding →
      rd p s = rd q s) :
    SGTuple.distance (bellmanSweep game actions actionTuple regimeTuple p)
        (bellmanSweep game actions actionTuple regimeTuple q)
      ≤ game.delta * SGTuple.distance p q := by
  have hD0 : 0 ≤ SGTuple.distance p q := SGTuple.distance_nonneg p q
  apply SGTuple.tupleDistance_le _ _ _ (mul_nonneg hδ hD0)
  intro s hs
  rw [bellmanSweep_length, hp] at hs
  rw [bellmanSweep_rd, bellmanSweep_rd]
  by_cases hnb : rd regimeTuple s = Regime.NonBinding
  · rw [if_pos ⟨hs, by rw [hp]; exact hs, hnb⟩, if_pos ⟨hs, by rw [hq]; exact hs, hnb⟩]
    obtain ⟨hw, hsum⟩ := hprob s hs hnb
    apply bellmanPayoff_contraction game hδ p q s _ _ hD0 (hp.trans hq.symm)
    · intro t ht
      exact hw t (by rw [← hp]; exact ht)
    · rw [hp]
      exact hsum
    · intro t c ht
      exact SGTuple.coord_diff_le_distance p q t c ht
  · rw [if_neg (fun h => hnb h.2.2), if_neg (fun h => hnb h.2.2)]
    have hb : rd regimeTuple s = Regime.Binding := by
      cases hr : rd regimeTuple s with
      | NonBinding => exact absurd hr hnb
      | Binding => rfl
    rw [hagree s hs hb, SGPoint.distance_self]
    exact mul_nonneg hδ hD0

/-- C39: for fixed action and regime tuples, a discount factor `δ ≥ 0` and transition
probabilities of the chosen action of every non-binding state that are non-negative and sum
to at most 1 (in particular to 1), one sweep `T` of `policyToPayoffs` is a `δ`-contraction in
the sup-norm: for any two pivots `p` and `q` with one point per state that agree on every
binding state, `distance(T(p), T(q)) ≤ δ · distance(p, q)`.  Consequently, when
`policyToPayoffs` returns with `bellmanPivotGap ≤ UPDATEPIVOTTOL` (a converged run), the
returned pivot satisfies `distance(pivot, T(pivot)) ≤ δ · UPDATEPIVOTTOL`. -/
theorem C39_bellman_contraction (env : SGEnv) (game : SGGame)
    (actions : List (List SGAction_V2)) (actionTuple : List Nat) (regimeTuple : List Regime)
    (hδ : 0 ≤ game.delta)
    (hprob : ∀ s, s < game.numStates → rd regimeTuple s = Regime.NonBinding →
      (∀ t, t < game.numStates →
        0 ≤ rd (rd (rd game.probabilities s) (rd (rd actions s) (rd actionTuple s)).action)
          t) ∧
      ((List.range game.numStates).map
        (fun t => rd (rd (rd game.probabilities s)
          (rd (rd actions s) (rd actionTuple s)).action) t)).sum ≤ 1) :
    (∀ p q : SGTuple, p.length = game.numStates → q.length = game.numStates →
      (∀ s, s < game.numStates → rd regimeTuple s = Regime.Binding → rd p s = rd q s) →
      SGTuple.distance (bellmanSweep game actions actionTuple regimeTuple p)
          (bellmanSweep game actions actionTuple regimeTuple q)
        ≤ game.delta * SGTuple.distance p q) ∧
    (∀ pivot : SGTuple, pivot.length = game.numStates →
      (policyToPayoffs env game actions pivot actionTuple regimeTuple).2
        ≤ env.UPDATEPIVOTTOL →
      SGTuple.distance (policyToPayoffs env game actions pivot actionTuple regimeTuple).1
          (bellmanSweep game actions actionTuple regimeTuple
            (policyToPayoffs env game actions pivot actionTuple regimeTuple).1)
        ≤ game.delta * env.UPDATEPIVOTTOL) := by
  refine ⟨fun p q hp hq hagree =>
    bellmanSweep_contraction game actions actionTuple regimeTuple hδ hprob p q hp hq hagree,
    fun pivot hlen hgap => ?_⟩
  obtain ⟨p0, hp0, -, hb⟩ := bellmanLoop_last env game actions actionTuple regimeTuple
    (env.MAXUPDATEPIVOTPASSES - 1) pivot
  simp only [policyToPayoffs] at hgap ⊢
  rw [hb] at hgap ⊢
  simp only at hgap ⊢
  have hl0 : p0.length = game.numStates := hp0.trans hlen
  have hl1 : (bellmanSweep game actions actionTuple regimeTuple p0).length = game.numStates :=
    (bellmanSweep_length _ _ _ _ _).trans hl0
  rw [SGTuple.tupleDistance_comm _ _ (by rw [hl1, bellmanSweep_length, hl1])]
  refine le_trans (bellmanSweep_contraction game actions actionTuple regimeTuple hδ hprob
    _ p0 hl1 hl0 ?_) (mul_le_mul_of_nonneg_left hgap hδ)
  intro s _ hbind
  rw [bellmanSweep_rd, if_neg]
  intro h
  rw [hbind] at h
  exact absurd h.2.2 (by decide)

/-- Witness of C39: on `capGame` (`δ = 1/2`, one state, non-binding), the pivots `(3, 0)` and
`(1, 0)` are at distance 2 and one sweep takes them to `(2, 0)` and `(1, 0)`, at distance
1. -/
theorem C39_bellman_contraction_witness :
    (0 : ℚ) ≤ capGame.delta ∧
    SGTuple.distance [(⟨3, 0⟩ : SGPoint)] [⟨1, 0⟩] = 2 ∧
    SGTuple.distance (bellmanSweep capGame capActions [0] [Regime.NonBinding] [⟨3, 0⟩])
        (bellmanSweep capGame capActions [0] [Regime.NonBinding] [⟨1, 0⟩])
      ≤ capGame.delta * SGTuple.distance [(⟨3, 0⟩ : SGPoint)] [⟨1, 0⟩] := by
  have hδ : (0 : ℚ) ≤ capGame.delta := by norm_num [capGame]
  have hprob : ∀ s, s < capGame.numStates → rd [Regime.NonBinding] s = Regime.NonBinding →
      (∀ t, t < capGame.numStates →
        0 ≤ rd (rd (rd capGame.probabilities s) (rd (rd capActions s) (rd [0] s)).action)
          t) ∧
      ((List.range capGame.numStates).map
        (fun t => rd (rd (rd capGame.probabilities s)
          (rd (rd capActions s) (rd [0] s)).action) t)).sum ≤ 1 := by
    intro s hs _
    have h0 : s = 0 := by
      have : capGame.numStates = 1 := rfl
      omega
    subst h0
    constructor
    · intro t ht
      have h0 : t = 0 := by
        have : capGame.numStates = 1 := rfl
        omega
      subst h0
      norm_num [capGame, capActions, rd]
    · norm_num [capGame, capActions, rd, List.range_succ]
  have hd : SGTuple.distance [(⟨3, 0⟩ : SGPoint)] [⟨1, 0⟩] = 2 := by
    norm_num [SGTuple.distance, SGPoint.distance, rd, List.range_succ]
  exact ⟨hδ, hd,
    (C39_bellman_contraction SGEnv.defaults capGame capActions [0] [Regime.NonBinding] hδ
      hprob).1 [⟨3, 0⟩] [⟨1, 0⟩] rfl rfl (by
        intro s _ h
        have h0 : s = 0 := by
          have : capGame.numStates = 1 := rfl
          omega
        subst h0
        exact absurd h (by decide))⟩

/-! ## Claim on the iterators that `findFeasibleTuple` dereferences -/

/-- The first loop of `findFeasibleTuple` sets `anyNonBinding` once a state without a binding
payoff is met. -/
theorem feasibleStates_any (game : SGGame) (actions : List (List SGAction_V2))
    (v0 : FeasibleVars) (k : Nat)
    (h : v0.anyNonBinding = true ∨
      ∃ s < k, feasibleAction game.numPlayers (rd actions s) = none) :
    ((List.range k).foldl (feasibleState game actions) v0).anyNonBinding = true := by
  induction k with
  | zero =>
    rcases h with h | ⟨s, hs, _⟩
    · exact h
    · exact absurd hs (Nat.not_lt_zero _)
  | succ k ih =>
    rw [List.range_succ, List.foldl_append, List.foldl_cons, List.foldl_nil]
    cases hf : feasibleAction game.numPlayers (rd actions k) with
    | none =>
      rw [feasibleState_none game actions _ k hf]
    | some ap =>
      obtain ⟨a0, p0⟩ := ap
      rw [feasibleState_some game actions _ k a0 p0 hf]
      apply ih
      rcases h with h | ⟨s, hs, hn⟩
      · exact Or.inl h
      · right
        rcases Nat.lt_succ_iff_lt_or_eq.mp hs with hlt | heq
        · exact ⟨s, hlt, hn⟩
        · subst heq
          rw [hf] at hn
          cases hn

/-- The first loop of `findFeasibleTuple` assigns an iterator only in a state without a
binding payoff. -/
theorem feasibleStates_handle (game : SGGame) (actions : List (List SGAction_V2))
    (v0 : FeasibleVars) (k s : Nat)
    (hs : feasibleAction game.numPlayers (rd actions s) ≠ none) :
    rd ((List.range k).foldl (feasibleState game actions) v0).actionTuple s =
      rd v0.actionTuple s := by
  induction k with
  | zero => rfl
  | succ k ih =>
    rw [List.range_succ, List.foldl_append, List.foldl_cons, List.foldl_nil]
    cases hf : feasibleAction game.numPlayers (rd actions k) with
    | none =>
      rw [feasibleState_none game actions _ k hf]
      have hks : k ≠ s := by
        intro h
        subst h
        exact hs hf
      show rd (List.set _ k (some 0)) s = _
      rw [rd_set_ne _ _ _ _ hks]
      exact ih
    | some ap =>
      obtain ⟨a0, p0⟩ := ap
      rw [feasibleState_some game actions _ k a0 p0 hf]
      exact ih

theorem rd_replicate_none (n s : Nat) :
    rd (List.replicate n (none : Option Nat)) s = none := by
  by_cases hs : s < n
  · simp [rd, List.getD_eq_getElem?_getD, List.getElem?_replicate, hs]
  · exact rd_default_of_le _ _ (by simpa using hs)

/-- The loop that checks the tuple, started on variables whose iterator of state 0 was never
assigned: the check of state 0 dereferences that iterator. -/
theorem icCheck_unassigned (game : SGGame) (actions : List (List SGAction_V2))
    (v : FeasibleVars) (n : Nat) (h : rd v.actionTuple 0 = none) :
    (List.range (n + 1)).foldl (icCheckState game actions) (v, false, none) =
      (v, false, some Stop.undefinedBehaviour) := by
  rw [List.range_succ_eq_map, List.foldl_cons]
  have h0 : icCheckState game actions (v, false, none) 0 =
      (v, false, some Stop.undefinedBehaviour) := by
    simp only [icCheckState, h]
  rw [h0]
  exact foldl_fixed _ _ _ (fun _ _ => rfl)

/-- When state 0 has an action with a binding payoff and some state has none, a run of
`findFeasibleTuple` with at least one pass of fuel ends in the dereference of the iterator of
state 0, which was never assigned. -/
theorem findFeasibleTupleRun_unassigned (env : SGEnv) (game : SGGame) (fuel : Nat)
    (feasibleTuple : SGTuple) (actions : List (List SGAction_V2))
    (h0 : 0 < game.numStates)
    (hb : feasibleAction game.numPlayers (rd actions 0) ≠ none)
    (hn : ∃ s < game.numStates, feasibleAction game.numPlayers (rd actions s) = none) :
    (findFeasibleTupleRun env game (fuel + 1) feasibleTuple actions).2
      = some Stop.undefinedBehaviour ∧
    rd (findFeasibleTupleRun env game (fuel + 1) feasibleTuple actions).1.actionTuple 0
      = none := by
  have hany := feasibleStates_any game actions
    { feasibleTuple := feasibleTuple
      actionTuple := List.replicate game.numStates none
      regimeTuple := List.replicate game.numStates Regime.Binding
      anyNonBinding := false
      bellmanCalls := 0
      failed := [] } game.numStates (Or.inr hn)
  have hnone := feasibleStates_handle game actions
    { feasibleTuple := feasibleTuple
      actionTuple := List.replicate game.numStates none
      regimeTuple := List.replicate game.numStates Regime.Binding
      anyNonBinding := false
      bellmanCalls := 0
      failed := [] } game.numStates 0 hb
  rw [show rd (List.replicate game.numStates (none : Option Nat)) 0 = none from
    rd_replicate_none _ _] at hnone
  simp only [findFeasibleTupleRun]
  generalize (List.range game.numStates).foldl (feasibleState game actions) _ = v at hany hnone
  rw [hany]
  obtain ⟨n, hn1⟩ : ∃ n, game.numStates = n + 1 := ⟨game.numStates - 1, by omega⟩
  simp only [feasibleLoop]
  split_ifs with hd
  · have key := icCheck_unassigned game actions
      { v with
        feasibleTuple := (policyToPayoffs env game actions v.feasibleTuple
          (v.actionTuple.map (fun it => it.getD 0)) v.regimeTuple).1
        bellmanCalls := v.bellmanCalls + 1 } n hnone
    rw [hn1, key]
    exact ⟨rfl, hnone⟩
  · exact ⟨rfl, hnone⟩

theorem rd_some_lt {α : Type} (l : List (Option α)) (s : Nat) (x : α)
    (h : rd l s = some x) : s < l.length := by
  by_contra hc
  rw [rd_default_of_le l s (by omega)] at h
  cases h

theorem checkInv_stop (game : SGGame) (actions : List (List SGAction_V2))
    (v a : FeasibleVars) (flag : Bool) (stop : Stop) (h1 : a.regimeTuple = v.regimeTuple)
    (h2 : a.bellmanCalls = v.bellmanCalls) (h3 : Advanced actions v.actionTuple a.actionTuple)
    (hs : stop ≠ Stop.outOfFuel) : CheckInv game actions v (a, flag, some stop) :=
  ⟨h1, h2, h3, (fun hc => by cases hc), fun hc => hs (Option.some.inj hc)⟩

theorem icCheckState_checkInv (game : SGGame) (actions : List (List SGAction_V2))
    (v : FeasibleVars) (acc : FeasibleVars × Bool × Option Stop) (state : Nat)
    (hstate : state < game.numStates) (h : CheckInv game actions v acc) :
    CheckInv game actions v (icCheckState game actions acc state) := by
  obtain ⟨a, flag, st⟩ := acc
  cases st with
  | some stop => exact h
  | none =>
    obtain ⟨h1, h2, h3, h4, h5⟩ := h
    simp only at h1 h2 h3
    cases hrd : rd a.actionTuple state with
    | none =>
      have he : icCheckState game actions (a, flag, none) state =
          (a, flag, some Stop.undefinedBehaviour) := by
        simp only [icCheckState, hrd]
      rw [he]
      exact checkInv_stop game actions v a flag _ h1 h2 h3 (by simp)
    | some pos =>
      have hlt : state < a.actionTuple.length := rd_some_lt _ _ _ hrd
      by_cases c1 : pos < (rd actions state).length
      swap
      · have he : icCheckState game actions (a, flag, none) state =
            (a, flag, some Stop.undefinedBehaviour) := by
          simp only [icCheckState, hrd, if_neg c1]
        rw [he]
        exact checkInv_stop game actions v a flag _ h1 h2 h3 (by simp)
      by_cases c2 : icHolds game a.feasibleTuple state (rd (rd actions state) pos) = true
      · have he : icCheckState game actions (a, flag, none) state = (a, flag, none) := by
          simp only [icCheckState, hrd, if_pos c1, if_pos c2]
        rw [he]
        exact ⟨h1, h2, h3, h4, h5⟩
      by_cases c3 : pos + 1 = (rd actions state).length
      · have he : icCheckState game actions (a, flag, none) state =
            ({ a with failed := a.failed ++ [(state, pos, a.feasibleTuple)] }, true,
              some (Stop.thrown SGException.NOFEASIBLETUPLE)) := by
          simp only [icCheckState, hrd, if_pos c1, if_neg c2, if_pos c3]
        rw [he]
        exact checkInv_stop game actions v _ true _ h1 h2 h3 (by simp)
      · have he : icCheckState game actions (a, flag, none) state =
            ({ a with
                failed := a.failed ++ [(state, pos, a.feasibleTuple)]
                actionTuple := a.actionTuple.set state (some (pos + 1)) }, true, none) := by
          simp only [icCheckState, hrd, if_pos c1, if_neg c2, if_neg c3]
        rw [he]
        refine ⟨h1, h2, fun s => ?_, fun _ _ => ?_, by simp⟩
        · show rd (a.actionTuple.set state (some (pos + 1))) s = _ ∨ _
          by_cases hs : state = s
          · subst hs
            rw [rd_set_eq _ _ _ hlt]
            right
            rcases h3 state with he | ⟨p0, q0, e1, e2, e3, _⟩
            · rw [hrd] at he
              exact ⟨pos, pos + 1, he.symm, rfl, Nat.lt_succ_self _, by omega⟩
            · rw [hrd] at e2
              cases e2
              exact ⟨p0, pos + 1, e1, rfl, by omega, by omega⟩
          · rw [rd_set_ne _ _ _ _ hs]
            exact h3 s
        · refine ⟨state, hstate, ?_⟩
          show ∃ pos0 q, rd v.actionTuple state = some pos0 ∧
            rd (a.actionTuple.set state (some (pos + 1))) state = some q ∧ pos0 < q
          rw [rd_set_eq _ _ _ hlt]
          rcases h3 state with he | ⟨p0, q0, e1, e2, e3, _⟩
          · rw [hrd] at he
            exact ⟨pos, pos + 1, he.symm, rfl, Nat.lt_succ_self _⟩
          · rw [hrd] at e2
            cases e2
            exact ⟨p0, pos + 1, e1, rfl, by omega⟩

theorem derefOK_spec (game : SGGame) (actions : List (List SGAction_V2)) (v : FeasibleVars)
    (h : derefOK game actions v = true) (s : Nat) (hs : s < game.numStates)
    (hr : rd v.regimeTuple s = Regime.NonBinding) :
    ∃ pos, rd v.actionTuple s = some pos ∧ pos < (rd actions s).length := by
  simp only [derefOK, List.all_eq_true, List.mem_range, Bool.or_eq_true,
    decide_eq_true_eq] at h
  rcases h s hs with hb | hb
  · rw [hr] at hb
    cases hb
  · cases hp : rd v.actionTuple s with
    | none =>
      rw [hp] at hb
      cases hb
    | some pos =>
      rw [hp] at hb
      exact ⟨pos, rfl, by simpa using hb⟩

/-- Iterators at the start or inside their lists have a sum of positions of at most the
number of actions, and less when a state in the non-binding regime can be dereferenced. -/
theorem handleSum_le (game : SGGame) (actions : List (List SGAction_V2)) (v : FeasibleVars)
    (hb : ∀ s pos, rd v.actionTuple s = some pos → pos = 0 ∨ pos < (rd actions s).length) :
    handleSum game.numStates v.actionTuple
      ≤ ((List.range game.numStates).map (fun s => (rd actions s).length)).sum := by
  unfold handleSum
  apply List.sum_le_sum
  intro s _
  cases hp : rd v.actionTuple s with
  | none => exact Nat.zero_le _
  | some pos =>
    rcases hb s pos hp with h | h
    · subst h
      exact Nat.zero_le _
    · exact le_of_lt h

theorem handleSum_lt (game : SGGame) (actions : List (List SGAction_V2)) (v : FeasibleVars)
    (hr : Ready game actions v) (hd : derefOK game actions v = true) :
    handleSum game.numStates v.actionTuple + 1
      ≤ ((List.range game.numStates).map (fun s => (rd actions s).length)).sum := by
  obtain ⟨⟨s0, hs0, pos0, hp0, hreg⟩, hb, _⟩ := hr
  obtain ⟨pos1, hp1, hlt⟩ := derefOK_spec game actions v hd s0 hs0 hreg
  unfold handleSum
  apply Nat.succ_le_of_lt
  apply List.sum_lt_sum
  · intro s _
    cases hp : rd v.actionTuple s with
    | none => exact Nat.zero_le _
    | some pos =>
      rcases hb s pos hp with h | h
      · subst h
        exact Nat.zero_le _
      · exact le_of_lt h
  · refine ⟨s0, List.mem_range.mpr hs0, ?_⟩
    rw [hp1]
    exact hlt

/-- Advancing iterators does not lower the sum of their positions, and raises it when an
iterator of a state of the game was advanced. -/
theorem handleSum_advanced (n : Nat) (actions : List (List SGAction_V2))
    (a b : List (Option Nat)) (h : Advanced actions a b) :
    handleSum n a ≤ handleSum n b ∧
    ((∃ s < n, ∃ pos q, rd a s = some pos ∧ rd b s = some q ∧ pos < q) →
      handleSum n a + 1 ≤ handleSum n b) := by
  have hpt : ∀ s, (rd a s).getD 0 ≤ (rd b s).getD 0 := by
    intro s
    rcases h s with he | ⟨pos, q, e1, e2, e3, _⟩
    · rw [he]
    · rw [e1, e2]
      exact le_of_lt e3
  refine ⟨List.sum_le_sum (fun s _ => hpt s), fun hex => ?_⟩
  obtain ⟨s, hs, pos, q, e1, e2, e3⟩ := hex
  apply Nat.succ_le_of_lt
  apply List.sum_lt_sum
  · exact fun s _ => hpt s
  · refine ⟨s, List.mem_range.mpr hs, ?_⟩
    rw [e1, e2]
    exact e3

/-- The loop `while (notAllIC)` makes at most as many Bellman iterations as there are
actions, and it ends within that many passes. -/
theorem feasibleLoop_bound (env : SGEnv) (game : SGGame) (actions : List (List SGAction_V2))
    (fuel : Nat) :
    ∀ (flag : Bool) (v : FeasibleVars),
      v.bellmanCalls ≤ ((List.range game.numStates).map (fun s => (rd actions s).length)).sum →
      (flag = true → Ready game actions v) →
      (feasibleLoop env game actions fuel flag v).1.bellmanCalls
        ≤ ((List.range game.numStates).map (fun s => (rd actions s).length)).sum ∧
      ((flag = true →
          ((List.range game.numStates).map (fun s => (rd actions s).length)).sum
            < fuel + handleSum game.numStates v.actionTuple) →
        (feasibleLoop env game actions fuel flag v).2 ≠ some Stop.outOfFuel) := by
  induction fuel with
  | zero =>
    intro flag v hc hr
    cases flag with
    | false => exact ⟨hc, fun _ => by simp [feasibleLoop]⟩
    | true =>
      refine ⟨hc, fun hf => ?_⟩
      have h1 := handleSum_le game actions v (hr rfl).2.1
      have h2 := hf rfl
      omega
  | succ fuel ih =>
    intro flag v hc hr
    cases flag with
    | false => exact ⟨hc, fun _ => by simp [feasibleLoop]⟩
    | true =>
      have hready := hr rfl
      simp only [feasibleLoop]
      split_ifs with hd
      swap
      · exact ⟨hc, fun _ => by simp⟩
      have hlt := handleSum_lt game actions v hready hd
      have hfold := foldl_keeps_mem
        (CheckInv game actions
          { v with
            feasibleTuple := (policyToPayoffs env game actions v.feasibleTuple
              (v.actionTuple.map (fun it => it.getD 0)) v.regimeTuple).1
            bellmanCalls := v.bellmanCalls + 1 })
        (icCheckState game actions) (List.range game.numStates)
        ({ v with
            feasibleTuple := (policyToPayoffs env game actions v.feasibleTuple
              (v.actionTuple.map (fun it => it.getD 0)) v.regimeTuple).1
            bellmanCalls := v.bellmanCalls + 1 }, false, none)
        (fun x y hy hx =>
          icCheckState_checkInv game actions _ x y (List.mem_range.mp hy) hx)
        ⟨rfl, rfl, fun _ => Or.inl rfl, (fun _ hc => by cases hc), by simp⟩
      generalize (List.range game.numStates).foldl (icCheckState game actions) _ = r at hfold ⊢
      obtain ⟨r1, r2, r3⟩ := r
      obtain ⟨k1, k2, k3, k4, k5⟩ := hfold
      simp only at k1 k2 k3 k4 k5
      have hadv := handleSum_advanced game.numStates actions v.actionTuple r1.actionTuple k3
      have hcalls : r1.bellmanCalls
          ≤ ((List.range game.numStates).map (fun s => (rd actions s).length)).sum := by
        rw [k2]
        have := hready.2.2
        omega
      cases r3 with
      | some stop =>
        simp only
        exact ⟨hcalls, fun _ => k5⟩
      | none =>
        simp only
        have hnext : r2 = true → Ready game actions r1 := by
          intro hflag
          obtain ⟨⟨s0, hs0, pos0, hp0, hreg⟩, hb, hcount⟩ := hready
          refine ⟨⟨s0, hs0, ?_⟩, fun s pos hp => ?_, ?_⟩
          · rcases k3 s0 with he | ⟨p, q, _, e2, _, _⟩
            · exact ⟨pos0, he.trans hp0, by rw [k1]; exact hreg⟩
            · exact ⟨q, e2, by rw [k1]; exact hreg⟩
          · rcases k3 s with he | ⟨p, q, _, e2, _, e4⟩
            · exact hb s pos (he ▸ hp)
            · rw [hp] at e2
              cases e2
              exact Or.inr e4
          · rw [k2]
            have := hadv.2 (k4 rfl hflag)
            omega
        obtain ⟨i1, i2⟩ := ih r2 r1 hcalls hnext
        refine ⟨i1, fun hf => i2 (fun hflag => ?_)⟩
        have h1 := hf trivial
        have h2 := hadv.2 (k4 rfl hflag)
        omega

/-- The first loop of `findFeasibleTuple`, started with no iterator assigned: an iterator it
assigns is at the start of its list, and every state below `k` without a binding payoff is
put in the non-binding regime and given an iterator. -/
theorem feasibleStates_ready (game : SGGame) (actions : List (List SGAction_V2))
    (v0 : FeasibleVars) (h2 : v0.actionTuple.length = game.numStates)
    (h2r : v0.regimeTuple.length = game.numStates)
    (h3 : ∀ s, rd v0.actionTuple s = none) (h4 : v0.anyNonBinding = false) (k : Nat)
    (hk : k ≤ game.numStates) :
    ((List.range k).foldl (feasibleState game actions) v0).actionTuple.length
      = game.numStates ∧
    ((List.range k).foldl (feasibleState game actions) v0).regimeTuple.length
      = game.numStates ∧
    ((List.range k).foldl (feasibleState game actions) v0).bellmanCalls = v0.bellmanCalls ∧
    (∀ s pos, rd ((List.range k).foldl (feasibleState game actions) v0).actionTuple s
        = some pos → pos = 0) ∧
    (∀ s < k, feasibleAction game.numPlayers (rd actions s) = none →
      rd ((List.range k).foldl (feasibleState game actions) v0).actionTuple s = some 0 ∧
      rd ((List.range k).foldl (feasibleState game actions) v0).regimeTuple s
        = Regime.NonBinding) ∧
    (((List.range k).foldl (feasibleState game actions) v0).anyNonBinding = true →
      ∃ s < k, feasibleAction game.numPlayers (rd actions s) = none) := by
  induction k with
  | zero =>
    refine ⟨h2, h2r, rfl, fun s pos h => ?_, fun s hs => absurd hs (Nat.not_lt_zero _),
      fun h => ?_⟩
    · simp only [List.range_zero, List.foldl_nil] at h
      rw [h3] at h
      cases h
    · simp only [List.range_zero, List.foldl_nil] at h
      rw [h4] at h
      cases h
  | succ k ih =>
    rw [List.range_succ, List.foldl_append, List.foldl_cons, List.foldl_nil]
    obtain ⟨i1, i2, i3, i4, i5, i6⟩ := ih (Nat.le_of_succ_le hk)
    generalize (List.range k).foldl (feasibleState game actions) v0 = v at *
    cases hf : feasibleAction game.numPlayers (rd actions k) with
    | some ap =>
      obtain ⟨a0, p0⟩ := ap
      rw [feasibleState_some game actions v k a0 p0 hf]
      refine ⟨i1, i2, i3, i4, fun s hs hn => ?_, fun h => ?_⟩
      · rcases Nat.lt_succ_iff_lt_or_eq.mp hs with hlt | heq
        · exact i5 s hlt hn
        · subst heq
          rw [hf] at hn
          cases hn
      · obtain ⟨s, hs, hn⟩ := i6 h
        exact ⟨s, Nat.lt_succ_of_lt hs, hn⟩
    | none =>
      rw [feasibleState_none game actions v k hf]
      refine ⟨by simpa using i1, by simpa using i2, i3, fun s pos h => ?_,
        fun s hs hn => ?_, fun _ => ⟨k, Nat.lt_succ_self _, hf⟩⟩
      · have h' : rd (v.actionTuple.set k (some 0)) s = some pos := h
        rw [rd_set] at h'
        split_ifs at h' with hc
        · cases h'
          rfl
        · exact i4 s pos h'
      · show rd (v.actionTuple.set k (some 0)) s = some 0 ∧
          rd (v.regimeTuple.set k Regime.NonBinding) s = Regime.NonBinding
        rcases Nat.lt_succ_iff_lt_or_eq.mp hs with hlt | heq
        · rw [rd_set_ne _ _ _ _ (Nat.ne_of_gt hlt), rd_set_ne _ _ _ _ (Nat.ne_of_gt hlt)]
          exact i5 s hlt hn
        · subst heq
          rw [rd_set_eq _ _ _ (by omega), rd_set_eq _ _ _ (by omega)]
          exact ⟨rfl, rfl⟩

/-- A run of `findFeasibleTuple` makes at most as many Bellman iterations as there are
actions, and more passes of fuel than there are actions are enough for the run to end. -/
theorem findFeasibleTupleRun_bound (env : SGEnv) (game : SGGame) (fuel : Nat)
    (feasibleTuple : SGTuple) (actions : List (List SGAction_V2)) :
    (findFeasibleTupleRun env game fuel feasibleTuple actions).1.bellmanCalls
      ≤ ((List.range game.numStates).map (fun s => (rd actions s).length)).sum ∧
    (((List.range game.numStates).map (fun s => (rd actions s).length)).sum < fuel →
      (findFeasibleTupleRun env game fuel feasibleTuple actions).2 ≠ some Stop.outOfFuel) := by
  obtain ⟨_, _, f3, f4, f5, f6⟩ := feasibleStates_ready game actions
    { feasibleTuple := feasibleTuple
      actionTuple := List.replicate game.numStates none
      regimeTuple := List.replicate game.numStates Regime.Binding
      anyNonBinding := false
      bellmanCalls := 0
      failed := [] }
    (by simp) (by simp) (fun s => rd_replicate_none _ s) rfl game.numStates (Nat.le_refl _)
  simp only [findFeasibleTupleRun]
  generalize (List.range game.numStates).foldl (feasibleState game actions) _ = v at *
  simp only at f3
  obtain ⟨b1, b2⟩ := feasibleLoop_bound env game actions fuel v.anyNonBinding v
    (by rw [f3]; exact Nat.zero_le _)
    (by
      intro hany
      obtain ⟨s, hs, hn⟩ := f6 hany
      obtain ⟨e1, e2⟩ := f5 s hs hn
      refine ⟨⟨s, hs, 0, e1, e2⟩, fun s pos hp => Or.inl (f4 s pos hp), ?_⟩
      rw [f3]
      exact Nat.zero_le _)
  exact ⟨b1, fun hfuel => b2 (fun _ => Nat.lt_add_right _ hfuel)⟩

/-- C40, the code at a failing input: in `mixedGame` the action of state 0 has a binding
payoff and that of state 1 has none, so the first loop assigns an iterator to state 1 only;
the check of line 847 then dereferences `actionTuple[0]`, which was default-constructed and
never assigned, and the run has undefined behaviour.  The same happens for every game in
which state 0 has an action with a binding payoff and some state has none.  The other part of
the claim holds: a run makes at most `Σ_s |actions[s]|` Bellman iterations, and with more
passes allowed than that it ends by a return, by undefined behaviour or by raising
`NOFEASIBLETUPLE`. -/
theorem C40_unassigned_iterator :
    feasibleAction mixedGame.numPlayers (rd mixedActions 0) ≠ none ∧
    feasibleAction mixedGame.numPlayers (rd mixedActions 1) = none ∧
    (∀ fuel,
      findFeasibleTuple SGEnv.defaults mixedGame (fuel + 1) [⟨0, 0⟩, ⟨0, 0⟩] mixedActions
        = Except.error Stop.undefinedBehaviour ∧
      rd (findFeasibleTupleRun SGEnv.defaults mixedGame (fuel + 1) [⟨0, 0⟩, ⟨0, 0⟩]
        mixedActions).1.actionTuple 0 = none) ∧
    (∀ (env : SGEnv) (game : SGGame) (fuel : Nat) (feasibleTuple : SGTuple)
      (actions : List (List SGAction_V2)), 0 < game.numStates →
      feasibleAction game.numPlayers (rd actions 0) ≠ none →
      (∃ s < game.numStates, feasibleAction game.numPlayers (rd actions s) = none) →
      findFeasibleTuple env game (fuel + 1) feasibleTuple actions
        = Except.error Stop.undefinedBehaviour) ∧
    (∀ (env : SGEnv) (game : SGGame) (fuel : Nat) (feasibleTuple : SGTuple)
      (actions : List (List SGAction_V2)),
      (findFeasibleTupleRun env game fuel feasibleTuple actions).1.bellmanCalls
        ≤ ((List.range game.numStates).map (fun s => (rd actions s).length)).sum ∧
      (((List.range game.numStates).map (fun s => (rd actions s).length)).sum < fuel →
        findFeasibleTuple env game fuel feasibleTuple actions
          ≠ Except.error Stop.outOfFuel)) := by
  have h0 : feasibleAction mixedGame.numPlayers (rd mixedActions 0) ≠ none := by
    simp [feasibleAction, feasiblePlayer, mixedActions, mixedGame, rd, List.range_succ]
  have h1 : feasibleAction mixedGame.numPlayers (rd mixedActions 1) = none := by
    simp [feasibleAction, feasiblePlayer, mixedActions, mixedGame, rd, List.range_succ]
  have hgen : ∀ (env : SGEnv) (game : SGGame) (fuel : Nat) (feasibleTuple : SGTuple)
      (actions : List (List SGAction_V2)), 0 < game.numStates →
      feasibleAction game.numPlayers (rd actions 0) ≠ none →
      (∃ s < game.numStates, feasibleAction game.numPlayers (rd actions s) = none) →
      findFeasibleTuple env game (fuel + 1) feasibleTuple actions
        = Except.error Stop.undefinedBehaviour := by
    intro env game fuel feasibleTuple actions hpos hb hn
    have h := (findFeasibleTupleRun_unassigned env game fuel feasibleTuple actions hpos hb
      hn).1
    simp only [findFeasibleTuple, h]
  refine ⟨h0, h1, fun fuel => ⟨hgen _ _ fuel _ _ (by decide) h0 ⟨1, by decide, h1⟩,
    (findFeasibleTupleRun_unassigned _ _ fuel _ _ (by decide) h0 ⟨1, by decide, h1⟩).2⟩,
    hgen, fun env game fuel feasibleTuple actions => ?_⟩
  obtain ⟨b1, b2⟩ := findFeasibleTupleRun_bound env game fuel feasibleTuple actions
  refine ⟨b1, fun hfuel hc => b2 hfuel ?_⟩
  unfold findFeasibleTuple at hc
  cases hr : (findFeasibleTupleRun env game fuel feasibleTuple actions).2 with
  | none =>
    rw [hr] at hc
    cases hc
  | some stop =>
    rw [hr] at hc
    simp only [Except.error.injEq] at hc
    rw [hc]

end SGSolve
